import Mathlib

/-! # ap_gen_tool: catalog compilation, identifier allocation, validation gates, region documents, world options and the archive writer

A shallow embedding of `src/generate.cpp` (with the data declarations of
`src/data.h` and the name lookups of `src/data.cpp`), of the world options of
`src/world_opts.cpp` (with the option descriptors of `src/python.hpp`) and of
the archive writer of `src/zip.hpp`.

Conventions of the embedding

* `int` and `int64_t` values are `Int`.  The identifier arithmetic of the
  generator is done in the width of its type: the result of the `int`
  expressions of `get_location_id_base`, `get_item_id_base`, `add_loc`,
  `add_unique` and `add_item` is reduced to 32 bits (`wrap_int`), the result of
  the `int64_t` expressions `kv.second + 1` and `next++` of the remap blocks to
  64 bits (`wrap_int64`), both in two's complement, which is what the compiled
  program computes.  Inside the machine range the reduction changes nothing.
* `std::vector` is `List`; `std::map` is an association list whose keys are
  pairwise distinct, looked up with `List.lookup`; `std::set<std::string>` is
  a list without repetition kept in key order.
* The process-wide globals of `generate.cpp` (`ap_items`, `ap_locations`,
  `item_name_groups`, `level_to_keycards`, `location_next_id`) are the fields
  of `gen_state`, threaded explicitly through every operation.
* Pointers to a level are replaced by the level record itself; the mutable
  per-level fields are returned next to the state.
* Unsigned values (`uint16_t`, `uint32_t`) are natural numbers reduced modulo
  2^16 or 2^32 at every conversion the source makes.
* An operation that would read a vector outside its bounds has no result
  (`none`) in the region documents and in the archive writer.
* The file-level variables of `world_opts.cpp` are the fields of
  `world_opt_state`; what the C library, zlib and jsoncpp answer enters as
  parameters (`clock_t`, `source_file_t`, `zlib_t`, `library_t`).
-/

namespace ApGen

/-! ## Data model (`data.h`, `generate.cpp`) -/

/-- The triple naming one level: game, episode and map, both counted from 0. -/
structure level_index_t where
  game_name : String
  ep : Int
  map : Int
deriving DecidableEq, Repr

/-- Modelled from the spec: `maps.h` is not among the sources.  A placed map
object carries a type code, coordinates and a flag word; these are the only
members `generate.cpp` reads (`thing.type`, `thing.flags`, `thing.x`,
`thing.y`).  The flag word is its unsigned bit pattern. -/
structure map_thing_t where
  x : Int
  y : Int
  type : Int
  flags : Nat
deriving DecidableEq, Repr

/-- Modelled from the spec: `maps.h` is not among the sources.  A parsed map is
its list of placed objects, the number of its sectors, and the sector-index
query `point_in_subsector`, which answers with the sector holding a point or
with nothing. -/
structure map_t where
  things : List map_thing_t
  sector_count : Nat
  point_in_subsector : Int → Int → Option Nat

structure rule_connection_t where
  target_region : Int
  requirements_or : List Int
  requirements_and : List Int
deriving DecidableEq, Repr

structure rule_region_t where
  x : Int
  y : Int
  connections : List rule_connection_t
deriving DecidableEq, Repr

/-- A region of a level; the editor-only tint is left out. -/
structure region_t where
  name : String
  sectors : List Nat
  rules : rule_region_t
deriving DecidableEq, Repr

structure location_t where
  death_logic : Bool
  unreachable : Bool
  check_sanity : Bool
  name : String
  description : String
deriving DecidableEq, Repr

/-- The value `std::map::operator[]` creates for an index without an entry. -/
def location_t.default : location_t :=
  { death_logic := false, unreachable := false, check_sanity := false,
    name := "", description := "" }

/-- The authored state of one map; camera, selection and bounding-box members
of the editor are left out, they are never read by the generator. -/
structure map_state_t where
  regions : List region_t
  world_rules : rule_region_t
  exit_rules : rule_region_t
  locations : List (Int × location_t)

structure meta_t where
  name : String
  wad_name : String
  lump_name : String
  map : map_t
  state : map_state_t

structure episode_info_t where
  name : String
  starting_level : Int
  boss_level : Int
  is_minor_episode : Bool
  default_enabled : Bool
deriving DecidableEq, Repr

structure ap_item_def_t where
  doom_type : Int
  name : String
  sprite : String
  groups : List String
  count : Int
deriving DecidableEq, Repr

structure ap_key_def_t where
  item : ap_item_def_t
  key : Int
  use_skull : Bool
  region_name : String
deriving DecidableEq, Repr

/-- The part of `Json::Value` the generator builds and reads: objects keep
their members in key order. -/
inductive Json where
  | null
  | bool (b : Bool)
  | int (n : Int)
  | str (s : String)
  | arr (items : List Json)
  | obj (members : List (String × Json))

/-- The game configuration, restricted to the members the generator reads
while it compiles the catalog, checks the gates, names its outputs and
initializes the world options. -/
structure game_t where
  full_name : String
  short_name : String
  iwad_name : String
  required_wads : List String
  optional_wads : List String
  included_wads : List String
  ap_name : String
  ap_world_name : String
  location_doom_types : List (Int × String)
  extra_connection_requirements : List ap_item_def_t
  progression : List ap_item_def_t
  useful : List ap_item_def_t
  filler : List ap_item_def_t
  unique_progression : List ap_item_def_t
  unique_useful : List ap_item_def_t
  unique_filler : List ap_item_def_t
  keys : List ap_key_def_t
  location_remap : List (String × Int)
  item_remap : List (String × Int)
  episodes : List (List meta_t)
  episode_info : List episode_info_t
  item_requirements : List ap_item_def_t
  check_sanity : Bool
  extended_names : Bool
  world_hooks : List (String × List String)
  json_world_options : Json
  json_game_info : Json

def DOOM_TYPE_LEVEL_UNLOCK : Int := -1
def DOOM_TYPE_LEVEL_COMPLETE : Int := -2

/-- Values of `item_classification_t`, a bit mask. -/
def FILLER : Nat := 0
def PROGRESSION : Nat := 1
def USEFUL : Nat := 2

structure ap_item_t where
  id : Int
  name : String
  idx : level_index_t
  doom_type : Int
  count : Int
  is_key : Bool
  classification : Nat
deriving DecidableEq, Repr

/-- A location record.  `sector` has no initial value in the source; the
embedding starts it at 0. -/
structure ap_location_t where
  id : Int
  loc_state : Option location_t
  name : String
  x : Int
  y : Int
  idx : level_index_t
  doom_thing_index : Int
  doom_type : Int
  required_items : List Int
  sector : Int
  region : Int
  region_name : String
  check_sanity : Bool
deriving DecidableEq, Repr

/-- The per-sector record of a compiled level, restricted to the list of
location positions the generator fills in. -/
structure level_sector_t where
  locations : List Nat
deriving DecidableEq, Repr

/-- A compiled level.  `map` and `map_state` stand for the pointers into the
game configuration. -/
structure level_t where
  idx : level_index_t
  name : String
  group_name : String
  sectors : List level_sector_t
  keys : List Bool
  location_count : Int
  use_skull : List Bool
  map : map_t
  map_state : map_state_t

/-- The globals of `generate.cpp`. `location_next_id` is declared with value 0
and no statement of the repository assigns it. -/
structure gen_state where
  location_next_id : Int
  ap_items : List ap_item_t
  ap_locations : List ap_location_t
  item_name_groups : List (String × List String)
  level_to_keycards : List ((Int × Int) × Int)
  use_extended_names : Bool
  warning_count_no_exit : Nat

/-! ## Identifier bases -/

/-- The value an `int` holds after an operation whose exact result is `x`: the
32-bit two's complement value, equal to `x` when `x` is inside the range of
`int`.  A chain of additions and multiplications reduced after every step
gives the same value as the exact result reduced once. -/
def wrap_int (x : Int) : Int :=
  (x + 2147483648) % 4294967296 - 2147483648

/-- The value an `int64_t` holds after an operation whose exact result is `x`. -/
def wrap_int64 (x : Int) : Int :=
  (x + 9223372036854775808) % 18446744073709551616 - 9223372036854775808

def get_location_id_base (idx : level_index_t) : Int :=
  wrap_int (((idx.ep + 1) * 100000) + ((idx.map + 1) * 1000))

def get_item_id_base (idx : level_index_t) : Int :=
  wrap_int (((idx.ep + 1) * 10000000) + ((idx.map + 1) * 100000))

/-! ## Item name groups -/

/-- The order of `std::string`: lexicographic on the code units, which for
UTF-8 text is lexicographic on the code points. -/
def chars_less : List Char → List Char → Bool
  | [], [] => false
  | [], _ :: _ => true
  | _ :: _, [] => false
  | a :: as, b :: bs =>
    if a.toNat < b.toNat then true
    else if b.toNat < a.toNat then false
    else chars_less as bs

def string_less (a b : String) : Bool := chars_less a.data b.data

/-- Insertion into a `std::set<std::string>`: no repetition, key order. -/
def set_insert : List String → String → List String
  | [], name => [name]
  | x :: xs, name =>
    if name = x then x :: xs
    else if string_less name x then name :: x :: xs
    else x :: set_insert xs name

/-- The statement `item_name_groups[group].insert(name)`. -/
def groups_insert : List (String × List String) → String → String → List (String × List String)
  | [], group, name => [(group, [name])]
  | (k, s) :: rest, group, name =>
    if group = k then (k, set_insert s name) :: rest
    else if string_less group k then (group, [name]) :: (k, s) :: rest
    else (k, s) :: groups_insert rest group name

/-- Replace the first occurrence of `pat` by `rep` (`find` then `replace`);
a text without the pattern is returned as it is. -/
def replace_first (pat rep : List Char) : List Char → List Char
  | [] => []
  | c :: cs =>
    if pat.isPrefixOf (c :: cs) then rep ++ (c :: cs).drop pat.length
    else c :: replace_first pat rep cs

def substitute_map_marker (group replacement : String) : String :=
  String.mk (replace_first "%MAP%".data replacement.data group.data)

def add_item_name_groups (name : String) (groups : List String) (level : Option level_t)
    (item_name_groups : List (String × List String)) : List (String × List String) :=
  let replacement := match level with
    | some l => l.group_name
    | none => "NULL"
  groups.foldl
    (fun m group =>
      if group = "" then m
      else groups_insert m (substitute_map_marker group replacement) name)
    item_name_groups

/-! ## Items -/

/-- The source's `add_unique`; the parameters `thing` and `index` are not read
by its body. -/
def add_unique (key_def : ap_key_def_t) (classification : Nat) (_thing : map_thing_t)
    (level : level_t) (_index : Nat) (st : gen_state) : Int × gen_state :=
  let name := level.name ++ " - " ++ key_def.item.name
  match st.ap_items.find? (fun other_item => other_item.name == name) with
  | some other_item => (other_item.id, st)
  | none =>
    let item : ap_item_t :=
      { is_key := true
        count := 1
        classification := classification
        name := name
        idx := level.idx
        doom_type := key_def.item.doom_type
        id := wrap_int (get_item_id_base level.idx + key_def.item.doom_type) }
    (item.id,
      { st with
        item_name_groups :=
          add_item_name_groups name key_def.item.groups (some level) st.item_name_groups
        ap_items := st.ap_items ++ [item] })

/-- The type code part of an item id, as computed at the head of `add_item`:
the two pseudo-types are remapped, any other negative code is reported and
kept. -/
def base_item_id (doom_type : Int) : Int :=
  if doom_type < 0 then
    if doom_type = DOOM_TYPE_LEVEL_UNLOCK then 0
    else if doom_type = DOOM_TYPE_LEVEL_COMPLETE then 99999
    else doom_type
  else doom_type

/-- The record `add_item` builds and appends. -/
def make_item (item_def : ap_item_def_t) (classification : Nat) (level : Option level_t) :
    ap_item_t :=
  match level with
  | some l =>
    { is_key := false
      count := item_def.count
      classification := classification
      doom_type := item_def.doom_type
      name := if item_def.name = "" then l.name else l.name ++ " - " ++ item_def.name
      idx := l.idx
      id := wrap_int (get_item_id_base l.idx + base_item_id item_def.doom_type) }
  | none =>
    { is_key := false
      count := item_def.count
      classification := classification
      doom_type := item_def.doom_type
      name := item_def.name
      idx := { game_name := "", ep := -2, map := -2 }
      id := base_item_id item_def.doom_type }

/-- The source's `add_item`; the reference it returns is the last element of
`ap_items` of the state returned here. -/
def add_item (item_def : ap_item_def_t) (classification : Nat) (level : Option level_t)
    (st : gen_state) : gen_state :=
  let item := make_item item_def classification level
  { st with
    item_name_groups := add_item_name_groups item.name item_def.groups level st.item_name_groups
    ap_items := st.ap_items ++ [item] }

/-! ## Locations -/

def loc_name_taken (ap_locations : List ap_location_t) (name : String) : Bool :=
  ap_locations.any (fun loc => loc.name == name)

/-- The name `add_loc` holds in `loc_name` once `count` has the given value:
the value before the loop for 0, the value assigned in the loop body after. -/
def loc_name_candidate (use_extended_names : Bool) (name extended_name : String) (count : Nat) :
    String :=
  if count = 0 then
    if use_extended_names && decide (extended_name.length > 0) then
      name ++ " (" ++ extended_name ++ ")"
    else name
  else
    if use_extended_names && decide (extended_name.length > 0) then
      name ++ " " ++ Nat.repr (count + 1) ++ " (" ++ extended_name ++ ")"
    else name ++ " " ++ Nat.repr (count + 1)

/-- The loop `while (loc_name_taken(loc_name))` of `add_loc`, started with
`count` increments done.  `fuel` bounds the number of iterations; one more than
the number of existing locations is always enough (`loc_name_loop_not_taken`). -/
def loc_name_loop (ap_locations : List ap_location_t) (use_extended_names : Bool)
    (name extended_name : String) : Nat → Nat → String
  | 0, count => loc_name_candidate use_extended_names name extended_name count
  | fuel + 1, count =>
    if loc_name_taken ap_locations
        (loc_name_candidate use_extended_names name extended_name count) then
      loc_name_loop ap_locations use_extended_names name extended_name fuel (count + 1)
    else loc_name_candidate use_extended_names name extended_name count

/-- The location state `level->map_state->locations[index]`; an index without
an entry gets a fresh default entry, which reads as `location_t.default`. -/
def loc_state_at (map_state : map_state_t) (index : Nat) : location_t :=
  (map_state.locations.lookup (index : Int)).getD location_t.default

def add_loc (name : String) (thing : map_thing_t) (level : level_t) (index : Nat) (id : Int)
    (st : gen_state) : level_t × gen_state :=
  let loc_state := loc_state_at level.map_state index
  if loc_state.unreachable then (level, st)
  else if st.location_next_id > 999 then (level, st)
  else
    let loc_name := loc_name_loop st.ap_locations st.use_extended_names name loc_state.name
      (st.ap_locations.length + 1) 0
    let loc : ap_location_t :=
      { name := loc_name
        idx := level.idx
        id := wrap_int (get_location_id_base level.idx + id)
        doom_thing_index := index
        doom_type := thing.type
        x := thing.x * 65536
        y := thing.y * 65536
        check_sanity := loc_state.check_sanity
        loc_state := some loc_state
        required_items := []
        sector := 0
        region := -1
        region_name := "" }
    ({ level with location_count := level.location_count + 1 },
      { st with ap_locations := st.ap_locations ++ [loc] })

/-! ## Catalog compilation (`generate`, the level scan) -/

/-- The statement `level_to_keycards[(uintptr_t)level][0] = id`; a level is
identified by its episode and map instead of its address. -/
def keycards_set : List ((Int × Int) × Int) → Int × Int → Int → List ((Int × Int) × Int)
  | [], k, v => [(k, v)]
  | (k', v') :: rest, k, v =>
    if k' = k then (k', v) :: rest else (k', v') :: keycards_set rest k v

/-- Assignment to one cell of `bool keys[3]` or `bool use_skull[3]`. -/
def set_flag (flags : List Bool) (key : Int) (v : Bool) : List Bool :=
  if 0 ≤ key then flags.set key.toNat v else flags

/-- The condition under which the level scan skips a map object: its type is
not in the location-type table, or its multiplayer-only flag is set. -/
def thing_label (game : game_t) (thing : map_thing_t) : Option String :=
  match game.location_doom_types.lookup thing.type with
  | none => none
  | some label => if thing.flags &&& 0x0010 ≠ 0 then none else some label

/-- The inner loop over `game->keys` of the level scan, left at the first key
definition with the object's type. -/
def register_key (game : game_t) (thing : map_thing_t) (level : level_t) (i : Nat)
    (st : gen_state) : level_t × gen_state :=
  match game.keys.find? (fun key_def => key_def.item.doom_type == thing.type) with
  | none => (level, st)
  | some key_def =>
    let r := add_unique key_def PROGRESSION thing level i st
    ({ level with
        keys := set_flag level.keys key_def.key true
        use_skull := set_flag level.use_skull key_def.key key_def.use_skull },
      { r.2 with
        level_to_keycards := keycards_set r.2.level_to_keycards (level.idx.ep, level.idx.map) r.1 })

/-- The loop over `level->map->things`, from object number `i` on, with
`next_loc` the sequence number the next eligible object receives. -/
def scan_things (game : game_t) (lvl_pfx : String) :
    List map_thing_t → Nat → Int → level_t → gen_state → level_t × gen_state
  | [], _, _, level, st => (level, st)
  | thing :: rest, i, next_loc, level, st =>
    match thing_label game thing with
    | none => scan_things game lvl_pfx rest (i + 1) next_loc level st
    | some label =>
      let r1 := register_key game thing level i st
      let r2 := add_loc (lvl_pfx ++ label) thing r1.1 i next_loc r1.2
      scan_things game lvl_pfx rest (i + 1) (next_loc + 1) r2.1 r2.2

/-- The search for the region holding a connection to the exit (target -2):
the name of the first such region, in region order. -/
def find_exit_region (level_name : String) : List region_t → Option String
  | [] => none
  | region :: rest =>
    if region.rules.connections.any (fun connection => connection.target_region == -2) then
      some (level_name ++ " @ " ++ region.name)
    else find_exit_region level_name rest

/-- The level-complete location built after the scan of a level. -/
def make_complete_loc (level : level_t) (region_name : String) : ap_location_t :=
  { doom_thing_index := -1
    doom_type := DOOM_TYPE_LEVEL_COMPLETE
    idx := level.idx
    x := -1
    y := -1
    name := level.name ++ " - " ++ "Exit"
    id := get_location_id_base level.idx
    region_name := region_name
    loc_state := none
    required_items := []
    sector := 0
    region := -1
    check_sanity := false }

/-- One turn of the loop `for (auto level : levels)` that scans the maps. -/
def compile_level (game : game_t) (level : level_t) (st : gen_state) : level_t × gen_state :=
  let level0 : level_t :=
    { level with sectors := List.replicate level.map.sector_count { locations := [] } }
  let r := scan_things game (level.name ++ " - ") level.map.things 0 1 level0 st
  match find_exit_region level.name level.map_state.regions with
  | some region_name =>
    (r.1, { r.2 with ap_locations := r.2.ap_locations ++ [make_complete_loc level region_name] })
  | none =>
    (r.1,
      { r.2 with
        ap_locations :=
          r.2.ap_locations ++ [make_complete_loc level ("Hub @ Entrance to " ++ level.name)]
        warning_count_no_exit := r.2.warning_count_no_exit + 1 })

def compile_levels (game : game_t) : List level_t → gen_state → List level_t × gen_state
  | [], st => ([], st)
  | level :: rest, st =>
    let r := compile_level game level st
    let rs := compile_levels game rest r.2
    (r.1 :: rs.1, rs.2)

/-! ## Levels of a game -/

def find_last_of (c : Char) : List Char → Nat → Option Nat → Option Nat
  | [], _, found => found
  | d :: ds, i, found => find_last_of c ds (i + 1) (if d = c then some i else found)

/-- The displayed group label of a level: the text between the last `(` and
the last `)` of the level name, or the lump name when one of them is missing.
A `)` before the `(` makes the length argument of `substr` wrap around, which
takes the rest of the name. -/
def get_group_name (metamap : meta_t) : String :=
  match find_last_of '(' metamap.name.data 0 none, find_last_of ')' metamap.name.data 0 none with
  | some pos_begin, some pos_end =>
    if pos_begin + 1 ≤ pos_end then
      String.mk ((metamap.name.data.drop (pos_begin + 1)).take (pos_end - (pos_begin + 1)))
    else String.mk (metamap.name.data.drop (pos_begin + 1))
  | _, _ => metamap.lump_name

def make_level (game : game_t) (ep map : Nat) (metamap : meta_t) : level_t :=
  { idx := { game_name := game.short_name, ep := ep, map := map }
    name := metamap.name
    group_name := get_group_name metamap
    sectors := []
    keys := [false, false, false]
    location_count := 0
    use_skull := [false, false, false]
    map := metamap.map
    map_state := metamap.state }

def make_episode_levels (game : game_t) (ep : Nat) : List meta_t → Nat → List level_t
  | [], _ => []
  | metamap :: rest, map => make_level game ep map metamap :: make_episode_levels game ep rest (map + 1)

def make_levels_from (game : game_t) : List (List meta_t) → Nat → List level_t
  | [], _ => []
  | episode :: rest, ep => make_episode_levels game ep episode 0 ++ make_levels_from game rest (ep + 1)

/-- The vector `levels` of `generate`: every map of every episode, in order. -/
def make_levels (game : game_t) : List level_t :=
  make_levels_from game game.episodes 0

/-! ## Level items -/

def level_unlock_item : ap_item_def_t :=
  { doom_type := -1, name := "", sprite := "", groups := ["Levels", "%MAP%"], count := 1 }

def level_complete_item : ap_item_def_t :=
  { doom_type := -2, name := "Complete", sprite := "", groups := [], count := 0 }

def add_items (defs : List ap_item_def_t) (classification : Nat) (level : Option level_t)
    (st : gen_state) : gen_state :=
  defs.foldl (fun s d => add_item d classification level s) st

/-- One turn of the loop that registers the items of a level. -/
def add_level_items (game : game_t) (level : level_t) (st : gen_state) : gen_state :=
  let st1 := add_item level_unlock_item (PROGRESSION ||| USEFUL) (some level) st
  let st2 := add_item level_complete_item PROGRESSION (some level) st1
  let st3 := add_items game.unique_progression PROGRESSION (some level) st2
  let st4 := add_items game.unique_useful USEFUL (some level) st3
  add_items game.unique_filler FILLER (some level) st4

/-- The globals as `generate` leaves them after its `clear()` calls. -/
def initial_state (game : game_t) : gen_state :=
  { location_next_id := 0
    ap_items := []
    ap_locations := []
    item_name_groups := []
    level_to_keycards := []
    use_extended_names := game.extended_names
    warning_count_no_exit := 0 }

/-- The global items: `progression`, `useful`, `filler`, with no level. -/
def add_global_items (game : game_t) (st : gen_state) : gen_state :=
  add_items game.filler FILLER none
    (add_items game.useful USEFUL none (add_items game.progression PROGRESSION none st))

/-- Catalog compilation: the part of `generate` from the reset of the globals
to the end of the level-item loop (before remap and sort). -/
def compile_catalog (game : game_t) : List level_t × gen_state :=
  let st0 := add_global_items game (initial_state game)
  let r := compile_levels game (make_levels game) st0
  (r.1, r.1.foldl (fun s level => add_level_items game level s) r.2)

/-! ## Legacy remap pass -/

/-- The first loop of a remap block: the first id handed to an entity whose
name is not in the table. -/
def remap_next_id (table : List (String × Int)) : Int :=
  table.foldl (fun next kv => max next (wrap_int64 (kv.2 + 1))) 0

/-- The second loop of a remap block, from list position `i` on: an entity
whose name is a key takes the table's id, the position of any other entity is
recorded. -/
def remap_collect {α : Type} (name : α → String) (set_id : α → Int → α)
    (table : List (String × Int)) : List α → Nat → List α × List Nat
  | [], _ => ([], [])
  | x :: xs, i =>
    let r := remap_collect name set_id table xs (i + 1)
    match table.lookup (name x) with
    | some v => (set_id x v :: r.1, r.2)
    | none => (x :: r.1, i :: r.2)

/-- The assignment `list[i].id = v`. -/
def set_id_at {α : Type} (set_id : α → Int → α) : List α → Nat → Int → List α
  | [], _, _ => []
  | x :: xs, 0, v => set_id x v :: xs
  | x :: xs, i + 1, v => x :: set_id_at set_id xs i v

/-- The third loop of a remap block: the recorded positions receive `next`,
`next + 1`, ... in the order they were recorded. -/
def remap_assign {α : Type} (set_id : α → Int → α) : List Nat → Int → List α → List α
  | [], _, xs => xs
  | u :: us, next, xs =>
    remap_assign set_id us (wrap_int64 (next + 1)) (set_id_at set_id xs u next)

/-- One remap block of `generate`, skipped when the table is empty. -/
def remap_pass {α : Type} (name : α → String) (set_id : α → Int → α)
    (table : List (String × Int)) (xs : List α) : List α :=
  if table.isEmpty then xs
  else
    let r := remap_collect name set_id table xs 0
    remap_assign set_id r.2 (remap_next_id table) r.1

def remap_locations (game : game_t) (ap_locations : List ap_location_t) : List ap_location_t :=
  remap_pass (fun l => l.name) (fun l v => { l with id := v }) game.location_remap ap_locations

def remap_items (game : game_t) (ap_items : List ap_item_t) : List ap_item_t :=
  remap_pass (fun it => it.name) (fun it v => { it with id := v }) game.item_remap ap_items

/-! ## Sort pass

`std::sort` with the comparison `a.id < b.id`.  The standard promises an
ordered permutation and leaves the order of equal ids open; the embedding is an
insertion sort with the same comparison.  Where two entries have the same id,
the order the embedding gives them is one of the orders the standard allows,
not the one a given library produces; where the ids are pairwise distinct the
ordered permutation is unique. -/

def insert_by_id {α : Type} (id : α → Int) (x : α) : List α → List α
  | [] => [x]
  | y :: ys => if id y < id x then y :: insert_by_id id x ys else x :: y :: ys

def sort_by_id {α : Type} (id : α → Int) : List α → List α
  | [] => []
  | x :: xs => insert_by_id id x (sort_by_id id xs)

/-! ## Locations of each sector -/

def push_sector_location : List level_sector_t → Nat → Nat → List level_sector_t
  | [], _, _ => []
  | s :: rest, 0, i => { s with locations := s.locations ++ [i] } :: rest
  | s :: rest, k + 1, i => s :: push_sector_location rest k i

/-- The lambda `get_level`: the level with the given episode and map. -/
def get_level (levels : List level_t) (idx : level_index_t) : Option level_t :=
  levels.find? (fun l => l.idx.ep == idx.ep && l.idx.map == idx.map)

/-- The loop that records every location made from a map object in the sector
holding it, from list position `i` on. -/
def fill_sectors : List ap_location_t → Nat → List level_t → List ap_location_t × List level_t
  | [], _, levels => ([], levels)
  | loc :: rest, i, levels =>
    if loc.doom_thing_index < 0 then
      let r := fill_sectors rest (i + 1) levels
      (loc :: r.1, r.2)
    else
      match (get_level levels loc.idx).bind (fun l => l.map.point_in_subsector loc.x loc.y) with
      | some sector =>
        let levels1 := levels.map (fun l =>
          if l.idx.ep == loc.idx.ep && l.idx.map == loc.idx.map then
            { l with sectors := push_sector_location l.sectors sector i }
          else l)
        let r := fill_sectors rest (i + 1) levels1
        ({ loc with sector := sector } :: r.1, r.2)
      | none =>
        let r := fill_sectors rest (i + 1) levels
        (loc :: r.1, r.2)

/-! ## Validation gates -/

def ERROR_JUNK_GROUP : Nat := 1
def ERROR_MAJOR_EPISODE : Nat := 2
def ERROR_DEFAULT_EPISODE : Nat := 4

/-- The statement `errored &= ~mask` on `unsigned int`. -/
def clear_error (errored mask : Nat) : Nat :=
  errored &&& (4294967295 ^^^ mask)

/-- The last-minute checks: the value of `errored` after both loops. -/
def check_gates (item_name_groups : List (String × List String))
    (episode_info : List episode_info_t) : Nat :=
  let e1 := item_name_groups.foldl
    (fun errored kv => if kv.1 = "Junk" then clear_error errored ERROR_JUNK_GROUP else errored) 7
  episode_info.foldl
    (fun errored episode =>
      let e := if !episode.is_minor_episode then clear_error errored ERROR_MAJOR_EPISODE
               else errored
      if episode.default_enabled then clear_error e ERROR_DEFAULT_EPISODE else e)
    e1

/-- The vector `error_list` built when `errored` is not zero. -/
def gate_error_list (errored : Nat) : List String :=
  ["The following errors prevented generation of an APWorld:"]
    ++ (if errored &&& ERROR_JUNK_GROUP ≠ 0 then ["A 'Junk' item group must exist."] else [])
    ++ (if errored &&& ERROR_MAJOR_EPISODE ≠ 0 then
          ["There must be at least one major episode."] else [])
    ++ (if errored &&& ERROR_DEFAULT_EPISODE ≠ 0 then
          ["There must be at least one episode enabled by default."] else [])

/-! ## Output sink (`zip.hpp`) and the run as a whole -/

/-- One call of `generate` on the sink `world`.  The streamed content is not
part of the record; `AddJson` is the base-class method that serialises a
document and hands it to `AddSStream`. -/
inductive sink_call where
  | AddJson (group_path : String) (fast : Bool)
  | AddSStream (group_path : String)
  | AddFile (group_path : String) (file_path : String)
  | Finalize
deriving DecidableEq, Repr

/-- The two implementations of `GroupedOutput`. -/
inductive sink_t where
  | ZipFile (base_path : String)
  | OutputToFolder (base_path : String) (output_world_name : String)
deriving DecidableEq, Repr

/-- What a run reads from outside the game configuration: the command line and
the answers of the file system. -/
structure env_t where
  OArguments : List String
  valid_worlds_folder : String → Bool
  folder_base_path : String → String
  file_readable : String → Bool
  path_writable : String → Bool
  output_openable : String → Bool

/-- The observable part of a sink: what it holds in memory and which files it
has written. -/
structure sink_state where
  entries : List String
  files_written : List String
deriving DecidableEq, Repr

/-- A sink right after its constructor. -/
def sink_state.constructed : sink_state := { entries := [], files_written := [] }

/-- The boolean a sink call returns. -/
def sink_call_ok (env : env_t) (sink : sink_t) : sink_call → Bool
  | .AddJson group_path _ =>
    match sink with
    | .ZipFile _ => true
    | .OutputToFolder _ _ => env.path_writable group_path
  | .AddSStream group_path =>
    match sink with
    | .ZipFile _ => true
    | .OutputToFolder _ _ => env.path_writable group_path
  | .AddFile group_path file_path =>
    match sink with
    | .ZipFile _ => env.file_readable file_path
    | .OutputToFolder _ _ => env.path_writable group_path && env.file_readable file_path
  | .Finalize =>
    match sink with
    | .ZipFile base_path => env.output_openable base_path
    | .OutputToFolder _ _ => true

/-- The effect of a sink call: the archive writer collects entries and writes
its one file in `Finalize`, the folder writer writes each file at once. -/
def sink_step (env : env_t) (sink : sink_t) (s : sink_state) (c : sink_call) : sink_state :=
  if sink_call_ok env sink c then
    match sink, c with
    | .ZipFile base_path, .Finalize => { s with files_written := s.files_written ++ [base_path] }
    | .ZipFile _, .AddJson group_path _ => { s with entries := s.entries ++ [group_path] }
    | .ZipFile _, .AddSStream group_path => { s with entries := s.entries ++ [group_path] }
    | .ZipFile _, .AddFile group_path _ => { s with entries := s.entries ++ [group_path] }
    | .OutputToFolder _ _, .Finalize => s
    | .OutputToFolder _ _, .AddJson group_path _ =>
      { s with files_written := s.files_written ++ [group_path] }
    | .OutputToFolder _ _, .AddSStream group_path =>
      { s with files_written := s.files_written ++ [group_path] }
    | .OutputToFolder _ _, .AddFile group_path _ =>
      { s with files_written := s.files_written ++ [group_path] }
  else s

def sink_run (env : env_t) (sink : sink_t) (calls : List sink_call) : sink_state :=
  calls.foldl (sink_step env sink) sink_state.constructed

def GetOutputPathName : sink_t → String
  | .ZipFile base_path => base_path
  | .OutputToFolder _ output_world_name => output_world_name

/-- The search for `--world-folder` at the head of `generate` and the
construction of the sink in the first run of a process, which finds the static
pointer `world` null (`open_sink_from` is the same from any value of `world`). -/
def open_sink (env : env_t) (game : game_t) : List String → Except String sink_t
  | [] => .ok (.ZipFile ("./output/" ++ game.ap_world_name ++ ".apworld"))
  | arg :: rest =>
    if arg = "--world-folder" then
      match rest with
      | [] => .error "--world-folder: Requires an argument."
      | path :: _ =>
        if env.valid_worlds_folder path then
          .ok (.OutputToFolder (env.folder_base_path path)
            (env.folder_base_path path ++ game.ap_world_name))
        else .error "--world-folder: Folder does not appear to be a valid worlds folder."
    else open_sink env game rest

/-- The catalog as the output phase sees it: compiled, remapped, sorted, and
with the sector of every location filled in. -/
def final_catalog (game : game_t) : List level_t × gen_state :=
  let r := compile_catalog game
  let locations := sort_by_id (fun l => l.id) (remap_locations game r.2.ap_locations)
  let items := sort_by_id (fun it => it.id) (remap_items game r.2.ap_items)
  let f := fill_sectors locations 0 r.1
  (f.2, { r.2 with ap_locations := f.1, ap_items := items })

def wad_name (wad_path : String) : String :=
  match find_last_of '/' wad_path.data 0 none with
  | none => wad_path
  | some dirsep => String.mk (wad_path.data.drop (dirsep + 1))

def id1common_calls (game : game_t) : List sink_call :=
  [ .AddFile (game.ap_world_name ++ "/" ++ "id1common/__init__.py")
      "./assets/py/id1common/__init__.py",
    .AddFile (game.ap_world_name ++ "/" ++ "id1common/options.py")
      "./assets/py/id1common/options.py",
    .AddFile (game.ap_world_name ++ "/" ++ "id1common/LICENSE")
      "./assets/py/id1common/LICENSE" ]

/-- The sink calls of the output phase, in program order. -/
def output_calls (game : game_t) : List sink_call :=
  [ .AddJson (game.ap_world_name ++ "/" ++ game.short_name ++ ".data.json") false ]
    ++ game.included_wads.map
        (fun wad_path =>
          .AddFile (game.ap_world_name ++ "/" ++ "wad/" ++ wad_name wad_path) wad_path)
    ++ [ .AddJson (game.ap_world_name ++ "/" ++ game.short_name ++ ".game.json") true,
         .AddJson (game.ap_world_name ++ "/" ++ "archipelago.json") true,
         .AddSStream (game.ap_world_name ++ "/" ++ "options.py"),
         .AddSStream (game.ap_world_name ++ "/" ++ "__init__.py") ]
    ++ id1common_calls game
    ++ [ .Finalize ]

/-- The error messages of the output phase, in program order. -/
def output_errors (env : env_t) (sink : sink_t) (game : game_t) : List String :=
  (game.included_wads.filter
      (fun wad_path => !sink_call_ok env sink
        (.AddFile (game.ap_world_name ++ "/" ++ "wad/" ++ wad_name wad_path) wad_path))).map
      (fun wad_path => "Couldn't add " ++ wad_path ++ " to the APWorld!")
    ++ (if (id1common_calls game).all (sink_call_ok env sink) then []
        else ["Couldn't add the id1common Python module to the APWorld!"])
    ++ (if sink_call_ok env sink .Finalize then []
        else ["Couldn't create '" ++ GetOutputPathName sink ++ "'."])

/-- What a run of `generate` leaves behind: its return value, the messages
given to `OnScreenMessages::AddError`, the calls made on the sink, and the
catalog. -/
structure gen_result where
  result : Int
  errors : List String
  sink_calls : List sink_call
  levels : List level_t
  state : gen_state

/-- The first call of `generate` in a process: `world` is null and the globals
have their values of the program start (`generate_from` is a call that follows
other calls). -/
def generate (env : env_t) (game : game_t) : gen_result :=
  match open_sink env game env.OArguments with
  | .error error_str =>
    { result := 1, errors := [error_str], sink_calls := [], levels := [],
      state := { initial_state game with use_extended_names := false } }
  | .ok sink =>
    let cat := final_catalog game
    let errored := check_gates cat.2.item_name_groups game.episode_info
    if errored ≠ 0 then
      { result := 1, errors := gate_error_list errored, sink_calls := [],
        levels := cat.1, state := cat.2 }
    else
      { result := 0, errors := output_errors env sink game, sink_calls := output_calls game,
        levels := cat.1, state := cat.2 }

/-! ## Connections (`make_connection`) -/

def get_requirement_name (game : game_t) (level_name : String) (doom_type : Int) : String :=
  match game.unique_progression.find? (fun item => item.doom_type == doom_type) with
  | some item => level_name ++ " - " ++ item.name
  | none =>
    match game.keys.find? (fun item => item.item.doom_type == doom_type) with
    | some item => level_name ++ " - " ++ item.item.name
    | none =>
      match game.item_requirements.find? (fun requirement => requirement.doom_type == doom_type) with
      | some requirement => requirement.name
      | none => "ERROR"

def get_extra_requirement_name (game : game_t) (doom_type : Int) : String :=
  match game.extra_connection_requirements.find?
      (fun requirement => requirement.doom_type == doom_type) with
  | some requirement => requirement.name
  | none => "ERROR"

/-- The first loop of `make_connection`: negative codes of the AND-list go to
`requires_json`, the others to `rules_and`. -/
def split_requirements_and (game : game_t) (level_name : String) :
    List Int → List String × List String
  | [] => ([], [])
  | doom_type :: rest =>
    let r := split_requirements_and game level_name rest
    if doom_type < 0 then (get_extra_requirement_name game doom_type :: r.1, r.2)
    else (r.1, get_requirement_name game level_name doom_type :: r.2)

def make_connection (game : game_t) (connection : rule_connection_t)
    (level_name region_name : String) : Json :=
  let split := split_requirements_and game level_name connection.requirements_and
  let requires_json := split.1
  let rules_and := split.2
  let rules_or := connection.requirements_or.map (get_requirement_name game level_name)
  let rule0 : List (String × Json) :=
    (if rules_and.isEmpty then [] else [("and", Json.arr (rules_and.map Json.str))])
      ++ (if rules_or.isEmpty then [] else [("or", Json.arr (rules_or.map Json.str))])
  let rules_json : List Json := if rule0.isEmpty then [] else [Json.obj rule0]
  Json.obj
    ([("_target", Json.str region_name)]
      ++ (if requires_json.isEmpty then []
          else [("requires", Json.arr (requires_json.map Json.str))])
      ++ (if rules_json.isEmpty then [] else [("rules", Json.arr rules_json)]))

/-! ## Definitions used to state the properties

The ids and the remap rule in the words of the specification, and the
invariants of the item list.  The ids of the specification are exact
integers; `wrap_key` and `wrap_int` lead from them to what the records of the
program hold. -/

/-- What identifies a location in the statements below: episode, map, index
of the map object it was made from (-1 for the level-complete location) and
id. -/
def loc_key (l : ap_location_t) : Int × Int × Int × Int :=
  (l.idx.ep, l.idx.map, l.doom_thing_index, l.id)

/-- A key with its id reduced to 32 bits: the id a location record holds when
the formula of the specification gives the exact integer of the key. -/
def wrap_key (s : Int × Int × Int × Int) : Int × Int × Int × Int :=
  (s.1, s.2.1, s.2.2.1, wrap_int s.2.2.2)

/-- Whether the level scan makes a location candidate of a map object: its
type is in the location-type table and its multiplayer-only flag is clear. -/
def eligible (game : game_t) (thing : map_thing_t) : Bool :=
  (thing_label game thing).isSome

/-- The locations of the map objects of one level as the specification words
them: the objects are gone through in map order from object number `i` on;
an object that is not eligible is passed over; an eligible object takes the
next sequence number `next_loc`, and gives a location with id base +
`next_loc` unless it is marked unreachable. -/
def scan_loc_keys (game : game_t) (map_state : map_state_t) (idx : level_index_t) :
    List map_thing_t → Nat → Int → List (Int × Int × Int × Int)
  | [], _, _ => []
  | thing :: rest, i, next_loc =>
    match thing_label game thing with
    | none => scan_loc_keys game map_state idx rest (i + 1) next_loc
    | some _ =>
      if (loc_state_at map_state i).unreachable then
        scan_loc_keys game map_state idx rest (i + 1) (next_loc + 1)
      else
        (idx.ep, idx.map, (i : Int),
            (idx.ep + 1) * 100000 + (idx.map + 1) * 1000 + next_loc)
          :: scan_loc_keys game map_state idx rest (i + 1) (next_loc + 1)

/-- The locations of one level: those of its map objects, sequence numbers
from 1, then the level-complete location with sequence number 0. -/
def level_loc_keys (game : game_t) (level : level_t) : List (Int × Int × Int × Int) :=
  scan_loc_keys game level.map_state level.idx level.map.things 0 1
    ++ [(level.idx.ep, level.idx.map, -1,
          (level.idx.ep + 1) * 100000 + (level.idx.map + 1) * 1000)]

/-- The remap rule as the specification words it: going through the list
once, an entity whose name is a key of the table takes the table's id, any
other entity takes the next fresh id.  The fresh ids are counted in an
`int64_t`, as in the source. -/
def remap_by_rule {α : Type} (name : α → String) (set_id : α → Int → α)
    (table : List (String × Int)) : Int → List α → List α
  | _, [] => []
  | next, x :: xs =>
    match table.lookup (name x) with
    | some v => set_id x v :: remap_by_rule name set_id table next xs
    | none => set_id x next :: remap_by_rule name set_id table (wrap_int64 (next + 1)) xs

/-- The fresh id number `n` (from 0) of a remap block whose first fresh id is
`next`: `next` after `n` increments of the `int64_t` counter, which is
`next + n` while that stays inside the range of `int64_t`. -/
def fresh_id (next : Int) : Nat → Int
  | 0 => next
  | n + 1 => wrap_int64 (fresh_id next n + 1)

/-- The id an entity at position `j` of `xs` has after the remap pass
according to the rule: the table's id for its name, or the fresh id whose
number is the number of entities before it whose names are not in the table. -/
def remapped_id {α : Type} (name : α → String) (table : List (String × Int)) (next : Int)
    (xs : List α) (j : Nat) (x : α) : Int :=
  match table.lookup (name x) with
  | some v => v
  | none => fresh_id next ((xs.take j).filter (fun y => (table.lookup (name y)).isNone)).length

/-- The templates of the global items. -/
def global_templates (game : game_t) : List ap_item_def_t :=
  game.progression ++ game.useful ++ game.filler

/-- The templates copied into every level. -/
def unique_templates (game : game_t) : List ap_item_def_t :=
  game.unique_progression ++ game.unique_useful ++ game.unique_filler

/-- The item id base of a level as the specification words it, an exact
integer. -/
def spec_item_base (idx : level_index_t) : Int :=
  (idx.ep + 1) * 10000000 + (idx.map + 1) * 100000

/-- The ids of the items registered once per level, as exact integers: level
unlock (code 0), level complete (code 99999), and one copy of each unique
template. -/
def level_item_ids (game : game_t) (idx : level_index_t) : List Int :=
  [spec_item_base idx + 0, spec_item_base idx + 99999]
    ++ (unique_templates game).map (fun d => spec_item_base idx + base_item_id d.doom_type)

/-- An item made by `add_unique` for a key of one of the given levels (index
and name): its key definition is the first one with its type code, its name
is composed from the level name and the key name, its id is the item base of
the level plus the type code, in 32 bits. -/
def key_item_of (game : game_t) (levels : List (level_index_t × String)) (it : ap_item_t) :
    Prop :=
  ∃ p ∈ levels, ∃ key_def : ap_key_def_t,
    game.keys.find? (fun k => k.item.doom_type == it.doom_type) = some key_def ∧
    it.idx = p.1 ∧ it.name = p.2 ++ " - " ++ key_def.item.name ∧
    it.id = wrap_int (spec_item_base p.1 + it.doom_type)

/-- The item list is a given list followed by key items with pairwise
different names. -/
def key_items_inv (game : game_t) (levels : List (level_index_t × String))
    (given : List ap_item_t) (ap_items : List ap_item_t) : Prop :=
  ∃ ks : List ap_item_t, ap_items = given ++ ks ∧ (∀ it ∈ ks, key_item_of game levels it) ∧
    ks.Pairwise (fun a b => a.name ≠ b.name)

/-- The number a string of decimal digits stands for. -/
def decimal_value (cs : List Char) : Nat :=
  cs.foldl (fun acc c => 10 * acc + (c.toNat - 48)) 0

/-! ## Concrete inputs -/

def level00 : level_t :=
  { idx := { game_name := "g", ep := 0, map := 0 }
    name := "L1"
    group_name := "E1M1"
    sectors := []
    keys := [false, false, false]
    location_count := 0
    use_skull := [false, false, false]
    map := { things := [], sector_count := 0, point_in_subsector := fun _ _ => none }
    map_state :=
      { regions := []
        world_rules := { x := 0, y := 0, connections := [] }
        exit_rules := { x := 0, y := 0, connections := [] }
        locations := [] } }

def empty_state : gen_state :=
  { location_next_id := 0
    ap_items := []
    ap_locations := []
    item_name_groups := []
    level_to_keycards := []
    use_extended_names := false
    warning_count_no_exit := 0 }

/-- A key definition whose type code is the level-unlock pseudo-type. -/
def key_def_unlock_code : ap_key_def_t :=
  { item := { doom_type := -1, name := "K", sprite := "", groups := [], count := 1 }
    key := 0
    use_skull := false
    region_name := "" }

def item_def_5 : ap_item_def_t :=
  { doom_type := 5, name := "Blue", sprite := "", groups := [], count := 1 }

def thing_5 : map_thing_t := { x := 1, y := 2, type := 5, flags := 0 }

def loc_named (name : String) (id : Int) : ap_location_t :=
  { id := id, loc_state := none, name := name, x := 0, y := 0,
    idx := { game_name := "g", ep := 0, map := 0 }, doom_thing_index := 0, doom_type := 5,
    required_items := [], sector := 0, region := -1, region_name := "", check_sanity := false }

def item_named (name : String) (id : Int) : ap_item_t :=
  { id := id, name := name, idx := { game_name := "g", ep := 0, map := 0 }, doom_type := 5,
    count := 1, is_key := false, classification := 0 }

def game_empty : game_t :=
  { full_name := "", short_name := "g", iwad_name := "", required_wads := [],
    optional_wads := [], included_wads := [], ap_name := "", ap_world_name := "w",
    location_doom_types := [], extra_connection_requirements := [], progression := [],
    useful := [], filler := [], unique_progression := [], unique_useful := [],
    unique_filler := [], keys := [], location_remap := [], item_remap := [], episodes := [],
    episode_info := [], item_requirements := [], check_sanity := false,
    extended_names := false, world_hooks := [], json_world_options := Json.arr [],
    json_game_info := Json.obj [] }

/-- A game whose remap tables hold one negative id each. -/
def game_negative_remap : game_t :=
  { game_empty with location_remap := [("a", -5)], item_remap := [("a", -5)] }

/-- A game whose remap tables hold the largest value of `int64_t`. -/
def game_largest_remap : game_t :=
  { game_empty with
    location_remap := [("a", 9223372036854775807)]
    item_remap := [("a", 9223372036854775807)] }

/-- A game whose remap tables hold the largest value of `int64_t` but one. -/
def game_near_largest_remap : game_t :=
  { game_empty with
    location_remap := [("a", 9223372036854775806)]
    item_remap := [("a", 9223372036854775806)] }

/-- A game whose remap tables hold the ids 7 and 3. -/
def game_remap : game_t :=
  { game_empty with
    location_remap := [("a", 7), ("c", 3)], item_remap := [("a", 7), ("c", 3)] }

def locs_a_b_d_c : List ap_location_t :=
  [loc_named "a" 101001, loc_named "b" 101002, loc_named "d" 101003, loc_named "c" 101004]

def items_a_b_d_c : List ap_item_t :=
  [item_named "a" 1, item_named "b" 2, item_named "d" 3, item_named "c" 4]

/-- A command line without arguments and a file system that grants every
request. -/
def env_plain : env_t :=
  { OArguments := []
    valid_worlds_folder := fun _ => true
    folder_base_path := fun path => path
    file_readable := fun _ => true
    path_writable := fun _ => true
    output_openable := fun _ => true }

/-- A game without maps whose only episode is minor and enabled by default. -/
def game_minor_only : game_t :=
  { game_empty with
    filler := [{ doom_type := 2000, name := "Armor", sprite := "", groups := ["Junk"], count := 1 }]
    episode_info :=
      [{ name := "Secret", starting_level := 0, boss_level := 0, is_minor_episode := true,
         default_enabled := true }] }

/-- A game whose option requirement -1 is named "Opt"; `item_requirements`
starts with the option requirements, as the loader builds it. -/
def game_with_option : game_t :=
  { game_empty with
    extra_connection_requirements :=
      [{ doom_type := -1, name := "Opt", sprite := "", groups := [], count := 1 }]
    item_requirements :=
      [{ doom_type := -1, name := "Opt", sprite := "", groups := [], count := 1 }] }

/-- A level without map objects and without regions. -/
def meta_plain : meta_t :=
  { name := "M", wad_name := "", lump_name := "MAP01"
    map := { things := [], sector_count := 0, point_in_subsector := fun _ _ => none }
    state :=
      { regions := []
        world_rules := { x := 0, y := 0, connections := [] }
        exit_rules := { x := 0, y := 0, connections := [] }
        locations := [] } }

/-- A game with 101 maps in its first episode and one map in its second. -/
def game_101_maps : game_t :=
  { game_empty with episodes := [List.replicate 101 meta_plain, [meta_plain]] }

/-- A level with three objects of type 5, the second one multiplayer-only. -/
def meta_three_things : meta_t :=
  { meta_plain with
    name := "L1"
    lump_name := "E1M1"
    map :=
      { things := [thing_5, { x := 1, y := 2, type := 5, flags := 16 }, thing_5]
        sector_count := 1
        point_in_subsector := fun _ _ => some 0 } }

/-- A game with one level, whose objects of type 5 are locations. -/
def game_small : game_t :=
  { game_empty with
    location_doom_types := [(5, "Key")]
    episodes := [[meta_three_things]]
    episode_info :=
      [{ name := "e", starting_level := 1, boss_level := 1, is_minor_episode := false,
         default_enabled := true }] }

/-- A level with 1000 objects of type 5, none multiplayer-only, none marked
unreachable. -/
def meta_1000_things : meta_t :=
  { meta_plain with
    map :=
      { things := List.replicate 1000 thing_5
        sector_count := 1
        point_in_subsector := fun _ _ => some 0 } }

/-- A game whose first level has 1000 eligible objects, followed by a second
level in the same episode. -/
def game_1000_things : game_t :=
  { game_empty with
    location_doom_types := [(5, "Key")]
    episodes := [[meta_1000_things, meta_plain]] }

/-- A game with the same template of type 5 in two global catalogs. -/
def game_repeated_code : game_t :=
  { game_empty with progression := [item_def_5], useful := [item_def_5] }

/-- A game with one level, a global item, a unique item and a key whose
pickups (type 5) are locations. -/
def game_with_items : game_t :=
  { game_empty with
    location_doom_types := [(5, "Blue key")]
    progression :=
      [{ doom_type := 2001, name := "Shotgun", sprite := "", groups := [], count := 1 }]
    unique_progression :=
      [{ doom_type := 2005, name := "Map", sprite := "", groups := [], count := 1 }]
    keys :=
      [{ item := { doom_type := 5, name := "Blue key", sprite := "", groups := [], count := 1 }
         key := 0, use_skull := false, region_name := "" }]
    episodes := [[meta_three_things]] }

/-! ## More definitions used to state the properties, and more inputs -/

/-- The member of an object under a key, if the document is an object that
has one. -/
def Json.field (key : String) : Json → Option Json
  | Json.obj members => members.lookup key
  | _ => none

/-- An array member of strings that is present only when it has an element. -/
def name_array_member (key : String) (names : List String) : List (String × Json) :=
  if names = [] then [] else [(key, Json.arr (names.map Json.str))]

/-- A level whose object number 0 carries the descriptive text "door". -/
def level_described : level_t :=
  { level00 with
    map_state :=
      { level00.map_state with
        locations :=
          [(0, { death_logic := false, unreachable := false, check_sanity := false,
                 name := "door", description := "" })] } }

/-- The globals with extended names on and one location named
"L1 - Key (door)". -/
def state_extended : gen_state :=
  { empty_state with
    use_extended_names := true
    ap_locations := [loc_named "L1 - Key (door)" 1] }

/-- The globals with one location named "L1 - Key". -/
def state_one_key : gen_state :=
  { empty_state with ap_locations := [loc_named "L1 - Key" 1] }

/-- A game with one level whose objects of type 5 are locations labelled
"Exit". -/
def game_exit_label : game_t :=
  { game_empty with
    location_doom_types := [(5, "Exit")]
    episodes := [[meta_three_things]] }

/-- A game with two levels of the same name. -/
def game_twin_levels : game_t :=
  { game_empty with episodes := [[meta_plain, meta_plain]] }

/-! ## Region documents (`generate`, the block "Regions")

A read outside a vector has no defined meaning in C++; the operations below
answer `none` when the source would index `level->map_state->regions` or
`level->sectors` outside its bounds. -/

/-- The element `regions[target_region]`, if the index is inside the vector. -/
def region_at (regions : List region_t) (target_region : Int) : Option region_t :=
  if 0 ≤ target_region then regions[target_region.toNat]? else none

/-- The value of `target_region_name` for a connection of an authored region
whose target is not -2. -/
def target_region_name (level_name : String) (regions : List region_t) (target_region : Int) :
    Option String :=
  if target_region = -1 then some ("Hub @ Entrance to " ++ level_name)
  else
    match region_at regions target_region with
    | some region => some (level_name ++ " @ " ++ region.name)
    | none => none

/-- The loop "Gather all connections" over the connections of one authored
region: the value of `allconnections_json`. -/
def region_connections (game : game_t) (level_name : String) (regions : List region_t) :
    List rule_connection_t → Option (List Json)
  | [] => some []
  | connection :: rest =>
    if connection.target_region = -2 then region_connections game level_name regions rest
    else
      match target_region_name level_name regions connection.target_region with
      | none => none
      | some name =>
        match region_connections game level_name regions rest with
        | none => none
        | some docs => some (make_connection game connection level_name name :: docs)

/-- The loop over `world_rules.connections` of a level: the connections of
its entrance region.  No target is passed over. -/
def world_connections (game : game_t) (level_name : String) (regions : List region_t) :
    List rule_connection_t → Option (List Json)
  | [] => some []
  | world_connection :: rest =>
    match region_at regions world_connection.target_region with
    | none => none
    | some target_region =>
      match world_connections game level_name regions rest with
      | none => none
      | some docs =>
        some (make_connection game world_connection level_name
          (level_name ++ " @ " ++ target_region.name) :: docs)

/-- The assignment `ap_locations[loci].region_name = region_name`. -/
def set_region_name_at : List ap_location_t → Nat → String → List ap_location_t
  | [], _, _ => []
  | loc :: rest, 0, region_name => { loc with region_name := region_name } :: rest
  | loc :: rest, loci + 1, region_name => loc :: set_region_name_at rest loci region_name

/-- The loop `for (auto loci : level->sectors[sectori].locations)`. -/
def name_sector_locations (region_name : String) :
    List Nat → List ap_location_t → List ap_location_t
  | [], ap_locations => ap_locations
  | loci :: rest, ap_locations =>
    name_sector_locations region_name rest (set_region_name_at ap_locations loci region_name)

/-- The loop `for (auto sectori : region.sectors)`. -/
def name_region_locations (sectors : List level_sector_t) (region_name : String) :
    List Nat → List ap_location_t → Option (List ap_location_t)
  | [], ap_locations => some ap_locations
  | sectori :: rest, ap_locations =>
    match sectors[sectori]? with
    | none => none
    | some sector =>
      name_region_locations sectors region_name rest
        (name_sector_locations region_name sector.locations ap_locations)

/-- The member "exmx": episode and map, counted from 1. -/
def exmx (idx : level_index_t) : Json :=
  Json.arr [Json.int (idx.ep + 1), Json.int (idx.map + 1)]

/-- One turn of the loop over the authored regions of a level: the region
document and the location list with the region name written into the
locations of the region's sectors. -/
def serialize_region (game : game_t) (level : level_t) (region : region_t)
    (ap_locations : List ap_location_t) : Option (Json × List ap_location_t) :=
  match name_region_locations level.sectors (level.name ++ " @ " ++ region.name)
      region.sectors ap_locations with
  | none => none
  | some locs =>
    match region_connections game level.name level.map_state.regions
        region.rules.connections with
    | none => none
    | some allconnections =>
      some (Json.obj
        [("_name", Json.str (level.name ++ " @ " ++ region.name)),
         ("connections", Json.arr allconnections),
         ("exmx", exmx level.idx)], locs)

def serialize_regions (game : game_t) (level : level_t) :
    List region_t → List ap_location_t → Option (List Json × List ap_location_t)
  | [], ap_locations => some ([], ap_locations)
  | region :: rest, ap_locations =>
    match serialize_region game level region ap_locations with
    | none => none
    | some r =>
      match serialize_regions game level rest r.2 with
      | none => none
      | some rs => some (r.1 :: rs.1, rs.2)

/-- The document of the region "Hub @ Entrance to <level>". -/
def entrance_region (game : game_t) (level : level_t) : Option Json :=
  match world_connections game level.name level.map_state.regions
      level.map_state.world_rules.connections with
  | none => none
  | some allconnections =>
    some (Json.obj
      [("_name", Json.str ("Hub @ Entrance to " ++ level.name)),
       ("connections", Json.arr allconnections),
       ("exmx", exmx level.idx)])

/-- One turn of the loop `for (auto level : levels)` of the block "Regions". -/
def serialize_level (game : game_t) (level : level_t) (ap_locations : List ap_location_t) :
    Option (List Json × List ap_location_t) :=
  match entrance_region game level with
  | none => none
  | some doc =>
    match serialize_regions game level level.map_state.regions ap_locations with
    | none => none
    | some rs => some (doc :: rs.1, rs.2)

def serialize_levels (game : game_t) :
    List level_t → List ap_location_t → Option (List Json × List ap_location_t)
  | [], ap_locations => some ([], ap_locations)
  | level :: rest, ap_locations =>
    match serialize_level game level ap_locations with
    | none => none
    | some r =>
      match serialize_levels game rest r.2 with
      | none => none
      | some rs => some (r.1 ++ rs.1, rs.2)

/-- The document of the region "Hub": one connection per level. -/
def hub_region (levels : List level_t) : Json :=
  Json.obj
    [("_name", Json.str "Hub"),
     ("connections", Json.arr (levels.map (fun level =>
        Json.obj
          [("_target", Json.str ("Hub @ Entrance to " ++ level.name)),
           ("rules", Json.arr [Json.obj [("and", Json.arr [Json.str level.name])]])])))]

/-- The block "Regions": the value of `ap_json["regions"]` and the location
list as the block leaves it. -/
def regions_json (game : game_t) (levels : List level_t) (ap_locations : List ap_location_t) :
    Option (Json × List ap_location_t) :=
  match serialize_levels game levels ap_locations with
  | none => none
  | some r => some (Json.arr (hub_region levels :: r.1), r.2)

/-! ## Location table (`generate`, the block "Locations") -/

/-- The function `get_level_name` of `data.cpp`.  The registry `games` holds
the game under its short name; a lookup under another name answers "ERROR"
here. -/
def get_level_name (game : game_t) (idx : level_index_t) : String :=
  if idx.game_name ≠ game.short_name then "ERROR"
  else if idx.ep < 0 then "ERROR"
  else
    match game.episodes[idx.ep.toNat]? with
    | none => "ERROR"
    | some episode =>
      if idx.map < 0 then "ERROR"
      else
        match episode[idx.map.toNat]? with
        | none => "ERROR"
        | some metamap => metamap.name

/-- Assignment to a member of an object: the member is replaced, or put at
its place in key order. -/
def json_set : List (String × Json) → String → Json → List (String × Json)
  | [], key, value => [(key, value)]
  | (k, v) :: rest, key, value =>
    if k = key then (k, value) :: rest
    else if string_less key k then (key, value) :: (k, v) :: rest
    else (k, v) :: json_set rest key value

/-- The value of the local `region_name` when the location data are built. -/
def locdata_region (game : game_t) (location : ap_location_t) : String :=
  if location.region_name = "" then "Hub @ Entrance to " ++ get_level_name game location.idx
  else location.region_name

/-- The value of `locdata_json` for one location. -/
def locdata_json (game : game_t) (location : ap_location_t) : Json :=
  Json.obj
    ([("_name", Json.str location.name)]
      ++ (if game.check_sanity && location.check_sanity then [("check_sanity", Json.bool true)]
          else [])
      ++ [("doom_type", Json.int location.doom_type),
          ("exmx", exmx location.idx),
          ("region", Json.str (locdata_region game location))])

/-- What the loop of the block "Locations" builds, restricted to the location
table and the counter of locations without a region. -/
structure location_output where
  locations_json : List (String × Json)
  warning_count_empty_region : Nat

/-- One turn of the loop `for (const auto& location : ap_locations)`. -/
def location_step (game : game_t) (out : location_output) (location : ap_location_t) :
    location_output :=
  { locations_json :=
      json_set out.locations_json (Int.repr location.id) (locdata_json game location)
    warning_count_empty_region :=
      if location.region_name = "" then out.warning_count_empty_region + 1
      else out.warning_count_empty_region }

def location_table (game : game_t) (ap_locations : List ap_location_t) : location_output :=
  ap_locations.foldl (location_step game)
    { locations_json := [], warning_count_empty_region := 0 }

/-! ## Definitions used to state the properties of the regions -/

/-- The region name `compile_level` gives the level-complete location. -/
def exit_region_name (level : level_t) : String :=
  match find_exit_region level.name level.map_state.regions with
  | some region_name => region_name
  | none => "Hub @ Entrance to " ++ level.name

/-- Whether a region has a connection to the exit (target -2). -/
def has_exit_connection (region : region_t) : Bool :=
  region.rules.connections.any (fun connection => connection.target_region == -2)

/-- Whether a location is the level-complete location of the level `idx`. -/
def is_complete_loc_of (idx : level_index_t) (l : ap_location_t) : Bool :=
  l.doom_thing_index == -1 && l.idx.ep == idx.ep && l.idx.map == idx.map

/-- The targets of the connections of the authored regions are -2, -1 or the
index of a region, and the targets of the top-level connections are the index
of a region. -/
def targets_in_range (map_state : map_state_t) : Prop :=
  (∀ region ∈ map_state.regions, ∀ connection ∈ region.rules.connections,
    connection.target_region = -2 ∨ connection.target_region = -1 ∨
      (0 ≤ connection.target_region ∧
        connection.target_region < (map_state.regions.length : Int))) ∧
  ∀ connection ∈ map_state.world_rules.connections,
    0 ≤ connection.target_region ∧ connection.target_region < (map_state.regions.length : Int)

/-- The sectors owned by the regions of a level are sectors of its map, and
the connection targets are in range. -/
def regions_in_range (level : level_t) : Prop :=
  (∀ region ∈ level.map_state.regions, ∀ s ∈ region.sectors, s < level.map.sector_count) ∧
  targets_in_range level.map_state

/-- A region owning the sectors 0 and 1, connected to region 1 (behind a key
of type 5) and to the hub. -/
def region_start : region_t :=
  { name := "Start", sectors := [0, 1]
    rules :=
      { x := 0, y := 0
        connections :=
          [{ target_region := 1, requirements_or := [], requirements_and := [5] },
           { target_region := -1, requirements_or := [], requirements_and := [] }] } }

/-- A region owning sector 1, connected to the exit and to region 0. -/
def region_end : region_t :=
  { name := "End", sectors := [1]
    rules :=
      { x := 0, y := 0
        connections :=
          [{ target_region := -2, requirements_or := [], requirements_and := [] },
           { target_region := 0, requirements_or := [], requirements_and := [] }] } }

/-- A level with four objects of type 5, three sectors and the two regions
`region_start` and `region_end`: the first object lies in sector 0, the second
in sector 1, the third in sector 2, the fourth in no sector. -/
def meta_regions : meta_t :=
  { name := "R1", wad_name := "", lump_name := "E1M1"
    map :=
      { things :=
          [{ x := 1, y := 0, type := 5, flags := 0 }, { x := 2, y := 0, type := 5, flags := 0 },
           { x := 3, y := 0, type := 5, flags := 0 }, { x := 4, y := 0, type := 5, flags := 0 }]
        sector_count := 3
        point_in_subsector := fun x _ =>
          if x = 65536 then some 0 else if x = 131072 then some 1
          else if x = 196608 then some 2 else none }
    state :=
      { regions := [region_start, region_end]
        world_rules :=
          { x := 0, y := 0
            connections :=
              [{ target_region := 0, requirements_or := [], requirements_and := [] }] }
        exit_rules := { x := 0, y := 0, connections := [] }
        locations := [] } }

/-- A game with the one level `meta_regions`; objects of type 5 are the
locations of a key. -/
def game_regions : game_t :=
  { game_empty with
    location_doom_types := [(5, "Key")]
    keys :=
      [{ item := { doom_type := 5, name := "Blue key", sprite := "", groups := [], count := 1 }
         key := 0, use_skull := false, region_name := "" }]
    episodes := [[meta_regions]] }

/-! ## The archive writer (`zip.hpp`: `ZipEntry`, `ZipFile`)

A byte is a number below 256, a string or buffer is the list of its bytes.
The unsigned members are numbers reduced modulo 2^16 or 2^32 where the source
converts to `uint16_t` or `uint32_t`.  `long` is taken to have 64 bits, so
that `ftell` answers with the number of bytes written so far; every `fwrite`
is taken to write all its bytes. -/

/-- The services of zlib that `DoCompress` calls, taken as parameters: the
CRC-32 of a block of bytes, and the raw DEFLATE stream of a block, which is
absent when `deflateInit2` does not answer `Z_OK` or `deflate` does not answer
`Z_STREAM_END`. -/
structure zlib_t where
  crc32 : List Nat → Nat
  deflate : List Nat → Option (List Nat)

structure ZipEntry where
  path : List Nat
  buffer : List Nat
  compression : Nat
  checksum : Nat
  uncomp_size : Nat
  offset : Nat
  is_text : Nat
  moddate : Nat
  modtime : Nat
deriving DecidableEq, Repr

/-- The method `ZipEntry::DoCompress`.  `crc32` and `avail_in` take the size
as a 32-bit number. -/
def ZipEntry.DoCompress (zlib : zlib_t) (entry : ZipEntry) (origbuf : List Nat) : ZipEntry :=
  let orig32 := origbuf.take (origbuf.length % 4294967296)
  match zlib.deflate orig32 with
  | some compressed =>
    { entry with
      uncomp_size := origbuf.length % 4294967296
      checksum := zlib.crc32 orig32 % 4294967296
      buffer := compressed
      compression := 8 }
  | none =>
    { entry with
      uncomp_size := origbuf.length % 4294967296
      checksum := zlib.crc32 orig32 % 4294967296
      buffer := origbuf
      compression := 0 }

/-- The constructors of `ZipEntry`: `DoCompress`, then `SetDateTime`, whose
results `moddate` and `modtime` are given. -/
def ZipEntry.make (zlib : zlib_t) (relative_path buf : List Nat) (moddate modtime : Nat) :
    ZipEntry :=
  { ZipEntry.DoCompress zlib
      { path := relative_path, buffer := [], compression := 0, checksum := 0, uncomp_size := 0,
        offset := 0, is_text := 0, moddate := 0, modtime := 0 } buf with
    moddate := moddate % 65536
    modtime := modtime % 65536 }

/-- The method `ZipFile::AddSStream`: the new value of `entries`. -/
def ZipFile.AddSStream (zlib : zlib_t) (entries : List ZipEntry) (group_path stream : List Nat)
    (moddate modtime : Nat) : List ZipEntry :=
  entries ++ [{ ZipEntry.make zlib group_path stream moddate modtime with is_text := 1 }]

/-- The method `ZipFile::AddFile` for a file that can be read: the new value
of `entries`. -/
def ZipFile.AddFile (zlib : zlib_t) (entries : List ZipEntry) (group_path file_data : List Nat)
    (moddate modtime : Nat) : List ZipEntry :=
  entries ++ [ZipEntry.make zlib group_path file_data moddate modtime]

/-- The method `ZipFile::Write`, as the new content of the file: `len` is the
byte count converted to `int`.  A count whose low 32 bits are 2^31 or more is
a negative `int`, with which `fwrite` reads outside the buffer; there is no
result then. -/
def ZipFile.Write (file bytes : List Nat) : Option (List Nat) :=
  if bytes.length % 4294967296 < 2147483648 then
    some (file ++ bytes.take (bytes.length % 4294967296))
  else none

/-- The two bytes `WriteShort` puts into its buffer: the argument converted to
`uint16_t`, low byte first. -/
def short_bytes (i : Nat) : List Nat := [i % 65536 % 256, i % 65536 / 256 % 256]

/-- The four bytes `WriteLong` puts into its buffer: the argument converted to
`uint32_t`, low byte first. -/
def long_bytes (i : Nat) : List Nat :=
  [i % 4294967296 % 256, i % 4294967296 / 256 % 256, i % 4294967296 / 65536 % 256,
   i % 4294967296 / 16777216 % 256]

def ZipFile.WriteShort (file : List Nat) (i : Nat) : Option (List Nat) :=
  ZipFile.Write file (short_bytes i)

def ZipFile.WriteLong (file : List Nat) (i : Nat) : Option (List Nat) :=
  ZipFile.Write file (long_bytes i)

/-- A run of calls of `Write`, one per block of bytes, in order. -/
def ZipFile.write_blocks : List (List Nat) → List Nat → Option (List Nat)
  | [], file => some file
  | bytes :: rest, file =>
    match ZipFile.Write file bytes with
    | none => none
    | some f => ZipFile.write_blocks rest f

/-- The method `ZipFile::OutputData`: the new content of the file and the
entry with its offset recorded.  Each block is the argument of one call of
`Write`, made directly or by `WriteShort` or `WriteLong`. -/
def ZipFile.OutputData (file : List Nat) (entry : ZipEntry) : Option (List Nat × ZipEntry) :=
  match ZipFile.write_blocks
      [[80, 75, 3, 4],
       short_bytes 20,
       short_bytes (if entry.compression ≠ 0 then 2 else 0),
       short_bytes entry.compression,
       short_bytes entry.modtime,
       short_bytes entry.moddate,
       long_bytes entry.checksum,
       long_bytes entry.buffer.length,
       long_bytes entry.uncomp_size,
       short_bytes entry.path.length,
       short_bytes 0,
       entry.path,
       entry.buffer] file with
  | none => none
  | some f => some (f, { entry with offset := file.length % 4294967296 })

/-- The method `ZipFile::OutputCDFH`. -/
def ZipFile.OutputCDFH (file : List Nat) (entry : ZipEntry) : Option (List Nat) :=
  ZipFile.write_blocks
    [[80, 75, 1, 2],
     short_bytes 20,
     short_bytes 20,
     short_bytes (if entry.compression ≠ 0 then 2 else 0),
     short_bytes entry.compression,
     short_bytes entry.modtime,
     short_bytes entry.moddate,
     long_bytes entry.checksum,
     long_bytes entry.buffer.length,
     long_bytes entry.uncomp_size,
     short_bytes entry.path.length,
     short_bytes 0,
     short_bytes 0,
     short_bytes 0,
     short_bytes entry.is_text,
     long_bytes 0,
     long_bytes entry.offset,
     entry.path] file

/-- The member `eocd_comment`: "apworld created with ap_gen_tool". -/
def eocd_comment : List Nat := "apworld created with ap_gen_tool".data.map Char.toNat

/-- The method `ZipFile::OutputEOCD`; `entry_count` is `entries.size()`. -/
def ZipFile.OutputEOCD (file : List Nat) (entry_count cd_offset cd_size : Nat) :
    Option (List Nat) :=
  ZipFile.write_blocks
    [[80, 75, 5, 6],
     short_bytes 0,
     short_bytes 0,
     short_bytes entry_count,
     short_bytes entry_count,
     long_bytes cd_size,
     long_bytes cd_offset,
     short_bytes eocd_comment.length,
     eocd_comment] file

/-- The first loop of `Finalize`: `OutputData` for every entry in order. -/
def ZipFile.output_entries : List ZipEntry → List Nat → Option (List Nat × List ZipEntry)
  | [], file => some (file, [])
  | entry :: rest, file =>
    match ZipFile.OutputData file entry with
    | none => none
    | some r =>
      match ZipFile.output_entries rest r.1 with
      | none => none
      | some rs => some (rs.1, r.2 :: rs.2)

/-- The second loop of `Finalize`: `OutputCDFH` for every entry in order. -/
def ZipFile.output_directory : List ZipEntry → List Nat → Option (List Nat)
  | [], file => some file
  | entry :: rest, file =>
    match ZipFile.OutputCDFH file entry with
    | none => none
    | some f => ZipFile.output_directory rest f

/-- What a call of `Finalize` leaves: the value it returns and the bytes
written to the archive. -/
structure finalize_result where
  returned : Bool
  written : List Nat
deriving DecidableEq, Repr

/-- The method `ZipFile::Finalize`; `fopen_ok` says whether the archive could
be opened for writing.  The file starts empty (mode "wb"). -/
def ZipFile.Finalize (fopen_ok : Bool) (entries : List ZipEntry) : Option finalize_result :=
  if !fopen_ok then some { returned := false, written := [] }
  else
    match ZipFile.output_entries entries [] with
    | none => none
    | some r =>
      match ZipFile.output_directory r.2 r.1 with
      | none => none
      | some f =>
        match ZipFile.OutputEOCD f entries.length (r.1.length % 4294967296)
            ((f.length % 4294967296 + 4294967296 - r.1.length % 4294967296) % 4294967296) with
        | none => none
        | some g => some { returned := true, written := g }

/-! ## Definitions used to state the properties of the archive -/

/-- One call that adds an entry to the archive writer. -/
inductive zip_add where
  | sstream (group_path stream : List Nat) (moddate modtime : Nat)
  | file (group_path file_data : List Nat) (moddate modtime : Nat)
deriving DecidableEq, Repr

/-- The path given to an add call. -/
def zip_add.path : zip_add → List Nat
  | zip_add.sstream group_path _ _ _ => group_path
  | zip_add.file group_path _ _ _ => group_path

/-- The original, uncompressed bytes given to an add call. -/
def zip_add.data : zip_add → List Nat
  | zip_add.sstream _ stream _ _ => stream
  | zip_add.file _ file_data _ _ => file_data

/-- The value of `entries` after a sequence of add calls. -/
def ZipFile.add_all (zlib : zlib_t) : List zip_add → List ZipEntry → List ZipEntry
  | [], entries => entries
  | zip_add.sstream group_path stream moddate modtime :: rest, entries =>
    ZipFile.add_all zlib rest (ZipFile.AddSStream zlib entries group_path stream moddate modtime)
  | zip_add.file group_path file_data moddate modtime :: rest, entries =>
    ZipFile.add_all zlib rest (ZipFile.AddFile zlib entries group_path file_data moddate modtime)

/-- The number a string of bytes stands for, low byte first. -/
def le_value : List Nat → Nat
  | [] => 0
  | b :: rest => b + 256 * le_value rest

/-- The bytes of a Local File Header followed by the stored data. -/
def lfh_bytes (entry : ZipEntry) : List Nat :=
  [80, 75, 3, 4] ++ short_bytes 20 ++ short_bytes (if entry.compression ≠ 0 then 2 else 0)
    ++ short_bytes entry.compression ++ short_bytes entry.modtime ++ short_bytes entry.moddate
    ++ long_bytes entry.checksum ++ long_bytes entry.buffer.length
    ++ long_bytes entry.uncomp_size ++ short_bytes entry.path.length ++ short_bytes 0
    ++ entry.path ++ entry.buffer

/-- The bytes of a Central Directory File Header. -/
def cdfh_bytes (entry : ZipEntry) : List Nat :=
  [80, 75, 1, 2] ++ short_bytes 20 ++ short_bytes 20
    ++ short_bytes (if entry.compression ≠ 0 then 2 else 0)
    ++ short_bytes entry.compression ++ short_bytes entry.modtime ++ short_bytes entry.moddate
    ++ long_bytes entry.checksum ++ long_bytes entry.buffer.length
    ++ long_bytes entry.uncomp_size ++ short_bytes entry.path.length ++ short_bytes 0
    ++ short_bytes 0 ++ short_bytes 0 ++ short_bytes entry.is_text ++ long_bytes 0
    ++ long_bytes entry.offset ++ entry.path

/-- The bytes of an End Of Central Directory record with its comment. -/
def eocd_bytes (entry_count cd_offset cd_size : Nat) : List Nat :=
  [80, 75, 5, 6] ++ short_bytes 0 ++ short_bytes 0 ++ short_bytes entry_count
    ++ short_bytes entry_count ++ long_bytes cd_size ++ long_bytes cd_offset
    ++ short_bytes eocd_comment.length ++ eocd_comment

/-- The entries with the offsets the first loop of `Finalize` records when it
starts with `start` bytes in the file. -/
def with_offsets : Nat → List ZipEntry → List ZipEntry
  | _, [] => []
  | start, entry :: rest =>
    { entry with offset := start % 4294967296 }
      :: with_offsets (start + (30 + entry.path.length + entry.buffer.length)) rest

/-- A zlib whose DEFLATE never finishes, so that every entry is stored. -/
def zlib_stored : zlib_t := { crc32 := fun _ => 0, deflate := fun _ => none }

/-- A block of 2^31 - 31 zero bytes. -/
def big_data : List Nat := List.replicate 2147483617 0

/-- The entry an add call appends to `entries`. -/
def zip_add.entry (zlib : zlib_t) : zip_add → ZipEntry
  | zip_add.sstream group_path stream moddate modtime =>
    { ZipEntry.make zlib group_path stream moddate modtime with is_text := 1 }
  | zip_add.file group_path file_data moddate modtime =>
    ZipEntry.make zlib group_path file_data moddate modtime

/-- A stored entry of 2^31 - 31 zero bytes whose path is the one byte `p`. -/
def big_entry (p : Nat) : ZipEntry := ZipEntry.make zlib_stored [p] big_data 0 0

/-- Two text entries, "a.json" with a seven-byte JSON object as content and
"b.py" with content `print(1)` and a line end. -/
def two_text_adds : List zip_add :=
  [zip_add.sstream ("a.json".data.map Char.toNat) ("\x7b\"x\":1\x7d".data.map Char.toNat) 0 0,
   zip_add.sstream ("b.py".data.map Char.toNat) ("print(1)\n".data.map Char.toNat) 0 0]

/-- Two stored entries of 2^31 - 31 bytes each, added from files. -/
def big_adds : List zip_add := [zip_add.file [97] big_data 0 0, zip_add.file [98] big_data 0 0]

/-! ## Definitions used to state how the regions reach the locations -/

/-- The second list is the first one with the region name at every position
`j` replaced by `g j` of the old name. -/
def renamed (g : Nat → String → String) (locs locs' : List ap_location_t) : Prop :=
  ∀ j : Nat, locs'[j]? = (locs[j]?).map (fun loc => { loc with region_name := g j loc.region_name })

/-- Whether position `j` is recorded in one of the given sectors of a level. -/
def touched (sectors : List level_sector_t) (owned : List Nat) (j : Nat) : Bool :=
  owned.any (fun s =>
    match sectors[s]? with
    | some sector => sector.locations.contains j
    | none => false)

/-- The region name position `j` holds after the regions of a level have been
gone through in order, starting from the name `init`: every region that owns
a sector in which `j` is recorded overwrites it. -/
def regions_name (level : level_t) (j : Nat) (init : String) : String :=
  level.map_state.regions.foldl
    (fun acc region =>
      if touched level.sectors region.sectors j then level.name ++ " @ " ++ region.name
      else acc)
    init

/-- The sector the sector-filling loop finds for a location: the answer of
the sector query of the map of its level. -/
def sector_of (levels : List level_t) (loc : ap_location_t) : Option Nat :=
  (get_level levels loc.idx).bind (fun l => l.map.point_in_subsector loc.x loc.y)

/-- The sector lists of the level (ep, map) after the sector-filling loop has
gone through the locations from position `i` on. -/
def level_sector_fill (sec : ap_location_t → Option Nat) (ep map : Int) :
    List ap_location_t → Nat → List level_sector_t → List level_sector_t
  | [], _, sectors => sectors
  | loc :: rest, i, sectors =>
    if loc.doom_thing_index < 0 then level_sector_fill sec ep map rest (i + 1) sectors
    else
      match sec loc with
      | some sector =>
        if ep == loc.idx.ep && map == loc.idx.map then
          level_sector_fill sec ep map rest (i + 1) (push_sector_location sectors sector i)
        else level_sector_fill sec ep map rest (i + 1) sectors
      | none => level_sector_fill sec ep map rest (i + 1) sectors

/-- The name of the last region, in region order, that owns the sector `s`,
composed with the level name; the empty string when no region owns it. -/
def owner_region_name (level : level_t) (s : Nat) : String :=
  level.map_state.regions.foldl
    (fun acc region =>
      if s ∈ region.sectors then level.name ++ " @ " ++ region.name else acc)
    ""

/-- Where a location of the compiled catalog comes from: a map object of a
level of the game, with no region name yet, or the level-complete location of
a level, with the region of the exit. -/
def loc_origin (game : game_t) (l : ap_location_t) : Prop :=
  ∃ level ∈ make_levels game, l.idx = level.idx ∧
    ((0 ≤ l.doom_thing_index ∧ l.region_name = "") ∨
     (l.doom_thing_index < 0 ∧ l.region_name = exit_region_name level))

/-- A level without the members the level scan changes (the key flags and the
location count). -/
def level_view (l : level_t) : level_t :=
  { l with keys := [], use_skull := [], location_count := 0 }

/-- What the sector-filling loop does to one location. -/
def fill_loc (levels : List level_t) (loc : ap_location_t) : ap_location_t :=
  if loc.doom_thing_index < 0 then loc
  else
    match sector_of levels loc with
    | some sector => { loc with sector := sector }
    | none => loc

/-- The location list as the sector-filling loop finds it: compiled, remapped
and sorted. -/
def sorted_locations (game : game_t) : List ap_location_t :=
  sort_by_id (fun l => l.id) (remap_locations game (compile_catalog game).2.ap_locations)

/-- A level of the game with the sector lists the sector-filling loop leaves
(and without the members the level scan changes). -/
def filled_level (game : game_t) (l : level_t) : level_t :=
  { level_view l with
    sectors :=
      level_sector_fill (sector_of (make_levels game)) l.idx.ep l.idx.map
        (sorted_locations game) 0 (List.replicate l.map.sector_count { locations := [] }) }

/-- The region name a location has when the location table is written: the
one it was created with for the level-complete location; for a location made
from a map object the name of the last region owning its sector, or the empty
string when the sector query has no answer or no region owns the sector. -/
def final_region_name (level : level_t) (loc : ap_location_t) : String :=
  if loc.doom_thing_index < 0 then loc.region_name
  else
    match level.map.point_in_subsector loc.x loc.y with
    | some s => owner_region_name level s
    | none => ""

/-- The text of a string value. -/
def Json.str_value : Json → Option String
  | Json.str s => some s
  | _ => none

/-! ## Case conversion (`world_opts.cpp`: `to_snake_case`, `to_title_case`)

A `char` of a `std::string` is a character of the text here.  The range tests
of the source (`c >= '0' && c <= '9'` and the like) hold for ASCII characters
only, and `tolower` and `toupper` are those of the "C" locale, in which a
program starts: they change ASCII letters only.  Every byte of a character
outside ASCII fails the range tests and passes `toupper` unchanged, so that
going through the characters gives the text that going through the bytes
gives. -/

/-- The test `c >= '0' && c <= '9'`. -/
def is_digit (c : Char) : Bool := decide ('0'.toNat ≤ c.toNat) && decide (c.toNat ≤ '9'.toNat)

/-- The test `c >= 'A' && c <= 'Z'`. -/
def is_upper (c : Char) : Bool := decide ('A'.toNat ≤ c.toNat) && decide (c.toNat ≤ 'Z'.toNat)

/-- The test `c >= 'a' && c <= 'z'`. -/
def is_lower (c : Char) : Bool := decide ('a'.toNat ≤ c.toNat) && decide (c.toNat ≤ 'z'.toNat)

/-- One turn of the loop of `to_snake_case`: the new value of `ret`. -/
def snake_step (ret : List Char) (c : Char) : List Char :=
  if !(is_digit c) && !(is_upper c) && !(is_lower c) then
    if ret.isEmpty || ret.getLast? != some '_' then ret ++ ['_'] else ret
  else ret ++ [c.toLower]

def to_snake_case (name : String) : String :=
  String.mk (name.data.foldl snake_step [])

/-- One turn of the loop of `to_title_case`: the new values of `ret` and
`capitalize`. -/
def title_step (st : List Char × Bool) (c : Char) : List Char × Bool :=
  (if st.2 then st.1 ++ [c.toUpper] else st.1 ++ [c], !(is_upper c) && !(is_lower c))

def to_title_case (name : String) : String :=
  String.mk (name.data.foldl title_step ([], true)).1

/-! ## Definitions used to state the properties of the case conversion -/

/-- Whether a character is one of [0-9A-Za-z]. -/
def is_alnum (c : Char) : Bool := is_digit c || is_upper c || is_lower c

/-- Whether a character is one of [A-Za-z]. -/
def is_letter (c : Char) : Bool := is_upper c || is_lower c

/-- The maximal runs of a text: it is cut wherever a character of
[0-9A-Za-z] meets a character outside. -/
def alnum_runs (cs : List Char) : List (List Char) :=
  cs.splitBy (fun a b => is_alnum a == is_alnum b)

/-- What the snake-case rule makes of a run: a run of [0-9A-Za-z] keeps its
characters with the letters in lower case, a run of other characters becomes
one underscore. -/
def snake_run (run : List Char) : List Char :=
  if run.all is_alnum then run.map Char.toLower else ['_']

/-- The snake-case rule in the words of the specification: every maximal run
of characters outside [0-9A-Za-z] is replaced by a single underscore and every
letter is put in lower case. -/
def snake_case_by_runs (s : String) : String :=
  String.mk ((alnum_runs s.data).flatMap snake_run)

/-- The title-case rule as the code applies it: a character is put in upper
case when it stands first or follows a character that is not a letter, and is
kept otherwise; `prev` runs through the characters before each position, a
blank standing before the first one. -/
def title_case_by_position (s : String) : String :=
  String.mk (List.zipWith (fun prev c => if is_letter prev then c else c.toUpper)
    (' ' :: s.data) s.data)

/-! ## Modification date and time of an archive entry (`ZipEntry::SetDateTime`, `ZipFile::AddFile`)

`time`, `localtime` and `stat` are the C library's and enter as parameters.
A shift `x << n` is the product of x with 2^n, a shift `x >> n` the quotient
of x by 2^n rounded down. -/

/-- The members of `struct tm` that `SetDateTime` reads. -/
structure tm where
  tm_sec : Int
  tm_min : Int
  tm_hour : Int
  tm_mday : Int
  tm_mon : Int
  tm_year : Int
deriving DecidableEq, Repr

/-- The statement `m |= v` on a member `m` of type `uint16_t` with `v` of type
`int`: the bitwise or is taken on `int`, the result is converted back to
`uint16_t`. -/
def or_assign16 (m : Nat) (v : Int) : Nat := (Int.lor (m : Int) v % 65536).toNat

/-- The method `ZipEntry::SetDateTime`; `datetime` is the answer of
`localtime` for the time given. -/
def ZipEntry.SetDateTime (entry : ZipEntry) (datetime : tm) : ZipEntry :=
  { entry with
    moddate :=
      or_assign16
        (or_assign16 (or_assign16 0 ((datetime.tm_year - 80) * 2 ^ 9))
          ((datetime.tm_mon + 1) * 2 ^ 5))
        datetime.tm_mday
    modtime :=
      or_assign16
        (or_assign16 (or_assign16 0 (datetime.tm_hour * 2 ^ 11)) (datetime.tm_min * 2 ^ 5))
        (datetime.tm_sec / 2 ^ 1) }

/-- The clock of a run: the answer of `time(NULL)`, and `localtime`. -/
structure clock_t where
  now : Int
  localtime : Int → tm

/-- The constructors of `ZipEntry`: `DoCompress`, then `SetDateTime()` with
its default argument `time(NULL)`. -/
def ZipEntry.create (zlib : zlib_t) (clock : clock_t) (relative_path buf : List Nat) : ZipEntry :=
  ZipEntry.SetDateTime
    (ZipEntry.DoCompress zlib
      { path := relative_path, buffer := [], compression := 0, checksum := 0, uncomp_size := 0,
        offset := 0, is_text := 0, moddate := 0, modtime := 0 } buf)
    (clock.localtime clock.now)

/-- What `ZipFile::AddFile` learns of the file at `file_path`: whether `fopen`
opens it, its bytes, whether `stat` answers 0, and the member `st_mtime` of
the answer. -/
structure source_file_t where
  readable : Bool
  file_data : List Nat
  stat_ok : Bool
  st_mtime : Int

/-- The method `ZipFile::AddSStream` with the clock of the run: the value
returned and the new value of `entries`. -/
def ZipFile.AddSStream_at (zlib : zlib_t) (clock : clock_t) (entries : List ZipEntry)
    (group_path stream : List Nat) : Bool × List ZipEntry :=
  (true, entries ++ [{ ZipEntry.create zlib clock group_path stream with is_text := 1 }])

/-- The method `ZipFile::AddFile` with the clock of the run and the source
file: the value returned and the new value of `entries`. -/
def ZipFile.AddFile_from (zlib : zlib_t) (clock : clock_t) (entries : List ZipEntry)
    (group_path : List Nat) (f : source_file_t) : Bool × List ZipEntry :=
  if !f.readable then (false, entries)
  else
    let e := ZipEntry.create zlib clock group_path f.file_data
    (true,
      entries ++ [if f.stat_ok then ZipEntry.SetDateTime e (clock.localtime f.st_mtime) else e])

/-! ## Definitions used to state the properties of the date and time -/

/-- The standard decoding of an MS-DOS date: year, month, day. -/
def dos_year (date : Nat) : Nat := 1980 + date / 512

def dos_month (date : Nat) : Nat := date / 32 % 16

def dos_day (date : Nat) : Nat := date % 32

/-- The standard decoding of an MS-DOS time: hour, minute, second (the stored
number counts two seconds). -/
def dos_hour (time : Nat) : Nat := time / 2048

def dos_minute (time : Nat) : Nat := time / 32 % 64

def dos_second (time : Nat) : Nat := 2 * (time % 32)

/-- Whether the members of a broken-down time are inside the ranges the C
standard gives them (seconds up to 60 for a leap second), with the year from
1980 to 2107. -/
def tm_in_range (datetime : tm) : Prop :=
  1980 ≤ datetime.tm_year + 1900 ∧ datetime.tm_year + 1900 ≤ 2107 ∧
  0 ≤ datetime.tm_mon ∧ datetime.tm_mon ≤ 11 ∧
  1 ≤ datetime.tm_mday ∧ datetime.tm_mday ≤ 31 ∧
  0 ≤ datetime.tm_hour ∧ datetime.tm_hour ≤ 23 ∧
  0 ≤ datetime.tm_min ∧ datetime.tm_min ≤ 59 ∧
  0 ≤ datetime.tm_sec ∧ datetime.tm_sec ≤ 60

/-- The packed date and time `SetDateTime` stores for a broken-down time. -/
def packed_date_time (datetime : tm) : Nat × Nat :=
  ((ZipEntry.SetDateTime
      { path := [], buffer := [], compression := 0, checksum := 0, uncomp_size := 0,
        offset := 0, is_text := 0, moddate := 0, modtime := 0 } datetime).moddate,
   (ZipEntry.SetDateTime
      { path := [], buffer := [], compression := 0, checksum := 0, uncomp_size := 0,
        offset := 0, is_text := 0, moddate := 0, modtime := 0 } datetime).modtime)

/-- A clock that reads 2024-05-06 07:08:09 now and 2001-02-03 04:05:06 at
time 1000. -/
def clock_2024 : clock_t :=
  { now := 2000
    localtime := fun t =>
      if t = 1000 then
        { tm_sec := 6, tm_min := 5, tm_hour := 4, tm_mday := 3, tm_mon := 1, tm_year := 101 }
      else
        { tm_sec := 9, tm_min := 8, tm_hour := 7, tm_mday := 6, tm_mon := 4, tm_year := 124 } }

/-- A readable file of three bytes, last modified at time 1000, whose `stat`
fails. -/
def file_without_stat : source_file_t :=
  { readable := true, file_data := [1, 2, 3], stat_ok := false, st_mtime := 1000 }

/-- The same file with a `stat` that answers. -/
def file_with_stat : source_file_t :=
  { readable := true, file_data := [1, 2, 3], stat_ok := true, st_mtime := 1000 }

/-! ## Definitions used to state the properties of the requirement names -/

/-- In the words of the specification: `x` is the first element of `l` with
the property `p`. -/
def first_with {α : Type} (p : α → Bool) (l : List α) (x : α) : Prop :=
  ∃ pre post : List α, l = pre ++ x :: post ∧ p x = true ∧ ∀ y ∈ pre, p y = false

/-- A game whose general item-requirement catalog names the code 7 "ERROR". -/
def game_error_name : game_t :=
  { game_empty with
    item_requirements :=
      [{ doom_type := 7, name := "ERROR", sprite := "", groups := [], count := 1 }] }
/-! ## More inputs -/

/-- A key definition "Blue" of type 5. -/
def key_def_blue : ap_key_def_t :=
  { item := item_def_5, key := 0, use_skull := false, region_name := "" }

/-- The globals with one item named "L1 - Blue". -/
def state_blue_key : gen_state :=
  { empty_state with ap_items := [item_named "L1 - Blue" 10100005] }

/-! ## World options (`world_opts.cpp`, with `PyOption` of `python.hpp` and `get_item_name` of `data.cpp`)

The file-level variables of `world_opts.cpp` are the fields of
`world_opt_state`, threaded through every handler.  The conversions `asString`
and `asInt` of jsoncpp and the function `Py_QuoteString` (declared in
`python.hpp`, defined outside the sources) enter as parameters; the other
jsoncpp calls are read on `Json`.  A jsoncpp call that throws (`get` on a
value that is neither an object nor null, a conversion that is not possible)
ends the run with that exception and has no counterpart here. -/

/-- Services that are not part of the sources. -/
structure library_t where
  asString : Json → String
  asInt : Json → Int
  Py_QuoteString : String → String

/-- The call `value.get(key, defaultValue)`. -/
def Json.get (value : Json) (key : String) (defaultValue : Json) : Json :=
  match value with
  | Json.obj members => (members.lookup key).getD defaultValue
  | _ => defaultValue

/-- The expression `value[key]` on a constant value: null without the
member. -/
def Json.member (value : Json) (key : String) : Json := Json.get value key Json.null

def Json.isArray : Json → Bool
  | Json.arr _ => true
  | _ => false

/-- The call `value.get(index, defaultValue)`. -/
def Json.get_index (value : Json) (index : Nat) (defaultValue : Json) : Json :=
  match value with
  | Json.arr items => items.getD index defaultValue
  | _ => defaultValue

/-- The values a range-based `for` over a value goes through: the elements
of an array, the member values of an object, nothing otherwise. -/
def Json.elements : Json → List Json
  | Json.arr items => items
  | Json.obj members => members.map (fun m => m.2)
  | _ => []

/-- The function `get_item_name` of `data.cpp`: the name of the first template
with the type code, the catalogs taken in the order progression, useful,
filler, unique progression, unique useful, unique filler (`get_item_index`
followed by the indexing is the search for the first match). -/
def get_item_name (game : game_t) (doom_type : Int) : String :=
  match game.progression.find? (fun item => item.doom_type == doom_type) with
  | some item => item.name
  | none =>
    match game.useful.find? (fun item => item.doom_type == doom_type) with
    | some item => item.name
    | none =>
      match game.filler.find? (fun item => item.doom_type == doom_type) with
      | some item => item.name
      | none =>
        match game.unique_progression.find? (fun item => item.doom_type == doom_type) with
        | some item => item.name
        | none =>
          match game.unique_useful.find? (fun item => item.doom_type == doom_type) with
          | some item => item.name
          | none =>
            match game.unique_filler.find? (fun item => item.doom_type == doom_type) with
            | some item => item.name
            | none => "(no item)"

/-! ### Option descriptors (`PyOption`) -/

inductive PyOptionType where
  | Removed
  | InID1Common
  | Toggle
  | Choice
  | Range
  | OptionSet
  | CheckSanity
  | Episode
  | InvisibilityTrap
  | StartWithMaps
  | CapacitySplit
  | CapacityCount
deriving DecidableEq, Repr

structure PyOption where
  docstring : List String
  default_int : Int
  default_list : List String
  option_list : List String
  doom_type : Int
  range_start : Int
  range_end : Int
  is_minor_episode : Bool
  split_item_count : Int
  option_group : String
  type : PyOptionType
  data_name : String
  display_name : String
  has_own_class : Bool
  class_name : String
deriving DecidableEq, Repr

/-- One turn of the loop of the constructor that converts `data_name` to a
class name: the new values of `class_name` and `next_upper`. -/
def class_name_step (st : List Char × Bool) (c : Char) : List Char × Bool :=
  if is_digit c then (st.1 ++ [c], true)
  else if is_upper c then (st.1 ++ [c], false)
  else if is_lower c then (st.1 ++ [if st.2 then Char.ofNat (c.toNat - 32) else c], false)
  else (st.1, true)

/-- The constructor `PyOption(dname, type)`. -/
def PyOption.plain (dname : String) (type : PyOptionType) : PyOption :=
  { docstring := [], default_int := -9999, default_list := [], option_list := [], doom_type := 0,
    range_start := 0, range_end := 0, is_minor_episode := false, split_item_count := 0,
    option_group := "", type := type, data_name := dname, display_name := "",
    has_own_class := false, class_name := "" }

/-- The constructor `PyOption(dname, name, type)`. -/
def PyOption.named (dname name : String) (type : PyOptionType) : PyOption :=
  match type with
  | PyOptionType.Removed => { PyOption.plain dname type with display_name := name }
  | PyOptionType.InID1Common =>
    { PyOption.plain dname type with display_name := name, class_name := name }
  | _ =>
    { PyOption.plain dname type with
      display_name := name
      has_own_class := true
      class_name := String.mk (dname.data.foldl class_name_step ([], true)).1 }

/-! ### State of the option handlers -/

structure diff_info_t where
  preset : Int
  skill_5_warning : String
  json : List Json

structure default_difficulty_t where
  name : String
  description : String
deriving DecidableEq, Repr

def difficulties_doom : List default_difficulty_t :=
  [{ name := "baby",
     description := "Damage taken is halved. Ammo received from pickups is doubled." },
   { name := "easy", description := "Lesser number or strength of monsters, and more pickups." },
   { name := "medium", description := "The default skill. Balanced monsters and pickups." },
   { name := "hard", description := "Greater number or strength of monsters, and less pickups." },
   { name := "nightmare",
     description := "Monsters are faster, more aggressive, and respawn." }]

def difficulties_heretic : List default_difficulty_t :=
  [{ name := "wet nurse",
     description := "Damage taken is halved. Ammo received from pickups is doubled. Quartz Flasks and Mystic Urns are automatically used when the player nears death." },
   { name := "easy", description := "Lesser number or strength of monsters, and more pickups." },
   { name := "medium", description := "The default skill. Balanced monsters and pickups." },
   { name := "hard", description := "Greater number or strength of monsters, and less pickups." },
   { name := "black plague", description := "Monsters are faster and more aggressive." }]

structure swm_info_t where
  doom_type : Int
  plural_name : String
  class_name : String
deriving DecidableEq, Repr

structure invis_info_t where
  doom_type : Int
  class_name : String
deriving DecidableEq, Repr

structure capacitytype_t where
  name : String
  class_suffix : String
  capacity : Int
deriving DecidableEq, Repr

structure capupg_info_t where
  doom_type : Int
  item_count : Int
  plural_name : String
  split_class : String
  count_class : String
deriving DecidableEq, Repr

/-- The file-level variables of `world_opts.cpp`. -/
structure world_opt_state where
  diff_info : diff_info_t
  swm_info : swm_info_t
  invis_info : invis_info_t
  cac_ammo_types : List capacitytype_t
  capupg_info : capupg_info_t
  initialized_world_options : List String

/-! ### World option: Difficulty -/

def Difficulty_Init (L : library_t) (_game : game_t) (json : Json) (w : world_opt_state) :
    world_opt_state :=
  let preset := L.asString (Json.get json "preset" (Json.str ""))
  if preset = "Doom" then { w with diff_info := { w.diff_info with json := [], preset := 1 } }
  else if preset = "Heretic" then
    { w with diff_info := { w.diff_info with json := [], preset := 2 } }
  else
    { w with
      diff_info :=
        { preset := 0
          skill_5_warning := L.asString (Json.get json "skill_5_warning" (Json.str ""))
          json :=
            if (Json.member json "list").isArray then
              (List.range 5).map (fun i => Json.get_index (Json.member json "list") i (Json.obj []))
            else List.replicate 5 Json.null } }

/-- The locals `opt.docstring`, `choices` and `aliases` of
`Difficulty_InsertPyOptions`. -/
structure difficulty_rows where
  docstring : List String
  choices : List String
  aliases : List String
deriving DecidableEq, Repr

/-- One turn of the loop `for (int i = 0; i < 5; ++i)` of
`Difficulty_InsertPyOptions`.  `Difficulty_Init` leaves five elements in
`diff_info.json` whenever this loop is reached; an element that is not there
reads as null here. -/
def difficulty_row (L : library_t) (diff_strings : List default_difficulty_t)
    (json : List Json) (rows : difficulty_rows) (i : Nat) : difficulty_rows :=
  let full_name := L.asString (Json.get (json.getD i Json.null) "full_name" (Json.str ""))
  let opt_name := L.asString (Json.get (json.getD i Json.null) "option_name"
    (Json.str (diff_strings.getD i { name := "", description := "" }).name))
  if full_name = "" then rows
  else
    { docstring :=
        rows.docstring ++ ["**" ++ opt_name ++ "**: (" ++ full_name ++ ") - "
          ++ (diff_strings.getD i { name := "", description := "" }).description]
      choices := rows.choices ++ ["option_" ++ to_snake_case opt_name ++ " = " ++ Nat.repr i]
      aliases :=
        rows.aliases ++
          (Json.get (json.getD i Json.null) "aliases" (Json.arr [])).elements.map
            (fun alias_json =>
              "alias_" ++ to_snake_case (L.asString alias_json) ++ " = " ++ Nat.repr i) }

def Difficulty_InsertPyOptions (L : library_t) (game : game_t) (w : world_opt_state)
    (options : List PyOption) : List PyOption :=
  if w.diff_info.preset = 1 then
    options ++ [{ PyOption.named "difficulty" "DifficultyDoom" PyOptionType.InID1Common with
                  option_group := "Difficulty Options" }]
  else if w.diff_info.preset = 2 then
    options ++ [{ PyOption.named "difficulty" "DifficultyHeretic" PyOptionType.InID1Common with
                  option_group := "Difficulty Options" }]
  else
    let diff_strings :=
      if game.iwad_name = "HERETIC.WAD" then difficulties_heretic else difficulties_doom
    let rows := (List.range 5).foldl (difficulty_row L diff_strings w.diff_info.json)
      { docstring := ["Choose the game difficulty (skill level).", ""], choices := [],
        aliases := [] }
    options ++ [{ PyOption.named "difficulty" "Difficulty" PyOptionType.Choice with
                  option_group := "Difficulty Options"
                  docstring := rows.docstring
                  option_list :=
                    (if w.diff_info.skill_5_warning ≠ "" then
                      ["skill_5_warning = " ++ L.Py_QuoteString w.diff_info.skill_5_warning]
                     else [])
                      ++ rows.choices ++ rows.aliases
                  default_int := 2 }]

def Null_InsertWorldHook (_game : game_t) (_hook_type : String) (_w : world_opt_state)
    (hook : List String) : List String :=
  hook

/-! ### World option: Start with Maps -/

def StartWithMaps_Init (L : library_t) (game : game_t) (json : Json) (w : world_opt_state) :
    world_opt_state :=
  let doom_type := L.asInt (Json.get json "doom_type"
    (Json.int (if game.iwad_name = "HERETIC.WAD" then 35 else 2026)))
  let singular := get_item_name game doom_type
  let plural_name := L.asString (Json.get json "plural_name" (Json.str (singular ++ "s")))
  { w with
    swm_info :=
      { doom_type := doom_type
        plural_name := plural_name
        class_name := "start_with_" ++ to_snake_case plural_name } }

def StartWithMaps_InsertWorldHook (_game : game_t) (hook_type : String) (w : world_opt_state)
    (hook : List String) : List String :=
  if hook_type ≠ "create_items" then hook
  else
    hook ++
      ["map_opt = self.options." ++ w.swm_info.class_name,
       "if map_opt.value:",
       "    map_items = [pop_from_pool(i.name) for i in self.matching_items(doom_type=map_opt.doom_type).values()]",
       "    [self.multiworld.push_precollected(self.create_item(n)) for n in map_items if n is not None]"]

def StartWithMaps_InsertPyOptions (_L : library_t) (_game : game_t) (w : world_opt_state)
    (options : List PyOption) : List PyOption :=
  if w.swm_info.doom_type = 2026 ∧ w.swm_info.plural_name = "Computer area maps" then
    options ++
      [{ PyOption.named w.swm_info.class_name "StartWithComputerAreaMaps"
           PyOptionType.InID1Common with
         option_group := "Randomizer Options" }]
  else if w.swm_info.doom_type = 35 ∧ w.swm_info.plural_name = "Map Scrolls" then
    options ++
      [{ PyOption.named w.swm_info.class_name "StartWithMapScrolls" PyOptionType.InID1Common with
         option_group := "Randomizer Options" }]
  else
    options ++
      [{ PyOption.named w.swm_info.class_name
           ("Start With " ++ to_title_case w.swm_info.plural_name) PyOptionType.StartWithMaps with
         option_group := "Randomizer Options"
         docstring :=
           ["If enabled, all " ++ w.swm_info.plural_name
             ++ " will be given to the player from the start."]
         doom_type := w.swm_info.doom_type }]

/-! ### World option: Invis as Trap -/

def InvisAsTrap_Init (L : library_t) (game : game_t) (json : Json) (w : world_opt_state) :
    world_opt_state :=
  let doom_type := L.asInt (Json.get json "doom_type" (Json.int 2024))
  { w with
    invis_info :=
      { doom_type := doom_type
        class_name := to_snake_case (get_item_name game doom_type) ++ "_as_trap" } }

def InvisAsTrap_InsertWorldHook (_game : game_t) (hook_type : String) (w : world_opt_state)
    (hook : List String) : List String :=
  if hook_type ≠ "create_item" then hook
  else
    hook ++
      ["invis_trap = self.options." ++ w.invis_info.class_name,
       "if invis_trap.value and item_data.doom_type == invis_trap.doom_type:",
       "    classification = AP.ItemClassification.trap"]

def InvisAsTrap_InsertPyOptions (_L : library_t) (game : game_t) (w : world_opt_state)
    (options : List PyOption) : List PyOption :=
  let invis_name := get_item_name game w.invis_info.doom_type
  if w.invis_info.doom_type = 2024 ∧ invis_name = "Partial invisibility" then
    options ++
      [{ PyOption.plain w.invis_info.class_name PyOptionType.InvisibilityTrap with
         option_group := "Randomizer Options" }]
  else
    options ++
      [{ PyOption.named w.invis_info.class_name (to_title_case invis_name ++ " as Trap")
           PyOptionType.InvisibilityTrap with
         option_group := "Randomizer Options"
         docstring :=
           ["If enabled, " ++ invis_name
              ++ " will be classified as a trap, rather than just filler.",
            "This does not change how the item behaves, only how Archipelago sees it."]
         doom_type := w.invis_info.doom_type }]

/-! ### World option: Custom Ammo Capacity -/

def CustomAmmoCapacity_Init (L : library_t) (game : game_t) (_json : Json)
    (w : world_opt_state) : world_opt_state :=
  { w with
    cac_ammo_types :=
      (Json.get game.json_game_info "ammo" (Json.arr [])).elements.map
        (fun ammo =>
          { name := L.asString (Json.get ammo "name" (Json.str "(no name)"))
            class_suffix :=
              to_snake_case (L.asString (Json.get ammo "name" (Json.str "(no name)")))
            capacity := L.asInt (Json.get ammo "max" (Json.int 0)) }) }

def CustomAmmoCapacity_InsertWorldHook (_game : game_t) (hook_type : String)
    (w : world_opt_state) (hook : List String) : List String :=
  if hook_type ≠ "fill_slot_data" then hook
  else
    hook ++ ["slot_data[\"ammo_start\"] = ["]
      ++ w.cac_ammo_types.map
          (fun ammo_type => "    self.options.max_ammo_" ++ ammo_type.class_suffix ++ ".value,")
      ++ ["]", "slot_data[\"ammo_add\"] = ["]
      ++ w.cac_ammo_types.map
          (fun ammo_type => "    self.options.added_ammo_" ++ ammo_type.class_suffix ++ ".value,")
      ++ ["]"]

def CustomAmmoCapacity_InsertPyOptions (_L : library_t) (_game : game_t) (w : world_opt_state)
    (options : List PyOption) : List PyOption :=
  options
    ++ w.cac_ammo_types.map
        (fun ammo_type =>
          { PyOption.named ("max_ammo_" ++ ammo_type.class_suffix)
              ("Max Ammo - " ++ ammo_type.name) PyOptionType.Range with
            docstring := ["Set the starting capacity for " ++ ammo_type.name ++ "."]
            option_group := "Ammo Capacity"
            range_start := ammo_type.capacity
            range_end := 999
            default_int := ammo_type.capacity })
    ++ w.cac_ammo_types.map
        (fun ammo_type =>
          { PyOption.named ("added_ammo_" ++ ammo_type.class_suffix)
              ("Added Ammo - " ++ ammo_type.name) PyOptionType.Range with
            docstring :=
              ["Set how much capacity for " ++ ammo_type.name
                ++ " will be added when a capacity upgrade is obtained."]
            option_group := "Ammo Capacity"
            range_start := Int.tdiv ammo_type.capacity 10
            range_end := 999
            default_int := ammo_type.capacity })

/-! ### World option: Capacity Upgrades -/

def CapacityUpgrades_Init (L : library_t) (game : game_t) (json : Json) (w : world_opt_state) :
    world_opt_state :=
  let doom_type := L.asInt (Json.get json "doom_type" (Json.int 8))
  let singular := get_item_name game doom_type
  { w with
    capupg_info :=
      { doom_type := doom_type
        plural_name :=
          L.asString (Json.get json "combined_plural_name" (Json.str (singular ++ "s")))
        split_class := "split_" ++ to_snake_case singular
        count_class := to_snake_case singular ++ "_count"
        item_count :=
          L.asInt (Json.get json "item_count"
            (Json.int (if game.iwad_name = "HERETIC.WAD" then 6 else 4))) } }

def CapacityUpgrades_InsertWorldHook (_game : game_t) (hook_type : String)
    (w : world_opt_state) (hook : List String) : List String :=
  if hook_type ≠ "create_items" then hook
  else
    hook ++
      ["split_opt = self.options." ++ w.capupg_info.split_class,
       "split_items = [i for i in self.matching_items(doom_type=split_opt.split_doom_types).values()]",
       "combined_items = [i for i in self.matching_items(doom_type=split_opt.doom_type).values()]",
       "",
       "# Remove stray capacity upgrades of all types from the pool",
       "item_names = [i.name for i in split_items] + [i.name for i in combined_items]",
       "itempool = [n for n in itempool if n not in item_names]",
       "",
       "# Insert requested types and count of capacity upgrades",
       "if split_opt.value:",
       "    itempool += [i.name for i in split_items for _ in range(self.options."
         ++ w.capupg_info.count_class ++ ".value)]",
       "else:",
       "    itempool += [i.name for i in combined_items for _ in range(self.options."
         ++ w.capupg_info.count_class ++ ".value)]"]

def CapacityUpgrades_InsertPyOptions (_L : library_t) (game : game_t) (w : world_opt_state)
    (options : List PyOption) : List PyOption :=
  let singular := get_item_name game w.capupg_info.doom_type
  if w.capupg_info.doom_type = 8 ∧ singular = "Backpack" ∧ w.capupg_info.item_count = 4 then
    options ++
      [{ PyOption.named w.capupg_info.split_class "SplitBackpack" PyOptionType.InID1Common with
         option_group := "Randomizer Options" },
       { PyOption.named w.capupg_info.count_class "BackpackCount" PyOptionType.InID1Common with
         option_group := "Randomizer Options" }]
  else if w.capupg_info.doom_type = 8 ∧ singular = "Bag of Holding"
      ∧ w.capupg_info.item_count = 6 then
    options ++
      [{ PyOption.named w.capupg_info.split_class "SplitBagOfHolding"
           PyOptionType.InID1Common with
         option_group := "Randomizer Options" },
       { PyOption.named w.capupg_info.count_class "BagOfHoldingCount"
           PyOptionType.InID1Common with
         option_group := "Randomizer Options" }]
  else
    options ++
      [{ PyOption.named w.capupg_info.split_class ("Split " ++ to_title_case singular)
           PyOptionType.CapacitySplit with
         option_group := "Randomizer Options"
         docstring :=
           ["Split the " ++ singular ++ " into " ++ Int.repr w.capupg_info.item_count
              ++ " individual items, "
              ++ "each one increasing ammo capacity for one type of weapon only."]
         doom_type := w.capupg_info.doom_type
         split_item_count := w.capupg_info.item_count },
       { PyOption.named w.capupg_info.count_class (to_title_case singular ++ " Count")
           PyOptionType.CapacityCount with
         option_group := "Randomizer Options"
         docstring :=
           ["How many " ++ w.capupg_info.plural_name ++ " will be available.",
            "If " ++ ("Split " ++ to_title_case singular)
              ++ " is set, this will be the number of each capacity upgrade available."] }]

/-! ### The handler table and the entry points -/

/-- The three functions of a world option; each takes the file-level
variables it reads, `init` returns the ones it has written. -/
structure WorldOptHandlers where
  init : game_t → Json → world_opt_state → world_opt_state
  mix_worldhooks : game_t → String → world_opt_state → List String → List String
  mix_pyoptions : game_t → world_opt_state → List PyOption → List PyOption

/-- The table `handlers`, in key order. -/
def handlers (L : library_t) : List (String × WorldOptHandlers) :=
  [("Capacity Upgrades",
      { init := CapacityUpgrades_Init L, mix_worldhooks := CapacityUpgrades_InsertWorldHook,
        mix_pyoptions := CapacityUpgrades_InsertPyOptions L }),
   ("Custom Ammo Capacity",
      { init := CustomAmmoCapacity_Init L, mix_worldhooks := CustomAmmoCapacity_InsertWorldHook,
        mix_pyoptions := CustomAmmoCapacity_InsertPyOptions L }),
   ("Difficulty",
      { init := Difficulty_Init L, mix_worldhooks := Null_InsertWorldHook,
        mix_pyoptions := Difficulty_InsertPyOptions L }),
   ("Invis as Trap",
      { init := InvisAsTrap_Init L, mix_worldhooks := InvisAsTrap_InsertWorldHook,
        mix_pyoptions := InvisAsTrap_InsertPyOptions L }),
   ("Start with Maps",
      { init := StartWithMaps_Init L, mix_worldhooks := StartWithMaps_InsertWorldHook,
        mix_pyoptions := StartWithMaps_InsertPyOptions L })]

/-- The local `option_name` of `WorldOptions_Init`. -/
def option_name (L : library_t) (option : Json) : String :=
  L.asString (Json.get option "name" (Json.str "(no name)"))

/-- One turn of the loop of `WorldOptions_Init`: the new values of `unknown`
and of the file-level variables. -/
def WorldOptions_Init_step (L : library_t) (game : game_t) (r : Int × world_opt_state)
    (option : Json) : Int × world_opt_state :=
  match (handlers L).lookup (option_name L option) with
  | none => (r.1 + 1, r.2)
  | some handler =>
    (r.1,
      { handler.init game option r.2 with
        initialized_world_options :=
          (handler.init game option r.2).initialized_world_options ++ [option_name L option] })

/-- The function `WorldOptions_Init`: the value returned and the file-level
variables it leaves. -/
def WorldOptions_Init (L : library_t) (game : game_t) (w : world_opt_state) :
    Int × world_opt_state :=
  game.json_world_options.elements.foldl (WorldOptions_Init_step L game)
    (0, { w with initialized_world_options := [] })

/-- The statement `content.resize(content.size() + line_breaks, "")`: the new
size is computed on `size_t` (64 bits). -/
def resize_lines (content : List String) (line_breaks : Int) : List String :=
  content.take ((((content.length : Int) + line_breaks) % 18446744073709551616).toNat)
    ++ List.replicate
        ((((content.length : Int) + line_breaks) % 18446744073709551616).toNat - content.length) ""

/-- One turn of the loop "Mix in option hooks" of `WorldOptions_GetAllHooks`.
Every name in `initialized_world_options` was found in the table by
`WorldOptions_Init`; a name that is not there adds nothing here. -/
def option_hooks_step (L : library_t) (game : game_t) (hook_type : String) (line_breaks : Int)
    (w : world_opt_state) (content : List String) (opt_name : String) : List String :=
  match (handlers L).lookup opt_name with
  | none => content
  | some handler =>
    if (handler.mix_worldhooks game hook_type w []).isEmpty then content
    else
      resize_lines
        (content ++ ["######## Custom code for world option '" ++ opt_name ++ "' begins here ########"]
          ++ handler.mix_worldhooks game hook_type w []
          ++ ["######## Custom code for world option '" ++ opt_name ++ "' ends here ########"])
        line_breaks

/-- The function `WorldOptions_GetAllHooks`: the value of `content` it
returns. -/
def WorldOptions_GetAllHooks (L : library_t) (game : game_t) (hook_type : String)
    (line_breaks : Int) (w : world_opt_state) : List String :=
  w.initialized_world_options.foldl (option_hooks_step L game hook_type line_breaks w)
    (match game.world_hooks.lookup hook_type with
     | some lines =>
       resize_lines
         (["######## Custom code for this world begins here ########"] ++ lines
           ++ ["######## Custom code for this world ends here ########"])
         line_breaks
     | none => [])

/-- The function `WorldOptions_MixinPyOptions`: the new value of `pyopts`. -/
def WorldOptions_MixinPyOptions (L : library_t) (game : game_t) (w : world_opt_state)
    (pyopts : List PyOption) : List PyOption :=
  w.initialized_world_options.foldl
    (fun opts opt_name =>
      match (handlers L).lookup opt_name with
      | none => opts
      | some handler => handler.mix_pyoptions game w opts)
    pyopts

/-! ### Definitions used to state the properties of the world options -/

/-- Whether a name is a key of the handler table (`handlers.count`). -/
def known_option (L : library_t) (name : String) : Bool :=
  ((handlers L).lookup name).isSome

/-- A jsoncpp whose conversions answer the text of a string and the number of
an integer, and nothing (the empty text, 0) for any other value; quoting puts
a text between double quotes. -/
def library_plain : library_t :=
  { asString := fun value =>
      match value with
      | Json.str s => s
      | _ => ""
    asInt := fun value =>
      match value with
      | Json.int n => n
      | _ => 0
    Py_QuoteString := fun s => "\"" ++ s ++ "\"" }

/-- The file-level variables of `world_opts.cpp` when the program starts. -/
def world_opt_start : world_opt_state :=
  { diff_info := { preset := 0, skill_5_warning := "", json := [] }
    swm_info := { doom_type := 0, plural_name := "", class_name := "" }
    invis_info := { doom_type := 0, class_name := "" }
    cac_ammo_types := []
    capupg_info :=
      { doom_type := 0, item_count := 0, plural_name := "", split_class := "",
        count_class := "" }
    initialized_world_options := [] }

/-- A game that configures the option "Invis as Trap" twice, an unknown
option "Speed" in between. -/
def game_invis_twice : game_t :=
  { game_empty with
    json_world_options :=
      Json.arr
        [Json.obj [("name", Json.str "Invis as Trap")],
         Json.obj [("name", Json.str "Speed")],
         Json.obj [("name", Json.str "Invis as Trap")]] }

/-- A game that configures three options, the second one unknown. -/
def game_three_options : game_t :=
  { game_empty with
    json_world_options :=
      Json.arr
        [Json.obj [("name", Json.str "Start with Maps")],
         Json.obj [("name", Json.str "Speed")],
         Json.obj [("name", Json.str "Invis as Trap")]] }

/-- The names of the configured option entries, in declaration order. -/
def configured_names (L : library_t) (game : game_t) : List String :=
  game.json_world_options.elements.map (option_name L)

/-- What the walk does for one entry with a known name: the `Init` of its
handler, then the recording of the name. -/
def init_entry (L : library_t) (game : game_t) (w : world_opt_state) (option : Json) :
    world_opt_state :=
  (WorldOptions_Init_step L game (0, w) option).2

/-- The option descriptors the handler of an option contributes. -/
def option_descriptors (L : library_t) (game : game_t) (w : world_opt_state)
    (opt_name : String) : List PyOption :=
  match (handlers L).lookup opt_name with
  | none => []
  | some handler => handler.mix_pyoptions game w []

/-- The hook block of an option for a hook point: nothing when the handler
has no line for it, otherwise its lines between the two marker lines naming
the option, followed by `line_breaks` empty lines. -/
def option_hook_block (L : library_t) (game : game_t) (hook_type : String) (line_breaks : Nat)
    (w : world_opt_state) (opt_name : String) : List String :=
  match (handlers L).lookup opt_name with
  | none => []
  | some handler =>
    if handler.mix_worldhooks game hook_type w [] = [] then []
    else
      ["######## Custom code for world option '" ++ opt_name ++ "' begins here ########"]
        ++ handler.mix_worldhooks game hook_type w []
        ++ ["######## Custom code for world option '" ++ opt_name ++ "' ends here ########"]
        ++ List.replicate line_breaks ""

/-- The block of the custom lines of the game for a hook point: nothing when
the game has no entry for it. -/
def custom_hook_block (game : game_t) (hook_type : String) (line_breaks : Nat) : List String :=
  match game.world_hooks.lookup hook_type with
  | none => []
  | some lines =>
    ["######## Custom code for this world begins here ########"] ++ lines
      ++ ["######## Custom code for this world ends here ########"]
      ++ List.replicate line_breaks ""

/-! ## A run in a process that has made other runs (`generate`, the statements at its head)

The globals of `generate.cpp` and the file-level variables of `world_opts.cpp`
keep their values from one call of `generate` to the next.  A run starts from
the values the run before left, whatever game it was made for. -/

/-- The statements at the head of `generate` that give the globals of
`generate.cpp` their values for the run: the calls of `clear()` on `ap_items`,
`ap_locations`, `item_name_groups` and `level_to_keycards`, the counter of
missing exits (a local) and the assignment of `use_extended_names`.  No
statement assigns `location_next_id`. -/
def reset_globals (game : game_t) (prior : gen_state) : gen_state :=
  { prior with
    ap_items := []
    ap_locations := []
    item_name_groups := []
    level_to_keycards := []
    use_extended_names := game.extended_names
    warning_count_no_exit := 0 }

/-- Catalog compilation of a run that finds the globals as `prior`. -/
def compile_catalog_from (game : game_t) (prior : gen_state) : List level_t × gen_state :=
  let st0 := add_global_items game (reset_globals game prior)
  let r := compile_levels game (make_levels game) st0
  (r.1, r.1.foldl (fun s level => add_level_items game level s) r.2)

/-- The catalog as the output phase sees it, in a run that finds the globals
as `prior`. -/
def final_catalog_from (game : game_t) (prior : gen_state) : List level_t × gen_state :=
  let r := compile_catalog_from game prior
  let locations := sort_by_id (fun l => l.id) (remap_locations game r.2.ap_locations)
  let items := sort_by_id (fun it => it.id) (remap_items game r.2.ap_items)
  let f := fill_sectors locations 0 r.1
  (f.2, { r.2 with ap_locations := f.1, ap_items := items })

/-! ## Definitions used to state what a run reads of the runs before it -/

/-- The two values of `diff_info` agree in what `Difficulty_InsertPyOptions`
reads: the preset, and with a preset other than 1 and 2 the warning text and
the five entries. -/
def diff_reads_agree (d1 d2 : diff_info_t) : Prop :=
  d1.preset = d2.preset ∧
  (d1.preset ≠ 1 → d1.preset ≠ 2 →
    d1.skill_5_warning = d2.skill_5_warning ∧ d1.json = d2.json)

/-- Two values of the file-level variables of `world_opts.cpp` agree in what
the handlers of the initialized options read: the list of initialized options
is the same, and the variables of every option of that list agree. -/
def reads_agree (w1 w2 : world_opt_state) : Prop :=
  w1.initialized_world_options = w2.initialized_world_options ∧
  ("Difficulty" ∈ w1.initialized_world_options → diff_reads_agree w1.diff_info w2.diff_info) ∧
  ("Start with Maps" ∈ w1.initialized_world_options → w1.swm_info = w2.swm_info) ∧
  ("Invis as Trap" ∈ w1.initialized_world_options → w1.invis_info = w2.invis_info) ∧
  ("Custom Ammo Capacity" ∈ w1.initialized_world_options →
    w1.cac_ammo_types = w2.cac_ammo_types) ∧
  ("Capacity Upgrades" ∈ w1.initialized_world_options → w1.capupg_info = w2.capupg_info)

/-- Globals as a run on another game may leave them: items, locations, a
group and a key entry of that game, extended names on. -/
def state_after_other_run : gen_state :=
  { location_next_id := 0
    ap_items := [item_named "Old item" 1, item_named "L1 - Blue key" 2]
    ap_locations := [loc_named "L1 - Blue key" 1, loc_named "L1 - Exit" 2]
    item_name_groups := [("Junk", ["Old item"])]
    level_to_keycards := [((0, 0), 5)]
    use_extended_names := true
    warning_count_no_exit := 3 }

/-- File-level variables of `world_opts.cpp` as a run on another game may
leave them. -/
def world_opt_after_other_run : world_opt_state :=
  { diff_info := { preset := 0, skill_5_warning := "beware", json := [Json.null] }
    swm_info := { doom_type := 35, plural_name := "Map Scrolls", class_name := "x" }
    invis_info := { doom_type := 75, class_name := "shadowsphere_as_trap" }
    cac_ammo_types := [{ name := "Wand crystal", class_suffix := "wand_crystal", capacity := 100 }]
    capupg_info :=
      { doom_type := 8, item_count := 6, plural_name := "Bags", split_class := "split_bag",
        count_class := "bag_count" }
    initialized_world_options := ["Difficulty", "Custom Ammo Capacity"] }

/-- The game with two regions, with the options of `game_three_options` and a
difficulty option without preset. -/
def game_regions_options : game_t :=
  { game_regions with
    json_world_options :=
      Json.arr
        [Json.obj [("name", Json.str "Start with Maps")],
         Json.obj [("name", Json.str "Speed")],
         Json.obj [("name", Json.str "Difficulty"), ("skill_5_warning", Json.str "hot")]] }

/-! ## More inputs for the run as a whole -/

/-- A game without maps that passes the gates: a "Junk" group, and one major
episode enabled by default. -/
def game_gates_pass : game_t :=
  { game_minor_only with
    episode_info :=
      [{ name := "E1", starting_level := 0, boss_level := 0, is_minor_episode := false,
         default_enabled := true }] }

/-- A command line without arguments and a file system in which no archive
can be opened for writing; every other request is granted. -/
def env_unwritable : env_t :=
  { env_plain with output_openable := fun _ => false }

/-! ## Definitions used to state which map objects give a location -/

/-- What a location records of the map object it was made from: episode and
map of its level, index of the object in the map, type code, and the two
coordinates. -/
def loc_record (l : ap_location_t) : Int × Int × Int × Int × Int × Int :=
  (l.idx.ep, l.idx.map, l.doom_thing_index, l.doom_type, l.x, l.y)

/-- Whether object number `i` of a map gives a location, in the words of the
specification: its type code is in the location-type table of the game, its
multiplayer-only flag (0x0010) is clear, and it is not marked unreachable. -/
def gives_location (game : game_t) (map_state : map_state_t) (i : Nat) (thing : map_thing_t) :
    Bool :=
  (game.location_doom_types.lookup thing.type).isSome && decide (thing.flags &&& 0x0010 = 0)
    && !(loc_state_at map_state i).unreachable

/-- The record of the location of object number `i` of the level `idx`: the
index, the type code, and the coordinates multiplied by 65536. -/
def object_record (idx : level_index_t) (i : Nat) (thing : map_thing_t) :
    Int × Int × Int × Int × Int × Int :=
  (idx.ep, idx.map, (i : Int), thing.type, thing.x * 65536, thing.y * 65536)

/-- The records of the objects of a map that give a location, in map order,
the objects numbered from `i` on. -/
def object_records_from (game : game_t) (map_state : map_state_t) (idx : level_index_t)
    (things : List map_thing_t) (i : Nat) : List (Int × Int × Int × Int × Int × Int) :=
  ((things.enumFrom i).filter (fun p => gives_location game map_state p.1 p.2)).map
    (fun p => object_record idx p.1 p.2)

/-- The records of the locations of one level: one per object that gives a
location, then the level-complete location, which is made from no object
(index -1, type code -2, coordinates -1). -/
def level_loc_records (game : game_t) (level : level_t) :
    List (Int × Int × Int × Int × Int × Int) :=
  object_records_from game level.map_state level.idx level.map.things 0
    ++ [(level.idx.ep, level.idx.map, -1, -2, -1, -1)]

/-! ## Definitions used to state the properties of the item name groups -/

/-- The marker "%MAP%" as a list of characters. -/
def map_marker : List Char := "%MAP%".data

/-- Whether a text contains the marker "%MAP%". -/
def contains_marker (s : String) : Prop :=
  ∃ pre post : List Char, s.data = pre ++ map_marker ++ post

/-- The text `s` holds the pattern right after `pre`, and nowhere before. -/
def first_occurrence (pat pre post s : List Char) : Prop :=
  s = pre ++ pat ++ post ∧
  ∀ pre' post' : List Char, s = pre' ++ pat ++ post' → pre.length ≤ pre'.length

/-- The name is a member of the set recorded under the group name. -/
def recorded_in (item_name_groups : List (String × List String)) (group name : String) : Prop :=
  ∃ kv ∈ item_name_groups, kv.1 = group ∧ name ∈ kv.2

/-- A unique item template whose one group name holds the marker twice. -/
def item_def_two_markers : ap_item_def_t :=
  { doom_type := 2005, name := "Map", sprite := "", groups := ["%MAP%%MAP%"], count := 1 }

/-! ## More inputs for the world options -/

/-- A game with two custom lines for the hook point "create_item" and the
options of `game_three_options`. -/
def game_with_hooks : game_t :=
  { game_three_options with
    world_hooks := [("create_item", ["x = 1", "y = 2"])] }

/-! ## Definitions used to state the properties of the compression and of the headers -/

/-- The bytes of a header from position `pos` on, `len` of them. -/
def bytes_at (bytes : List Nat) (pos len : Nat) : List Nat := (bytes.drop pos).take len

/-- Two zlib give the same answers for a block of bytes: the same checksum
and the same DEFLATE stream, or both none. -/
def zlib_agree_on (zlib1 zlib2 : zlib_t) (data : List Nat) : Prop :=
  zlib1.crc32 (data.take (data.length % 4294967296)) % 4294967296
      = zlib2.crc32 (data.take (data.length % 4294967296)) % 4294967296 ∧
  zlib1.deflate (data.take (data.length % 4294967296))
      = zlib2.deflate (data.take (data.length % 4294967296))

/-- A block of 2^32 zero bytes. -/
def huge_data : List Nat := List.replicate 4294967296 0

/-- A zlib whose DEFLATE never finishes and whose checksum is 0 for the empty
block and 1 for every other block. -/
def zlib_marking : zlib_t :=
  { crc32 := fun bytes => if bytes = [] then 0 else 1, deflate := fun _ => none }

/-- An entry as the constructor of `ZipEntry` has it before `DoCompress`. -/
def entry_fresh (path : List Nat) : ZipEntry :=
  { path := path, buffer := [], compression := 0, checksum := 0, uncomp_size := 0,
    offset := 0, is_text := 0, moddate := 0, modtime := 0 }

/-! ## Definitions used to state what the unreachable mark of an object changes -/

/-- A list with its element number `n` replaced by `f` of it. -/
def modify_at {α : Type} (f : α → α) : List α → Nat → List α
  | [], _ => []
  | x :: xs, 0 => f x :: xs
  | x :: xs, n + 1 => x :: modify_at f xs n

/-- Assignment to the entry of index `i` of `std::map<int, location_t>`: the
entry is replaced, or added when there is none. -/
def set_loc_state : List (Int × location_t) → Int → location_t → List (Int × location_t)
  | [], i, v => [(i, v)]
  | (k, s) :: rest, i, v =>
    if k = i then (k, v) :: rest else (k, s) :: set_loc_state rest i v

/-- The authored state of a map with the unreachable mark of object number
`i` turned into its opposite. -/
def toggle_unreachable_state (state : map_state_t) (i : Nat) : map_state_t :=
  { state with
    locations :=
      set_loc_state state.locations (i : Int)
        { loc_state_at state i with unreachable := !(loc_state_at state i).unreachable } }

/-- The game with the unreachable mark of object number `i` of the map `map`
of episode `ep` turned into its opposite, and nothing else changed. -/
def toggle_unreachable (game : game_t) (ep map i : Nat) : game_t :=
  { game with
    episodes :=
      modify_at
        (fun episode =>
          modify_at (fun m : meta_t => { m with state := toggle_unreachable_state m.state i })
            episode map)
        game.episodes ep }

/-- The sequence number of object number `j` of a map: the number of objects
among the first `j + 1` whose type is in the location-type table and whose
multiplayer-only flag is clear, whether marked unreachable or not. -/
def sequence_number (game : game_t) (things : List map_thing_t) (j : Nat) : Nat :=
  ((things.take (j + 1)).filter (eligible game)).length

/-! ## Machine ranges, and inputs at their edge -/

/-- Whether an exact integer is a value of `int`. -/
def in_int_range (x : Int) : Prop :=
  -2147483648 ≤ x ∧ x ≤ 2147483647

instance (x : Int) : Decidable (in_int_range x) := by
  unfold in_int_range
  infer_instance

/-- Whether an exact integer is a value of `int64_t`. -/
def in_int64_range (x : Int) : Prop :=
  -9223372036854775808 ≤ x ∧ x ≤ 9223372036854775807

instance (x : Int) : Decidable (in_int64_range x) := by
  unfold in_int64_range
  infer_instance

/-- The id `id` of a record is the number `x` of a formula in 32 bits: `x`
reduced to 32 bits, hence `x` itself when `x` is a value of `int`. -/
def id_in_int (id x : Int) : Prop :=
  id = wrap_int x ∧ (in_int_range x → id = x)

/-- A game of 21475 episodes, the first 21474 without maps, the last with one
map: its one level has the episode index 21474, the first whose location id
base (21474+1)*100000 + 1000 is past the largest `int`. -/
def game_21475_episodes : game_t :=
  { game_empty with episodes := List.replicate 21474 [] ++ [[meta_plain]] }

/-- The level (42949, 67): with the sequence number 296 its location id
(42949+1)*100000 + (67+1)*1000 + 296 is 2^32 + 101000. -/
def level_42949_67 : level_t :=
  { level00 with idx := { game_name := "g", ep := 42949, map := 67 } }

/-- A level with 296 objects of type 5, none multiplayer-only, none marked
unreachable. -/
def meta_296_things : meta_t :=
  { meta_plain with
    map :=
      { things := List.replicate 296 thing_5
        sector_count := 1
        point_in_subsector := fun _ _ => some 0 } }

/-- A game of 42950 episodes: the first has one map, the next 42948 have none,
the last has 68 maps, the last of which has 296 eligible objects. -/
def game_42950_episodes : game_t :=
  { game_empty with
    location_doom_types := [(5, "Key")]
    episodes :=
      ([meta_plain] :: List.replicate 42948 [])
        ++ [List.replicate 67 meta_plain ++ [meta_296_things]] }

/-- The level (428, 48) and a template of type 67301: the item id
(428+1)*10000000 + (48+1)*100000 + 67301 is 2^32 + 5. -/
def level_428_48 : level_t :=
  { level00 with idx := { game_name := "g", ep := 428, map := 48 } }

def item_def_67301 : ap_item_def_t :=
  { doom_type := 67301, name := "Far", sprite := "", groups := [], count := 1 }

/-- The first level of the episode with index 214, the first episode whose
item id base (214+1)*10000000 + 100000 is past the largest `int`. -/
def level_214_0 : level_t :=
  { level00 with idx := { game_name := "g", ep := 214, map := 0 } }

/-! ## The sink pointer from one run to the next (`generate.cpp`: 122, 531-556, 792, 1177)

`static GroupedOutput *world = nullptr;` keeps its value from one call of
`generate` to the next.  A run that constructs a sink ends with
`delete world;` (after a gate error and at the end of the output phase) and no
statement assigns `world` after that. -/

/-- The value of the static pointer `world` as a run finds it: null at program
start, or the address of the sink a run before constructed and deleted. -/
inductive world_ptr where
  | null
  | deleted (sink : sink_t)
deriving DecidableEq, Repr

/-- What the process holds between two calls of `generate`: the pointer
`world` and the globals of `generate.cpp`. -/
structure process_state where
  world : world_ptr
  globals : gen_state

/-- The process before its first call of `generate`. -/
def process_start : process_state :=
  { world := .null
    globals :=
      { location_next_id := 0
        ap_items := []
        ap_locations := []
        item_name_groups := []
        level_to_keycards := []
        use_extended_names := false
        warning_count_no_exit := 0 } }

/-- The head of `generate` from a given value of `world`: the search for
`--world-folder` assigns a new folder sink; without that argument
`if (!world)` constructs the archive sink for a null pointer only.  The answer
is the sink `world` points to after these statements, `none` when it still
points to the deleted sink of a run before. -/
def open_sink_from (env : env_t) (game : game_t) (world : world_ptr) :
    List String → Except String (Option sink_t)
  | [] =>
    match world with
    | .null => .ok (some (.ZipFile ("./output/" ++ game.ap_world_name ++ ".apworld")))
    | .deleted _ => .ok none
  | arg :: rest =>
    if arg = "--world-folder" then
      match rest with
      | [] => .error "--world-folder: Requires an argument."
      | path :: _ =>
        if env.valid_worlds_folder path then
          .ok (some (.OutputToFolder (env.folder_base_path path)
            (env.folder_base_path path ++ game.ap_world_name)))
        else .error "--world-folder: Folder does not appear to be a valid worlds folder."
    else open_sink_from env game world rest

/-- A run from the reset of the globals on, with the sink `world` points to,
in a process whose globals are `prior`. -/
def run_with_sink (env : env_t) (game : game_t) (sink : sink_t) (prior : gen_state) :
    gen_result :=
  let cat := final_catalog_from game prior
  let errored := check_gates cat.2.item_name_groups game.episode_info
  if errored ≠ 0 then
    { result := 1, errors := gate_error_list errored, sink_calls := [],
      levels := cat.1, state := cat.2 }
  else
    { result := 0, errors := output_errors env sink game, sink_calls := output_calls game,
      levels := cat.1, state := cat.2 }

/-- A call of `generate` in a process that may have made other calls.  A run
that goes on with the pointer to a deleted sink calls `delete world` on it
(gate error) or `world->AddJson` (output phase): it operates on a deleted
object and has no result.  A run with a sink of its own ends with
`delete world`, which leaves the pointer as it is. -/
def generate_from (env : env_t) (game : game_t) (p : process_state) :
    Option (gen_result × process_state) :=
  match open_sink_from env game p.world env.OArguments with
  | .error error_str =>
    some ({ result := 1, errors := [error_str], sink_calls := [], levels := [],
            state := p.globals }, p)
  | .ok none => none
  | .ok (some sink) =>
    some (run_with_sink env game sink p.globals,
      { world := .deleted sink, globals := (final_catalog_from game p.globals).2 })

/-! # Theorems -/

/-! ## Machine integers -/

theorem wrap_int_of_range (x : Int) (h : in_int_range x) : wrap_int x = x := by
  unfold in_int_range at h
  unfold wrap_int
  omega

theorem wrap_int_range (x : Int) : in_int_range (wrap_int x) := by
  unfold in_int_range wrap_int
  omega

theorem wrap_int_add (a b : Int) : wrap_int (wrap_int a + b) = wrap_int (a + b) := by
  unfold wrap_int
  omega

/-- Reduction to 32 bits keeps apart two integers that are less than 2^32
apart. -/
theorem wrap_int_inj (a b : Int) (h : wrap_int a = wrap_int b)
    (h1 : a - b < 4294967296) (h2 : b - a < 4294967296) : a = b := by
  unfold wrap_int at h
  omega

theorem wrap_int64_of_range (x : Int) (h : in_int64_range x) : wrap_int64 x = x := by
  unfold in_int64_range at h
  unfold wrap_int64
  omega

theorem wrap_int64_range (x : Int) : in_int64_range (wrap_int64 x) := by
  unfold in_int64_range wrap_int64
  omega

theorem id_in_int_of_wrap (id x : Int) (h : id = wrap_int x) : id_in_int id x :=
  ⟨h, fun hr => h.trans (wrap_int_of_range x hr)⟩

/-- Within a window narrower than 2^32 the reduced values of a list without
repetition are without repetition. -/
theorem wrap_int_nodup (xs : List Int) (lo : Int) (hn : xs.Nodup)
    (hw : ∀ x ∈ xs, lo ≤ x ∧ x < lo + 4294967296) : (xs.map wrap_int).Nodup := by
  refine (List.nodup_map_iff_inj_on hn).mpr ?_
  intro a ha b hb hab
  have h1 := hw a ha
  have h2 := hw b hb
  exact wrap_int_inj a b hab (by omega) (by omega)

/-! ## Item ids (`add_item`, `add_unique`) -/

theorem base_item_id_nonneg (doom_type : Int) (h : 0 ≤ doom_type) :
    base_item_id doom_type = doom_type := by
  unfold base_item_id
  rw [if_neg (by omega)]

theorem base_item_id_unlock : base_item_id (-1) = 0 := by decide

theorem base_item_id_complete : base_item_id (-2) = 99999 := by decide

/-- C2, as stated, fails for `add_unique`: for a key definition whose type code
is the level-unlock pseudo-type -1, the item it creates at level (0, 0) does not
have id (0+1)*10000000 + (0+1)*100000 + 0.  It also fails for `add_item` past
the range of `int`: at level (214, 0) the item of a template of type 5 has id
-2144867291, not (214+1)*10000000 + (0+1)*100000 + 5 = 2150100005. -/
theorem add_unique_unlock_code_not_remapped :
    (¬ ∀ it ∈ (add_unique key_def_unlock_code PROGRESSION thing_5 level00 0 empty_state).2.ap_items,
        it.id = (level00.idx.ep + 1) * 10000000 + (level00.idx.map + 1) * 100000 + 0) ∧
    (add_item item_def_5 PROGRESSION (some level_214_0) empty_state).ap_items.map
        (fun it => it.id) = [-2144867291] ∧
    (level_214_0.idx.ep + 1) * 10000000 + (level_214_0.idx.map + 1) * 100000
        + item_def_5.doom_type = 2150100005 := by
  decide

/-- C2, amended: `add_item` with a level appends exactly one item, whose id is
(ep+1)*10000000 + (map+1)*100000 + c reduced to 32 bits, hence that number
itself when it is a value of `int`, with c the template's type code when that
code is non-negative, 0 for the code -1 and 99999 for the code -2; with no
level the id is c itself; `add_unique`, when it creates an item, appends
exactly one item whose id is (ep+1)*10000000 + (map+1)*100000 plus the key
template's type code itself, with no remapping of the pseudo-types, again
reduced to 32 bits, hence that number itself when it is a value of `int`. -/
theorem item_id_formula (item_def : ap_item_def_t) (key_def : ap_key_def_t)
    (classification : Nat) (thing : map_thing_t) (index : Nat) (level : level_t)
    (st : gen_state) :
    (∃ it, (add_item item_def classification (some level) st).ap_items = st.ap_items ++ [it] ∧
        it.id = wrap_int ((level.idx.ep + 1) * 10000000 + (level.idx.map + 1) * 100000
            + base_item_id item_def.doom_type) ∧
        (0 ≤ item_def.doom_type →
          in_int_range ((level.idx.ep + 1) * 10000000 + (level.idx.map + 1) * 100000
            + item_def.doom_type) →
          it.id = (level.idx.ep + 1) * 10000000 + (level.idx.map + 1) * 100000
            + item_def.doom_type) ∧
        (item_def.doom_type = -1 →
          in_int_range ((level.idx.ep + 1) * 10000000 + (level.idx.map + 1) * 100000 + 0) →
          it.id = (level.idx.ep + 1) * 10000000 + (level.idx.map + 1) * 100000 + 0) ∧
        (item_def.doom_type = -2 →
          in_int_range ((level.idx.ep + 1) * 10000000 + (level.idx.map + 1) * 100000 + 99999) →
          it.id = (level.idx.ep + 1) * 10000000 + (level.idx.map + 1) * 100000 + 99999)) ∧
    (∃ it, (add_item item_def classification none st).ap_items = st.ap_items ++ [it] ∧
        (0 ≤ item_def.doom_type → it.id = item_def.doom_type) ∧
        (item_def.doom_type = -1 → it.id = 0) ∧
        (item_def.doom_type = -2 → it.id = 99999)) ∧
    ((add_unique key_def classification thing level index st).2.ap_items = st.ap_items ∨
      ∃ it, (add_unique key_def classification thing level index st).2.ap_items
          = st.ap_items ++ [it] ∧
        (add_unique key_def classification thing level index st).1 = it.id ∧
        it.id = wrap_int ((level.idx.ep + 1) * 10000000 + (level.idx.map + 1) * 100000
          + key_def.item.doom_type) ∧
        (in_int_range ((level.idx.ep + 1) * 10000000 + (level.idx.map + 1) * 100000
            + key_def.item.doom_type) →
          it.id = (level.idx.ep + 1) * 10000000 + (level.idx.map + 1) * 100000
            + key_def.item.doom_type)) := by
  have hid : (make_item item_def classification (some level)).id
      = wrap_int ((level.idx.ep + 1) * 10000000 + (level.idx.map + 1) * 100000
          + base_item_id item_def.doom_type) := by
    show wrap_int (get_item_id_base level.idx + base_item_id item_def.doom_type) = _
    rw [get_item_id_base, wrap_int_add]
  refine ⟨⟨make_item item_def classification (some level), rfl, hid, ?_, ?_, ?_⟩,
    ⟨make_item item_def classification none, rfl, ?_, ?_, ?_⟩, ?_⟩
  · intro h hr
    rw [hid, base_item_id_nonneg _ h]
    exact wrap_int_of_range _ hr
  · intro h hr
    rw [hid, h, base_item_id_unlock]
    exact wrap_int_of_range _ hr
  · intro h hr
    rw [hid, h, base_item_id_complete]
    exact wrap_int_of_range _ hr
  · intro h
    simp [make_item, base_item_id_nonneg _ h]
  · intro h
    simp [make_item, h, base_item_id_unlock]
  · intro h
    simp [make_item, h, base_item_id_complete]
  · unfold add_unique
    cases hf : st.ap_items.find? (fun other_item => other_item.name == level.name ++ " - " ++ key_def.item.name) with
    | some other => left; simp [hf]
    | none =>
      right
      have hw : wrap_int (get_item_id_base level.idx + key_def.item.doom_type)
          = wrap_int ((level.idx.ep + 1) * 10000000 + (level.idx.map + 1) * 100000
              + key_def.item.doom_type) := by
        rw [get_item_id_base, wrap_int_add]
      simp only [hf]
      refine ⟨_, rfl, rfl, hw, ?_⟩
      intro hr
      exact hw.trans (wrap_int_of_range _ hr)

/-- Instance of `item_id_formula`: a template of type 5 at level (0, 0). -/
theorem item_id_formula_witness :
    (∃ it, (add_item item_def_5 PROGRESSION (some level00) empty_state).ap_items
          = empty_state.ap_items ++ [it] ∧
        it.id = wrap_int ((level00.idx.ep + 1) * 10000000 + (level00.idx.map + 1) * 100000
            + base_item_id item_def_5.doom_type) ∧
        (0 ≤ item_def_5.doom_type →
          in_int_range ((level00.idx.ep + 1) * 10000000 + (level00.idx.map + 1) * 100000
            + item_def_5.doom_type) →
          it.id = (level00.idx.ep + 1) * 10000000 + (level00.idx.map + 1) * 100000
            + item_def_5.doom_type) ∧
        (item_def_5.doom_type = -1 →
          in_int_range ((level00.idx.ep + 1) * 10000000 + (level00.idx.map + 1) * 100000 + 0) →
          it.id = (level00.idx.ep + 1) * 10000000 + (level00.idx.map + 1) * 100000 + 0) ∧
        (item_def_5.doom_type = -2 →
          in_int_range
            ((level00.idx.ep + 1) * 10000000 + (level00.idx.map + 1) * 100000 + 99999) →
          it.id = (level00.idx.ep + 1) * 10000000 + (level00.idx.map + 1) * 100000 + 99999)) ∧
    (0 : Int) ≤ item_def_5.doom_type ∧
    in_int_range ((level00.idx.ep + 1) * 10000000 + (level00.idx.map + 1) * 100000
      + item_def_5.doom_type) :=
  ⟨(item_id_formula item_def_5 key_def_unlock_code PROGRESSION thing_5 0 level00 empty_state).1,
    by decide, by decide⟩

/-! ## Sort pass -/

theorem insert_by_id_perm {α : Type} (id : α → Int) (x : α) (ys : List α) :
    (insert_by_id id x ys).Perm (x :: ys) := by
  induction ys with
  | nil => exact List.Perm.refl _
  | cons y ys ih =>
    unfold insert_by_id
    by_cases h : id y < id x
    · rw [if_pos h]
      exact (List.Perm.cons y ih).trans (List.Perm.swap x y ys)
    · rw [if_neg h]

theorem sort_by_id_perm {α : Type} (id : α → Int) (xs : List α) :
    (sort_by_id id xs).Perm xs := by
  induction xs with
  | nil => exact List.Perm.refl _
  | cons x xs ih =>
    unfold sort_by_id
    exact (insert_by_id_perm id x _).trans (List.Perm.cons x ih)

theorem insert_by_id_ordered {α : Type} (id : α → Int) (x : α) (ys : List α)
    (h : ys.Pairwise (fun a b => id a ≤ id b)) :
    (insert_by_id id x ys).Pairwise (fun a b => id a ≤ id b) := by
  induction ys with
  | nil => simp [insert_by_id]
  | cons y ys ih =>
    rw [List.pairwise_cons] at h
    unfold insert_by_id
    by_cases hlt : id y < id x
    · rw [if_pos hlt, List.pairwise_cons]
      refine ⟨?_, ih h.2⟩
      intro b hb
      rcases List.mem_cons.mp ((insert_by_id_perm id x ys).mem_iff.mp hb) with rfl | hb
      · omega
      · exact h.1 b hb
    · rw [if_neg hlt, List.pairwise_cons, List.pairwise_cons]
      refine ⟨?_, h⟩
      intro b hb
      rcases List.mem_cons.mp hb with rfl | hb
      · omega
      · have := h.1 b hb
        omega

theorem sort_by_id_ordered {α : Type} (id : α → Int) (xs : List α) :
    (sort_by_id id xs).Pairwise (fun a b => id a ≤ id b) := by
  induction xs with
  | nil => simp [sort_by_id]
  | cons x xs ih =>
    unfold sort_by_id
    exact insert_by_id_ordered id x _ ih

/-- C7: the sort pass leaves the location list and the item list each in
non-decreasing order of id, and each is a permutation of the list before the
pass (no entity is added, lost or altered). -/
theorem sort_pass_ordered_permutation (ap_locations : List ap_location_t)
    (ap_items : List ap_item_t) :
    (sort_by_id (fun l => l.id) ap_locations).Pairwise (fun a b => a.id ≤ b.id) ∧
    (sort_by_id (fun l => l.id) ap_locations).Perm ap_locations ∧
    (sort_by_id (fun it => it.id) ap_items).Pairwise (fun a b => a.id ≤ b.id) ∧
    (sort_by_id (fun it => it.id) ap_items).Perm ap_items :=
  ⟨sort_by_id_ordered _ _, sort_by_id_perm _ _, sort_by_id_ordered _ _, sort_by_id_perm _ _⟩

/-! ## Legacy remap pass -/

theorem remap_collect_shift {α : Type} (name : α → String) (set_id : α → Int → α)
    (table : List (String × Int)) (xs : List α) (i : Nat) :
    remap_collect name set_id table xs (i + 1)
      = ((remap_collect name set_id table xs i).1,
         (remap_collect name set_id table xs i).2.map (fun u => u + 1)) := by
  induction xs generalizing i with
  | nil => rfl
  | cons x xs ih =>
    unfold remap_collect
    rw [ih (i + 1)]
    cases table.lookup (name x) <;> simp

theorem remap_assign_shift {α : Type} (set_id : α → Int → α) (us : List Nat) (next : Int)
    (y : α) (ys : List α) :
    remap_assign set_id (us.map (fun u => u + 1)) next (y :: ys)
      = y :: remap_assign set_id us next ys := by
  induction us generalizing next ys with
  | nil => rfl
  | cons u us ih =>
    simp only [List.map_cons, remap_assign, set_id_at]
    exact ih _ _

theorem remap_assign_collect {α : Type} (name : α → String) (set_id : α → Int → α)
    (table : List (String × Int)) (xs : List α) (next : Int) :
    remap_assign set_id (remap_collect name set_id table xs 0).2 next
        (remap_collect name set_id table xs 0).1
      = remap_by_rule name set_id table next xs := by
  induction xs generalizing next with
  | nil => rfl
  | cons x xs ih =>
    unfold remap_collect remap_by_rule
    rw [remap_collect_shift]
    cases hl : table.lookup (name x) with
    | some v =>
      simp only []
      rw [remap_assign_shift, ih]
    | none =>
      simp only [remap_assign, set_id_at]
      rw [remap_assign_shift, ih]

theorem fresh_id_shift (next : Int) (n : Nat) :
    fresh_id (wrap_int64 (next + 1)) n = fresh_id next (n + 1) := by
  induction n with
  | zero => rfl
  | succ n ih =>
    show wrap_int64 (fresh_id (wrap_int64 (next + 1)) n + 1) = wrap_int64 (fresh_id next (n + 1) + 1)
    rw [ih]

/-- While the counter stays inside the range of `int64_t`, the fresh id number
`n` is `next + n`. -/
theorem fresh_id_exact (next : Int) (n : Nat) (h1 : in_int64_range next)
    (h2 : in_int64_range (next + n)) : fresh_id next n = next + n := by
  induction n with
  | zero => simp [fresh_id]
  | succ n ih =>
    unfold in_int64_range at h1 h2
    push_cast at h2
    have hn : in_int64_range (next + n) := by
      unfold in_int64_range
      omega
    show wrap_int64 (fresh_id next n + 1) = _
    rw [ih hn, wrap_int64_of_range]
    · push_cast
      ring
    · unfold in_int64_range
      omega

theorem remap_by_rule_get {α : Type} (name : α → String) (set_id : α → Int → α)
    (table : List (String × Int)) (xs : List α) (next : Int) (j : Nat) (x : α)
    (h : xs[j]? = some x) :
    (remap_by_rule name set_id table next xs)[j]?
      = some (set_id x (remapped_id name table next xs j x)) := by
  induction xs generalizing next j with
  | nil => simp at h
  | cons y ys ih =>
    cases j with
    | zero =>
      simp only [List.getElem?_cons_zero, Option.some.injEq] at h
      subst h
      unfold remap_by_rule remapped_id
      cases hl : table.lookup (name y) <;> simp [fresh_id]
    | succ j =>
      simp only [List.getElem?_cons_succ] at h
      unfold remap_by_rule
      cases hl : table.lookup (name y) with
      | some v =>
        simp only [List.getElem?_cons_succ]
        rw [ih next j h]
        simp [remapped_id, List.take_succ_cons, List.filter_cons, hl]
      | none =>
        simp only [List.getElem?_cons_succ]
        rw [ih (wrap_int64 (next + 1)) j h]
        simp only [remapped_id, List.take_succ_cons, List.filter_cons, hl, Option.isNone_none,
          if_true, List.length_cons]
        cases table.lookup (name x) with
        | some v => rfl
        | none =>
          simp only []
          rw [fresh_id_shift]

theorem remap_pass_get {α : Type} (name : α → String) (set_id : α → Int → α)
    (table : List (String × Int)) (xs : List α) (ht : table ≠ []) (j : Nat) (x : α)
    (h : xs[j]? = some x) :
    (remap_pass name set_id table xs)[j]?
      = some (set_id x (remapped_id name table (remap_next_id table) xs j x)) := by
  unfold remap_pass
  have he : table.isEmpty = false := by
    cases table with
    | nil => exact absurd rfl ht
    | cons a t => rfl
  simp only [he, Bool.false_eq_true, if_false]
  rw [remap_assign_collect]
  exact remap_by_rule_get name set_id table xs _ j x h

theorem remap_fold_bounds (table : List (String × Int)) (init : Int) :
    init ≤ table.foldl (fun next kv => max next (wrap_int64 (kv.2 + 1))) init ∧
    (∀ kv ∈ table,
      wrap_int64 (kv.2 + 1) ≤ table.foldl (fun next kv => max next (wrap_int64 (kv.2 + 1))) init) ∧
    (table.foldl (fun next kv => max next (wrap_int64 (kv.2 + 1))) init = init ∨
      ∃ kv ∈ table,
        table.foldl (fun next kv => max next (wrap_int64 (kv.2 + 1))) init
          = wrap_int64 (kv.2 + 1)) := by
  induction table generalizing init with
  | nil => simp
  | cons a t ih =>
    simp only [List.foldl_cons, List.mem_cons]
    obtain ⟨h1, h2, h3⟩ := ih (max init (wrap_int64 (a.2 + 1)))
    refine ⟨le_trans (le_max_left _ _) h1, ?_, ?_⟩
    · intro kv hkv
      rcases hkv with rfl | hkv
      · exact le_trans (le_max_right _ _) h1
      · exact h2 kv hkv
    · rcases h3 with h3 | ⟨kv, hkv, h3⟩
      · rcases max_cases init (wrap_int64 (a.2 + 1)) with ⟨hm, _⟩ | ⟨hm, _⟩
        · left; rw [h3, hm]
        · right; exact ⟨a, Or.inl rfl, by rw [h3, hm]⟩
      · right; exact ⟨kv, Or.inr hkv, h3⟩

/-- The first fresh id of a remap block is a value of `int64_t` and not
negative. -/
theorem remap_next_id_range (table : List (String × Int)) :
    0 ≤ remap_next_id table ∧ in_int64_range (remap_next_id table) := by
  obtain ⟨h1, _, h3⟩ := remap_fold_bounds table 0
  have hn : remap_next_id table
      = table.foldl (fun next kv => max next (wrap_int64 (kv.2 + 1))) 0 := rfl
  rw [← hn] at h1 h3
  refine ⟨h1, ?_⟩
  rcases h3 with h3 | ⟨kv, _, h3⟩
  · rw [h3]
    unfold in_int64_range
    omega
  · rw [h3]
    exact wrap_int64_range _

/-- The first fresh id of a remap block whose table ids all have a successor
in `int64_t`: the larger of 0 and the largest table id plus 1. -/
theorem remap_next_id_exact (table : List (String × Int))
    (ht : ∀ kv ∈ table, in_int64_range (kv.2 + 1)) :
    0 ≤ remap_next_id table ∧
    (∀ kv ∈ table, kv.2 + 1 ≤ remap_next_id table) ∧
    (remap_next_id table = 0 ∨ ∃ kv ∈ table, remap_next_id table = kv.2 + 1) := by
  obtain ⟨h1, h2, h3⟩ := remap_fold_bounds table 0
  have hn : remap_next_id table
      = table.foldl (fun next kv => max next (wrap_int64 (kv.2 + 1))) 0 := rfl
  rw [← hn] at h1 h2 h3
  refine ⟨h1, ?_, ?_⟩
  · intro kv hkv
    have := h2 kv hkv
    rwa [wrap_int64_of_range _ (ht kv hkv)] at this
  · rcases h3 with h3 | ⟨kv, hkv, h3⟩
    · exact Or.inl h3
    · exact Or.inr ⟨kv, hkv, by rw [h3, wrap_int64_of_range _ (ht kv hkv)]⟩

/-- The id of an entity without table entry after a remap pass, while the
counter of fresh ids stays inside the range of `int64_t`. -/
theorem remap_pass_get_fresh {α : Type} (name : α → String) (set_id : α → Int → α)
    (table : List (String × Int)) (xs : List α) (ht : table ≠ []) (j : Nat) (x : α)
    (h : xs[j]? = some x) (hn : table.lookup (name x) = none)
    (hr : in_int64_range (remap_next_id table
      + (((xs.take j).filter (fun y => (table.lookup (name y)).isNone)).length : Nat))) :
    (remap_pass name set_id table xs)[j]?
      = some (set_id x (remap_next_id table
          + (((xs.take j).filter (fun y => (table.lookup (name y)).isNone)).length : Nat))) := by
  rw [remap_pass_get name set_id table xs ht j x h]
  unfold remapped_id
  rw [hn]
  simp only []
  rw [fresh_id_exact _ _ (remap_next_id_range table).2 hr]

theorem remap_by_rule_length {α : Type} (name : α → String) (set_id : α → Int → α)
    (table : List (String × Int)) (xs : List α) (next : Int) :
    (remap_by_rule name set_id table next xs).length = xs.length := by
  induction xs generalizing next with
  | nil => rfl
  | cons x xs ih =>
    unfold remap_by_rule
    cases table.lookup (name x) <;> simp [ih]

theorem remap_pass_length {α : Type} (name : α → String) (set_id : α → Int → α)
    (table : List (String × Int)) (xs : List α) :
    (remap_pass name set_id table xs).length = xs.length := by
  unfold remap_pass
  by_cases he : table.isEmpty = true
  · simp [he]
  · simp only [he, Bool.false_eq_true, if_false]
    rw [remap_assign_collect]
    exact remap_by_rule_length _ _ _ _ _

/-- C5, as stated, fails when every id of the table is below -1: with the
table a -> -5 (largest id m = -5) the one location whose name is not in the
table does not receive m + 1 = -4 (it receives 0).  It also fails at the end
of the range of `int64_t`: with the table a -> 9223372036854775807 the
location whose name is not in the table receives 0 as well, m + 1 being no
value of the 64-bit counter. -/
theorem remap_fresh_id_not_max_plus_one :
    game_negative_remap.location_remap ≠ [] ∧
    (∃ kv ∈ game_negative_remap.location_remap,
      kv.2 = -5 ∧ ∀ kv' ∈ game_negative_remap.location_remap, kv'.2 ≤ kv.2) ∧
    game_negative_remap.location_remap.lookup (loc_named "b" 101001).name = none ∧
    (remap_locations game_negative_remap [loc_named "b" 101001]).map (fun l => l.id)
      ≠ [-5 + 1] ∧
    (remap_locations game_negative_remap [loc_named "b" 101001]).map (fun l => l.id) = [0] ∧
    game_largest_remap.location_remap = [("a", 9223372036854775807)] ∧
    (remap_locations game_largest_remap [loc_named "b" 101001]).map (fun l => l.id) = [0] := by
  decide

/-- C5, amended: when the location (respectively item) remap table is not
empty, the remap pass keeps the list's length and order and changes ids only:
an entity whose name is a key of the table has the table's id for that name,
and the entities whose names are not in the table have the ids n, n+1, n+2, ...
in the order they appear in the list, as far as these numbers are values of
`int64_t`, where, when no id of the table is the largest value of `int64_t`, n
is the larger of 0 and m + 1, m being the largest id in the table (so
n = m + 1 exactly when m >= -1). -/
theorem remap_pass_ids (game : game_t) (ap_locations : List ap_location_t)
    (ap_items : List ap_item_t) :
    (game.location_remap ≠ [] →
      (remap_locations game ap_locations).length = ap_locations.length ∧
      ∀ (j : Nat) (loc : ap_location_t), ap_locations[j]? = some loc →
        (∀ v, game.location_remap.lookup loc.name = some v →
          (remap_locations game ap_locations)[j]? = some { loc with id := v }) ∧
        (game.location_remap.lookup loc.name = none →
          in_int64_range (remap_next_id game.location_remap +
            (((ap_locations.take j).filter
              (fun l => (game.location_remap.lookup l.name).isNone)).length : Nat)) →
          (remap_locations game ap_locations)[j]? = some
            { loc with
              id := remap_next_id game.location_remap +
                (((ap_locations.take j).filter
                  (fun l => (game.location_remap.lookup l.name).isNone)).length : Nat) })) ∧
    (game.item_remap ≠ [] →
      (remap_items game ap_items).length = ap_items.length ∧
      ∀ (j : Nat) (it : ap_item_t), ap_items[j]? = some it →
        (∀ v, game.item_remap.lookup it.name = some v →
          (remap_items game ap_items)[j]? = some { it with id := v }) ∧
        (game.item_remap.lookup it.name = none →
          in_int64_range (remap_next_id game.item_remap +
            (((ap_items.take j).filter
              (fun i => (game.item_remap.lookup i.name).isNone)).length : Nat)) →
          (remap_items game ap_items)[j]? = some
            { it with
              id := remap_next_id game.item_remap +
                (((ap_items.take j).filter
                  (fun i => (game.item_remap.lookup i.name).isNone)).length : Nat) })) ∧
    (∀ table : List (String × Int),
      (∀ kv ∈ table, in_int64_range kv.2 ∧ kv.2 ≠ 9223372036854775807) →
      0 ≤ remap_next_id table ∧
      (∀ kv ∈ table, kv.2 + 1 ≤ remap_next_id table) ∧
      (remap_next_id table = 0 ∨ ∃ kv ∈ table, remap_next_id table = kv.2 + 1)) := by
  refine ⟨?_, ?_, ?_⟩
  · intro ht
    refine ⟨remap_pass_length _ _ _ _, ?_⟩
    intro j loc hj
    constructor
    · intro v hv
      have h := remap_pass_get (fun l : ap_location_t => l.name) (fun l v => { l with id := v })
        game.location_remap ap_locations ht j loc hj
      rw [remap_locations, h]
      simp [remapped_id, hv]
    · intro hv hr
      exact remap_pass_get_fresh (fun l : ap_location_t => l.name)
        (fun l v => { l with id := v }) game.location_remap ap_locations ht j loc hj hv hr
  · intro ht
    refine ⟨remap_pass_length _ _ _ _, ?_⟩
    intro j it hj
    constructor
    · intro v hv
      have h := remap_pass_get (fun i : ap_item_t => i.name) (fun i v => { i with id := v })
        game.item_remap ap_items ht j it hj
      rw [remap_items, h]
      simp [remapped_id, hv]
    · intro hv hr
      exact remap_pass_get_fresh (fun i : ap_item_t => i.name)
        (fun i v => { i with id := v }) game.item_remap ap_items ht j it hj hv hr
  · intro table ht
    refine remap_next_id_exact table ?_
    intro kv hkv
    have := ht kv hkv
    unfold in_int64_range at this ⊢
    omega

/-- Instance of `remap_pass_ids`: the tables a -> 7, c -> 3 on the entities
a, b, d, c; the entity d, second of those not in the table, gets 8 + 1. -/
theorem remap_pass_ids_witness :
    game_remap.location_remap ≠ [] ∧ game_remap.item_remap ≠ [] ∧
    locs_a_b_d_c[2]? = some (loc_named "d" 101003) ∧
    game_remap.location_remap.lookup (loc_named "d" 101003).name = none ∧
    in_int64_range (remap_next_id game_remap.location_remap +
      (((locs_a_b_d_c.take 2).filter
        (fun l => (game_remap.location_remap.lookup l.name).isNone)).length : Nat)) ∧
    (remap_locations game_remap locs_a_b_d_c)[2]? = some
      { loc_named "d" 101003 with
        id := remap_next_id game_remap.location_remap +
          (((locs_a_b_d_c.take 2).filter
            (fun l => (game_remap.location_remap.lookup l.name).isNone)).length : Nat) } ∧
    items_a_b_d_c[3]? = some (item_named "c" 4) ∧
    game_remap.item_remap.lookup (item_named "c" 4).name = some 3 ∧
    (remap_items game_remap items_a_b_d_c)[3]? = some { item_named "c" 4 with id := 3 } ∧
    (∀ kv ∈ game_remap.location_remap, in_int64_range kv.2 ∧ kv.2 ≠ 9223372036854775807) ∧
    remap_next_id game_remap.location_remap = 8 :=
  ⟨by decide, by decide, by decide, by decide, by decide,
    (((remap_pass_ids game_remap locs_a_b_d_c items_a_b_d_c).1 (by decide)).2 2
      (loc_named "d" 101003) (by decide)).2 (by decide) (by decide),
    by decide, by decide,
    (((remap_pass_ids game_remap locs_a_b_d_c items_a_b_d_c).2.1 (by decide)).2 3
      (item_named "c" 4) (by decide)).1 3 (by decide),
    by decide, by decide⟩

/-! ## Validation gates -/

theorem clear_error_idem (e m : Nat) : clear_error (clear_error e m) m = clear_error e m := by
  unfold clear_error
  rw [Nat.land_assoc, Nat.and_self]

theorem clear_error_comm (e a b : Nat) :
    clear_error (clear_error e a) b = clear_error (clear_error e b) a := by
  unfold clear_error
  rw [Nat.land_assoc, Nat.land_assoc, Nat.land_comm (4294967295 ^^^ a)]

theorem junk_fold (groups : List (String × List String)) (e : Nat) :
    groups.foldl
      (fun errored kv => if kv.1 = "Junk" then clear_error errored ERROR_JUNK_GROUP else errored) e
      = if groups.any (fun kv => decide (kv.1 = "Junk")) then clear_error e ERROR_JUNK_GROUP
        else e := by
  induction groups generalizing e with
  | nil => rfl
  | cons kv rest ih =>
    simp only [List.foldl_cons, List.any_cons]
    rw [ih]
    by_cases hk : kv.1 = "Junk"
    · simp only [hk, if_true, decide_True, Bool.true_or, clear_error_idem, ite_self]
    · simp only [hk, if_false, decide_False, Bool.false_or]

theorem episode_fold (episodes : List episode_info_t) (e : Nat) :
    episodes.foldl
      (fun errored episode =>
        let e := if !episode.is_minor_episode then clear_error errored ERROR_MAJOR_EPISODE
                 else errored
        if episode.default_enabled then clear_error e ERROR_DEFAULT_EPISODE else e) e
      = (if episodes.any (fun ep => ep.default_enabled) then
          clear_error
            (if episodes.any (fun ep => !ep.is_minor_episode) then
              clear_error e ERROR_MAJOR_EPISODE else e) ERROR_DEFAULT_EPISODE
         else
          (if episodes.any (fun ep => !ep.is_minor_episode) then
            clear_error e ERROR_MAJOR_EPISODE else e)) := by
  induction episodes generalizing e with
  | nil => rfl
  | cons ep rest ih =>
    simp only [List.foldl_cons, List.any_cons]
    rw [ih]
    by_cases hm : ep.is_minor_episode = true <;> by_cases hd : ep.default_enabled = true <;>
      by_cases hrd : rest.any (fun ep => ep.default_enabled) = true <;>
      by_cases hrm : rest.any (fun ep => !ep.is_minor_episode) = true <;>
      simp [hm, hd, hrd, hrm, clear_error_idem,
        clear_error_comm _ ERROR_DEFAULT_EPISODE ERROR_MAJOR_EPISODE]
/-- The value of `errored` in terms of the three gates. -/
theorem check_gates_eq (groups : List (String × List String)) (episodes : List episode_info_t) :
    check_gates groups episodes
      = (if groups.any (fun kv => decide (kv.1 = "Junk")) then 0 else 1)
        + (if episodes.any (fun ep => !ep.is_minor_episode) then 0 else 2)
        + (if episodes.any (fun ep => ep.default_enabled) then 0 else 4) := by
  unfold check_gates
  simp only []
  rw [junk_fold, episode_fold]
  cases groups.any (fun kv => decide (kv.1 = "Junk")) <;>
    cases episodes.any (fun ep => !ep.is_minor_episode) <;>
    cases episodes.any (fun ep => ep.default_enabled) <;> decide

theorem any_junk_iff (groups : List (String × List String)) :
    groups.any (fun kv => decide (kv.1 = "Junk")) = false ↔ ∀ kv ∈ groups, kv.1 ≠ "Junk" := by
  induction groups with
  | nil => simp
  | cons kv rest ih => simp [List.any_cons, ih]

theorem any_major_iff (episodes : List episode_info_t) :
    episodes.any (fun ep => !ep.is_minor_episode) = false
      ↔ ∀ ep ∈ episodes, ep.is_minor_episode = true := by
  induction episodes with
  | nil => simp
  | cons ep rest ih => simp [List.any_cons, ih]

theorem any_default_iff (episodes : List episode_info_t) :
    episodes.any (fun ep => ep.default_enabled) = false
      ↔ ∀ ep ∈ episodes, ep.default_enabled = false := by
  induction episodes with
  | nil => simp
  | cons ep rest ih => simp [List.any_cons, ih]

/-- A gate is violated exactly when `errored` is left non-zero. -/
theorem check_gates_ne_zero_iff (groups : List (String × List String))
    (episodes : List episode_info_t) :
    check_gates groups episodes ≠ 0 ↔
      ((∀ kv ∈ groups, kv.1 ≠ "Junk") ∨ (∀ ep ∈ episodes, ep.is_minor_episode = true) ∨
        (∀ ep ∈ episodes, ep.default_enabled = false)) := by
  rw [check_gates_eq, ← any_junk_iff, ← any_major_iff, ← any_default_iff]
  cases groups.any (fun kv => decide (kv.1 = "Junk")) <;>
    cases episodes.any (fun ep => !ep.is_minor_episode) <;>
    cases episodes.any (fun ep => ep.default_enabled) <;> simp

/-- The error list in terms of the three gates. -/
theorem gate_error_list_eq (groups : List (String × List String))
    (episodes : List episode_info_t) :
    gate_error_list (check_gates groups episodes)
      = ["The following errors prevented generation of an APWorld:"]
        ++ (if ∀ kv ∈ groups, kv.1 ≠ "Junk" then ["A 'Junk' item group must exist."] else [])
        ++ (if ∀ ep ∈ episodes, ep.is_minor_episode = true then
              ["There must be at least one major episode."] else [])
        ++ (if ∀ ep ∈ episodes, ep.default_enabled = false then
              ["There must be at least one episode enabled by default."] else []) := by
  rw [check_gates_eq]
  simp only [← any_junk_iff, ← any_major_iff, ← any_default_iff]
  cases groups.any (fun kv => decide (kv.1 = "Junk")) <;>
    cases episodes.any (fun ep => !ep.is_minor_episode) <;>
    cases episodes.any (fun ep => ep.default_enabled) <;> decide

/-- Each gate message is in the error list exactly when its gate is violated. -/
theorem gate_messages_mem (g1 g2 g3 : Prop) [Decidable g1] [Decidable g2] [Decidable g3] :
    ("A 'Junk' item group must exist." ∈
        ["The following errors prevented generation of an APWorld:"]
          ++ (if g1 then ["A 'Junk' item group must exist."] else [])
          ++ (if g2 then ["There must be at least one major episode."] else [])
          ++ (if g3 then ["There must be at least one episode enabled by default."] else [])
      ↔ g1) ∧
    ("There must be at least one major episode." ∈
        ["The following errors prevented generation of an APWorld:"]
          ++ (if g1 then ["A 'Junk' item group must exist."] else [])
          ++ (if g2 then ["There must be at least one major episode."] else [])
          ++ (if g3 then ["There must be at least one episode enabled by default."] else [])
      ↔ g2) ∧
    ("There must be at least one episode enabled by default." ∈
        ["The following errors prevented generation of an APWorld:"]
          ++ (if g1 then ["A 'Junk' item group must exist."] else [])
          ++ (if g2 then ["There must be at least one major episode."] else [])
          ++ (if g3 then ["There must be at least one episode enabled by default."] else [])
      ↔ g3) := by
  by_cases h1 : g1 <;> by_cases h2 : g2 <;> by_cases h3 : g3 <;> simp [h1, h2, h3]

/-- C8: once the sink exists, `generate` returns 1 exactly when at least one
gate is violated (no item group named "Junk"; every episode minor, or none;
no episode enabled by default); the error list is then the heading line
followed by the message of each violated gate: the message of a gate is in
the list exactly when that gate is violated; a game whose only episode is
minor and enabled by default fails with the major-episode message. -/
theorem generate_gate_result (env : env_t) (game : game_t) (sink : sink_t)
    (h : open_sink env game env.OArguments = Except.ok sink) :
    ((generate env game).result = 1 ↔
      ((∀ kv ∈ (final_catalog game).2.item_name_groups, kv.1 ≠ "Junk") ∨
        (∀ ep ∈ game.episode_info, ep.is_minor_episode = true) ∨
        (∀ ep ∈ game.episode_info, ep.default_enabled = false))) ∧
    (((∀ kv ∈ (final_catalog game).2.item_name_groups, kv.1 ≠ "Junk") ∨
        (∀ ep ∈ game.episode_info, ep.is_minor_episode = true) ∨
        (∀ ep ∈ game.episode_info, ep.default_enabled = false)) →
      (generate env game).errors
        = ["The following errors prevented generation of an APWorld:"]
          ++ (if ∀ kv ∈ (final_catalog game).2.item_name_groups, kv.1 ≠ "Junk" then
                ["A 'Junk' item group must exist."] else [])
          ++ (if ∀ ep ∈ game.episode_info, ep.is_minor_episode = true then
                ["There must be at least one major episode."] else [])
          ++ (if ∀ ep ∈ game.episode_info, ep.default_enabled = false then
                ["There must be at least one episode enabled by default."] else []) ∧
      ("A 'Junk' item group must exist." ∈ (generate env game).errors ↔
        ∀ kv ∈ (final_catalog game).2.item_name_groups, kv.1 ≠ "Junk") ∧
      ("There must be at least one major episode." ∈ (generate env game).errors ↔
        ∀ ep ∈ game.episode_info, ep.is_minor_episode = true) ∧
      ("There must be at least one episode enabled by default." ∈ (generate env game).errors ↔
        ∀ ep ∈ game.episode_info, ep.default_enabled = false)) ∧
    ((∃ ep, game.episode_info = [ep] ∧ ep.is_minor_episode = true ∧ ep.default_enabled = true) →
      (generate env game).result = 1 ∧
      "There must be at least one major episode." ∈ (generate env game).errors) := by
  have hres : ∀ hyp : ((∀ kv ∈ (final_catalog game).2.item_name_groups, kv.1 ≠ "Junk") ∨
        (∀ ep ∈ game.episode_info, ep.is_minor_episode = true) ∨
        (∀ ep ∈ game.episode_info, ep.default_enabled = false)),
      (generate env game).result = 1 ∧
      (generate env game).errors
        = gate_error_list (check_gates (final_catalog game).2.item_name_groups
            game.episode_info) := by
    intro hyp
    have hne := (check_gates_ne_zero_iff _ _).mpr hyp
    unfold generate
    simp only [h]
    rw [if_pos hne]
    exact ⟨rfl, rfl⟩
  refine ⟨⟨?_, fun hyp => (hres hyp).1⟩, ?_, ?_⟩
  · intro hr
    by_contra hyp
    have hz : ¬ check_gates (final_catalog game).2.item_name_groups game.episode_info ≠ 0 :=
      fun hne => hyp ((check_gates_ne_zero_iff _ _).mp hne)
    unfold generate at hr
    simp only [h] at hr
    rw [if_neg hz] at hr
    have h01 : (0 : Int) ≠ 1 := by decide
    exact h01 hr
  · intro hyp
    rw [(hres hyp).2, gate_error_list_eq]
    exact ⟨rfl, gate_messages_mem _ _ _⟩
  · rintro ⟨ep, hep, hminor, _⟩
    have hyp : (∀ kv ∈ (final_catalog game).2.item_name_groups, kv.1 ≠ "Junk") ∨
        (∀ ep ∈ game.episode_info, ep.is_minor_episode = true) ∨
        (∀ ep ∈ game.episode_info, ep.default_enabled = false) := by
      right; left
      intro ep' hep'
      rw [hep, List.mem_singleton] at hep'
      rw [hep', hminor]
    have hall : ∀ ep ∈ game.episode_info, ep.is_minor_episode = true := by
      intro ep' hep'
      rw [hep, List.mem_singleton] at hep'
      rw [hep', hminor]
    refine ⟨(hres hyp).1, ?_⟩
    rw [(hres hyp).2, gate_error_list_eq, if_pos hall]
    simp

/-- Instance of `generate_gate_result`: no command-line argument, a game with
a "Junk" group whose only episode is minor and enabled by default. -/
theorem generate_gate_result_witness :
    open_sink env_plain game_minor_only env_plain.OArguments
      = Except.ok (sink_t.ZipFile "./output/w.apworld") ∧
    (∃ ep, game_minor_only.episode_info = [ep] ∧ ep.is_minor_episode = true ∧
      ep.default_enabled = true) ∧
    (generate env_plain game_minor_only).result = 1 ∧
    "There must be at least one major episode." ∈ (generate env_plain game_minor_only).errors :=
  ⟨rfl, ⟨_, rfl, rfl, rfl⟩,
    (generate_gate_result env_plain game_minor_only (sink_t.ZipFile "./output/w.apworld") rfl).2.2
      ⟨_, rfl, rfl, rfl⟩⟩

/-- C9: when a validation gate fails, `generate` makes no call on the sink:
no add-text-stream, add-JSON-document, add-binary-file or finalize; the sink
is as at construction (no entry, no file written).  When the sink exists and
no gate fails, the calls are those of the output phase, ending with the
finalize call. -/
theorem gate_failure_no_sink_call (env : env_t) (game : game_t) :
    (((∀ kv ∈ (final_catalog game).2.item_name_groups, kv.1 ≠ "Junk") ∨
        (∀ ep ∈ game.episode_info, ep.is_minor_episode = true) ∨
        (∀ ep ∈ game.episode_info, ep.default_enabled = false)) →
      (generate env game).sink_calls = [] ∧
      ∀ sink : sink_t, sink_run env sink (generate env game).sink_calls
        = sink_state.constructed) ∧
    (∀ sink : sink_t, open_sink env game env.OArguments = Except.ok sink →
      ¬ ((∀ kv ∈ (final_catalog game).2.item_name_groups, kv.1 ≠ "Junk") ∨
        (∀ ep ∈ game.episode_info, ep.is_minor_episode = true) ∨
        (∀ ep ∈ game.episode_info, ep.default_enabled = false)) →
      (generate env game).sink_calls = output_calls game ∧
      sink_call.Finalize ∈ (generate env game).sink_calls) := by
  constructor
  · intro hyp
    have hne := (check_gates_ne_zero_iff _ _).mpr hyp
    have hcalls : (generate env game).sink_calls = [] := by
      unfold generate
      cases open_sink env game env.OArguments with
      | error e => rfl
      | ok sink =>
        simp only []
        rw [if_pos hne]
    refine ⟨hcalls, ?_⟩
    intro sink
    rw [hcalls]
    rfl
  · intro sink h hyp
    have hz : ¬ check_gates (final_catalog game).2.item_name_groups game.episode_info ≠ 0 :=
      fun hne => hyp ((check_gates_ne_zero_iff _ _).mp hne)
    have hcalls : (generate env game).sink_calls = output_calls game := by
      unfold generate
      simp only [h]
      rw [if_neg hz]
    refine ⟨hcalls, ?_⟩
    rw [hcalls]
    simp [output_calls]

/-- Instance of `gate_failure_no_sink_call`: the game whose only episode is
minor leaves the archive writer without entry and without file. -/
theorem gate_failure_no_sink_call_witness :
    (∀ ep ∈ game_minor_only.episode_info, ep.is_minor_episode = true) ∧
    (generate env_plain game_minor_only).sink_calls = [] ∧
    sink_run env_plain (sink_t.ZipFile "./output/w.apworld")
      (generate env_plain game_minor_only).sink_calls = sink_state.constructed :=
  ⟨by decide,
    ((gate_failure_no_sink_call env_plain game_minor_only).1 (Or.inr (Or.inl (by decide)))).1,
    ((gate_failure_no_sink_call env_plain game_minor_only).1 (Or.inr (Or.inl (by decide)))).2 _⟩

/-! ## Connections -/

/-- C10 fails on the code for the OR-list: for a connection whose OR-list
holds the negative code -1 (the option requirement named "Opt"),
`make_connection` puts the name derived from it into the "or" array of the
"rules" tree and builds no "requires" list; the same code in the AND-list goes
to the "requires" list and leaves no rule. -/
theorem make_connection_negative_or_code :
    make_connection game_with_option
        { target_region := 0, requirements_or := [-1], requirements_and := [] } "L1" "L1 @ R"
      = Json.obj [("_target", Json.str "L1 @ R"),
          ("rules", Json.arr [Json.obj [("or", Json.arr [Json.str "Opt"])]])] ∧
    make_connection game_with_option
        { target_region := 0, requirements_or := [], requirements_and := [-1] } "L1" "L1 @ R"
      = Json.obj [("_target", Json.str "L1 @ R"), ("requires", Json.arr [Json.str "Opt"])] := by
  constructor <;> rfl

/-! ## Location names: the disambiguation loop ends on a free name -/

theorem digitChar_value (d : Nat) (h : d < 10) : (Nat.digitChar d).toNat - 48 = d := by
  interval_cases d <;> rfl

theorem decimal_value_append (pre : List Char) (c : Char) :
    decimal_value (pre ++ [c]) = 10 * decimal_value pre + (c.toNat - 48) := by
  simp [decimal_value, List.foldl_append]

theorem toDigitsCore_value (fuel n : Nat) (ds : List Char) (h : n < fuel) :
    ∃ pre, Nat.toDigitsCore 10 fuel n ds = pre ++ ds ∧ decimal_value pre = n := by
  induction fuel generalizing n ds with
  | zero => omega
  | succ fuel ih =>
    unfold Nat.toDigitsCore
    by_cases h0 : n / 10 = 0
    · simp only [h0, if_true]
      refine ⟨[Nat.digitChar (n % 10)], rfl, ?_⟩
      have := decimal_value_append [] (Nat.digitChar (n % 10))
      simp only [List.nil_append] at this
      rw [this, digitChar_value _ (Nat.mod_lt _ (by decide))]
      simp [decimal_value]
      omega
    · simp only [h0, if_false]
      obtain ⟨pre, hpre, hval⟩ := ih (n / 10) (Nat.digitChar (n % 10) :: ds) (by omega)
      refine ⟨pre ++ [Nat.digitChar (n % 10)], by rw [hpre]; simp, ?_⟩
      rw [decimal_value_append, hval, digitChar_value _ (Nat.mod_lt _ (by decide))]
      omega

theorem repr_injective (a b : Nat) (h : Nat.repr a = Nat.repr b) : a = b := by
  unfold Nat.repr Nat.toDigits at h
  obtain ⟨pa, hpa, hva⟩ := toDigitsCore_value (a + 1) a [] (by omega)
  obtain ⟨pb, hpb, hvb⟩ := toDigitsCore_value (b + 1) b [] (by omega)
  rw [hpa, hpb] at h
  simp only [List.append_nil] at h
  have hd : pa = pb := by
    have := congrArg String.data h
    simpa [List.asString] using this
  rw [← hva, ← hvb, hd]

theorem loc_name_candidate_injective (ext : Bool) (name e : String) (c1 c2 : Nat)
    (h : loc_name_candidate ext name e c1 = loc_name_candidate ext name e c2) : c1 = c2 := by
  have hlen := congrArg String.length h
  have hdata := congrArg String.data h
  have h1 : (" " : String).length = 1 := rfl
  have h2 : (" (" : String).length = 2 := rfl
  have h3 : (")" : String).length = 1 := rfl
  unfold loc_name_candidate at hlen hdata
  by_cases hx : (ext && decide (e.length > 0)) = true
  · simp only [hx, if_true] at hlen hdata
    by_cases z1 : c1 = 0 <;> by_cases z2 : c2 = 0
    · omega
    · simp only [z1, z2, if_true, if_false, String.length_append, h1, h2, h3] at hlen
      omega
    · simp only [z1, z2, if_true, if_false, String.length_append, h1, h2, h3] at hlen
      omega
    · simp only [z1, z2, if_false, String.data_append, List.append_assoc] at hdata
      have hr := List.append_cancel_right
        (List.append_cancel_left (List.append_cancel_left hdata))
      have := repr_injective _ _ (String.ext hr)
      omega
  · simp only [hx, Bool.false_eq_true, if_false] at hlen hdata
    by_cases z1 : c1 = 0 <;> by_cases z2 : c2 = 0
    · omega
    · simp only [z1, z2, if_true, if_false, String.length_append, h1] at hlen
      omega
    · simp only [z1, z2, if_true, if_false, String.length_append, h1] at hlen
      omega
    · simp only [z1, z2, if_false, String.data_append, List.append_assoc] at hdata
      have hr := List.append_cancel_left (List.append_cancel_left hdata)
      have := repr_injective _ _ (String.ext hr)
      omega

theorem loc_name_loop_taken (locs : List ap_location_t) (ext : Bool) (name e : String)
    (fuel count : Nat)
    (h : loc_name_taken locs (loc_name_loop locs ext name e fuel count) = true) :
    ∀ i, i ≤ fuel → loc_name_taken locs (loc_name_candidate ext name e (count + i)) = true := by
  induction fuel generalizing count with
  | zero =>
    intro i hi
    have : i = 0 := by omega
    subst this
    simpa [loc_name_loop] using h
  | succ fuel ih =>
    unfold loc_name_loop at h
    by_cases ht : loc_name_taken locs (loc_name_candidate ext name e count) = true
    · rw [if_pos ht] at h
      intro i hi
      cases i with
      | zero => simpa using ht
      | succ i =>
        have := ih (count + 1) h i (by omega)
        rwa [show count + (i + 1) = count + 1 + i by omega]
    · rw [if_neg ht] at h
      exact absurd h ht

theorem loc_name_loop_not_taken (locs : List ap_location_t) (ext : Bool) (name e : String) :
    loc_name_taken locs (loc_name_loop locs ext name e (locs.length + 1) 0) = false := by
  by_contra hne
  have ht : loc_name_taken locs (loc_name_loop locs ext name e (locs.length + 1) 0) = true := by
    simpa using hne
  have hall := loc_name_loop_taken locs ext name e _ _ ht
  have hsub : (List.range (locs.length + 1)).map (loc_name_candidate ext name e)
      ⊆ locs.map (fun l => l.name) := by
    intro s hs
    obtain ⟨i, hi, rfl⟩ := List.mem_map.mp hs
    have := hall i (by have := List.mem_range.mp hi; omega)
    simp only [Nat.zero_add, loc_name_taken, List.any_eq_true, beq_iff_eq] at this
    obtain ⟨l, hl, hn⟩ := this
    exact List.mem_map.mpr ⟨l, hl, hn⟩
  have hnd : ((List.range (locs.length + 1)).map (loc_name_candidate ext name e)).Nodup :=
    (List.nodup_range _).map (fun a b hab => loc_name_candidate_injective ext name e a b hab)
  have := (hnd.subperm hsub).length_le
  simp at this

/-! ## Catalog compilation: the locations -/

theorem add_item_locations (item_def : ap_item_def_t) (classification : Nat)
    (level : Option level_t) (st : gen_state) :
    (add_item item_def classification level st).ap_locations = st.ap_locations ∧
    (add_item item_def classification level st).location_next_id = st.location_next_id :=
  ⟨rfl, rfl⟩

theorem add_items_locations (defs : List ap_item_def_t) (classification : Nat)
    (level : Option level_t) (st : gen_state) :
    (add_items defs classification level st).ap_locations = st.ap_locations ∧
    (add_items defs classification level st).location_next_id = st.location_next_id := by
  unfold add_items
  induction defs generalizing st with
  | nil => exact ⟨rfl, rfl⟩
  | cons d ds ih =>
    simp only [List.foldl_cons]
    obtain ⟨h1, h2⟩ := ih (add_item d classification level st)
    exact ⟨h1.trans rfl, h2.trans rfl⟩

theorem add_unique_locations (key_def : ap_key_def_t) (classification : Nat)
    (thing : map_thing_t) (level : level_t) (index : Nat) (st : gen_state) :
    (add_unique key_def classification thing level index st).2.ap_locations = st.ap_locations ∧
    (add_unique key_def classification thing level index st).2.location_next_id
      = st.location_next_id := by
  unfold add_unique
  dsimp only
  split <;> exact ⟨rfl, rfl⟩

theorem register_key_locations (game : game_t) (thing : map_thing_t) (level : level_t)
    (i : Nat) (st : gen_state) :
    (register_key game thing level i st).2.ap_locations = st.ap_locations ∧
    (register_key game thing level i st).2.location_next_id = st.location_next_id ∧
    (register_key game thing level i st).1.idx = level.idx ∧
    (register_key game thing level i st).1.map_state = level.map_state := by
  unfold register_key
  split
  · exact ⟨rfl, rfl, rfl, rfl⟩
  · rename_i key_def _
    obtain ⟨h1, h2⟩ := add_unique_locations key_def PROGRESSION thing level i st
    exact ⟨h1, h2, rfl, rfl⟩

theorem add_loc_keys (name : String) (thing : map_thing_t) (level : level_t) (index : Nat)
    (id : Int) (st : gen_state) (h0 : st.location_next_id = 0) :
    (add_loc name thing level index id st).2.ap_locations.map loc_key
      = st.ap_locations.map loc_key ++
          (if (loc_state_at level.map_state index).unreachable then []
           else [(level.idx.ep, level.idx.map, (index : Int),
                  wrap_int ((level.idx.ep + 1) * 100000 + (level.idx.map + 1) * 1000 + id))]) ∧
    (add_loc name thing level index id st).2.location_next_id = 0 ∧
    (add_loc name thing level index id st).1.idx = level.idx ∧
    (add_loc name thing level index id st).1.map_state = level.map_state := by
  unfold add_loc
  by_cases hu : (loc_state_at level.map_state index).unreachable = true
  · simp [hu, h0]
  · have hn : ¬ st.location_next_id > 999 := by omega
    simp [hu, hn, h0, loc_key, get_location_id_base, wrap_int_add]

theorem scan_things_keys (game : game_t) (pfx : String) (things : List map_thing_t) (i : Nat)
    (next_loc : Int) (level : level_t) (st : gen_state) (h0 : st.location_next_id = 0) :
    (scan_things game pfx things i next_loc level st).2.ap_locations.map loc_key
      = st.ap_locations.map loc_key
          ++ (scan_loc_keys game level.map_state level.idx things i next_loc).map wrap_key ∧
    (scan_things game pfx things i next_loc level st).2.location_next_id = 0 ∧
    (scan_things game pfx things i next_loc level st).1.idx = level.idx := by
  induction things generalizing i next_loc level st with
  | nil => simp [scan_things, scan_loc_keys, h0]
  | cons thing rest ih =>
    unfold scan_things scan_loc_keys
    cases hl : thing_label game thing with
    | none => exact ih (i + 1) next_loc level st h0
    | some label =>
      simp only []
      obtain ⟨k1, k2, k3, k4⟩ := register_key_locations game thing level i st
      obtain ⟨a1, a2, a3, a4⟩ := add_loc_keys (pfx ++ label) thing
        (register_key game thing level i st).1 i next_loc (register_key game thing level i st).2
        (k2.trans h0)
      obtain ⟨r1, r2, r3⟩ := ih (i + 1) (next_loc + 1) _ _ a2
      refine ⟨?_, r2, by rw [r3, a3, k3]⟩
      rw [r1, a1, a4, a3, k1, k3, k4]
      by_cases hu : (loc_state_at level.map_state i).unreachable = true
      · simp [hu]
      · simp [hu, wrap_key]

theorem compile_level_keys (game : game_t) (level : level_t) (st : gen_state)
    (h0 : st.location_next_id = 0) :
    (compile_level game level st).2.ap_locations.map loc_key
      = st.ap_locations.map loc_key ++ (level_loc_keys game level).map wrap_key ∧
    (compile_level game level st).2.location_next_id = 0 ∧
    (compile_level game level st).1.idx = level.idx := by
  obtain ⟨r1, r2, r3⟩ := scan_things_keys game (level.name ++ " - ") level.map.things 0 1
    { level with sectors := List.replicate level.map.sector_count { locations := [] } } st h0
  unfold compile_level
  dsimp only
  cases find_exit_region level.name level.map_state.regions with
  | some region_name =>
    refine ⟨?_, r2, r3⟩
    simp only [List.map_append, r1, level_loc_keys, List.append_assoc]
    simp [loc_key, make_complete_loc, get_location_id_base, wrap_key]
  | none =>
    refine ⟨?_, r2, r3⟩
    simp only [List.map_append, r1, level_loc_keys, List.append_assoc]
    simp [loc_key, make_complete_loc, get_location_id_base, wrap_key]

theorem compile_levels_keys (game : game_t) (levels : List level_t) (st : gen_state)
    (h0 : st.location_next_id = 0) :
    (compile_levels game levels st).2.ap_locations.map loc_key
      = st.ap_locations.map loc_key ++ (levels.flatMap (level_loc_keys game)).map wrap_key ∧
    (compile_levels game levels st).2.location_next_id = 0 ∧
    (compile_levels game levels st).1.map (fun l => l.idx) = levels.map (fun l => l.idx) := by
  induction levels generalizing st with
  | nil => simp [compile_levels, h0]
  | cons level rest ih =>
    obtain ⟨c1, c2, c3⟩ := compile_level_keys game level st h0
    obtain ⟨r1, r2, r3⟩ := ih (compile_level game level st).2 c2
    unfold compile_levels
    dsimp only
    refine ⟨?_, r2, ?_⟩
    · rw [r1, c1, List.flatMap_cons, List.map_append, List.append_assoc]
    · simp only [List.map_cons, c3, r3]

theorem add_level_items_locations (game : game_t) (level : level_t) (st : gen_state) :
    (add_level_items game level st).ap_locations = st.ap_locations := by
  unfold add_level_items
  dsimp only
  rw [(add_items_locations _ _ _ _).1, (add_items_locations _ _ _ _).1,
    (add_items_locations _ _ _ _).1]
  rfl

theorem fold_level_items_locations (game : game_t) (levels : List level_t) (st : gen_state) :
    (levels.foldl (fun s level => add_level_items game level s) st).ap_locations
      = st.ap_locations := by
  induction levels generalizing st with
  | nil => rfl
  | cons level rest ih =>
    simp only [List.foldl_cons]
    rw [ih, add_level_items_locations]

theorem add_global_items_locations (game : game_t) (st : gen_state) :
    (add_global_items game st).ap_locations = st.ap_locations ∧
    (add_global_items game st).location_next_id = st.location_next_id := by
  unfold add_global_items
  obtain ⟨a1, a2⟩ := add_items_locations game.progression PROGRESSION none st
  obtain ⟨b1, b2⟩ := add_items_locations game.useful USEFUL none
    (add_items game.progression PROGRESSION none st)
  obtain ⟨c1, c2⟩ := add_items_locations game.filler FILLER none
    (add_items game.useful USEFUL none (add_items game.progression PROGRESSION none st))
  exact ⟨c1.trans (b1.trans a1), c2.trans (b2.trans a2)⟩

/-- The locations after catalog compilation, level by level: their ids are
those of the formula, reduced to 32 bits. -/
theorem compile_catalog_keys (game : game_t) :
    (compile_catalog game).2.ap_locations.map loc_key
      = ((make_levels game).flatMap (level_loc_keys game)).map wrap_key := by
  obtain ⟨g1, g2⟩ := add_global_items_locations game (initial_state game)
  obtain ⟨c1, _, _⟩ := compile_levels_keys game (make_levels game)
    (add_global_items game (initial_state game)) (g2.trans rfl)
  unfold compile_catalog
  dsimp only
  rw [fold_level_items_locations, c1, g1]
  rfl

theorem fill_sectors_keys (locs : List ap_location_t) (i : Nat) (levels : List level_t) :
    (fill_sectors locs i levels).1.map loc_key = locs.map loc_key := by
  induction locs generalizing i levels with
  | nil => rfl
  | cons loc rest ih =>
    unfold fill_sectors
    by_cases hneg : loc.doom_thing_index < 0
    · simp only [hneg, if_true, List.map_cons, ih]
    · simp only [hneg, if_false]
      split
      · simp only [List.map_cons, ih]
        rfl
      · simp only [List.map_cons, ih]

theorem remap_pass_nil {α : Type} (name : α → String) (set_id : α → Int → α) (xs : List α) :
    remap_pass name set_id [] xs = xs := by
  simp [remap_pass]

/-- With no location remap table, the locations of the final catalog are
those of catalog compilation, in another order. -/
theorem final_catalog_keys (game : game_t) (h : game.location_remap = []) :
    ((final_catalog game).2.ap_locations.map loc_key).Perm
      (((make_levels game).flatMap (level_loc_keys game)).map wrap_key) := by
  unfold final_catalog
  dsimp only
  rw [fill_sectors_keys, remap_locations, h, remap_pass_nil, ← compile_catalog_keys]
  exact (sort_by_id_perm _ _).map loc_key

/-! ## Catalog compilation: the location ids are distinct within the bounds -/

theorem scan_loc_ids_increasing (game : game_t) (map_state : map_state_t) (idx : level_index_t)
    (things : List map_thing_t) (i : Nat) (next_loc : Int) :
    ((scan_loc_keys game map_state idx things i next_loc).map (fun s => s.2.2.2)).Pairwise
        (fun a b => a < b) ∧
    ∀ x ∈ (scan_loc_keys game map_state idx things i next_loc).map (fun s => s.2.2.2),
      (idx.ep + 1) * 100000 + (idx.map + 1) * 1000 + next_loc ≤ x ∧
      x < (idx.ep + 1) * 100000 + (idx.map + 1) * 1000 + next_loc
            + ((things.filter (eligible game)).length : Nat) := by
  induction things generalizing i next_loc with
  | nil => simp [scan_loc_keys]
  | cons thing rest ih =>
    unfold scan_loc_keys
    cases hl : thing_label game thing with
    | none =>
      have he : eligible game thing = false := by simp [eligible, hl]
      simp only [List.filter_cons, he, Bool.false_eq_true, if_false]
      exact ih (i + 1) next_loc
    | some label =>
      have he : eligible game thing = true := by simp [eligible, hl]
      simp only [List.filter_cons, he, if_true, List.length_cons, Nat.cast_add, Nat.cast_one]
      obtain ⟨p, b⟩ := ih (i + 1) (next_loc + 1)
      by_cases hu : (loc_state_at map_state i).unreachable = true
      · simp only [hu, if_true]
        refine ⟨p, ?_⟩
        intro x hx
        have := b x hx
        omega
      · simp only [hu, Bool.false_eq_true, if_false, List.map_cons, List.pairwise_cons]
        refine ⟨⟨?_, p⟩, ?_⟩
        · intro x hx
          have := b x hx
          omega
        · intro x hx
          rcases List.mem_cons.mp hx with rfl | hx
          · omega
          · have := b x hx
            omega

theorem level_loc_ids_nodup (game : game_t) (level : level_t) :
    ((level_loc_keys game level).map (fun s => s.2.2.2)).Nodup ∧
    ∀ x ∈ (level_loc_keys game level).map (fun s => s.2.2.2),
      (level.idx.ep + 1) * 100000 + (level.idx.map + 1) * 1000 ≤ x ∧
      x ≤ (level.idx.ep + 1) * 100000 + (level.idx.map + 1) * 1000
            + ((level.map.things.filter (eligible game)).length : Nat) := by
  obtain ⟨p, b⟩ := scan_loc_ids_increasing game level.map_state level.idx level.map.things 0 1
  unfold level_loc_keys
  simp only [List.map_append, List.map_cons, List.map_nil]
  constructor
  · rw [List.nodup_append]
    refine ⟨p.imp (fun h => ne_of_lt h), List.nodup_singleton _, ?_⟩
    intro x hx hx'
    have := b x hx
    rw [List.mem_singleton] at hx'
    omega
  · intro x hx
    rcases List.mem_append.mp hx with hx | hx
    · have := b x hx
      omega
    · rw [List.mem_singleton] at hx
      omega

theorem episode_loc_ids_nodup (game : game_t) (ep : Nat) (metas : List meta_t) (map0 : Nat)
    (hobjs : ∀ m ∈ metas, (m.map.things.filter (eligible game)).length ≤ 999) :
    (((make_episode_levels game ep metas map0).flatMap (level_loc_keys game)).map
        (fun s => s.2.2.2)).Nodup ∧
    ∀ x ∈ ((make_episode_levels game ep metas map0).flatMap (level_loc_keys game)).map
        (fun s => s.2.2.2),
      ((ep : Int) + 1) * 100000 + ((map0 : Int) + 1) * 1000 ≤ x ∧
      x ≤ ((ep : Int) + 1) * 100000 + ((map0 : Int) + (metas.length : Nat)) * 1000 + 999 := by
  induction metas generalizing map0 with
  | nil => simp [make_episode_levels]
  | cons m rest ih =>
    obtain ⟨p, b⟩ := ih (map0 + 1) (fun m' hm' => hobjs m' (List.mem_cons_of_mem _ hm'))
    obtain ⟨lp, lb⟩ := level_loc_ids_nodup game (make_level game ep map0 m)
    have hm := hobjs m (List.mem_cons_self _ _)
    simp only [make_level] at lb
    unfold make_episode_levels
    simp only [List.flatMap_cons, List.map_append, List.length_cons, Nat.cast_add, Nat.cast_one]
    constructor
    · rw [List.nodup_append]
      refine ⟨lp, p, ?_⟩
      intro x hx hx'
      have h1 := lb x hx
      have h2 := b x hx'
      push_cast at h2
      omega
    · intro x hx
      rcases List.mem_append.mp hx with hx | hx
      · have := lb x hx
        omega
      · have := b x hx
        push_cast at this
        omega

theorem game_loc_ids_nodup (game : game_t) (episodes : List (List meta_t)) (ep0 : Nat)
    (hmaps : ∀ episode ∈ episodes, episode.length ≤ 100)
    (hobjs : ∀ episode ∈ episodes, ∀ m ∈ episode,
      (m.map.things.filter (eligible game)).length ≤ 999) :
    (((make_levels_from game episodes ep0).flatMap (level_loc_keys game)).map
        (fun s => s.2.2.2)).Nodup ∧
    ∀ x ∈ ((make_levels_from game episodes ep0).flatMap (level_loc_keys game)).map
        (fun s => s.2.2.2),
      ((ep0 : Int) + 1) * 100000 + 1000 ≤ x ∧
      x ≤ ((ep0 : Int) + (episodes.length : Nat)) * 100000 + 100999 := by
  induction episodes generalizing ep0 with
  | nil => simp [make_levels_from]
  | cons episode rest ih =>
    obtain ⟨p, b⟩ := ih (ep0 + 1) (fun e he => hmaps e (List.mem_cons_of_mem _ he))
      (fun e he => hobjs e (List.mem_cons_of_mem _ he))
    obtain ⟨ep_nodup, eb⟩ := episode_loc_ids_nodup game ep0 episode 0
      (hobjs episode (List.mem_cons_self _ _))
    have hlen := hmaps episode (List.mem_cons_self _ _)
    unfold make_levels_from
    simp only [List.flatMap_append, List.map_append, List.length_cons]
    constructor
    · rw [List.nodup_append]
      refine ⟨ep_nodup, p, ?_⟩
      intro x hx hx'
      have h1 := eb x hx
      have h2 := b x hx'
      push_cast at h1 h2
      omega
    · intro x hx
      rcases List.mem_append.mp hx with hx | hx
      · have := eb x hx
        push_cast at this ⊢
        omega
      · have := b x hx
        push_cast at this ⊢
        omega

/-- The ids of the location records of the levels, which are the ids of the
formula reduced to 32 bits, are pairwise distinct in a game of at most 42949
episodes, each of at most 100 maps, each map with at most 999 eligible
objects: the ids of the formula are pairwise distinct and lie between 101000
and 4295000999, less than 2^32 apart. -/
theorem game_wrapped_loc_ids_nodup (game : game_t)
    (heps : game.episodes.length ≤ 42949)
    (hmaps : ∀ episode ∈ game.episodes, episode.length ≤ 100)
    (hobjs : ∀ episode ∈ game.episodes, ∀ m ∈ episode,
      (m.map.things.filter (eligible game)).length ≤ 999) :
    ((((make_levels game).flatMap (level_loc_keys game)).map wrap_key).map
      (fun s => s.2.2.2)).Nodup := by
  obtain ⟨hn, hb⟩ := game_loc_ids_nodup game game.episodes 0 hmaps hobjs
  have hmap : (((make_levels game).flatMap (level_loc_keys game)).map wrap_key).map
        (fun s => s.2.2.2)
      = (((make_levels game).flatMap (level_loc_keys game)).map (fun s => s.2.2.2)).map
          wrap_int := by
    rw [List.map_map, List.map_map]
    rfl
  rw [hmap]
  refine wrap_int_nodup _ 101000 hn ?_
  intro x hx
  have := hb x hx
  push_cast at this
  omega

theorem loc_key_id (locs : List ap_location_t) :
    locs.map (fun l => l.id) = (locs.map loc_key).map (fun s => s.2.2.2) := by
  rw [List.map_map]
  rfl

/-! ## Catalog compilation: which locations there are -/

theorem scan_loc_keys_mem (game : game_t) (map_state : map_state_t) (idx : level_index_t)
    (things : List map_thing_t) (i0 : Nat) (n0 : Int) (s : Int × Int × Int × Int) :
    s ∈ scan_loc_keys game map_state idx things i0 n0 ↔
      ∃ (j : Nat) (thing : map_thing_t), things[j]? = some thing ∧ eligible game thing = true ∧
        (loc_state_at map_state (i0 + j)).unreachable = false ∧
        s = (idx.ep, idx.map, ((i0 + j : Nat) : Int),
              (idx.ep + 1) * 100000 + (idx.map + 1) * 1000 + n0
                + (((things.take j).filter (eligible game)).length : Nat)) := by
  induction things generalizing i0 n0 with
  | nil => simp [scan_loc_keys]
  | cons thing rest ih =>
    unfold scan_loc_keys
    cases hl : thing_label game thing with
    | none =>
      have he : eligible game thing = false := by simp [eligible, hl]
      dsimp only
      rw [ih]
      constructor
      · rintro ⟨j, t, hj, het, hu, hs⟩
        refine ⟨j + 1, t, by simpa using hj, het, by rwa [show i0 + (j + 1) = i0 + 1 + j by omega],
          ?_⟩
        rw [hs, List.take_succ_cons, List.filter_cons, he]
        simp only [Bool.false_eq_true, if_false]
        rw [show i0 + (j + 1) = i0 + 1 + j by omega]
      · rintro ⟨j, t, hj, het, hu, hs⟩
        cases j with
        | zero =>
          simp only [List.getElem?_cons_zero, Option.some.injEq] at hj
          rw [hj, het] at he
          exact absurd he (by decide)
        | succ j =>
          refine ⟨j, t, by simpa using hj, het,
            by rwa [show i0 + 1 + j = i0 + (j + 1) by omega], ?_⟩
          rw [hs, List.take_succ_cons, List.filter_cons, he]
          simp only [Bool.false_eq_true, if_false]
          rw [show i0 + (j + 1) = i0 + 1 + j by omega]
    | some label =>
      have he : eligible game thing = true := by simp [eligible, hl]
      dsimp only
      have hstep : ∀ j : Nat,
          (idx.ep + 1) * 100000 + (idx.map + 1) * 1000 + (n0 + 1)
              + (((rest.take j).filter (eligible game)).length : Nat)
            = (idx.ep + 1) * 100000 + (idx.map + 1) * 1000 + n0
              + ((((thing :: rest).take (j + 1)).filter (eligible game)).length : Nat) := by
        intro j
        rw [List.take_succ_cons, List.filter_cons, he]
        simp only [if_true, List.length_cons, Nat.cast_add, Nat.cast_one]
        ring
      have htail : s ∈ scan_loc_keys game map_state idx rest (i0 + 1) (n0 + 1) ↔
          ∃ (j : Nat) (t : map_thing_t), (thing :: rest)[j + 1]? = some t ∧
            eligible game t = true ∧
            (loc_state_at map_state (i0 + (j + 1))).unreachable = false ∧
            s = (idx.ep, idx.map, ((i0 + (j + 1) : Nat) : Int),
                  (idx.ep + 1) * 100000 + (idx.map + 1) * 1000 + n0
                    + ((((thing :: rest).take (j + 1)).filter (eligible game)).length : Nat)) := by
        rw [ih]
        constructor
        · rintro ⟨j, t, hj, het, hu, hs⟩
          refine ⟨j, t, by simpa using hj, het,
            by rwa [show i0 + (j + 1) = i0 + 1 + j by omega], ?_⟩
          rw [hs, hstep, show i0 + (j + 1) = i0 + 1 + j by omega]
        · rintro ⟨j, t, hj, het, hu, hs⟩
          refine ⟨j, t, by simpa using hj, het,
            by rwa [show i0 + 1 + j = i0 + (j + 1) by omega], ?_⟩
          rw [hs, hstep, show i0 + (j + 1) = i0 + 1 + j by omega]
      by_cases hu0 : (loc_state_at map_state i0).unreachable = true
      · simp only [hu0, if_true]
        rw [htail]
        constructor
        · rintro ⟨j, t, h⟩
          exact ⟨j + 1, t, h⟩
        · rintro ⟨j, t, hj, het, hu, hs⟩
          cases j with
          | zero =>
            rw [Nat.add_zero, hu0] at hu
            exact absurd hu (by decide)
          | succ j => exact ⟨j, t, hj, het, hu, hs⟩
      · simp only [hu0, Bool.false_eq_true, if_false, List.mem_cons]
        rw [htail]
        constructor
        · rintro (hs | ⟨j, t, h⟩)
          · refine ⟨0, thing, List.getElem?_cons_zero, he, by simpa using hu0, ?_⟩
            rw [hs]
            simp
          · exact ⟨j + 1, t, h⟩
        · rintro ⟨j, t, hj, het, hu, hs⟩
          cases j with
          | zero =>
            left
            rw [hs]
            simp
          | succ j => exact Or.inr ⟨j, t, hj, het, hu, hs⟩

theorem mem_make_episode_levels (game : game_t) (ep : Nat) (metas : List meta_t) (map0 : Nat)
    (level : level_t) :
    level ∈ make_episode_levels game ep metas map0 ↔
      ∃ (j : Nat) (m : meta_t), metas[j]? = some m ∧ level = make_level game ep (map0 + j) m := by
  induction metas generalizing map0 with
  | nil => simp [make_episode_levels]
  | cons m rest ih =>
    unfold make_episode_levels
    rw [List.mem_cons, ih]
    constructor
    · rintro (h | ⟨j, m', hj, hl⟩)
      · exact ⟨0, m, List.getElem?_cons_zero, by rw [h]; rfl⟩
      · exact ⟨j + 1, m', by simpa using hj, by rw [hl, show map0 + (j + 1) = map0 + 1 + j by omega]⟩
    · rintro ⟨j, m', hj, hl⟩
      cases j with
      | zero =>
        simp only [List.getElem?_cons_zero, Option.some.injEq] at hj
        left
        rw [hl, hj]
        rfl
      | succ j =>
        exact Or.inr ⟨j, m', by simpa using hj,
          by rw [hl, show map0 + (j + 1) = map0 + 1 + j by omega]⟩

theorem mem_make_levels_from (game : game_t) (episodes : List (List meta_t)) (ep0 : Nat)
    (level : level_t) :
    level ∈ make_levels_from game episodes ep0 ↔
      ∃ (e : Nat) (episode : List meta_t) (j : Nat) (m : meta_t),
        episodes[e]? = some episode ∧ episode[j]? = some m ∧
        level = make_level game (ep0 + e) j m := by
  induction episodes generalizing ep0 with
  | nil => simp [make_levels_from]
  | cons episode rest ih =>
    unfold make_levels_from
    rw [List.mem_append, ih, mem_make_episode_levels]
    constructor
    · rintro (⟨j, m, hj, hl⟩ | ⟨e, episode', j, m, he, hj, hl⟩)
      · exact ⟨0, episode, j, m, List.getElem?_cons_zero, hj, by rw [hl, Nat.zero_add]; rfl⟩
      · exact ⟨e + 1, episode', j, m, by simpa using he, hj,
          by rw [hl, show ep0 + (e + 1) = ep0 + 1 + e by omega]⟩
    · rintro ⟨e, episode', j, m, he, hj, hl⟩
      cases e with
      | zero =>
        simp only [List.getElem?_cons_zero, Option.some.injEq] at he
        subst he
        exact Or.inl ⟨j, m, hj, by rw [hl, Nat.zero_add]; rfl⟩
      | succ e =>
        exact Or.inr ⟨e, episode', j, m, by simpa using he, hj,
          by rw [hl, show ep0 + (e + 1) = ep0 + 1 + e by omega]⟩

theorem mem_make_levels (game : game_t) (level : level_t) :
    level ∈ make_levels game ↔
      ∃ (ep : Nat) (episode : List meta_t) (map : Nat) (m : meta_t),
        game.episodes[ep]? = some episode ∧ episode[map]? = some m ∧
        level = make_level game ep map m := by
  unfold make_levels
  rw [mem_make_levels_from]
  simp only [Nat.zero_add]

/-- The number of eligible objects up to and including an eligible object is
one more than the number before it. -/
theorem eligible_rank (game : game_t) (things : List map_thing_t) (i : Nat)
    (thing : map_thing_t) (hi : things[i]? = some thing) (he : eligible game thing = true) :
    ((things.take (i + 1)).filter (eligible game)).length
      = ((things.take i).filter (eligible game)).length + 1 := by
  rw [List.take_succ, hi]
  simp [List.filter_append, he]

/-- The keys of the locations of a level of the game. -/
theorem level_loc_keys_mem (game : game_t) (ep map : Nat) (m : meta_t)
    (s : Int × Int × Int × Int) :
    s ∈ level_loc_keys game (make_level game ep map m) ↔
      (s = ((ep : Int), (map : Int), -1, ((ep : Int) + 1) * 100000 + ((map : Int) + 1) * 1000) ∨
       ∃ (i : Nat) (thing : map_thing_t), m.map.things[i]? = some thing ∧
        eligible game thing = true ∧ (loc_state_at m.state i).unreachable = false ∧
        s = ((ep : Int), (map : Int), (i : Int),
              ((ep : Int) + 1) * 100000 + ((map : Int) + 1) * 1000
                + (((m.map.things.take (i + 1)).filter (eligible game)).length : Nat))) := by
  unfold level_loc_keys
  rw [List.mem_append, List.mem_singleton, scan_loc_keys_mem]
  simp only [make_level, Nat.zero_add]
  constructor
  · rintro (⟨i, thing, hi, he, hu, hs⟩ | hs)
    · right
      refine ⟨i, thing, hi, he, hu, ?_⟩
      rw [hs, eligible_rank game _ i thing hi he]
      push_cast
      simp only [Prod.mk.injEq, true_and]
      ring
    · exact Or.inl hs
  · rintro (hs | ⟨i, thing, hi, he, hu, hs⟩)
    · exact Or.inr hs
    · left
      refine ⟨i, thing, hi, he, hu, ?_⟩
      rw [hs, eligible_rank game _ i thing hi he]
      push_cast
      simp only [Prod.mk.injEq, true_and]
      ring

/-- The keys of the final catalog are those of the levels of the game, with
the id reduced to 32 bits. -/
theorem final_catalog_key_mem (game : game_t) (h : game.location_remap = [])
    (s : Int × Int × Int × Int) :
    s ∈ (final_catalog game).2.ap_locations.map loc_key ↔
      ∃ (ep : Nat) (episode : List meta_t) (map : Nat) (m : meta_t),
        game.episodes[ep]? = some episode ∧ episode[map]? = some m ∧
        ∃ s0 ∈ level_loc_keys game (make_level game ep map m), s = wrap_key s0 := by
  rw [(final_catalog_keys game h).mem_iff, List.mem_map]
  constructor
  · rintro ⟨s0, hs0, rfl⟩
    obtain ⟨level, hl, hs⟩ := List.mem_flatMap.mp hs0
    obtain ⟨ep, episode, map, m, he, hm, rfl⟩ := (mem_make_levels game level).mp hl
    exact ⟨ep, episode, map, m, he, hm, s0, hs, rfl⟩
  · rintro ⟨ep, episode, map, m, he, hm, s0, hs, rfl⟩
    exact ⟨s0, List.mem_flatMap.mpr
      ⟨_, (mem_make_levels game _).mpr ⟨ep, episode, map, m, he, hm, rfl⟩, hs⟩, rfl⟩

theorem make_levels_from_skip (game : game_t) (n : Nat) (rest : List (List meta_t))
    (ep0 : Nat) :
    make_levels_from game (List.replicate n [] ++ rest) ep0
      = make_levels_from game rest (ep0 + n) := by
  induction n generalizing ep0 with
  | zero => rfl
  | succ n ih =>
    rw [List.replicate_succ, List.cons_append, make_levels_from, ih]
    simp only [make_episode_levels, List.nil_append]
    rw [show ep0 + 1 + n = ep0 + (n + 1) by omega]

/-- C1, as stated, fails past the range of `int`: in a game of 21475 episodes
whose last episode has one map, the level-complete location of level
(21474, 0) has id -2147466296, and no location of the catalog has the id
(21474+1)*100000 + (0+1)*1000 = 2147501000. -/
theorem level_complete_id_past_int :
    game_21475_episodes.location_remap = [] ∧
    game_21475_episodes.episodes[21474]? = some [meta_plain] ∧
    (∃ loc ∈ (final_catalog game_21475_episodes).2.ap_locations,
      loc.idx.ep = 21474 ∧ loc.idx.map = 0 ∧ loc.doom_thing_index = -1 ∧
      loc.id = -2147466296) ∧
    ((21474 : Int) + 1) * 100000 + ((0 : Int) + 1) * 1000 = 2147501000 ∧
    ∀ loc ∈ (final_catalog game_21475_episodes).2.ap_locations, loc.id ≠ 2147501000 := by
  have he : game_21475_episodes.episodes[21474]? = some [meta_plain] := by
    show (List.replicate 21474 ([] : List meta_t) ++ [[meta_plain]])[21474]? = some [meta_plain]
    rw [List.getElem?_append_right (by rw [List.length_replicate]), List.length_replicate]
    rfl
  refine ⟨rfl, he, ?_, by decide, ?_⟩
  · have hs := (final_catalog_key_mem game_21475_episodes rfl _).mpr
      ⟨21474, [meta_plain], 0, meta_plain, he, rfl, _,
        (level_loc_keys_mem game_21475_episodes 21474 0 meta_plain _).mpr (Or.inl rfl), rfl⟩
    obtain ⟨loc, hloc, hkey⟩ := List.mem_map.mp hs
    simp only [loc_key, wrap_key, Prod.mk.injEq] at hkey
    refine ⟨loc, hloc, ?_, ?_, hkey.2.2.1, ?_⟩
    · rw [hkey.1]
      rfl
    · rw [hkey.2.1]
      rfl
    · rw [hkey.2.2.2]
      decide
  · intro loc hloc hid
    obtain ⟨_, _, _, _, _, _, s0, _, hkey⟩ :=
      (final_catalog_key_mem game_21475_episodes rfl (loc_key loc)).mp
        (List.mem_map_of_mem _ hloc)
    simp only [loc_key, wrap_key, Prod.mk.injEq] at hkey
    have hr := wrap_int_range s0.2.2.2
    rw [← hkey.2.2.2, hid] at hr
    exact absurd hr (by decide)

/-- C1, amended: with no legacy location remap table, every location of the
catalog belongs to a level (ep, map) of the game and is either its
level-complete location, whose id is (ep+1)*100000 + (map+1)*1000 in 32 bits,
or the location of an eligible map object of that level, whose id is
(ep+1)*100000 + (map+1)*1000 + k in 32 bits when the object is the k-th
eligible one in map-object order (k from 1); and every level has its
level-complete location and a location for each of its eligible objects that
is not marked unreachable.  The id in 32 bits is the number of the formula
itself whenever that number is a value of `int` (at most 2147483647). -/
theorem location_id_formula (game : game_t) (h : game.location_remap = []) :
    (∀ loc ∈ (final_catalog game).2.ap_locations,
      ∃ (ep : Nat) (episode : List meta_t) (map : Nat) (m : meta_t),
        game.episodes[ep]? = some episode ∧ episode[map]? = some m ∧
        loc.idx.ep = ep ∧ loc.idx.map = map ∧
        ((loc.doom_thing_index = -1 ∧
            id_in_int loc.id (((ep : Int) + 1) * 100000 + ((map : Int) + 1) * 1000)) ∨
         ∃ (i : Nat) (thing : map_thing_t), m.map.things[i]? = some thing ∧
            eligible game thing = true ∧ loc.doom_thing_index = i ∧
            id_in_int loc.id (((ep : Int) + 1) * 100000 + ((map : Int) + 1) * 1000
              + (((m.map.things.take (i + 1)).filter (eligible game)).length : Nat)))) ∧
    (∀ (ep : Nat) (episode : List meta_t) (map : Nat) (m : meta_t),
      game.episodes[ep]? = some episode → episode[map]? = some m →
      (∃ loc ∈ (final_catalog game).2.ap_locations,
        loc.idx.ep = ep ∧ loc.idx.map = map ∧ loc.doom_thing_index = -1 ∧
        id_in_int loc.id (((ep : Int) + 1) * 100000 + ((map : Int) + 1) * 1000)) ∧
      ∀ (i : Nat) (thing : map_thing_t), m.map.things[i]? = some thing →
        eligible game thing = true → (loc_state_at m.state i).unreachable = false →
        ∃ loc ∈ (final_catalog game).2.ap_locations,
          loc.idx.ep = ep ∧ loc.idx.map = map ∧ loc.doom_thing_index = i ∧
          id_in_int loc.id (((ep : Int) + 1) * 100000 + ((map : Int) + 1) * 1000
            + (((m.map.things.take (i + 1)).filter (eligible game)).length : Nat))) := by
  constructor
  · intro loc hloc
    have hk := (final_catalog_key_mem game h (loc_key loc)).mp (List.mem_map_of_mem _ hloc)
    obtain ⟨ep, episode, map, m, he, hm, s0, hs, hkey⟩ := hk
    rcases (level_loc_keys_mem game ep map m _).mp hs with hs | ⟨i, thing, hi, hel, _, hs⟩
    · subst hs
      simp only [loc_key, wrap_key, Prod.mk.injEq] at hkey
      exact ⟨ep, episode, map, m, he, hm, hkey.1, hkey.2.1,
        Or.inl ⟨hkey.2.2.1, id_in_int_of_wrap _ _ hkey.2.2.2⟩⟩
    · subst hs
      simp only [loc_key, wrap_key, Prod.mk.injEq] at hkey
      exact ⟨ep, episode, map, m, he, hm, hkey.1, hkey.2.1,
        Or.inr ⟨i, thing, hi, hel, hkey.2.2.1, id_in_int_of_wrap _ _ hkey.2.2.2⟩⟩
  · intro ep episode map m he hm
    constructor
    · have hs := (final_catalog_key_mem game h _).mpr
        ⟨ep, episode, map, m, he, hm, _,
          (level_loc_keys_mem game ep map m _).mpr (Or.inl rfl), rfl⟩
      obtain ⟨loc, hloc, hkey⟩ := List.mem_map.mp hs
      simp only [loc_key, wrap_key, Prod.mk.injEq] at hkey
      exact ⟨loc, hloc, hkey.1, hkey.2.1, hkey.2.2.1, id_in_int_of_wrap _ _ hkey.2.2.2⟩
    · intro i thing hi hel hu
      have hs := (final_catalog_key_mem game h _).mpr
        ⟨ep, episode, map, m, he, hm, _,
          (level_loc_keys_mem game ep map m _).mpr (Or.inr ⟨i, thing, hi, hel, hu, rfl⟩), rfl⟩
      obtain ⟨loc, hloc, hkey⟩ := List.mem_map.mp hs
      simp only [loc_key, wrap_key, Prod.mk.injEq] at hkey
      exact ⟨loc, hloc, hkey.1, hkey.2.1, hkey.2.2.1, id_in_int_of_wrap _ _ hkey.2.2.2⟩

/-- Instance of `location_id_formula`: in the game with one level and three
objects of type 5, the third object (the second eligible one, the second
object being multiplayer-only) has a location with id 101000 + 2, and the
level-complete location has id 101000. -/
theorem location_id_formula_witness :
    game_small.location_remap = [] ∧
    (∃ loc ∈ (final_catalog game_small).2.ap_locations,
      loc.idx.ep = (0 : Nat) ∧ loc.idx.map = (0 : Nat) ∧ loc.doom_thing_index = -1 ∧
      id_in_int loc.id ((((0 : Nat) : Int) + 1) * 100000 + (((0 : Nat) : Int) + 1) * 1000)) ∧
    (∃ loc ∈ (final_catalog game_small).2.ap_locations,
      loc.idx.ep = (0 : Nat) ∧ loc.idx.map = (0 : Nat) ∧ loc.doom_thing_index = (2 : Nat) ∧
      id_in_int loc.id ((((0 : Nat) : Int) + 1) * 100000 + (((0 : Nat) : Int) + 1) * 1000
        + (((meta_three_things.map.things.take (2 + 1)).filter (eligible game_small)).length
            : Nat))) ∧
    ((meta_three_things.map.things.take (2 + 1)).filter (eligible game_small)).length = 2 ∧
    in_int_range ((((0 : Nat) : Int) + 1) * 100000 + (((0 : Nat) : Int) + 1) * 1000
        + ((2 : Nat) : Int)) :=
  ⟨rfl,
    ((location_id_formula game_small rfl).2 0 [meta_three_things] 0 meta_three_things rfl rfl).1,
    ((location_id_formula game_small rfl).2 0 [meta_three_things] 0 meta_three_things rfl rfl).2
      2 thing_5 rfl (by decide) (by decide),
    by decide, by decide⟩

set_option maxRecDepth 100000 in
/-- C3, as stated, fails: in a game whose first episode has 101 maps and whose
second episode has one map, the level-complete locations of level (0, 100) and
of level (1, 0) both have id 201000.  Past the range of `int` ids meet as well:
the location with sequence number 296 of level (42949, 67) gets the id 101000
of the level-complete location of level (0, 0). -/
theorem location_ids_collide_across_episodes :
    ¬ ((compile_catalog game_101_maps).2.ap_locations.map (fun l => l.id)).Nodup ∧
    ((compile_catalog game_101_maps).2.ap_locations.map (fun l => l.id)).count 201000 = 2 ∧
    (make_complete_loc level00 "").id = 101000 ∧
    (add_loc "L" thing_5 level_42949_67 295 296 empty_state).2.ap_locations.map
        (fun l => l.id) = [101000] := by
  rw [loc_key_id, compile_catalog_keys]
  decide

/-- C3, amended: with no legacy remap, when the game has at most 42949
episodes, every episode has at most 100 maps and every level has at most 999
eligible map objects, no two entries of the location list have the same id,
after catalog compilation and in the final catalog. -/
theorem location_ids_distinct (game : game_t) (h : game.location_remap = [])
    (heps : game.episodes.length ≤ 42949)
    (hmaps : ∀ episode ∈ game.episodes, episode.length ≤ 100)
    (hobjs : ∀ episode ∈ game.episodes, ∀ m ∈ episode,
      (m.map.things.filter (eligible game)).length ≤ 999) :
    ((compile_catalog game).2.ap_locations.map (fun l => l.id)).Nodup ∧
    ((final_catalog game).2.ap_locations.map (fun l => l.id)).Nodup := by
  have hn := game_wrapped_loc_ids_nodup game heps hmaps hobjs
  constructor
  · rw [loc_key_id, compile_catalog_keys]
    exact hn
  · rw [loc_key_id]
    exact (((final_catalog_keys game h).map (fun s => s.2.2.2)).nodup_iff).mpr hn

/-- Instance of `location_ids_distinct`: the game with one level and three
objects. -/
theorem location_ids_distinct_witness :
    game_small.location_remap = [] ∧
    game_small.episodes.length ≤ 42949 ∧
    (∀ episode ∈ game_small.episodes, episode.length ≤ 100) ∧
    (∀ episode ∈ game_small.episodes, ∀ m ∈ episode,
      (m.map.things.filter (eligible game_small)).length ≤ 999) ∧
    ((compile_catalog game_small).2.ap_locations.map (fun l => l.id)).Nodup ∧
    ((final_catalog game_small).2.ap_locations.map (fun l => l.id)).Nodup :=
  ⟨rfl, by decide, by decide, by decide,
    location_ids_distinct game_small rfl (by decide) (by decide) (by decide)⟩

set_option maxRecDepth 1000000 in
/-- C6 fails on the code: `add_loc` tests the global `location_next_id`, which
stays 0, not the sequence number it is given.  Called with sequence number
1000 it appends the location (id 101000 + 1000); in a game whose first level
has 1000 eligible objects the 1000th object (index 999) gets a location, with
id 102000, the list has all 1000 + 1 + 1 locations of the two levels, and that
id is also the id of the level-complete location of the next level. -/
theorem location_past_999_not_dropped :
    (add_loc "L1 - Key" thing_5 level00 999 1000 empty_state).2.ap_locations.map
        (fun l => l.id) = [102000] ∧
    (meta_1000_things.map.things.filter (eligible game_1000_things)).length = 1000 ∧
    (∃ loc ∈ (compile_catalog game_1000_things).2.ap_locations,
      loc.idx.ep = 0 ∧ loc.idx.map = 0 ∧ loc.doom_thing_index = 999 ∧ loc.id = 102000) ∧
    (∃ loc ∈ (compile_catalog game_1000_things).2.ap_locations,
      loc.idx.ep = 0 ∧ loc.idx.map = 1 ∧ loc.doom_thing_index = -1 ∧ loc.id = 102000) ∧
    (compile_catalog game_1000_things).2.ap_locations.length = 1002 := by
  have hmem : ∀ s : Int × Int × Int × Int,
      s ∈ (make_levels game_1000_things).flatMap (level_loc_keys game_1000_things) →
      ∃ loc ∈ (compile_catalog game_1000_things).2.ap_locations,
        loc.idx.ep = s.1 ∧ loc.idx.map = s.2.1 ∧ loc.doom_thing_index = s.2.2.1 ∧
        loc.id = wrap_int s.2.2.2 := by
    intro s hs
    have hs' := List.mem_map_of_mem wrap_key hs
    rw [← compile_catalog_keys] at hs'
    obtain ⟨loc, hloc, hkey⟩ := List.mem_map.mp hs'
    simp only [loc_key, wrap_key, Prod.mk.injEq] at hkey
    exact ⟨loc, hloc, hkey.1, hkey.2.1, hkey.2.2.1, hkey.2.2.2⟩
  refine ⟨by decide, by decide, ?_, ?_, ?_⟩
  · refine hmem (0, 0, 999, 102000) ?_
    rw [List.mem_flatMap]
    refine ⟨make_level game_1000_things 0 0 meta_1000_things,
      (mem_make_levels _ _).mpr ⟨0, _, 0, _, rfl, rfl, rfl⟩, ?_⟩
    rw [level_loc_keys_mem]
    right
    exact ⟨999, thing_5, by decide, by decide, by decide, by decide⟩
  · refine hmem (0, 1, -1, 102000) ?_
    rw [List.mem_flatMap]
    refine ⟨make_level game_1000_things 0 1 meta_plain,
      (mem_make_levels _ _).mpr ⟨0, _, 1, _, rfl, rfl, rfl⟩, ?_⟩
    rw [level_loc_keys_mem]
    left
    decide
  · rw [← List.length_map _ loc_key, compile_catalog_keys, List.length_map]
    decide

/-! ## Catalog compilation: the items -/

theorem add_items_items (defs : List ap_item_def_t) (classification : Nat)
    (level : Option level_t) (st : gen_state) :
    (add_items defs classification level st).ap_items
      = st.ap_items ++ defs.map (fun d => make_item d classification level) := by
  unfold add_items
  induction defs generalizing st with
  | nil => simp
  | cons d ds ih =>
    simp only [List.foldl_cons, List.map_cons]
    rw [ih]
    simp [add_item]

theorem make_item_global_id (d : ap_item_def_t) (classification : Nat) :
    (make_item d classification none).id = base_item_id d.doom_type := rfl

theorem make_item_level_id (d : ap_item_def_t) (classification : Nat) (level : level_t) :
    (make_item d classification (some level)).id
      = wrap_int (spec_item_base level.idx + base_item_id d.doom_type) := by
  show wrap_int (get_item_id_base level.idx + base_item_id d.doom_type) = _
  rw [get_item_id_base, wrap_int_add]
  rfl

theorem add_global_items_ids (game : game_t) :
    (add_global_items game (initial_state game)).ap_items.map (fun it => it.id)
      = (global_templates game).map (fun d => base_item_id d.doom_type) := by
  unfold add_global_items global_templates
  rw [add_items_items, add_items_items, add_items_items]
  simp [initial_state, List.map_append, make_item_global_id, Function.comp_def]

theorem add_level_items_ids (game : game_t) (level : level_t) (st : gen_state) :
    (add_level_items game level st).ap_items.map (fun it => it.id)
      = st.ap_items.map (fun it => it.id)
          ++ (level_item_ids game level.idx).map wrap_int := by
  unfold add_level_items level_item_ids unique_templates
  dsimp only
  rw [add_items_items, add_items_items, add_items_items]
  simp [add_item, List.map_append, make_item_level_id, Function.comp_def, level_unlock_item,
    level_complete_item, base_item_id_unlock, base_item_id_complete]

theorem fold_level_items_ids (game : game_t) (levels : List level_t) (st : gen_state) :
    (levels.foldl (fun s level => add_level_items game level s) st).ap_items.map
        (fun it => it.id)
      = st.ap_items.map (fun it => it.id)
          ++ ((levels.map (fun l => l.idx)).flatMap (level_item_ids game)).map wrap_int := by
  induction levels generalizing st with
  | nil => simp
  | cons level rest ih =>
    simp only [List.foldl_cons, List.map_cons, List.flatMap_cons]
    rw [ih, add_level_items_ids, List.map_append, List.append_assoc]

theorem add_loc_items (name : String) (thing : map_thing_t) (level : level_t) (index : Nat)
    (id : Int) (st : gen_state) :
    (add_loc name thing level index id st).2.ap_items = st.ap_items ∧
    (add_loc name thing level index id st).1.idx = level.idx ∧
    (add_loc name thing level index id st).1.name = level.name := by
  unfold add_loc
  dsimp only
  split
  · exact ⟨rfl, rfl, rfl⟩
  · split <;> exact ⟨rfl, rfl, rfl⟩

theorem register_key_inv (game : game_t) (levels : List (level_index_t × String))
    (given : List ap_item_t) (thing : map_thing_t) (level : level_t) (i : Nat) (st : gen_state)
    (hl : (level.idx, level.name) ∈ levels) (hinv : key_items_inv game levels given st.ap_items) :
    key_items_inv game levels given (register_key game thing level i st).2.ap_items ∧
    (register_key game thing level i st).1.idx = level.idx ∧
    (register_key game thing level i st).1.name = level.name := by
  unfold register_key
  cases hf : game.keys.find? (fun key_def => key_def.item.doom_type == thing.type) with
  | none => exact ⟨hinv, rfl, rfl⟩
  | some key_def =>
    refine ⟨?_, rfl, rfl⟩
    dsimp only
    unfold add_unique
    dsimp only
    cases hn : st.ap_items.find?
        (fun other_item => other_item.name == level.name ++ " - " ++ key_def.item.name) with
    | some other => exact hinv
    | none =>
      obtain ⟨ks, hks, hall, hpw⟩ := hinv
      have hdt : key_def.item.doom_type = thing.type := by
        have := List.find?_some hf
        simpa using this
      refine ⟨ks ++ [_], by dsimp only; rw [hks, List.append_assoc], ?_, ?_⟩
      · intro it hit
        rcases List.mem_append.mp hit with hit | hit
        · exact hall it hit
        · rw [List.mem_singleton] at hit
          subst hit
          refine ⟨(level.idx, level.name), hl, key_def, ?_, rfl, rfl, ?_⟩
          · dsimp only
            rw [hdt]
            exact hf
          · show wrap_int (get_item_id_base level.idx + key_def.item.doom_type) = _
            rw [get_item_id_base, wrap_int_add]
            rfl
      · rw [List.pairwise_append]
        refine ⟨hpw, List.pairwise_singleton _ _, ?_⟩
        intro a ha b hb
        rw [List.mem_singleton] at hb
        subst hb
        dsimp only
        have hnone := List.find?_eq_none.mp hn a (by rw [hks]; exact List.mem_append_right _ ha)
        simpa using hnone

theorem scan_things_inv (game : game_t) (levels : List (level_index_t × String))
    (given : List ap_item_t) (pfx : String) (things : List map_thing_t) (i : Nat)
    (next_loc : Int) (level : level_t) (st : gen_state)
    (hl : (level.idx, level.name) ∈ levels) (hinv : key_items_inv game levels given st.ap_items) :
    key_items_inv game levels given
      (scan_things game pfx things i next_loc level st).2.ap_items := by
  induction things generalizing i next_loc level st with
  | nil => exact hinv
  | cons thing rest ih =>
    unfold scan_things
    cases hlab : thing_label game thing with
    | none => exact ih (i + 1) next_loc level st hl hinv
    | some label =>
      dsimp only
      obtain ⟨k1, k2, k3⟩ := register_key_inv game levels given thing level i st hl hinv
      obtain ⟨a1, a2, a3⟩ := add_loc_items (pfx ++ label) thing
        (register_key game thing level i st).1 i next_loc (register_key game thing level i st).2
      refine ih (i + 1) (next_loc + 1) _ _ ?_ ?_
      · rw [a2, a3, k2, k3]
        exact hl
      · rw [a1]
        exact k1

theorem compile_level_inv (game : game_t) (levels : List (level_index_t × String))
    (given : List ap_item_t) (level : level_t) (st : gen_state)
    (hl : (level.idx, level.name) ∈ levels) (hinv : key_items_inv game levels given st.ap_items) :
    key_items_inv game levels given (compile_level game level st).2.ap_items := by
  have hs := scan_things_inv game levels given (level.name ++ " - ") level.map.things 0 1
    { level with sectors := List.replicate level.map.sector_count { locations := [] } } st hl hinv
  unfold compile_level
  dsimp only
  split <;> exact hs

theorem compile_levels_inv (game : game_t) (levels : List (level_index_t × String))
    (given : List ap_item_t) (ls : List level_t) (st : gen_state)
    (hl : ∀ l ∈ ls, (l.idx, l.name) ∈ levels)
    (hinv : key_items_inv game levels given st.ap_items) :
    key_items_inv game levels given (compile_levels game ls st).2.ap_items := by
  induction ls generalizing st with
  | nil => exact hinv
  | cons level rest ih =>
    unfold compile_levels
    dsimp only
    exact ih _ (fun l h => hl l (List.mem_cons_of_mem _ h))
      (compile_level_inv game levels given level st (hl level (List.mem_cons_self _ _)) hinv)

/-- The item ids after catalog compilation: those of the global templates,
those of key items with pairwise different names, those of the level items,
the latter reduced to 32 bits. -/
theorem compile_catalog_item_ids (game : game_t) :
    ∃ ks : List ap_item_t,
      (compile_catalog game).2.ap_items.map (fun it => it.id)
        = (global_templates game).map (fun d => base_item_id d.doom_type)
          ++ ks.map (fun it => it.id)
          ++ (((make_levels game).map (fun l => l.idx)).flatMap
                (level_item_ids game)).map wrap_int ∧
      (∀ it ∈ ks,
        key_item_of game ((make_levels game).map (fun l => (l.idx, l.name))) it) ∧
      ks.Pairwise (fun a b => a.name ≠ b.name) := by
  have hinv0 : key_items_inv game ((make_levels game).map (fun l => (l.idx, l.name)))
      (add_global_items game (initial_state game)).ap_items
      (add_global_items game (initial_state game)).ap_items :=
    ⟨[], by simp, by simp, List.Pairwise.nil⟩
  obtain ⟨ks, hks, hall, hpw⟩ := compile_levels_inv game _ _ (make_levels game)
    (add_global_items game (initial_state game))
    (fun l h => List.mem_map_of_mem (fun l => (l.idx, l.name)) h) hinv0
  obtain ⟨_, _, hidx⟩ := compile_levels_keys game (make_levels game)
    (add_global_items game (initial_state game)) (add_global_items_locations game _).2
  refine ⟨ks, ?_, hall, hpw⟩
  unfold compile_catalog
  dsimp only
  rw [fold_level_items_ids, hks, hidx, List.map_append, add_global_items_ids]

theorem level_item_ids_mem (game : game_t) (idx : level_index_t) (x : Int) :
    x ∈ level_item_ids game idx ↔
      (x = spec_item_base idx + 0 ∨ x = spec_item_base idx + 99999 ∨
       ∃ d ∈ unique_templates game, x = spec_item_base idx + base_item_id d.doom_type) := by
  unfold level_item_ids
  simp only [List.mem_append, List.mem_cons, List.mem_singleton, List.mem_map, List.not_mem_nil,
    or_false]
  constructor
  · rintro ((h | h) | ⟨d, hd, h⟩)
    · exact Or.inl h
    · exact Or.inr (Or.inl h)
    · exact Or.inr (Or.inr ⟨d, hd, h.symm⟩)
  · rintro (h | h | ⟨d, hd, h⟩)
    · exact Or.inl (Or.inl h)
    · exact Or.inl (Or.inr h)
    · exact Or.inr ⟨d, hd, h.symm⟩

theorem level_item_ids_nodup (game : game_t) (idx : level_index_t)
    (hunique : ((unique_templates game).map (fun d => d.doom_type)).Nodup)
    (hrange : ∀ d ∈ unique_templates game, 0 < d.doom_type ∧ d.doom_type < 99999) :
    (level_item_ids game idx).Nodup ∧
    ∀ x ∈ level_item_ids game idx,
      spec_item_base idx ≤ x ∧ x ≤ spec_item_base idx + 99999 := by
  constructor
  · have hmap : (unique_templates game).map
        (fun d => spec_item_base idx + base_item_id d.doom_type)
        = ((unique_templates game).map (fun d => d.doom_type)).map
            (fun t => spec_item_base idx + t) := by
      rw [List.map_map]
      apply List.map_congr_left
      intro d hd
      simp [base_item_id_nonneg _ (le_of_lt (hrange d hd).1)]
    have hnd : ((unique_templates game).map
        (fun d => spec_item_base idx + base_item_id d.doom_type)).Nodup := by
      rw [hmap]
      exact hunique.map (fun a b hab => by simpa using hab)
    unfold level_item_ids
    rw [List.nodup_append]
    refine ⟨by simp, hnd, ?_⟩
    intro x hx hx'
    obtain ⟨d, hd, rfl⟩ := List.mem_map.mp hx'
    have hr := hrange d hd
    rw [base_item_id_nonneg _ (le_of_lt hr.1)] at hx
    simp only [List.mem_cons, List.mem_singleton, List.not_mem_nil, or_false] at hx
    omega
  · intro x hx
    rcases (level_item_ids_mem game idx x).mp hx with h | h | ⟨d, hd, h⟩
    · omega
    · omega
    · have hr := hrange d hd
      rw [base_item_id_nonneg _ (le_of_lt hr.1)] at h
      omega

theorem episode_item_ids_nodup (game : game_t) (ep : Nat) (metas : List meta_t) (map0 : Nat)
    (hunique : ((unique_templates game).map (fun d => d.doom_type)).Nodup)
    (hrange : ∀ d ∈ unique_templates game, 0 < d.doom_type ∧ d.doom_type < 99999) :
    (((make_episode_levels game ep metas map0).map (fun l => l.idx)).flatMap
        (level_item_ids game)).Nodup ∧
    ∀ x ∈ ((make_episode_levels game ep metas map0).map (fun l => l.idx)).flatMap
        (level_item_ids game),
      ((ep : Int) + 1) * 10000000 + ((map0 : Int) + 1) * 100000 ≤ x ∧
      x ≤ ((ep : Int) + 1) * 10000000 + ((map0 : Int) + (metas.length : Nat)) * 100000
            + 99999 := by
  induction metas generalizing map0 with
  | nil => simp [make_episode_levels]
  | cons m rest ih =>
    obtain ⟨p, b⟩ := ih (map0 + 1)
    obtain ⟨lp, lb⟩ := level_item_ids_nodup game (make_level game ep map0 m).idx hunique hrange
    simp only [make_level, spec_item_base] at lb
    unfold make_episode_levels
    simp only [List.map_cons, List.flatMap_cons, List.length_cons, Nat.cast_add, Nat.cast_one]
    constructor
    · rw [List.nodup_append]
      refine ⟨lp, p, ?_⟩
      intro x hx hx'
      have h1 := lb x hx
      have h2 := b x hx'
      push_cast at h2
      omega
    · intro x hx
      rcases List.mem_append.mp hx with hx | hx
      · have := lb x hx
        omega
      · have := b x hx
        push_cast at this
        omega

theorem game_item_ids_nodup (game : game_t) (episodes : List (List meta_t)) (ep0 : Nat)
    (hunique : ((unique_templates game).map (fun d => d.doom_type)).Nodup)
    (hrange : ∀ d ∈ unique_templates game, 0 < d.doom_type ∧ d.doom_type < 99999)
    (hmaps : ∀ episode ∈ episodes, episode.length ≤ 100) :
    (((make_levels_from game episodes ep0).map (fun l => l.idx)).flatMap
        (level_item_ids game)).Nodup ∧
    ∀ x ∈ ((make_levels_from game episodes ep0).map (fun l => l.idx)).flatMap
        (level_item_ids game),
      ((ep0 : Int) + 1) * 10000000 + 100000 ≤ x ∧
      x ≤ ((ep0 : Int) + (episodes.length : Nat)) * 10000000 + 10099999 := by
  induction episodes generalizing ep0 with
  | nil => simp [make_levels_from]
  | cons episode rest ih =>
    obtain ⟨p, b⟩ := ih (ep0 + 1) (fun e he => hmaps e (List.mem_cons_of_mem _ he))
    obtain ⟨ep_nodup, eb⟩ := episode_item_ids_nodup game ep0 episode 0 hunique hrange
    have hlen := hmaps episode (List.mem_cons_self _ _)
    unfold make_levels_from
    simp only [List.map_append, List.flatMap_append, List.length_cons]
    constructor
    · rw [List.nodup_append]
      refine ⟨ep_nodup, p, ?_⟩
      intro x hx hx'
      have h1 := eb x hx
      have h2 := b x hx'
      push_cast at h1 h2
      omega
    · intro x hx
      rcases List.mem_append.mp hx with hx | hx
      · have := eb x hx
        push_cast at this ⊢
        omega
      · have := b x hx
        push_cast at this ⊢
        omega

theorem key_item_form (game : game_t)
    (hkeys : ∀ k ∈ game.keys, 0 < k.item.doom_type ∧ k.item.doom_type < 99999 ∧
      ∀ d ∈ unique_templates game, d.doom_type ≠ k.item.doom_type)
    (hmaps : ∀ episode ∈ game.episodes, episode.length ≤ 100) (it : ap_item_t)
    (h : key_item_of game ((make_levels game).map (fun l => (l.idx, l.name))) it) :
    ∃ (ep map : Nat) (episode : List meta_t) (m : meta_t) (key_def : ap_key_def_t),
      game.episodes[ep]? = some episode ∧ episode[map]? = some m ∧ map < 100 ∧
      game.keys.find? (fun k => k.item.doom_type == it.doom_type) = some key_def ∧
      it.name = m.name ++ " - " ++ key_def.item.name ∧
      spec_item_base it.idx + it.doom_type
        = ((ep : Int) + 1) * 10000000 + ((map : Int) + 1) * 100000 + it.doom_type ∧
      0 < it.doom_type ∧ it.doom_type < 99999 ∧
      (∀ d ∈ unique_templates game, d.doom_type ≠ it.doom_type) ∧
      it.id = wrap_int (spec_item_base it.idx + it.doom_type) := by
  obtain ⟨p, hp, key_def, hfind, hidx, hname, hid⟩ := h
  obtain ⟨l, hl, rfl⟩ := List.mem_map.mp hp
  obtain ⟨ep, episode, map, m, he, hm, rfl⟩ := (mem_make_levels game l).mp hl
  have hdt : key_def.item.doom_type = it.doom_type := by
    have := List.find?_some hfind
    simpa using this
  have hk := hkeys key_def (List.mem_of_find?_eq_some hfind)
  rw [hdt] at hk
  have hlt : map < 100 := by
    obtain ⟨hlen, _⟩ := List.getElem?_eq_some.mp hm
    have := hmaps episode (List.getElem?_mem he)
    omega
  refine ⟨ep, map, episode, m, key_def, he, hm, hlt, hfind, hname, ?_, hk.1, hk.2.1, hk.2.2, ?_⟩
  · rw [hidx]
    simp [make_level, spec_item_base]
  · rw [hid, hidx]

theorem level_items_form (game : game_t)
    (hrange : ∀ d ∈ unique_templates game, 0 < d.doom_type ∧ d.doom_type < 99999)
    (hmaps : ∀ episode ∈ game.episodes, episode.length ≤ 100) (x : Int)
    (h : x ∈ ((make_levels game).map (fun l => l.idx)).flatMap (level_item_ids game)) :
    ∃ (ep map : Nat) (c : Int), map < 100 ∧
      x = ((ep : Int) + 1) * 10000000 + ((map : Int) + 1) * 100000 + c ∧
      (c = 0 ∨ c = 99999 ∨ ∃ d ∈ unique_templates game, c = d.doom_type) := by
  obtain ⟨idx, hidx, hx⟩ := List.mem_flatMap.mp h
  obtain ⟨l, hl, rfl⟩ := List.mem_map.mp hidx
  obtain ⟨ep, episode, map, m, he, hm, rfl⟩ := (mem_make_levels game l).mp hl
  have hlt : map < 100 := by
    obtain ⟨hlen, _⟩ := List.getElem?_eq_some.mp hm
    have := hmaps episode (List.getElem?_mem he)
    omega
  rcases (level_item_ids_mem game _ x).mp hx with hx | hx | ⟨d, hd, hx⟩
  · exact ⟨ep, map, 0, hlt, by rw [hx]; simp [make_level, spec_item_base], Or.inl rfl⟩
  · exact ⟨ep, map, 99999, hlt, by rw [hx]; simp [make_level, spec_item_base],
      Or.inr (Or.inl rfl)⟩
  · refine ⟨ep, map, d.doom_type, hlt, ?_, Or.inr (Or.inr ⟨d, hd, rfl⟩)⟩
    rw [hx, base_item_id_nonneg _ (le_of_lt (hrange d hd).1)]
    simp [make_level, spec_item_base]

/-- The ids of the key items as exact integers are pairwise distinct. -/
theorem key_item_ids_nodup (game : game_t)
    (hkeys : ∀ k ∈ game.keys, 0 < k.item.doom_type ∧ k.item.doom_type < 99999 ∧
      ∀ d ∈ unique_templates game, d.doom_type ≠ k.item.doom_type)
    (hmaps : ∀ episode ∈ game.episodes, episode.length ≤ 100) (ks : List ap_item_t)
    (hall : ∀ it ∈ ks,
      key_item_of game ((make_levels game).map (fun l => (l.idx, l.name))) it)
    (hpw : ks.Pairwise (fun a b => a.name ≠ b.name)) :
    (ks.map (fun it => spec_item_base it.idx + it.doom_type)).Nodup := by
  rw [List.Nodup, List.pairwise_map]
  refine hpw.imp_of_mem ?_
  intro a b ha hb hne hid
  apply hne
  obtain ⟨ea, ma, epa, mta, ka, h1, h2, h3, h4, h5, h6, h7, h8, _⟩ :=
    key_item_form game hkeys hmaps a (hall a ha)
  obtain ⟨eb, mb, epb, mtb, kb, g1, g2, g3, g4, g5, g6, g7, g8, _⟩ :=
    key_item_form game hkeys hmaps b (hall b hb)
  rw [h6, g6] at hid
  have hep : ea = eb := by omega
  have hmp : ma = mb := by omega
  have hdt : a.doom_type = b.doom_type := by omega
  subst hep hmp
  rw [h1] at g1
  cases g1
  rw [h2] at g2
  cases g2
  rw [hdt, g4] at h4
  cases h4
  rw [h5, g5]

/-- C4, as stated, fails: a game that lists the same template (type code 5)
in two global catalogs gets two items with id 5.  Past the range of `int` a
level item meets a global item: the item of a template of type 67301 at level
(428, 48) has id 5, since (428+1)*10000000 + (48+1)*100000 + 67301 is
2^32 + 5. -/
theorem item_ids_collide_on_repeated_code :
    ¬ ((compile_catalog game_repeated_code).2.ap_items.map (fun it => it.id)).Nodup ∧
    (compile_catalog game_repeated_code).2.ap_items.map (fun it => it.id) = [5, 5] ∧
    (add_item item_def_67301 FILLER (some level_428_48) empty_state).ap_items.map
        (fun it => it.id) = [5] ∧
    ((428 : Int) + 1) * 10000000 + ((48 : Int) + 1) * 100000 + 67301 = 4294967296 + 5 := by
  decide

/-- C4, amended: with no legacy remap, no two entries of the item list have
the same id (global items, key items, level-unlock and level-complete items
and the per-level copies of the unique templates), provided that the id codes
of the global templates are pairwise distinct, above -4867297 and below
10100000, the unique templates have pairwise distinct type codes strictly
between 0 and 99999, every key definition has a type code strictly between 0
and 99999 that is not the type code of a unique template, the game has at most
428 episodes and every episode has at most 100 maps. -/
theorem item_ids_distinct (game : game_t) (h : game.item_remap = [])
    (hglobal : ((global_templates game).map (fun d => base_item_id d.doom_type)).Nodup)
    (hglobal_gt : ∀ d ∈ global_templates game, -4867297 < base_item_id d.doom_type)
    (hglobal_lt : ∀ d ∈ global_templates game, base_item_id d.doom_type < 10100000)
    (hunique : ((unique_templates game).map (fun d => d.doom_type)).Nodup)
    (hrange : ∀ d ∈ unique_templates game, 0 < d.doom_type ∧ d.doom_type < 99999)
    (hkeys : ∀ k ∈ game.keys, 0 < k.item.doom_type ∧ k.item.doom_type < 99999 ∧
      ∀ d ∈ unique_templates game, d.doom_type ≠ k.item.doom_type)
    (heps : game.episodes.length ≤ 428)
    (hmaps : ∀ episode ∈ game.episodes, episode.length ≤ 100) :
    ((compile_catalog game).2.ap_items.map (fun it => it.id)).Nodup ∧
    ((final_catalog game).2.ap_items.map (fun it => it.id)).Nodup := by
  have hcompile : ((compile_catalog game).2.ap_items.map (fun it => it.id)).Nodup := by
    obtain ⟨ks, hids, hall, hpw⟩ := compile_catalog_item_ids game
    obtain ⟨hlevels, hlb⟩ := game_item_ids_nodup game game.episodes 0 hunique hrange hmaps
    have hg : (global_templates game).map (fun d => base_item_id d.doom_type)
        = ((global_templates game).map (fun d => base_item_id d.doom_type)).map wrap_int := by
      rw [List.map_map]
      apply List.map_congr_left
      intro d hd
      have h1 := hglobal_gt d hd
      have h2 := hglobal_lt d hd
      exact (wrap_int_of_range _ ⟨by omega, by omega⟩).symm
    have hk : ks.map (fun it => it.id)
        = (ks.map (fun it => spec_item_base it.idx + it.doom_type)).map wrap_int := by
      rw [List.map_map]
      apply List.map_congr_left
      intro it hit
      obtain ⟨_, _, _, _, _, _, _, _, _, _, _, _, _, _, hid⟩ :=
        key_item_form game hkeys hmaps it (hall it hit)
      exact hid
    rw [hids, hg, hk, ← List.map_append, ← List.map_append]
    have hkey_bound : ∀ it ∈ ks,
        10100000 < spec_item_base it.idx + it.doom_type ∧
        spec_item_base it.idx + it.doom_type < 4290099999 := by
      intro it hit
      obtain ⟨e, m, _, _, _, he, _, h3, _, _, h6, h7, h8, _, _⟩ :=
        key_item_form game hkeys hmaps it (hall it hit)
      have hlt := (List.getElem?_eq_some.mp he).1
      rw [h6]
      have he' : (e : Int) + 1 ≤ 428 := by omega
      have hm' : (m : Int) + 1 ≤ 100 := by omega
      constructor <;> nlinarith
    refine wrap_int_nodup _ (-4867296) ?_ ?_
    · rw [List.nodup_append, List.nodup_append]
      refine ⟨⟨hglobal, key_item_ids_nodup game hkeys hmaps ks hall hpw, ?_⟩, hlevels, ?_⟩
      · intro x hx hx'
        obtain ⟨d, hd, rfl⟩ := List.mem_map.mp hx
        obtain ⟨it, hit, hx'⟩ := List.mem_map.mp hx'
        have h1 := hglobal_lt d hd
        have h2 := hkey_bound it hit
        omega
      · intro x hx hx'
        rcases List.mem_append.mp hx with hx | hx
        · obtain ⟨d, hd, rfl⟩ := List.mem_map.mp hx
          have h1 := hglobal_lt d hd
          have h2 := hlb _ hx'
          simp only [make_levels] at h2
          omega
        · obtain ⟨it, hit, rfl⟩ := List.mem_map.mp hx
          obtain ⟨e, m, _, _, _, _, _, h3, _, _, h6, h7, h8, h9, _⟩ :=
            key_item_form game hkeys hmaps it (hall it hit)
          obtain ⟨e', m', c, g1, g2, g3⟩ := level_items_form game hrange hmaps _ hx'
          rw [h6] at g2
          rcases g3 with rfl | rfl | ⟨d, hd, rfl⟩
          · omega
          · omega
          · have hr := hrange d hd
            have hc : it.doom_type = d.doom_type := by omega
            exact h9 d hd hc.symm
    · intro x hx
      rcases List.mem_append.mp hx with hx | hx
      · rcases List.mem_append.mp hx with hx | hx
        · obtain ⟨d, hd, rfl⟩ := List.mem_map.mp hx
          have h1 := hglobal_gt d hd
          have h2 := hglobal_lt d hd
          omega
        · obtain ⟨it, hit, rfl⟩ := List.mem_map.mp hx
          have := hkey_bound it hit
          omega
      · have := hlb x hx
        push_cast at this
        omega
  refine ⟨hcompile, ?_⟩
  unfold final_catalog
  dsimp only
  rw [remap_items, h, remap_pass_nil]
  exact (((sort_by_id_perm (fun it : ap_item_t => it.id) _).map
    (fun it => it.id)).nodup_iff).mpr hcompile

/-- Instance of `item_ids_distinct`: a game with one global item, one unique
item, one key and one level. -/
theorem item_ids_distinct_witness :
    game_with_items.item_remap = [] ∧
    ((global_templates game_with_items).map (fun d => base_item_id d.doom_type)).Nodup ∧
    (∀ d ∈ global_templates game_with_items, -4867297 < base_item_id d.doom_type) ∧
    (∀ d ∈ global_templates game_with_items, base_item_id d.doom_type < 10100000) ∧
    ((unique_templates game_with_items).map (fun d => d.doom_type)).Nodup ∧
    (∀ d ∈ unique_templates game_with_items, 0 < d.doom_type ∧ d.doom_type < 99999) ∧
    (∀ k ∈ game_with_items.keys, 0 < k.item.doom_type ∧ k.item.doom_type < 99999 ∧
      ∀ d ∈ unique_templates game_with_items, d.doom_type ≠ k.item.doom_type) ∧
    game_with_items.episodes.length ≤ 428 ∧
    (∀ episode ∈ game_with_items.episodes, episode.length ≤ 100) ∧
    ((compile_catalog game_with_items).2.ap_items.map (fun it => it.id)).Nodup ∧
    ((final_catalog game_with_items).2.ap_items.map (fun it => it.id)).Nodup :=
  ⟨rfl, by decide, by decide, by decide, by decide, by decide, by decide, by decide, by decide,
    item_ids_distinct game_with_items rfl (by decide) (by decide) (by decide) (by decide)
      (by decide) (by decide) (by decide) (by decide)⟩

/-! ## Connections: the "rules" member -/

theorem split_requirements_and_eq (game : game_t) (level_name : String) (codes : List Int) :
    split_requirements_and game level_name codes
      = ((codes.filter (fun c => decide (c < 0))).map (get_extra_requirement_name game),
         (codes.filter (fun c => decide (0 ≤ c))).map (get_requirement_name game level_name)) := by
  induction codes with
  | nil => rfl
  | cons c rest ih =>
    unfold split_requirements_and
    dsimp only
    rw [ih]
    by_cases hc : c < 0
    · have h2 : ¬ (0 ≤ c) := by omega
      simp [hc, h2]
    · have h2 : 0 ≤ c := by omega
      simp [hc, h2]

/-- C12: the "rules" member of the document `make_connection` builds is absent
exactly when the AND-list has no non-negative code and the OR-list is empty;
otherwise it is a list of exactly one object, whose "and" array holds the
requirement names of the non-negative AND codes in order and whose "or" array
holds the requirement names of the OR codes in order, each array being a
member only when it has an element. -/

theorem make_connection_rules (game : game_t) (connection : rule_connection_t)
    (level_name region_name : String) :
    Json.field "rules" (make_connection game connection level_name region_name)
      = if connection.requirements_and.filter (fun c => decide (0 ≤ c)) = []
            ∧ connection.requirements_or = [] then none
        else some (Json.arr [Json.obj
          (name_array_member "and"
              ((connection.requirements_and.filter (fun c => decide (0 ≤ c))).map
                (get_requirement_name game level_name))
            ++ name_array_member "or"
              (connection.requirements_or.map (get_requirement_name game level_name)))]) := by
  unfold make_connection
  dsimp only
  rw [split_requirements_and_eq]
  dsimp only
  generalize connection.requirements_and.filter (fun c => decide (c < 0)) = neg
  generalize connection.requirements_and.filter (fun c => decide (0 ≤ c)) = pos
  generalize connection.requirements_or = ors
  cases neg <;> cases pos <;> cases ors <;>
    simp [Json.field, name_array_member, List.lookup]

/-! ## Location names: the name `add_loc` settles on -/

theorem loc_name_loop_steps (locs : List ap_location_t) (ext : Bool) (name e : String)
    (fuel count : Nat) :
    ∃ k, k ≤ fuel ∧
      loc_name_loop locs ext name e fuel count = loc_name_candidate ext name e (count + k) ∧
      ∀ j, j < k → loc_name_taken locs (loc_name_candidate ext name e (count + j)) = true := by
  induction fuel generalizing count with
  | zero => exact ⟨0, le_refl _, rfl, fun j hj => absurd hj (Nat.not_lt_zero j)⟩
  | succ fuel ih =>
    unfold loc_name_loop
    by_cases ht : loc_name_taken locs (loc_name_candidate ext name e count) = true
    · simp only [ht, if_true]
      obtain ⟨k, hk, heq, hall⟩ := ih (count + 1)
      refine ⟨k + 1, by omega, ?_, ?_⟩
      · rw [heq, show count + 1 + k = count + (k + 1) by omega]
      · intro j hj
        cases j with
        | zero => exact ht
        | succ j =>
          have := hall j (by omega)
          rwa [show count + 1 + j = count + (j + 1) by omega] at this
    · simp only [ht]
      exact ⟨0, by omega, rfl, fun j hj => absurd hj (Nat.not_lt_zero j)⟩

/-- The name the loop of `add_loc` ends on is the first free candidate. -/
theorem loc_name_loop_least (locs : List ap_location_t) (ext : Bool) (name e : String) :
    ∃ k, loc_name_loop locs ext name e (locs.length + 1) 0 = loc_name_candidate ext name e k ∧
      loc_name_taken locs (loc_name_candidate ext name e k) = false ∧
      ∀ j, j < k → loc_name_taken locs (loc_name_candidate ext name e j) = true := by
  obtain ⟨k, _, heq, hall⟩ := loc_name_loop_steps locs ext name e (locs.length + 1) 0
  refine ⟨k, by simpa using heq, ?_, fun j hj => by simpa using hall j hj⟩
  have := loc_name_loop_not_taken locs ext name e
  rw [heq] at this
  simpa using this

theorem add_loc_appends (name : String) (thing : map_thing_t) (level : level_t) (index : Nat)
    (id : Int) (st : gen_state)
    (hr : (loc_state_at level.map_state index).unreachable = false)
    (hid : st.location_next_id ≤ 999) :
    ∃ loc : ap_location_t,
      (add_loc name thing level index id st).2.ap_locations = st.ap_locations ++ [loc] ∧
      loc.name = loc_name_loop st.ap_locations st.use_extended_names name
        (loc_state_at level.map_state index).name (st.ap_locations.length + 1) 0 := by
  unfold add_loc
  dsimp only
  have h999 : ¬ (st.location_next_id > 999) := by omega
  simp only [hr, Bool.false_eq_true, if_false, h999]
  exact ⟨_, rfl, rfl⟩

theorem candidate_plain (ext : Bool) (name e : String) (k : Nat)
    (h : ext = false ∨ e = "") :
    loc_name_candidate ext name e k
      = if k = 0 then name else name ++ " " ++ Nat.repr (k + 1) := by
  have hx : (ext && decide (e.length > 0)) = false := by
    rcases h with h | h
    · simp [h]
    · subst h
      simp
  unfold loc_name_candidate
  simp only [hx, Bool.false_eq_true, if_false]

theorem candidate_extended (name e : String) (k : Nat) (h : e ≠ "") :
    loc_name_candidate true name e k
      = if k = 0 then name ++ " (" ++ e ++ ")"
        else name ++ " " ++ Nat.repr (k + 1) ++ " (" ++ e ++ ")" := by
  have hlen : e.length > 0 := by
    rcases e with ⟨cs⟩
    cases cs with
    | nil => exact absurd rfl h
    | cons c cs => simp [String.length]
  have hx : (true && decide (e.length > 0)) = true := by simp [hlen]
  unfold loc_name_candidate
  simp only [hx, if_true]

/-- C17: with extended names off, or with an empty descriptive text, `add_loc`
(for a location that is not marked unreachable) appends one location; its name
is the candidate name itself when no existing location has it, and otherwise
the candidate followed by " " and N, where N is the smallest integer from 2 on
such that no existing location has that name.  So the N-th location sharing a
candidate, the earlier ones holding the candidate and the candidate with
2 .. N-1 and nothing holding the candidate with N, is named candidate " N". -/

theorem add_loc_plain_name (name : String) (thing : map_thing_t) (level : level_t) (index : Nat)
    (id : Int) (st : gen_state)
    (hr : (loc_state_at level.map_state index).unreachable = false)
    (hid : st.location_next_id ≤ 999)
    (hext : st.use_extended_names = false ∨ (loc_state_at level.map_state index).name = "") :
    ∃ loc : ap_location_t,
      (add_loc name thing level index id st).2.ap_locations = st.ap_locations ++ [loc] ∧
      (loc_name_taken st.ap_locations name = false → loc.name = name) ∧
      (loc_name_taken st.ap_locations name = true →
        ∃ N, 2 ≤ N ∧ loc.name = name ++ " " ++ Nat.repr N ∧
          loc_name_taken st.ap_locations (name ++ " " ++ Nat.repr N) = false ∧
          ∀ M, 2 ≤ M → M < N →
            loc_name_taken st.ap_locations (name ++ " " ++ Nat.repr M) = true) ∧
      (∀ N, 2 ≤ N → loc_name_taken st.ap_locations name = true →
        (∀ M, 2 ≤ M → M < N →
          loc_name_taken st.ap_locations (name ++ " " ++ Nat.repr M) = true) →
        loc_name_taken st.ap_locations (name ++ " " ++ Nat.repr N) = false →
        loc.name = name ++ " " ++ Nat.repr N) := by
  obtain ⟨loc, happ, hname⟩ := add_loc_appends name thing level index id st hr hid
  obtain ⟨k, hk, hfree, hall⟩ := loc_name_loop_least st.ap_locations st.use_extended_names name
    (loc_state_at level.map_state index).name
  have hc := candidate_plain st.use_extended_names name
    (loc_state_at level.map_state index).name
  rw [hk] at hname
  have hleast : ∀ N, 2 ≤ N → loc_name_taken st.ap_locations name = true →
      (∀ M, 2 ≤ M → M < N →
        loc_name_taken st.ap_locations (name ++ " " ++ Nat.repr M) = true) →
      loc_name_taken st.ap_locations (name ++ " " ++ Nat.repr N) = false →
      k + 1 = N := by
    intro N hN ht hbelow hfreeN
    have hk0 : k ≠ 0 := by
      intro h0
      rw [h0, hc 0 hext] at hfree
      simp only [if_true] at hfree
      rw [ht] at hfree
      exact absurd hfree (by decide)
    rcases Nat.lt_trichotomy (k + 1) N with hlt | heq | hgt
    · have := hbelow (k + 1) (by omega) hlt
      rw [hc k hext] at hfree
      simp only [hk0, if_false] at hfree
      rw [this] at hfree
      exact absurd hfree (by decide)
    · exact heq
    · have := hall (N - 1) (by omega)
      rw [hc (N - 1) hext] at this
      have hN1 : N - 1 ≠ 0 := by omega
      simp only [hN1, if_false, show N - 1 + 1 = N by omega] at this
      rw [this] at hfreeN
      exact absurd hfreeN (by decide)
  refine ⟨loc, happ, ?_, ?_, ?_⟩
  · intro hfree0
    have hk0 : k = 0 := by
      by_contra hne
      have := hall 0 (by omega)
      rw [hc 0 hext] at this
      simp only [if_true] at this
      rw [hfree0] at this
      exact absurd this (by decide)
    rw [hname, hc k hext, hk0]
    rfl
  · intro ht
    have hk0 : k ≠ 0 := by
      intro h0
      rw [h0, hc 0 hext] at hfree
      simp only [if_true] at hfree
      rw [ht] at hfree
      exact absurd hfree (by decide)
    refine ⟨k + 1, by omega, ?_, ?_, ?_⟩
    · rw [hname, hc k hext]
      simp only [hk0, if_false]
    · rw [hc k hext] at hfree
      simpa only [hk0, if_false] using hfree
    · intro M hM hlt
      have := hall (M - 1) (by omega)
      rw [hc (M - 1) hext] at this
      have hM1 : M - 1 ≠ 0 := by omega
      simpa only [hM1, if_false, show M - 1 + 1 = M by omega] using this
  · intro N hN ht hbelow hfreeN
    have hk0 : k ≠ 0 := by
      intro h0
      rw [h0, hc 0 hext] at hfree
      simp only [if_true] at hfree
      rw [ht] at hfree
      exact absurd hfree (by decide)
    have := hleast N hN ht hbelow hfreeN
    rw [hname, hc k hext]
    simp only [hk0, if_false, this]

/-- Instance of `add_loc_plain_name`: a second location with the candidate name
"L1 - Key" is named "L1 - Key 2". -/

theorem add_loc_plain_name_witness :
    (loc_state_at level00.map_state 0).unreachable = false ∧
    state_one_key.location_next_id ≤ 999 ∧
    state_one_key.use_extended_names = false ∧
    loc_name_taken state_one_key.ap_locations "L1 - Key" = true ∧
    ∃ loc : ap_location_t,
      (add_loc "L1 - Key" thing_5 level00 0 1 state_one_key).2.ap_locations
        = state_one_key.ap_locations ++ [loc] ∧
      loc.name = "L1 - Key" ++ " " ++ Nat.repr 2 := by
  refine ⟨rfl, by decide, rfl, by decide, ?_⟩
  obtain ⟨loc, happ, _, _, hN⟩ := add_loc_plain_name "L1 - Key" thing_5 level00 0 1 state_one_key
    rfl (by decide) (Or.inl rfl)
  exact ⟨loc, happ, hN 2 (le_refl 2) (by decide) (fun M h1 h2 => by omega) (by decide)⟩

/-- C18, amended: with extended names on and a non-empty descriptive text d,
`add_loc` names the location with the candidate followed by " (d)" when no
existing location has that name, and otherwise with the candidate, then " "
and N, then " (d)", N being the smallest integer from 2 on whose name is free:
the number stands between the candidate and the parenthesised text, which
stays at the end of the name. -/

theorem add_loc_extended_name (name : String) (thing : map_thing_t) (level : level_t)
    (index : Nat) (id : Int) (st : gen_state)
    (hr : (loc_state_at level.map_state index).unreachable = false)
    (hid : st.location_next_id ≤ 999)
    (hext : st.use_extended_names = true)
    (hd : (loc_state_at level.map_state index).name ≠ "") :
    ∃ loc : ap_location_t,
      (add_loc name thing level index id st).2.ap_locations = st.ap_locations ++ [loc] ∧
      (loc_name_taken st.ap_locations
          (name ++ " (" ++ (loc_state_at level.map_state index).name ++ ")") = false →
        loc.name = name ++ " (" ++ (loc_state_at level.map_state index).name ++ ")") ∧
      (loc_name_taken st.ap_locations
          (name ++ " (" ++ (loc_state_at level.map_state index).name ++ ")") = true →
        ∃ N, 2 ≤ N ∧
          loc.name = name ++ " " ++ Nat.repr N
            ++ " (" ++ (loc_state_at level.map_state index).name ++ ")" ∧
          loc_name_taken st.ap_locations loc.name = false ∧
          ∀ M, 2 ≤ M → M < N →
            loc_name_taken st.ap_locations
              (name ++ " " ++ Nat.repr M
                ++ " (" ++ (loc_state_at level.map_state index).name ++ ")") = true) := by
  obtain ⟨loc, happ, hname⟩ := add_loc_appends name thing level index id st hr hid
  obtain ⟨k, hk, hfree, hall⟩ := loc_name_loop_least st.ap_locations st.use_extended_names name
    (loc_state_at level.map_state index).name
  rw [hext] at hk hfree hall
  rw [hext, hk] at hname
  have hc := fun k => candidate_extended name (loc_state_at level.map_state index).name k hd
  refine ⟨loc, happ, ?_, ?_⟩
  · intro hfree0
    have hk0 : k = 0 := by
      by_contra hne
      have := hall 0 (by omega)
      rw [hc 0] at this
      simp only [if_true] at this
      rw [hfree0] at this
      exact absurd this (by decide)
    rw [hname, hc k, hk0]
    rfl
  · intro ht
    have hk0 : k ≠ 0 := by
      intro h0
      rw [h0, hc 0] at hfree
      simp only [if_true] at hfree
      rw [ht] at hfree
      exact absurd hfree (by decide)
    have hn : loc.name = name ++ " " ++ Nat.repr (k + 1)
        ++ " (" ++ (loc_state_at level.map_state index).name ++ ")" := by
      rw [hname, hc k]
      simp only [hk0, if_false]
    refine ⟨k + 1, by omega, hn, ?_, ?_⟩
    · rw [hname]
      exact hfree
    · intro M hM hlt
      have := hall (M - 1) (by omega)
      rw [hc (M - 1)] at this
      have hM1 : M - 1 ≠ 0 := by omega
      simpa only [hM1, if_false, show M - 1 + 1 = M by omega] using this

/-- Instance of `add_loc_extended_name`: "L1 - Key (door)" is taken, the new
location is named "L1 - Key N (door)" with N from 2 on. -/

theorem add_loc_extended_name_witness :
    (loc_state_at level_described.map_state 0).unreachable = false ∧
    state_extended.location_next_id ≤ 999 ∧
    state_extended.use_extended_names = true ∧
    (loc_state_at level_described.map_state 0).name ≠ "" ∧
    ∃ loc : ap_location_t,
      (add_loc "L1 - Key" thing_5 level_described 0 1 state_extended).2.ap_locations
        = state_extended.ap_locations ++ [loc] ∧
      ∃ N, 2 ≤ N ∧ loc.name = "L1 - Key" ++ " " ++ Nat.repr N ++ " (" ++ "door" ++ ")" := by
  refine ⟨rfl, by decide, rfl, by decide, ?_⟩
  obtain ⟨loc, happ, _, hN⟩ := add_loc_extended_name "L1 - Key" thing_5 level_described 0 1
    state_extended rfl (by decide) rfl (by decide)
  obtain ⟨N, h2, hn, _, _⟩ := hN (by decide)
  exact ⟨loc, happ, N, h2, hn⟩

/-- C18 fails as worded: with extended names on, the text "door" and a
location already named "L1 - Key (door)", the new location is named
"L1 - Key 2 (door)"; the name does not begin with "L1 - Key (door)" and the
number is not at its end. -/

theorem add_loc_extended_number_before_description :
    (loc_state_at level_described.map_state 0).name = "door" ∧
    state_extended.use_extended_names = true ∧
    state_extended.ap_locations.map (fun l => l.name) = ["L1 - Key (door)"] ∧
    (add_loc "L1 - Key" thing_5 level_described 0 1 state_extended).2.ap_locations.map
        (fun l => l.name) = ["L1 - Key (door)", "L1 - Key 2 (door)"] ∧
    ¬ ("L1 - Key (door)".data <+: "L1 - Key 2 (door)".data) := by
  refine ⟨rfl, rfl, rfl, by decide, by decide⟩

/-- C16 at two inputs: the level-complete location is appended without the
name test of `add_loc`.  With the label "Exit" for a map object the name
"L1 - Exit" is held by the first object and by the level-complete location;
with two levels named "M" both level-complete locations are named
"M - Exit". -/

theorem exit_name_not_checked :
    (compile_catalog game_exit_label).2.ap_locations.map
        (fun l => (l.name, l.doom_thing_index)) =
      [("L1 - Exit", 0), ("L1 - Exit 2", 2), ("L1 - Exit", -1)] ∧
    (compile_catalog game_twin_levels).2.ap_locations.map
        (fun l => (l.name, l.idx.map, l.doom_thing_index)) =
      [("M - Exit", 0, -1), ("M - Exit", 1, -1)] := by
  constructor <;> decide

/-! ## The level-complete location -/

theorem find_exit_region_first (level_name : String) (regions : List region_t) :
    (∀ (pre : List region_t) (r : region_t) (post : List region_t),
      regions = pre ++ r :: post → has_exit_connection r = true →
      (∀ r' ∈ pre, has_exit_connection r' = false) →
      find_exit_region level_name regions = some (level_name ++ " @ " ++ r.name)) ∧
    ((∀ r ∈ regions, has_exit_connection r = false) →
      find_exit_region level_name regions = none) := by
  induction regions with
  | nil =>
    refine ⟨?_, fun _ => rfl⟩
    intro pre r post h
    cases pre <;> simp at h
  | cons region rest ih =>
    constructor
    · intro pre r post h hr hpre
      cases pre with
      | nil =>
        simp only [List.nil_append, List.cons.injEq] at h
        obtain ⟨h1, _⟩ := h
        subst h1
        unfold find_exit_region
        unfold has_exit_connection at hr
        simp only [hr, if_true]
      | cons p pre =>
        simp only [List.cons_append, List.cons.injEq] at h
        obtain ⟨h1, h2⟩ := h
        subst h1
        have hp := hpre region (List.mem_cons_self _ _)
        unfold find_exit_region
        unfold has_exit_connection at hp
        simp only [hp, Bool.false_eq_true, if_false]
        exact ih.1 pre r post h2 hr (fun r' hr' => hpre r' (List.mem_cons_of_mem _ hr'))
    · intro hall
      have hp := hall region (List.mem_cons_self _ _)
      unfold find_exit_region
      unfold has_exit_connection at hp
      simp only [hp, Bool.false_eq_true, if_false]
      exact ih.2 (fun r hr => hall r (List.mem_cons_of_mem _ hr))

theorem add_items_warnings (defs : List ap_item_def_t) (classification : Nat)
    (level : Option level_t) (st : gen_state) :
    (add_items defs classification level st).warning_count_no_exit
      = st.warning_count_no_exit := by
  unfold add_items
  induction defs generalizing st with
  | nil => rfl
  | cons d ds ih =>
    simp only [List.foldl_cons]
    exact (ih (add_item d classification level st)).trans rfl

theorem add_level_items_warnings (game : game_t) (level : level_t) (st : gen_state) :
    (add_level_items game level st).warning_count_no_exit = st.warning_count_no_exit := by
  unfold add_level_items
  dsimp only
  rw [add_items_warnings, add_items_warnings, add_items_warnings]
  rfl

theorem fold_level_items_warnings (game : game_t) (levels : List level_t) (st : gen_state) :
    (levels.foldl (fun s level => add_level_items game level s) st).warning_count_no_exit
      = st.warning_count_no_exit := by
  induction levels generalizing st with
  | nil => rfl
  | cons level rest ih =>
    simp only [List.foldl_cons]
    rw [ih, add_level_items_warnings]

theorem add_global_items_warnings (game : game_t) (st : gen_state) :
    (add_global_items game st).warning_count_no_exit = st.warning_count_no_exit := by
  unfold add_global_items
  rw [add_items_warnings, add_items_warnings, add_items_warnings]

theorem register_key_warnings (game : game_t) (thing : map_thing_t) (level : level_t)
    (i : Nat) (st : gen_state) :
    (register_key game thing level i st).2.warning_count_no_exit
      = st.warning_count_no_exit := by
  unfold register_key
  split
  · rfl
  · unfold add_unique
    dsimp only
    split <;> rfl

/-- What `add_loc` appends: nothing or one location made from a map object,
of the level, with no region name yet. -/
theorem add_loc_new (name : String) (thing : map_thing_t) (level : level_t) (index : Nat)
    (id : Int) (st : gen_state) :
    (∃ new : List ap_location_t,
      (add_loc name thing level index id st).2.ap_locations = st.ap_locations ++ new ∧
      ∀ l ∈ new, l.idx = level.idx ∧ 0 ≤ l.doom_thing_index ∧ l.region_name = "") ∧
    (add_loc name thing level index id st).2.warning_count_no_exit
      = st.warning_count_no_exit := by
  unfold add_loc
  dsimp only
  split
  · exact ⟨⟨[], by simp, by simp⟩, rfl⟩
  · split
    · exact ⟨⟨[], by simp, by simp⟩, rfl⟩
    · refine ⟨⟨[_], rfl, ?_⟩, rfl⟩
      intro l hl
      rw [List.mem_singleton] at hl
      subst hl
      exact ⟨rfl, Int.natCast_nonneg _, rfl⟩

theorem scan_things_new (game : game_t) (pfx : String) (things : List map_thing_t) (i : Nat)
    (next_loc : Int) (level : level_t) (st : gen_state) :
    (∃ new : List ap_location_t,
      (scan_things game pfx things i next_loc level st).2.ap_locations
        = st.ap_locations ++ new ∧
      ∀ l ∈ new, l.idx = level.idx ∧ 0 ≤ l.doom_thing_index ∧ l.region_name = "") ∧
    (scan_things game pfx things i next_loc level st).2.warning_count_no_exit
      = st.warning_count_no_exit := by
  induction things generalizing i next_loc level st with
  | nil => exact ⟨⟨[], by simp [scan_things], by simp⟩, rfl⟩
  | cons thing rest ih =>
    unfold scan_things
    cases hl : thing_label game thing with
    | none => exact ih (i + 1) next_loc level st
    | some label =>
      dsimp only
      obtain ⟨k1, k2, k3, _⟩ := register_key_locations game thing level i st
      have kw := register_key_warnings game thing level i st
      obtain ⟨⟨new1, a1, a2⟩, aw⟩ := add_loc_new (pfx ++ label) thing
        (register_key game thing level i st).1 i next_loc (register_key game thing level i st).2
      obtain ⟨a3, _⟩ := (add_loc_items (pfx ++ label) thing
        (register_key game thing level i st).1 i next_loc
        (register_key game thing level i st).2).2
      obtain ⟨⟨new2, b1, b2⟩, bw⟩ := ih (i + 1) (next_loc + 1)
        (add_loc (pfx ++ label) thing (register_key game thing level i st).1 i next_loc
          (register_key game thing level i st).2).1
        (add_loc (pfx ++ label) thing (register_key game thing level i st).1 i next_loc
          (register_key game thing level i st).2).2
      refine ⟨⟨new1 ++ new2, ?_, ?_⟩, ?_⟩
      · rw [b1, a1, k1, List.append_assoc]
      · intro l hl
        rcases List.mem_append.mp hl with h | h
        · have := a2 l h
          rw [k3] at this
          exact this
        · have := b2 l h
          rw [a3, k3] at this
          exact this
      · rw [bw, aw, kw]

theorem compile_level_new (game : game_t) (level : level_t) (st : gen_state) :
    (∃ new : List ap_location_t,
      (compile_level game level st).2.ap_locations
        = st.ap_locations ++ new ++ [make_complete_loc level (exit_region_name level)] ∧
      ∀ l ∈ new, l.idx = level.idx ∧ 0 ≤ l.doom_thing_index ∧ l.region_name = "") ∧
    (compile_level game level st).2.warning_count_no_exit
      = st.warning_count_no_exit
        + (if (find_exit_region level.name level.map_state.regions).isNone then 1 else 0) := by
  obtain ⟨⟨new, h1, h2⟩, hw⟩ := scan_things_new game (level.name ++ " - ") level.map.things 0 1
    { level with sectors := List.replicate level.map.sector_count { locations := [] } } st
  unfold compile_level exit_region_name
  dsimp only
  cases find_exit_region level.name level.map_state.regions with
  | some region_name =>
    refine ⟨⟨new, ?_, h2⟩, ?_⟩
    · dsimp only
      rw [h1]
    · dsimp only
      rw [hw]
      rfl
  | none =>
    refine ⟨⟨new, ?_, h2⟩, ?_⟩
    · dsimp only
      rw [h1]
    · dsimp only
      rw [hw]
      rfl

theorem is_complete_loc_of_new (idx : level_index_t) (level : level_t)
    (new : List ap_location_t)
    (h : ∀ l ∈ new, l.idx = level.idx ∧ 0 ≤ l.doom_thing_index ∧ l.region_name = "") :
    new.filter (is_complete_loc_of idx) = [] := by
  rw [List.filter_eq_nil_iff]
  intro l hl
  obtain ⟨_, h0, _⟩ := h l hl
  unfold is_complete_loc_of
  have : l.doom_thing_index ≠ -1 := by omega
  simp [this]

/-- The level-complete locations of a level after the scan of a list of
levels: one for every level of the list with that episode and map. -/
theorem compile_levels_complete (game : game_t) (idx : level_index_t) (levels : List level_t)
    (st : gen_state) :
    (compile_levels game levels st).2.ap_locations.filter (is_complete_loc_of idx)
      = st.ap_locations.filter (is_complete_loc_of idx)
        ++ (levels.filter (fun l => l.idx.ep == idx.ep && l.idx.map == idx.map)).map
            (fun l => make_complete_loc l (exit_region_name l)) ∧
    (compile_levels game levels st).2.warning_count_no_exit
      = st.warning_count_no_exit
        + (levels.filter
            (fun l => (find_exit_region l.name l.map_state.regions).isNone)).length := by
  induction levels generalizing st with
  | nil => simp [compile_levels]
  | cons level rest ih =>
    obtain ⟨⟨new, h1, h2⟩, hw⟩ := compile_level_new game level st
    obtain ⟨r1, r2⟩ := ih (compile_level game level st).2
    unfold compile_levels
    dsimp only
    constructor
    · rw [r1, h1, List.filter_append, List.filter_append,
        is_complete_loc_of_new idx level new h2, List.append_nil, List.append_assoc]
      congr 1
      by_cases hm : (level.idx.ep == idx.ep && level.idx.map == idx.map) = true
      · have : is_complete_loc_of idx (make_complete_loc level (exit_region_name level))
            = true := by
          unfold is_complete_loc_of make_complete_loc
          simpa using hm
        simp [List.filter_cons, hm, this]
      · have : is_complete_loc_of idx (make_complete_loc level (exit_region_name level))
            = false := by
          unfold is_complete_loc_of make_complete_loc
          simpa using hm
        simp [List.filter_cons, hm, this]
    · rw [r2, hw, List.filter_cons]
      by_cases hn : (find_exit_region level.name level.map_state.regions).isNone = true
      · simp only [hn, if_true, List.length_cons]
        omega
      · simp only [hn, Bool.false_eq_true, if_false]
        omega


theorem find_exit_region_isNone (level_name : String) (regions : List region_t) :
    (find_exit_region level_name regions).isNone
      = regions.all (fun r => !has_exit_connection r) := by
  induction regions with
  | nil => rfl
  | cons region rest ih =>
    unfold find_exit_region
    by_cases hp : region.rules.connections.any
        (fun connection => connection.target_region == -2) = true
    · simp [hp, has_exit_connection]
    · simp only [hp, Bool.false_eq_true, if_false, ih, List.all_cons, has_exit_connection]
      simp [hp]

theorem episode_levels_idx (game : game_t) (ep : Nat) (metas : List meta_t) (map0 : Nat) :
    (∀ l ∈ make_episode_levels game ep metas map0,
      l.idx.ep = (ep : Int) ∧ (map0 : Int) ≤ l.idx.map) ∧
    ((make_episode_levels game ep metas map0).map (fun l => (l.idx.ep, l.idx.map))).Nodup := by
  induction metas generalizing map0 with
  | nil => simp [make_episode_levels]
  | cons m rest ih =>
    obtain ⟨h1, h2⟩ := ih (map0 + 1)
    unfold make_episode_levels
    constructor
    · intro l hl
      rcases List.mem_cons.mp hl with h | h
      · subst h
        exact ⟨rfl, le_refl _⟩
      · obtain ⟨a, b⟩ := h1 l h
        exact ⟨a, by push_cast at b; omega⟩
    · rw [List.map_cons, List.nodup_cons]
      refine ⟨?_, h2⟩
      intro hmem
      obtain ⟨l, hl, heq⟩ := List.mem_map.mp hmem
      obtain ⟨_, b⟩ := h1 l hl
      have : l.idx.map = (map0 : Int) := (congrArg Prod.snd heq).trans rfl
      push_cast at b
      omega

theorem game_levels_idx (game : game_t) (episodes : List (List meta_t)) (ep0 : Nat) :
    (∀ l ∈ make_levels_from game episodes ep0, (ep0 : Int) ≤ l.idx.ep) ∧
    ((make_levels_from game episodes ep0).map (fun l => (l.idx.ep, l.idx.map))).Nodup := by
  induction episodes generalizing ep0 with
  | nil => simp [make_levels_from]
  | cons episode rest ih =>
    obtain ⟨h1, h2⟩ := ih (ep0 + 1)
    obtain ⟨e1, e2⟩ := episode_levels_idx game ep0 episode 0
    unfold make_levels_from
    constructor
    · intro l hl
      rcases List.mem_append.mp hl with h | h
      · exact le_of_eq (e1 l h).1.symm
      · have := h1 l h
        push_cast at this
        omega
    · rw [List.map_append, List.nodup_append]
      refine ⟨e2, h2, ?_⟩
      intro k hk1 hk2
      obtain ⟨l, hl, heq⟩ := List.mem_map.mp hk1
      obtain ⟨l', hl', heq'⟩ := List.mem_map.mp hk2
      have a := (e1 l hl).1
      have b := h1 l' hl'
      have c : l.idx.ep = l'.idx.ep := congrArg Prod.fst (heq.trans heq'.symm)
      push_cast at b
      omega

/-- No two levels of a game have the same episode and map. -/
theorem make_levels_idx_nodup (game : game_t) :
    ((make_levels game).map (fun l => (l.idx.ep, l.idx.map))).Nodup :=
  (game_levels_idx game game.episodes 0).2

theorem filter_key_singleton {α β : Type} [DecidableEq β] (key : α → β) (l : List α)
    (hn : (l.map key).Nodup) (x : α) (hx : x ∈ l) :
    l.filter (fun y => decide (key y = key x)) = [x] := by
  induction l with
  | nil => cases hx
  | cons a rest ih =>
    rw [List.map_cons, List.nodup_cons] at hn
    rcases List.mem_cons.mp hx with h | h
    · subst h
      have hrest : rest.filter (fun y => decide (key y = key x)) = [] := by
        rw [List.filter_eq_nil_iff]
        intro y hy
        simp only [decide_eq_true_eq]
        intro heq
        exact hn.1 (heq ▸ List.mem_map_of_mem key hy)
      simp [List.filter_cons, hrest]
    · have hne : key a ≠ key x := by
        intro heq
        exact hn.1 (heq ▸ List.mem_map_of_mem key h)
      simp [List.filter_cons, hne, ih hn.2 h]

theorem levels_filter_idx (game : game_t) (level : level_t) (h : level ∈ make_levels game) :
    (make_levels game).filter
        (fun l => l.idx.ep == level.idx.ep && l.idx.map == level.idx.map) = [level] := by
  have := filter_key_singleton (fun l : level_t => (l.idx.ep, l.idx.map)) (make_levels game)
    (make_levels_idx_nodup game) level h
  rw [← this]
  congr 1
  funext l
  simp only [Prod.mk.injEq, Bool.decide_and]
  rfl

theorem exit_name_append (name : String) : name ++ " - " ++ "Exit" = name ++ " - Exit" := by
  rw [String.append_assoc]
  rfl

/-- C13: for every level, catalog compilation produces exactly one
level-complete location (object index -1, type code -2, name
"<level> - Exit").  Its region is "<level> @ <r>" for the first region r, in
region order, that has a connection with target -2; if no region has such a
connection the region is "Hub @ Entrance to <level>".  The missing-exit
warning count after compilation is the number of levels without such a
connection: it grows by exactly one for each of them. -/
theorem level_complete_location (game : game_t) (level : level_t)
    (h : level ∈ make_levels game) :
    (∃ loc : ap_location_t,
      (compile_catalog game).2.ap_locations.filter (is_complete_loc_of level.idx) = [loc] ∧
      loc.doom_thing_index = -1 ∧ loc.doom_type = -2 ∧ loc.name = level.name ++ " - Exit" ∧
      (∀ (pre : List region_t) (r : region_t) (post : List region_t),
        level.map_state.regions = pre ++ r :: post → has_exit_connection r = true →
        (∀ r' ∈ pre, has_exit_connection r' = false) →
        loc.region_name = level.name ++ " @ " ++ r.name) ∧
      ((∀ r ∈ level.map_state.regions, has_exit_connection r = false) →
        loc.region_name = "Hub @ Entrance to " ++ level.name)) ∧
    (compile_catalog game).2.warning_count_no_exit
      = ((make_levels game).filter
          (fun l => l.map_state.regions.all (fun r => !has_exit_connection r))).length := by
  obtain ⟨c1, c2⟩ := compile_levels_complete game level.idx (make_levels game)
    (add_global_items game (initial_state game))
  have hloc : (compile_catalog game).2.ap_locations
      = (compile_levels game (make_levels game)
          (add_global_items game (initial_state game))).2.ap_locations := by
    unfold compile_catalog
    dsimp only
    rw [fold_level_items_locations]
  have hwarn : (compile_catalog game).2.warning_count_no_exit
      = (compile_levels game (make_levels game)
          (add_global_items game (initial_state game))).2.warning_count_no_exit := by
    unfold compile_catalog
    dsimp only
    rw [fold_level_items_warnings]
  have hfe := find_exit_region_first level.name level.map_state.regions
  constructor
  · refine ⟨make_complete_loc level (exit_region_name level), ?_, rfl, rfl,
      exit_name_append level.name, ?_, ?_⟩
    · rw [hloc, c1, (add_global_items_locations game (initial_state game)).1,
        levels_filter_idx game level h]
      rfl
    · intro pre r post hsplit hr hpre
      show exit_region_name level = _
      unfold exit_region_name
      rw [hfe.1 pre r post hsplit hr hpre]
    · intro hall
      show exit_region_name level = _
      unfold exit_region_name
      rw [hfe.2 hall]
  · rw [hwarn, c2, add_global_items_warnings]
    have : (fun l : level_t => (find_exit_region l.name l.map_state.regions).isNone)
        = (fun l : level_t => l.map_state.regions.all (fun r => !has_exit_connection r)) := by
      funext l
      exact find_exit_region_isNone l.name l.map_state.regions
    rw [this]
    simp [initial_state]

/-- Instance of `level_complete_location`: the level "R1" of `game_regions`,
whose second region holds the connection to the exit. -/
theorem level_complete_location_witness :
    make_level game_regions 0 0 meta_regions ∈ make_levels game_regions ∧
    ∃ loc : ap_location_t,
      (compile_catalog game_regions).2.ap_locations.filter
          (is_complete_loc_of (make_level game_regions 0 0 meta_regions).idx) = [loc] ∧
      loc.name = "R1 - Exit" ∧ loc.region_name = "R1 @ End" := by
  have hmem : make_level game_regions 0 0 meta_regions ∈ make_levels game_regions :=
    List.mem_singleton.mpr rfl
  obtain ⟨⟨loc, h1, _, _, h2, h3, _⟩, _⟩ :=
    level_complete_location game_regions (make_level game_regions 0 0 meta_regions) hmem
  refine ⟨hmem, loc, h1, h2, ?_⟩
  exact h3 [region_start] region_end [] rfl (by decide) (by decide)

/-! ## Region documents: the connections of an authored region -/

theorem region_at_some (regions : List region_t) (target : Int) (h0 : 0 ≤ target)
    (h1 : target < (regions.length : Int)) :
    ∃ region, regions[target.toNat]? = some region ∧ region_at regions target = some region := by
  have hlt : target.toNat < regions.length := by omega
  refine ⟨regions[target.toNat], List.getElem?_eq_getElem hlt, ?_⟩
  unfold region_at
  simp only [h0, if_true]
  exact List.getElem?_eq_getElem hlt

/-- The connections of an authored region, when every target is in range:
one document per connection whose target is not -2, in order. -/
theorem region_connections_eq (game : game_t) (level_name : String) (regions : List region_t)
    (connections : List rule_connection_t)
    (h : ∀ connection ∈ connections,
      connection.target_region = -2 ∨ connection.target_region = -1 ∨
        (0 ≤ connection.target_region ∧ connection.target_region < (regions.length : Int))) :
    region_connections game level_name regions connections
      = some ((connections.filter (fun c => c.target_region != -2)).map (fun c =>
          make_connection game c level_name
            ((target_region_name level_name regions c.target_region).getD ""))) := by
  induction connections with
  | nil => rfl
  | cons c rest ih =>
    have ih' := ih (fun c' hc' => h c' (List.mem_cons_of_mem _ hc'))
    unfold region_connections
    by_cases h2 : c.target_region = -2
    · simp only [h2, if_true, ih']
      simp [List.filter_cons, h2]
    · simp only [h2, if_false, ih']
      have hsome : ∃ name, target_region_name level_name regions c.target_region = some name := by
        rcases h c (List.mem_cons_self _ _) with h' | h' | ⟨h0, h1⟩
        · exact absurd h' h2
        · refine ⟨"Hub @ Entrance to " ++ level_name, ?_⟩
          unfold target_region_name
          simp only [h', if_true]
        · obtain ⟨region, _, hr⟩ := region_at_some regions c.target_region h0 h1
          have hne : c.target_region ≠ -1 := by omega
          refine ⟨level_name ++ " @ " ++ region.name, ?_⟩
          unfold target_region_name
          simp only [hne, if_false, hr]
      obtain ⟨name, hname⟩ := hsome
      simp [List.filter_cons, h2, hname]

theorem make_connection_target (game : game_t) (connection : rule_connection_t)
    (level_name region_name : String) :
    Json.field "_target" (make_connection game connection level_name region_name)
      = some (Json.str region_name) := by
  unfold make_connection Json.field
  simp [List.lookup]

/-- C11: for an authored region of a level whose connection targets are -2,
-1 or the index of a region, the serialized "connections" list has exactly one
entry per connection whose target is not -2, in authored order, and no entry
for a connection whose target is -2; the entry of a connection with target -1
has "_target" "Hub @ Entrance to <level name>", the entry of a connection with
target r >= 0 has "_target" "<level name> @ <name of region r>".  The list is
the "connections" member of the region document. -/
theorem region_connection_entries (game : game_t) (level : level_t) (region : region_t)
    (h : ∀ connection ∈ region.rules.connections,
      connection.target_region = -2 ∨ connection.target_region = -1 ∨
        (0 ≤ connection.target_region ∧
          connection.target_region < (level.map_state.regions.length : Int))) :
    (∃ entries : List Json,
      region_connections game level.name level.map_state.regions region.rules.connections
        = some entries ∧
      entries.length
        = (region.rules.connections.filter (fun c => c.target_region != -2)).length ∧
      ∀ (k : Nat) (c : rule_connection_t),
        (region.rules.connections.filter (fun c => c.target_region != -2))[k]? = some c →
        ∃ target : String,
          entries[k]? = some (make_connection game c level.name target) ∧
          Json.field "_target" (make_connection game c level.name target)
            = some (Json.str target) ∧
          (c.target_region = -1 → target = "Hub @ Entrance to " ++ level.name) ∧
          (∀ r : region_t, 0 ≤ c.target_region →
            level.map_state.regions[c.target_region.toNat]? = some r →
            target = level.name ++ " @ " ++ r.name)) ∧
    (∀ (ap_locations : List ap_location_t) (r : Json × List ap_location_t),
      serialize_region game level region ap_locations = some r →
      Option.map Json.arr
          (region_connections game level.name level.map_state.regions
            region.rules.connections)
        = Json.field "connections" r.1) := by
  constructor
  · refine ⟨_, region_connections_eq game level.name level.map_state.regions
      region.rules.connections h, by rw [List.length_map], ?_⟩
    intro k c hk
    refine ⟨(target_region_name level.name level.map_state.regions c.target_region).getD "",
      ?_, make_connection_target _ _ _ _, ?_, ?_⟩
    · rw [List.getElem?_map, hk]
      rfl
    · intro h1
      unfold target_region_name
      simp only [h1, if_true, Option.getD_some]
    · intro r h0 hr
      have hne : c.target_region ≠ -1 := by omega
      unfold target_region_name region_at
      simp only [hne, if_false, h0, if_true, hr, Option.getD_some]
  · intro ap_locations r hr
    unfold serialize_region at hr
    split at hr
    · cases hr
    · split at hr
      · cases hr
      · rename_i conns hc
        cases hr
        rw [hc]
        simp [Json.field, List.lookup]


/-- Instance of `region_connection_entries`: region "End" of the level "R1"
has a connection to the exit and one to region 0; its list has the one entry
with "_target" "R1 @ Start". -/
theorem region_connection_entries_witness :
    (∀ connection ∈ region_end.rules.connections,
      connection.target_region = -2 ∨ connection.target_region = -1 ∨
        (0 ≤ connection.target_region ∧
          connection.target_region
            < ((make_level game_regions 0 0 meta_regions).map_state.regions.length : Int))) ∧
    ∃ entries : List Json,
      region_connections game_regions "R1" [region_start, region_end]
        region_end.rules.connections = some entries ∧
      entries.length = 1 ∧
      entries[0]? = some (make_connection game_regions
        { target_region := 0, requirements_or := [], requirements_and := [] }
        "R1" "R1 @ Start") := by
  have hv : ∀ connection ∈ region_end.rules.connections,
      connection.target_region = -2 ∨ connection.target_region = -1 ∨
        (0 ≤ connection.target_region ∧
          connection.target_region
            < ((make_level game_regions 0 0 meta_regions).map_state.regions.length : Int)) := by
    decide
  obtain ⟨⟨entries, h1, h2, h3⟩, _⟩ :=
    region_connection_entries game_regions (make_level game_regions 0 0 meta_regions)
      region_end hv
  obtain ⟨target, h4, _, _, h5⟩ :=
    h3 0 { target_region := 0, requirements_or := [], requirements_and := [] } rfl
  refine ⟨hv, entries, h1, h2, ?_⟩
  rw [h4, h5 region_start (by decide) rfl]
  rfl

/-! ## The archive writer: what `Finalize` writes -/

theorem Write_small (file bytes : List Nat) (h : bytes.length < 2147483648) :
    ZipFile.Write file bytes = some (file ++ bytes) := by
  unfold ZipFile.Write
  have h1 : bytes.length % 4294967296 = bytes.length := Nat.mod_eq_of_lt (by omega)
  rw [h1]
  simp only [h, if_true, List.take_length]

theorem write_blocks_eq (blocks : List (List Nat)) (file : List Nat)
    (h : ∀ b ∈ blocks, b.length < 2147483648) :
    ZipFile.write_blocks blocks file = some (file ++ blocks.flatten) := by
  induction blocks generalizing file with
  | nil => simp [ZipFile.write_blocks]
  | cons b rest ih =>
    unfold ZipFile.write_blocks
    rw [Write_small file b (h b (List.mem_cons_self _ _))]
    dsimp only
    rw [ih (file ++ b) (fun b' hb' => h b' (List.mem_cons_of_mem _ hb'))]
    simp

theorem short_bytes_length (i : Nat) : (short_bytes i).length = 2 := rfl

theorem long_bytes_length (i : Nat) : (long_bytes i).length = 4 := rfl

theorem le_value_short (i : Nat) (h : i < 65536) : le_value (short_bytes i) = i := by
  unfold short_bytes le_value le_value le_value
  omega

theorem le_value_long (i : Nat) (h : i < 4294967296) : le_value (long_bytes i) = i := by
  unfold long_bytes le_value le_value le_value le_value le_value
  omega

theorem lfh_bytes_length (entry : ZipEntry) :
    (lfh_bytes entry).length = 30 + entry.path.length + entry.buffer.length := by
  unfold lfh_bytes
  simp only [List.length_append, short_bytes_length, long_bytes_length, List.length_cons,
    List.length_nil]

theorem cdfh_bytes_length (entry : ZipEntry) :
    (cdfh_bytes entry).length = 46 + entry.path.length := by
  unfold cdfh_bytes
  simp only [List.length_append, short_bytes_length, long_bytes_length, List.length_cons,
    List.length_nil]

theorem eocd_comment_length : eocd_comment.length = 32 := by decide

theorem eocd_bytes_length (n o s : Nat) : (eocd_bytes n o s).length = 54 := by
  unfold eocd_bytes
  simp only [List.length_append, short_bytes_length, long_bytes_length, List.length_cons,
    List.length_nil, eocd_comment_length]

theorem OutputData_eq (file : List Nat) (entry : ZipEntry)
    (hp : entry.path.length < 2147483648) (hb : entry.buffer.length < 2147483648) :
    ZipFile.OutputData file entry
      = some (file ++ lfh_bytes entry, { entry with offset := file.length % 4294967296 }) := by
  unfold ZipFile.OutputData
  rw [write_blocks_eq]
  · simp [lfh_bytes]
  · intro b hb'
    simp only [List.mem_cons, List.mem_singleton, List.not_mem_nil, or_false] at hb'
    rcases hb' with h | h | h | h | h | h | h | h | h | h | h | h | h <;> subst h <;>
      first
        | exact hp
        | exact hb
        | (rw [short_bytes_length]; omega)
        | (rw [long_bytes_length]; omega)
        | (simp only [List.length_cons, List.length_nil]; omega)

theorem OutputCDFH_eq (file : List Nat) (entry : ZipEntry)
    (hp : entry.path.length < 2147483648) :
    ZipFile.OutputCDFH file entry = some (file ++ cdfh_bytes entry) := by
  unfold ZipFile.OutputCDFH
  rw [write_blocks_eq]
  · simp [cdfh_bytes]
  · intro b hb'
    simp only [List.mem_cons, List.mem_singleton, List.not_mem_nil, or_false] at hb'
    rcases hb' with h | h | h | h | h | h | h | h | h | h | h | h | h | h | h | h | h | h <;>
      subst h <;>
      first
        | exact hp
        | (rw [short_bytes_length]; omega)
        | (rw [long_bytes_length]; omega)
        | (simp only [List.length_cons, List.length_nil]; omega)

theorem OutputEOCD_eq (file : List Nat) (n o s : Nat) :
    ZipFile.OutputEOCD file n o s = some (file ++ eocd_bytes n o s) := by
  unfold ZipFile.OutputEOCD
  rw [write_blocks_eq]
  · simp [eocd_bytes]
  · intro b hb'
    simp only [List.mem_cons, List.mem_singleton, List.not_mem_nil, or_false] at hb'
    rcases hb' with h | h | h | h | h | h | h | h | h <;> subst h <;>
      first
        | (rw [short_bytes_length]; omega)
        | (rw [long_bytes_length]; omega)
        | (rw [eocd_comment_length]; omega)
        | (simp only [List.length_cons, List.length_nil]; omega)

theorem with_offsets_length (start : Nat) (entries : List ZipEntry) :
    (with_offsets start entries).length = entries.length := by
  induction entries generalizing start with
  | nil => rfl
  | cons e rest ih => simp [with_offsets, ih]

theorem output_entries_eq (entries : List ZipEntry) (file : List Nat)
    (h : ∀ e ∈ entries, e.path.length < 2147483648 ∧ e.buffer.length < 2147483648) :
    ZipFile.output_entries entries file
      = some (file ++ entries.flatMap lfh_bytes, with_offsets file.length entries) := by
  induction entries generalizing file with
  | nil => simp [ZipFile.output_entries, with_offsets]
  | cons e rest ih =>
    obtain ⟨hp, hb⟩ := h e (List.mem_cons_self _ _)
    unfold ZipFile.output_entries
    rw [OutputData_eq file e hp hb]
    dsimp only
    rw [ih (file ++ lfh_bytes e) (fun e' he' => h e' (List.mem_cons_of_mem _ he'))]
    simp only [List.flatMap_cons, List.append_assoc, with_offsets, List.length_append,
      lfh_bytes_length]

theorem output_directory_eq (entries : List ZipEntry) (file : List Nat)
    (h : ∀ e ∈ entries, e.path.length < 2147483648) :
    ZipFile.output_directory entries file = some (file ++ entries.flatMap cdfh_bytes) := by
  induction entries generalizing file with
  | nil => simp [ZipFile.output_directory]
  | cons e rest ih =>
    unfold ZipFile.output_directory
    rw [OutputCDFH_eq file e (h e (List.mem_cons_self _ _))]
    dsimp only
    rw [ih (file ++ cdfh_bytes e) (fun e' he' => h e' (List.mem_cons_of_mem _ he'))]
    simp only [List.flatMap_cons, List.append_assoc]

theorem with_offsets_path (start : Nat) (entries : List ZipEntry) :
    ∀ e ∈ with_offsets start entries, ∃ e0 ∈ entries, e.path = e0.path := by
  induction entries generalizing start with
  | nil => simp [with_offsets]
  | cons e rest ih =>
    intro e' he'
    unfold with_offsets at he'
    rcases List.mem_cons.mp he' with h | h
    · exact ⟨e, List.mem_cons_self _ _, by rw [h]⟩
    · obtain ⟨e0, h0, h1⟩ := ih _ e' h
      exact ⟨e0, List.mem_cons_of_mem _ h0, h1⟩

/-- What `Finalize` writes when no block is too long for `Write`: the local
headers with the data, the central directory with the recorded offsets, and
the end record with the 32-bit values of the start and size of the
directory. -/
theorem Finalize_eq (entries : List ZipEntry)
    (h : ∀ e ∈ entries, e.path.length < 2147483648 ∧ e.buffer.length < 2147483648) :
    ZipFile.Finalize true entries
      = some
          { returned := true
            written := entries.flatMap lfh_bytes ++ (with_offsets 0 entries).flatMap cdfh_bytes
              ++ eocd_bytes entries.length
                  ((entries.flatMap lfh_bytes).length % 4294967296)
                  ((((entries.flatMap lfh_bytes).length
                        + ((with_offsets 0 entries).flatMap cdfh_bytes).length) % 4294967296
                      + 4294967296 - (entries.flatMap lfh_bytes).length % 4294967296)
                    % 4294967296) } := by
  unfold ZipFile.Finalize
  simp only [Bool.not_true, Bool.false_eq_true, if_false]
  rw [output_entries_eq entries [] h]
  dsimp only
  rw [output_directory_eq]
  · dsimp only
    rw [OutputEOCD_eq]
    simp only [List.nil_append, List.length_nil, List.length_append]
  · intro e he
    obtain ⟨e0, h0, h1⟩ := with_offsets_path _ _ e he
    rw [h1]
    exact (h e0 h0).1

theorem add_all_eq (zlib : zlib_t) (adds : List zip_add) (entries : List ZipEntry) :
    ZipFile.add_all zlib adds entries = entries ++ adds.map (zip_add.entry zlib) := by
  induction adds generalizing entries with
  | nil => simp [ZipFile.add_all]
  | cons a rest ih =>
    cases a with
    | sstream p s d t =>
      unfold ZipFile.add_all
      rw [ih]
      simp [ZipFile.AddSStream, zip_add.entry]
    | file p f d t =>
      unfold ZipFile.add_all
      rw [ih]
      simp [ZipFile.AddFile, zip_add.entry]

theorem make_fields (zlib : zlib_t) (p buf : List Nat) (d t : Nat) :
    (ZipEntry.make zlib p buf d t).path = p ∧
    (ZipEntry.make zlib p buf d t).checksum
      = zlib.crc32 (buf.take (buf.length % 4294967296)) % 4294967296 ∧
    (ZipEntry.make zlib p buf d t).uncomp_size = buf.length % 4294967296 := by
  unfold ZipEntry.make ZipEntry.DoCompress
  dsimp only
  split <;> exact ⟨rfl, rfl, rfl⟩

theorem entry_fields (zlib : zlib_t) (a : zip_add) (hdata : a.data.length < 4294967296)
    (hcrc : ∀ bytes, zlib.crc32 bytes < 4294967296) :
    (a.entry zlib).path = a.path ∧ (a.entry zlib).checksum = zlib.crc32 a.data ∧
    (a.entry zlib).uncomp_size = a.data.length := by
  have hm : a.data.length % 4294967296 = a.data.length := Nat.mod_eq_of_lt hdata
  cases a with
  | sstream p s d t =>
    obtain ⟨h1, h2, h3⟩ := make_fields zlib p s d t
    simp only [zip_add.data] at hm
    refine ⟨h1, ?_, ?_⟩
    · show (ZipEntry.make zlib p s d t).checksum = zlib.crc32 s
      rw [h2, hm, List.take_length, Nat.mod_eq_of_lt (hcrc s)]
    · show (ZipEntry.make zlib p s d t).uncomp_size = s.length
      rw [h3, hm]
  | file p f d t =>
    obtain ⟨h1, h2, h3⟩ := make_fields zlib p f d t
    simp only [zip_add.data] at hm
    refine ⟨h1, ?_, ?_⟩
    · show (ZipEntry.make zlib p f d t).checksum = zlib.crc32 f
      rw [h2, hm, List.take_length, Nat.mod_eq_of_lt (hcrc f)]
    · show (ZipEntry.make zlib p f d t).uncomp_size = f.length
      rw [h3, hm]

theorem with_offsets_get (start : Nat) (entries : List ZipEntry) (k : Nat) (e : ZipEntry)
    (h : entries[k]? = some e) :
    (with_offsets start entries)[k]?
      = some { e with
          offset := (start + ((entries.take k).map
            (fun e => 30 + e.path.length + e.buffer.length)).sum) % 4294967296 } := by
  induction entries generalizing start k with
  | nil => simp at h
  | cons e0 rest ih =>
    cases k with
    | zero =>
      simp only [List.getElem?_cons_zero, Option.some.injEq] at h
      subst h
      simp [with_offsets]
    | succ k =>
      simp only [List.getElem?_cons_succ] at h
      unfold with_offsets
      simp only [List.getElem?_cons_succ, ih _ k h, List.take_succ_cons, List.map_cons,
        List.sum_cons]
      congr 3
      omega

theorem with_offsets_map {β : Type} (f : ZipEntry → β)
    (hf : ∀ (e : ZipEntry) (o : Nat), f { e with offset := o } = f e) (start : Nat)
    (entries : List ZipEntry) :
    (with_offsets start entries).map f = entries.map f := by
  induction entries generalizing start with
  | nil => rfl
  | cons e rest ih => simp [with_offsets, ih, hf]

theorem locals_length (entries : List ZipEntry) :
    (entries.flatMap lfh_bytes).length
      = (entries.map (fun e => 30 + e.path.length + e.buffer.length)).sum := by
  rw [List.length_flatMap]
  congr 1
  apply List.map_congr_left
  intro e _
  exact lfh_bytes_length e

theorem directory_length (start : Nat) (entries : List ZipEntry) :
    ((with_offsets start entries).flatMap cdfh_bytes).length
      = (entries.map (fun e => 46 + e.path.length)).sum := by
  induction entries generalizing start with
  | nil => rfl
  | cons e rest ih =>
    unfold with_offsets
    rw [List.flatMap_cons, List.length_append, cdfh_bytes_length, ih, List.map_cons,
      List.sum_cons]

theorem sum_split (entries : List ZipEntry) :
    (entries.map (fun e => 30 + e.path.length + e.buffer.length + (46 + e.path.length))).sum
      = (entries.map (fun e => 30 + e.path.length + e.buffer.length)).sum
        + (entries.map (fun e => 46 + e.path.length)).sum := by
  induction entries with
  | nil => rfl
  | cons e rest ih =>
    simp only [List.map_cons, List.sum_cons, ih]
    omega

theorem sum_take_le (entries : List ZipEntry) (f : ZipEntry → Nat) (k : Nat) :
    ((entries.take k).map f).sum ≤ (entries.map f).sum := by
  induction entries generalizing k with
  | nil => simp
  | cons e rest ih =>
    cases k with
    | zero => simp
    | succ k =>
      simp only [List.take_succ_cons, List.map_cons, List.sum_cons]
      have := ih k
      omega

/-- What `Finalize` writes when no block is too long for `Write` and the
archive up to the end of its central directory is shorter than 2^32 bytes. -/
theorem Finalize_small (entries : List ZipEntry)
    (h : ∀ e ∈ entries, e.path.length < 2147483648 ∧ e.buffer.length < 2147483648)
    (htotal : (entries.map
      (fun e => 30 + e.path.length + e.buffer.length + (46 + e.path.length))).sum
        < 4294967296) :
    ZipFile.Finalize true entries
      = some
          { returned := true
            written := entries.flatMap lfh_bytes ++ (with_offsets 0 entries).flatMap cdfh_bytes
              ++ eocd_bytes entries.length (entries.flatMap lfh_bytes).length
                  ((with_offsets 0 entries).flatMap cdfh_bytes).length } := by
  rw [Finalize_eq entries h]
  have h1 := locals_length entries
  have h2 := directory_length 0 entries
  have h3 := sum_split entries
  have e1 : (entries.flatMap lfh_bytes).length % 4294967296
      = (entries.flatMap lfh_bytes).length := Nat.mod_eq_of_lt (by omega)
  have e2 : (((entries.flatMap lfh_bytes).length
        + ((with_offsets 0 entries).flatMap cdfh_bytes).length) % 4294967296
      + 4294967296 - (entries.flatMap lfh_bytes).length % 4294967296) % 4294967296
        = ((with_offsets 0 entries).flatMap cdfh_bytes).length := by
    omega
  rw [e2, e1]


theorem flatMap_eq_flatten_map {α β : Type} (l : List α) (f : α → List β) :
    l.flatMap f = (l.map f).flatten := rfl

theorem offset_update_fields (e0 : ZipEntry) (o : Nat) (p : List Nat) (c u : Nat)
    (f1 : e0.path = p) (f2 : e0.checksum = c) (f3 : e0.uncomp_size = u)
    (hp : p.length < 65536) (hc : c < 4294967296) (hu : u < 4294967296) :
    ({ e0 with offset := o } : ZipEntry).path = p ∧
    ({ e0 with offset := o } : ZipEntry).checksum = c ∧
    ({ e0 with offset := o } : ZipEntry).uncomp_size = u ∧
    le_value (short_bytes ({ e0 with offset := o } : ZipEntry).path.length) = p.length ∧
    le_value (long_bytes ({ e0 with offset := o } : ZipEntry).checksum) = c ∧
    le_value (long_bytes ({ e0 with offset := o } : ZipEntry).uncomp_size) = u := by
  cases e0
  simp only at f1 f2 f3
  subst f1 f2 f3
  exact ⟨rfl, rfl, rfl, le_value_short _ hp, le_value_long _ hc, le_value_long _ hu⟩

/-- C19, amended: for every sequence of n entries added to the archive writer
with n < 65536, each path shorter than 65536 bytes, each original size below
2^32, each stored size below 2^31 and the archive up to the end of its central
directory shorter than 2^32 bytes (the CRC-32 service answering with 32-bit
values), the bytes written by `Finalize` are the local headers with their
data, then n Central Directory File Headers in insertion order, then an End Of
Central Directory record whose two entry counts are n and whose offset and
size are the start and the length of those n headers; the k-th header carries
the k-th entry's path, the CRC-32 of that entry's original uncompressed bytes
and the original byte length as uncompressed size. -/
theorem finalize_central_directory (zlib : zlib_t) (adds : List zip_add)
    (hn : adds.length < 65536)
    (hpath : ∀ a ∈ adds, a.path.length < 65536)
    (hdata : ∀ a ∈ adds, a.data.length < 4294967296)
    (hcrc : ∀ bytes, zlib.crc32 bytes < 4294967296)
    (hstored : ∀ e ∈ ZipFile.add_all zlib adds [], e.buffer.length < 2147483648)
    (htotal : ((ZipFile.add_all zlib adds []).map
      (fun e => 30 + e.path.length + e.buffer.length + (46 + e.path.length))).sum
        < 4294967296) :
    ∃ (locals : List Nat) (headers : List (List Nat)),
      ZipFile.Finalize true (ZipFile.add_all zlib adds [])
        = some
            { returned := true
              written := locals ++ headers.flatten
                ++ eocd_bytes adds.length locals.length headers.flatten.length } ∧
      le_value (short_bytes adds.length) = adds.length ∧
      le_value (long_bytes locals.length) = locals.length ∧
      le_value (long_bytes headers.flatten.length) = headers.flatten.length ∧
      headers.length = adds.length ∧
      ∀ (k : Nat) (a : zip_add), adds[k]? = some a →
        ∃ e : ZipEntry,
          headers[k]? = some (cdfh_bytes e) ∧
          e.path = a.path ∧ e.checksum = zlib.crc32 a.data ∧ e.uncomp_size = a.data.length ∧
          le_value (short_bytes e.path.length) = a.path.length ∧
          le_value (long_bytes e.checksum) = zlib.crc32 a.data ∧
          le_value (long_bytes e.uncomp_size) = a.data.length := by
  have hent : ZipFile.add_all zlib adds [] = adds.map (zip_add.entry zlib) := by
    rw [add_all_eq, List.nil_append]
  rw [hent] at hstored htotal ⊢
  have hsize : ∀ e ∈ adds.map (zip_add.entry zlib),
      e.path.length < 2147483648 ∧ e.buffer.length < 2147483648 := by
    intro e he
    refine ⟨?_, hstored e he⟩
    obtain ⟨a, ha, rfl⟩ := List.mem_map.mp he
    rw [(entry_fields zlib a (hdata a ha) hcrc).1]
    have := hpath a ha
    omega
  have h1 := locals_length (adds.map (zip_add.entry zlib))
  have h2 := directory_length 0 (adds.map (zip_add.entry zlib))
  have h3 := sum_split (adds.map (zip_add.entry zlib))
  refine ⟨(adds.map (zip_add.entry zlib)).flatMap lfh_bytes,
    (with_offsets 0 (adds.map (zip_add.entry zlib))).map cdfh_bytes, ?_, le_value_short _ hn,
    le_value_long _ (by omega), ?_, ?_, ?_⟩
  · rw [Finalize_small _ hsize htotal, List.length_map, ← flatMap_eq_flatten_map]
  · rw [← flatMap_eq_flatten_map]
    exact le_value_long _ (by omega)
  · rw [List.length_map, with_offsets_length, List.length_map]
  · intro k a hk
    have hk' : (adds.map (zip_add.entry zlib))[k]? = some (a.entry zlib) := by
      rw [List.getElem?_map, hk]
      rfl
    have hmem : a ∈ adds := List.getElem?_mem hk
    obtain ⟨f1, f2, f3⟩ := entry_fields zlib a (hdata a hmem) hcrc
    obtain ⟨g1, g2, g3, g4, g5, g6⟩ := offset_update_fields (a.entry zlib)
      ((0 + (((adds.map (zip_add.entry zlib)).take k).map
        (fun e => 30 + e.path.length + e.buffer.length)).sum) % 4294967296)
      a.path (zlib.crc32 a.data) a.data.length f1 f2 f3 (hpath a hmem) (hcrc _) (hdata a hmem)
    refine ⟨_, ?_, g1, g2, g3, g4, g5, g6⟩
    rw [List.getElem?_map, with_offsets_get 0 _ k _ hk', Option.map_some']


theorem big_data_length : big_data.length = 2147483617 := List.length_replicate _ _

theorem big_entry_path (p : Nat) : (big_entry p).path = [p] := rfl

theorem big_entry_buffer (p : Nat) : (big_entry p).buffer = big_data := rfl

theorem cdfh_offset_field (entry : ZipEntry) :
    ((cdfh_bytes entry).drop 42).take 4 = long_bytes entry.offset := by
  unfold cdfh_bytes
  rw [List.append_assoc, List.drop_left', List.take_left']
  · exact long_bytes_length _
  · simp only [List.length_append, short_bytes_length, long_bytes_length, List.length_cons,
      List.length_nil]

theorem lfh_signature (entry : ZipEntry) : (lfh_bytes entry).take 4 = [80, 75, 3, 4] := rfl

/-- Instance of `finalize_central_directory`: the two text entries "a.json"
and "b.py", stored. -/
theorem finalize_central_directory_witness :
    two_text_adds.length < 65536 ∧
    (∀ a ∈ two_text_adds, a.path.length < 65536) ∧
    (∀ a ∈ two_text_adds, a.data.length < 4294967296) ∧
    (∀ e ∈ ZipFile.add_all zlib_stored two_text_adds [], e.buffer.length < 2147483648) ∧
    ((ZipFile.add_all zlib_stored two_text_adds []).map
      (fun e => 30 + e.path.length + e.buffer.length + (46 + e.path.length))).sum
        < 4294967296 ∧
    ∃ (locals : List Nat) (headers : List (List Nat)),
      ZipFile.Finalize true (ZipFile.add_all zlib_stored two_text_adds [])
        = some
            { returned := true
              written := locals ++ headers.flatten
                ++ eocd_bytes 2 locals.length headers.flatten.length } ∧
      headers.length = 2 := by
  have h1 : two_text_adds.length < 65536 := by decide
  have h2 : ∀ a ∈ two_text_adds, a.path.length < 65536 := by decide
  have h3 : ∀ a ∈ two_text_adds, a.data.length < 4294967296 := by decide
  have h4 : ∀ e ∈ ZipFile.add_all zlib_stored two_text_adds [], e.buffer.length < 2147483648 := by
    decide
  have h5 : ((ZipFile.add_all zlib_stored two_text_adds []).map
      (fun e => 30 + e.path.length + e.buffer.length + (46 + e.path.length))).sum
        < 4294967296 := by decide
  obtain ⟨locals, headers, g1, _, _, _, g2, _⟩ :=
    finalize_central_directory zlib_stored two_text_adds h1 h2 h3
      (fun _ => (show (0 : Nat) < 4294967296 by decide)) h4 h5
  exact ⟨h1, h2, h3, h4, h5, locals, headers, g1, g2⟩

/-- Two entries whose local headers and data take 2^31 bytes each: the
central directory starts at byte 2^32 and the end record holds offset 0. -/
theorem two_entries_offset (e1 e2 : ZipEntry)
    (p1 : e1.path.length = 1) (b1 : e1.buffer.length = 2147483617)
    (p2 : e2.path.length = 1) (b2 : e2.buffer.length = 2147483617) :
    ∃ (locals headers : List Nat),
      ZipFile.Finalize true [e1, e2]
        = some
            { returned := true
              written := locals ++ headers ++ eocd_bytes 2 0 headers.length } ∧
      locals.length = 4294967296 ∧ le_value (long_bytes 0) = 0 := by
  have hsize : ∀ e ∈ [e1, e2], e.path.length < 2147483648 ∧ e.buffer.length < 2147483648 := by
    intro e he
    simp only [List.mem_cons, List.mem_singleton, List.not_mem_nil, or_false] at he
    rcases he with h | h <;> subst h <;> omega
  have hL : ([e1, e2].flatMap lfh_bytes).length = 4294967296 := by
    rw [locals_length]
    simp only [List.map_cons, List.map_nil, List.sum_cons, List.sum_nil]
    omega
  have hH : ((with_offsets 0 [e1, e2]).flatMap cdfh_bytes).length = 94 := by
    rw [directory_length]
    simp only [List.map_cons, List.map_nil, List.sum_cons, List.sum_nil]
    omega
  refine ⟨[e1, e2].flatMap lfh_bytes, (with_offsets 0 [e1, e2]).flatMap cdfh_bytes, ?_, hL,
    by decide⟩
  rw [Finalize_eq _ hsize, hL, hH]
  rfl

/-- C19 fails as worded: two entries with one-byte paths and 2^31 - 31 stored
bytes each (n = 2, sizes below 2^32) fill exactly 2^32 bytes before the
central directory; `cd_start` is a `uint32_t`, so the End Of Central Directory
record holds offset 0 while the directory starts at byte 4294967296. -/
theorem finalize_directory_offset_wraps :
    big_adds.length < 65536 ∧
    (∀ a ∈ big_adds, a.path.length < 65536 ∧ a.data.length < 4294967296) ∧
    ∃ (locals headers : List Nat),
      ZipFile.Finalize true (ZipFile.add_all zlib_stored big_adds [])
        = some
            { returned := true
              written := locals ++ headers ++ eocd_bytes 2 0 headers.length } ∧
      locals.length = 4294967296 ∧ le_value (long_bytes 0) = 0 := by
  have hent : ZipFile.add_all zlib_stored big_adds [] = [big_entry 97, big_entry 98] := rfl
  refine ⟨by decide, ?_, ?_⟩
  · intro a ha
    simp only [big_adds, List.mem_cons, List.mem_singleton, List.not_mem_nil, or_false] at ha
    rcases ha with h | h <;> subst h <;>
      exact ⟨by decide, by rw [zip_add.data, big_data_length]; decide⟩
  · rw [hent]
    exact two_entries_offset (big_entry 97) (big_entry 98)
      (by rw [big_entry_path]; rfl) (by rw [big_entry_buffer]; exact big_data_length)
      (by rw [big_entry_path]; rfl) (by rw [big_entry_buffer]; exact big_data_length)

/-- C20, amended: when every path and every stored data block is shorter than
2^31 bytes and the archive up to the end of its central directory is shorter
than 2^32 bytes, the k-th entry's Local File Header begins at byte offset
sum over j < k of (30 + |path_j| + |stored data_j|) with signature
PK 03 04, and that same offset is the little-endian local-header offset stored
in bytes 42..45 of the k-th Central Directory header; the central directory
begins immediately after the last entry's data, its size, recorded in the
EOCD, is the sum over k of (46 + |path_k|), and the EOCD is followed only by
the fixed 32-byte comment whose length it records. -/
theorem finalize_layout (entries : List ZipEntry)
    (hsize : ∀ e ∈ entries, e.path.length < 2147483648 ∧ e.buffer.length < 2147483648)
    (htotal : (entries.map
      (fun e => 30 + e.path.length + e.buffer.length + (46 + e.path.length))).sum
        < 4294967296) :
    ∃ (locals headers : List (List Nat)),
      ZipFile.Finalize true entries
        = some
            { returned := true
              written := locals.flatten ++ headers.flatten
                ++ eocd_bytes entries.length locals.flatten.length headers.flatten.length } ∧
      locals.length = entries.length ∧ headers.length = entries.length ∧
      (∀ (k : Nat) (e : ZipEntry), entries[k]? = some e →
        ∃ lfh cdfh : List Nat,
          locals[k]? = some lfh ∧ headers[k]? = some cdfh ∧
          (locals.take k).flatten.length
            = ((entries.take k).map (fun e => 30 + e.path.length + e.buffer.length)).sum ∧
          lfh.take 4 = [80, 75, 3, 4] ∧
          lfh.length = 30 + e.path.length + e.buffer.length ∧
          cdfh.length = 46 + e.path.length ∧
          (cdfh.drop 42).take 4 = long_bytes (locals.take k).flatten.length ∧
          le_value (long_bytes (locals.take k).flatten.length)
            = (locals.take k).flatten.length) ∧
      headers.flatten.length = (entries.map (fun e => 46 + e.path.length)).sum ∧
      le_value (long_bytes headers.flatten.length) = headers.flatten.length ∧
      (∀ n o s : Nat, eocd_bytes n o s = (eocd_bytes n o s).take 22 ++ eocd_comment ∧
        ((eocd_bytes n o s).take 22).drop 20 = short_bytes 32) ∧
      eocd_comment.length = 32 ∧ le_value (short_bytes 32) = 32 := by
  have h1 := locals_length entries
  have h2 := directory_length 0 entries
  have h3 := sum_split entries
  have hpre : ∀ k, ((entries.map lfh_bytes).take k).flatten.length
      = ((entries.take k).map (fun e => 30 + e.path.length + e.buffer.length)).sum := by
    intro k
    rw [← List.map_take, ← flatMap_eq_flatten_map, locals_length]
  refine ⟨entries.map lfh_bytes, (with_offsets 0 entries).map cdfh_bytes, ?_, ?_, ?_, ?_, ?_, ?_,
    ?_, eocd_comment_length, by decide⟩
  · rw [Finalize_small _ hsize htotal, ← flatMap_eq_flatten_map, ← flatMap_eq_flatten_map]
  · rw [List.length_map]
  · rw [List.length_map, with_offsets_length]
  · intro k e hk
    have hle := sum_take_le entries (fun e => 30 + e.path.length + e.buffer.length) k
    refine ⟨lfh_bytes e, cdfh_bytes { e with offset := ((entries.map lfh_bytes).take k).flatten.length },
      ?_, ?_, hpre k, lfh_signature e, lfh_bytes_length e, cdfh_bytes_length _,
      cdfh_offset_field _, le_value_long _ (by rw [hpre k]; omega)⟩
    · rw [List.getElem?_map, hk]
      rfl
    · rw [List.getElem?_map, with_offsets_get 0 _ k _ hk, Option.map_some', hpre k,
        Nat.zero_add, Nat.mod_eq_of_lt (by omega)]
  · rw [← flatMap_eq_flatten_map, h2]
  · rw [← flatMap_eq_flatten_map]
    exact le_value_long _ (by omega)
  · intro n o s
    exact ⟨rfl, rfl⟩

/-- Instance of `finalize_layout`: the two text entries "a.json" and "b.py",
stored; the central directory has 46 + 6 + 46 + 4 = 102 bytes. -/
theorem finalize_layout_witness :
    (∀ e ∈ ZipFile.add_all zlib_stored two_text_adds [],
      e.path.length < 2147483648 ∧ e.buffer.length < 2147483648) ∧
    ((ZipFile.add_all zlib_stored two_text_adds []).map
      (fun e => 30 + e.path.length + e.buffer.length + (46 + e.path.length))).sum
        < 4294967296 ∧
    ∃ (locals headers : List (List Nat)),
      ZipFile.Finalize true (ZipFile.add_all zlib_stored two_text_adds [])
        = some
            { returned := true
              written := locals.flatten ++ headers.flatten
                ++ eocd_bytes 2 locals.flatten.length headers.flatten.length } ∧
      headers.flatten.length = 102 := by
  have h1 : ∀ e ∈ ZipFile.add_all zlib_stored two_text_adds [],
      e.path.length < 2147483648 ∧ e.buffer.length < 2147483648 := by decide
  have h2 : ((ZipFile.add_all zlib_stored two_text_adds []).map
      (fun e => 30 + e.path.length + e.buffer.length + (46 + e.path.length))).sum
        < 4294967296 := by decide
  obtain ⟨locals, headers, g1, _, _, _, g2, _⟩ :=
    finalize_layout (ZipFile.add_all zlib_stored two_text_adds []) h1 h2
  exact ⟨h1, h2, locals, headers, g1, g2.trans (by decide)⟩

/-- Three entries whose local headers and data take 2^31 bytes each: the
third local header starts at byte 2^32 and its central header holds offset
0. -/
theorem three_entries_offset (e1 e2 e3 : ZipEntry)
    (p1 : e1.path.length = 1) (b1 : e1.buffer.length = 2147483617)
    (p2 : e2.path.length = 1) (b2 : e2.buffer.length = 2147483617)
    (p3 : e3.path.length = 1) (b3 : e3.buffer.length = 2147483617) :
    ∃ (l1 l2 l3 h12 h3 eocd : List Nat),
      ZipFile.Finalize true [e1, e2, e3]
        = some { returned := true, written := l1 ++ l2 ++ l3 ++ (h12 ++ h3) ++ eocd } ∧
      (l1 ++ l2).length = 4294967296 ∧ l3.take 4 = [80, 75, 3, 4] ∧
      l3.length = 2147483648 ∧
      h12.length = 94 ∧ h3.length = 47 ∧ (h3.drop 42).take 4 = [0, 0, 0, 0] := by
  have hsize : ∀ e ∈ [e1, e2, e3],
      e.path.length < 2147483648 ∧ e.buffer.length < 2147483648 := by
    intro e he
    simp only [List.mem_cons, List.mem_singleton, List.not_mem_nil, or_false] at he
    rcases he with h | h | h <;> subst h <;> omega
  have hoff : (0 + (30 + e1.path.length + e1.buffer.length)
      + (30 + e2.path.length + e2.buffer.length)) % 4294967296 = 0 := by
    omega
  have hl : [e1, e2, e3].flatMap lfh_bytes = lfh_bytes e1 ++ lfh_bytes e2 ++ lfh_bytes e3 := by
    simp only [List.flatMap_cons, List.flatMap_nil, List.append_nil, List.append_assoc]
  have hh : (with_offsets 0 [e1, e2, e3]).flatMap cdfh_bytes
      = cdfh_bytes { e1 with offset := 0 % 4294967296 }
          ++ cdfh_bytes { e2 with
              offset := (0 + (30 + e1.path.length + e1.buffer.length)) % 4294967296 }
          ++ cdfh_bytes { e3 with offset := 0 } := by
    simp only [with_offsets, List.flatMap_cons, List.flatMap_nil, List.append_nil, hoff,
      List.append_assoc]
  have hF : ∃ eocd : List Nat,
      ZipFile.Finalize true [e1, e2, e3]
        = some
            { returned := true
              written := lfh_bytes e1 ++ lfh_bytes e2 ++ lfh_bytes e3
                ++ (cdfh_bytes { e1 with offset := 0 % 4294967296 }
                    ++ cdfh_bytes { e2 with
                        offset :=
                          (0 + (30 + e1.path.length + e1.buffer.length)) % 4294967296 }
                    ++ cdfh_bytes { e3 with offset := 0 })
                ++ eocd } := by
    rw [Finalize_eq _ hsize, hl, hh]
    exact ⟨_, rfl⟩
  obtain ⟨eocd, hF⟩ := hF
  refine ⟨_, _, _, _, _, eocd, hF, ?_, lfh_signature _, ?_, ?_, ?_, ?_⟩
  · rw [List.length_append, lfh_bytes_length, lfh_bytes_length]
    omega
  · rw [lfh_bytes_length]
    omega
  · rw [List.length_append, cdfh_bytes_length, cdfh_bytes_length]
    show 46 + e1.path.length + (46 + e2.path.length) = 94
    omega
  · rw [cdfh_bytes_length]
    show 46 + e3.path.length = 47
    omega
  · rw [cdfh_offset_field]
    show long_bytes 0 = [0, 0, 0, 0]
    decide

/-- C20 fails as worded: with three entries of 2^31 bytes each (local header,
one-byte path and data) the third Local File Header begins at byte
4294967296, and the offset stored in its Central Directory header is 0:
`offset` is a `uint32_t`. -/
theorem finalize_header_offset_wraps :
    ∃ (l1 l2 l3 h12 h3 eocd : List Nat),
      ZipFile.Finalize true [big_entry 97, big_entry 98, big_entry 99]
        = some { returned := true, written := l1 ++ l2 ++ l3 ++ (h12 ++ h3) ++ eocd } ∧
      (l1 ++ l2).length = 4294967296 ∧ l3.take 4 = [80, 75, 3, 4] ∧
      l3.length = 2147483648 ∧
      h12.length = 94 ∧ h3.length = 47 ∧ (h3.drop 42).take 4 = [0, 0, 0, 0] :=
  three_entries_offset (big_entry 97) (big_entry 98) (big_entry 99)
    (by rw [big_entry_path]; rfl) (by rw [big_entry_buffer]; exact big_data_length)
    (by rw [big_entry_path]; rfl) (by rw [big_entry_buffer]; exact big_data_length)
    (by rw [big_entry_path]; rfl) (by rw [big_entry_buffer]; exact big_data_length)

/-! ## Region documents: the region names written into the locations -/

theorem contains_true_iff (l : List Nat) (j : Nat) : l.contains j = true ↔ j ∈ l := by
  simp

theorem renamed_refl (locs : List ap_location_t) : renamed (fun _ old => old) locs locs := by
  intro j
  cases h : locs[j]? with
  | none => rfl
  | some loc => rfl

theorem renamed_trans (g1 g2 : Nat → String → String) (a b c : List ap_location_t)
    (h1 : renamed g1 a b) (h2 : renamed g2 b c) :
    renamed (fun j old => g2 j (g1 j old)) a c := by
  intro j
  rw [h2 j, h1 j]
  cases a[j]? with
  | none => rfl
  | some loc => rfl

theorem renamed_congr (g1 g2 : Nat → String → String) (a b : List ap_location_t)
    (h : renamed g1 a b) (hg : ∀ j old, g1 j old = g2 j old) : renamed g2 a b := by
  have : g1 = g2 := by
    funext j old
    exact hg j old
  rw [← this]
  exact h

theorem renamed_length (g : Nat → String → String) (a b : List ap_location_t)
    (h : renamed g a b) : b.length = a.length := by
  apply Nat.le_antisymm
  · by_contra hlt
    have h1 := h a.length
    rw [List.getElem?_eq_none (le_refl _)] at h1
    have : a.length < b.length := by omega
    rw [List.getElem?_eq_getElem this] at h1
    cases h1
  · by_contra hlt
    have h1 := h b.length
    rw [List.getElem?_eq_none (le_refl _)] at h1
    have : b.length < a.length := by omega
    rw [List.getElem?_eq_getElem this] at h1
    cases h1

theorem set_region_name_at_renamed (locs : List ap_location_t) (i : Nat) (n : String) :
    renamed (fun j old => if j = i then n else old) locs (set_region_name_at locs i n) := by
  induction locs generalizing i with
  | nil =>
    intro j
    simp [set_region_name_at]
  | cons loc rest ih =>
    intro j
    cases i with
    | zero =>
      cases j with
      | zero => simp [set_region_name_at]
      | succ j =>
        simp only [set_region_name_at, List.getElem?_cons_succ]
        cases rest[j]? with
        | none => rfl
        | some l => simp
    | succ i =>
      cases j with
      | zero => simp [set_region_name_at]
      | succ j =>
        simp only [set_region_name_at, List.getElem?_cons_succ]
        rw [ih i j]
        simp

theorem name_sector_locations_renamed (n : String) (locis : List Nat)
    (locs : List ap_location_t) :
    renamed (fun j old => if j ∈ locis then n else old) locs
      (name_sector_locations n locis locs) := by
  induction locis generalizing locs with
  | nil =>
    unfold name_sector_locations
    exact renamed_congr _ _ _ _ (renamed_refl locs) (fun j old => by simp)
  | cons i rest ih =>
    unfold name_sector_locations
    refine renamed_congr _ _ _ _
      (renamed_trans _ _ _ _ _ (set_region_name_at_renamed locs i n) (ih _)) ?_
    intro j old
    by_cases h1 : j ∈ rest
    · simp [h1]
    · by_cases h2 : j = i
      · simp [h2]
      · simp [h1, h2]

theorem name_region_locations_renamed (sectors : List level_sector_t) (n : String)
    (owned : List Nat) (locs : List ap_location_t) (h : ∀ s ∈ owned, s < sectors.length) :
    ∃ locs', name_region_locations sectors n owned locs = some locs' ∧
      renamed (fun j old => if touched sectors owned j then n else old) locs locs' := by
  induction owned generalizing locs with
  | nil =>
    refine ⟨locs, rfl, ?_⟩
    exact renamed_congr _ _ _ _ (renamed_refl locs) (fun j old => by simp [touched])
  | cons s rest ih =>
    have hs : s < sectors.length := h s (List.mem_cons_self _ _)
    obtain ⟨locs', h1, h2⟩ := ih (name_sector_locations n sectors[s].locations locs)
      (fun s' hs' => h s' (List.mem_cons_of_mem _ hs'))
    refine ⟨locs', ?_, ?_⟩
    · unfold name_region_locations
      rw [List.getElem?_eq_getElem hs]
      exact h1
    · refine renamed_congr _ _ _ _
        (renamed_trans _ _ _ _ _ (name_sector_locations_renamed n sectors[s].locations locs) h2) ?_
      intro j old
      have ht : touched sectors (s :: rest) j
          = (sectors[s].locations.contains j || touched sectors rest j) := by
        unfold touched
        rw [List.any_cons, List.getElem?_eq_getElem hs]
      rw [ht]
      by_cases h3 : j ∈ sectors[s].locations
      · have hc : sectors[s].locations.contains j = true := (contains_true_iff _ _).mpr h3
        simp only [hc, h3, if_true, Bool.true_or, ite_self]
      · have hc : sectors[s].locations.contains j = false := by
          cases hcc : sectors[s].locations.contains j with
          | false => rfl
          | true => exact absurd ((contains_true_iff _ _).mp hcc) h3
        simp only [hc, h3, if_false, Bool.false_or]


theorem serialize_region_renamed (game : game_t) (level : level_t) (region : region_t)
    (locs : List ap_location_t)
    (hs : ∀ s ∈ region.sectors, s < level.sectors.length)
    (hc : ∀ connection ∈ region.rules.connections,
      connection.target_region = -2 ∨ connection.target_region = -1 ∨
        (0 ≤ connection.target_region ∧
          connection.target_region < (level.map_state.regions.length : Int))) :
    ∃ r : Json × List ap_location_t, serialize_region game level region locs = some r ∧
      renamed
        (fun j old =>
          if touched level.sectors region.sectors j then level.name ++ " @ " ++ region.name
          else old) locs r.2 := by
  obtain ⟨locs', h1, h2⟩ := name_region_locations_renamed level.sectors
    (level.name ++ " @ " ++ region.name) region.sectors locs hs
  have h3 := region_connections_eq game level.name level.map_state.regions
    region.rules.connections hc
  unfold serialize_region
  rw [h1, h3]
  exact ⟨_, rfl, h2⟩

theorem serialize_regions_renamed (game : game_t) (level : level_t) (regions : List region_t)
    (locs : List ap_location_t)
    (h : ∀ region ∈ regions,
      (∀ s ∈ region.sectors, s < level.sectors.length) ∧
      ∀ connection ∈ region.rules.connections,
        connection.target_region = -2 ∨ connection.target_region = -1 ∨
          (0 ≤ connection.target_region ∧
            connection.target_region < (level.map_state.regions.length : Int))) :
    ∃ r : List Json × List ap_location_t, serialize_regions game level regions locs = some r ∧
      renamed
        (fun j old =>
          regions.foldl
            (fun acc region =>
              if touched level.sectors region.sectors j then
                level.name ++ " @ " ++ region.name
              else acc) old) locs r.2 := by
  induction regions generalizing locs with
  | nil => exact ⟨([], locs), rfl, renamed_refl locs⟩
  | cons region rest ih =>
    obtain ⟨hs, hc⟩ := h region (List.mem_cons_self _ _)
    obtain ⟨r, h1, h2⟩ := serialize_region_renamed game level region locs hs hc
    obtain ⟨rs, h3, h4⟩ := ih r.2 (fun region' h' => h region' (List.mem_cons_of_mem _ h'))
    refine ⟨(r.1 :: rs.1, rs.2), ?_, ?_⟩
    · unfold serialize_regions
      rw [h1]
      dsimp only
      rw [h3]
    · exact renamed_congr _ _ _ _ (renamed_trans _ _ _ _ _ h2 h4) (fun j old => rfl)

theorem world_connections_some (game : game_t) (level_name : String) (regions : List region_t)
    (connections : List rule_connection_t)
    (h : ∀ connection ∈ connections,
      0 ≤ connection.target_region ∧ connection.target_region < (regions.length : Int)) :
    ∃ docs, world_connections game level_name regions connections = some docs := by
  induction connections with
  | nil => exact ⟨[], rfl⟩
  | cons c rest ih =>
    obtain ⟨h0, h1⟩ := h c (List.mem_cons_self _ _)
    obtain ⟨region, _, hr⟩ := region_at_some regions c.target_region h0 h1
    obtain ⟨docs, hd⟩ := ih (fun c' hc' => h c' (List.mem_cons_of_mem _ hc'))
    unfold world_connections
    rw [hr]
    dsimp only
    rw [hd]
    exact ⟨_, rfl⟩

theorem serialize_level_renamed (game : game_t) (level : level_t) (locs : List ap_location_t)
    (hs : ∀ region ∈ level.map_state.regions, ∀ s ∈ region.sectors, s < level.sectors.length)
    (ht : targets_in_range level.map_state) :
    ∃ r : List Json × List ap_location_t, serialize_level game level locs = some r ∧
      renamed (regions_name level) locs r.2 := by
  obtain ⟨docs, hd⟩ := world_connections_some game level.name level.map_state.regions
    level.map_state.world_rules.connections ht.2
  obtain ⟨rs, h1, h2⟩ := serialize_regions_renamed game level level.map_state.regions locs
    (fun region hr => ⟨hs region hr, ht.1 region hr⟩)
  unfold serialize_level entrance_region
  rw [hd]
  dsimp only
  rw [h1]
  exact ⟨_, rfl, h2⟩

theorem serialize_levels_renamed (game : game_t) (levels : List level_t)
    (locs : List ap_location_t)
    (h : ∀ level ∈ levels,
      (∀ region ∈ level.map_state.regions, ∀ s ∈ region.sectors, s < level.sectors.length) ∧
      targets_in_range level.map_state) :
    ∃ r : List Json × List ap_location_t, serialize_levels game levels locs = some r ∧
      renamed (fun j old => levels.foldl (fun acc level => regions_name level j acc) old)
        locs r.2 := by
  induction levels generalizing locs with
  | nil => exact ⟨([], locs), rfl, renamed_refl locs⟩
  | cons level rest ih =>
    obtain ⟨hs, ht⟩ := h level (List.mem_cons_self _ _)
    obtain ⟨r, h1, h2⟩ := serialize_level_renamed game level locs hs ht
    obtain ⟨rs, h3, h4⟩ := ih r.2 (fun level' h' => h level' (List.mem_cons_of_mem _ h'))
    refine ⟨(r.1 ++ rs.1, rs.2), ?_, ?_⟩
    · unfold serialize_levels
      rw [h1]
      dsimp only
      rw [h3]
    · exact renamed_congr _ _ _ _ (renamed_trans _ _ _ _ _ h2 h4) (fun j old => rfl)

theorem regions_json_renamed (game : game_t) (levels : List level_t)
    (locs : List ap_location_t)
    (h : ∀ level ∈ levels,
      (∀ region ∈ level.map_state.regions, ∀ s ∈ region.sectors, s < level.sectors.length) ∧
      targets_in_range level.map_state) :
    ∃ r : Json × List ap_location_t, regions_json game levels locs = some r ∧
      renamed (fun j old => levels.foldl (fun acc level => regions_name level j acc) old)
        locs r.2 := by
  obtain ⟨r, h1, h2⟩ := serialize_levels_renamed game levels locs h
  unfold regions_json
  rw [h1]
  exact ⟨_, rfl, h2⟩

/-! ## The sector lists after the sector-filling loop -/

theorem get_level_map (g : level_t → level_t) (hidx : ∀ l, (g l).idx = l.idx)
    (levels : List level_t) (idx : level_index_t) :
    get_level (levels.map g) idx = (get_level levels idx).map g := by
  unfold get_level
  rw [List.find?_map]
  congr 2
  funext l
  simp only [Function.comp, hidx]

theorem sector_of_map (g : level_t → level_t) (hidx : ∀ l, (g l).idx = l.idx)
    (hmap : ∀ l, (g l).map = l.map) (levels : List level_t) (loc : ap_location_t) :
    sector_of (levels.map g) loc = sector_of levels loc := by
  unfold sector_of
  rw [get_level_map g hidx]
  cases get_level levels loc.idx with
  | none => rfl
  | some l => simp [hmap]

theorem fill_sectors_levels (locs : List ap_location_t) (i : Nat) (levels : List level_t) :
    (fill_sectors locs i levels).2
      = levels.map (fun l =>
          { l with
            sectors := level_sector_fill (sector_of levels) l.idx.ep l.idx.map locs i l.sectors }) ∧
    (fill_sectors locs i levels).1 = locs.map (fill_loc levels) := by
  induction locs generalizing i levels with
  | nil =>
    refine ⟨?_, rfl⟩
    unfold fill_sectors
    simp only [level_sector_fill]
    exact (List.map_id' levels).symm
  | cons loc rest ih =>
    by_cases hneg : loc.doom_thing_index < 0
    · obtain ⟨h1, h2⟩ := ih (i + 1) levels
      unfold fill_sectors
      simp only [hneg, if_true, List.map_cons]
      refine ⟨?_, ?_⟩
      · rw [h1]
        apply List.map_congr_left
        intro l _
        rw [level_sector_fill]
        simp only [hneg, if_true]
      · rw [h2]
        simp only [fill_loc, hneg, if_true]
    · cases hs : sector_of levels loc with
      | none =>
        obtain ⟨h1, h2⟩ := ih (i + 1) levels
        have hs' : (get_level levels loc.idx).bind
            (fun l => l.map.point_in_subsector loc.x loc.y) = none := hs
        unfold fill_sectors
        simp only [hneg, if_false, hs', List.map_cons]
        refine ⟨?_, ?_⟩
        · rw [h1]
          apply List.map_congr_left
          intro l _
          conv_rhs => rw [level_sector_fill]
          simp only [hneg, if_false, hs]
        · rw [h2]
          simp only [fill_loc, hneg, if_false, hs]
      | some sector =>
        have hs' : (get_level levels loc.idx).bind
            (fun l => l.map.point_in_subsector loc.x loc.y) = some sector := hs
        have hinv : ∀ loc', sector_of (levels.map (fun l =>
            if l.idx.ep == loc.idx.ep && l.idx.map == loc.idx.map then
              { l with sectors := push_sector_location l.sectors sector i }
            else l)) loc' = sector_of levels loc' := by
          intro loc'
          apply sector_of_map
          · intro l
            split <;> rfl
          · intro l
            split <;> rfl
        obtain ⟨h1, h2⟩ := ih (i + 1) (levels.map (fun l =>
            if l.idx.ep == loc.idx.ep && l.idx.map == loc.idx.map then
              { l with sectors := push_sector_location l.sectors sector i }
            else l))
        have hfun : sector_of (levels.map (fun l =>
            if l.idx.ep == loc.idx.ep && l.idx.map == loc.idx.map then
              { l with sectors := push_sector_location l.sectors sector i }
            else l)) = sector_of levels := funext hinv
        unfold fill_sectors
        simp only [hneg, if_false, hs', List.map_cons]
        refine ⟨?_, ?_⟩
        · rw [h1, hfun, List.map_map]
          apply List.map_congr_left
          intro l _
          conv_rhs => rw [level_sector_fill]
          simp only [hneg, if_false, hs, Function.comp]
          by_cases hm : (l.idx.ep == loc.idx.ep && l.idx.map == loc.idx.map) = true
          · simp only [hm, if_true]
          · simp only [hm, Bool.false_eq_true, if_false]
        · rw [h2]
          simp only [fill_loc, hneg, if_false, hs]
          congr 1
          apply List.map_congr_left
          intro loc' _
          unfold fill_loc
          rw [hinv loc']


theorem push_sector_location_get (sectors : List level_sector_t) (s i t : Nat) :
    (push_sector_location sectors s i)[t]?
      = (sectors[t]?).map (fun sector =>
          if t = s then { sector with locations := sector.locations ++ [i] } else sector) := by
  induction sectors generalizing s t with
  | nil => simp [push_sector_location]
  | cons sector rest ih =>
    cases s with
    | zero =>
      cases t with
      | zero => simp [push_sector_location]
      | succ t =>
        simp only [push_sector_location, List.getElem?_cons_succ]
        cases rest[t]? with
        | none => rfl
        | some x => simp
    | succ s =>
      cases t with
      | zero => simp [push_sector_location]
      | succ t =>
        simp only [push_sector_location, List.getElem?_cons_succ, ih s t]
        simp

theorem push_sector_location_length (sectors : List level_sector_t) (s i : Nat) :
    (push_sector_location sectors s i).length = sectors.length := by
  induction sectors generalizing s with
  | nil => rfl
  | cons sector rest ih =>
    cases s with
    | zero => rfl
    | succ s => simp [push_sector_location, ih]

theorem level_sector_fill_length (sec : ap_location_t → Option Nat) (ep map : Int)
    (locs : List ap_location_t) (i : Nat) (sectors : List level_sector_t) :
    (level_sector_fill sec ep map locs i sectors).length = sectors.length := by
  induction locs generalizing i sectors with
  | nil => rfl
  | cons loc rest ih =>
    unfold level_sector_fill
    split
    · exact ih _ _
    · split
      · split
        · rw [ih, push_sector_location_length]
        · exact ih _ _
      · exact ih _ _

/-- Which positions the sector-filling loop records in sector `t` of the level
(ep, map): those already there, and the positions of the locations made from
a map object of that level for which the sector query answers `t`. -/
theorem level_sector_fill_mem (sec : ap_location_t → Option Nat) (ep map : Int)
    (locs : List ap_location_t) (i : Nat) (sectors : List level_sector_t) (t : Nat)
    (sector' : level_sector_t)
    (h : (level_sector_fill sec ep map locs i sectors)[t]? = some sector') :
    ∃ sector0, sectors[t]? = some sector0 ∧
      ∀ j, j ∈ sector'.locations ↔
        (j ∈ sector0.locations ∨
          ∃ (k : Nat) (loc : ap_location_t), locs[k]? = some loc ∧ j = i + k ∧
            0 ≤ loc.doom_thing_index ∧ ep = loc.idx.ep ∧ map = loc.idx.map ∧
            sec loc = some t) := by
  induction locs generalizing i sectors with
  | nil =>
    refine ⟨sector', h, ?_⟩
    intro j
    simp
  | cons loc rest ih =>
    have hskip : ∀ sector0, sectors[t]? = some sector0 →
        (∀ j, j ∈ sector'.locations ↔
          (j ∈ sector0.locations ∨
            ∃ (k : Nat) (loc' : ap_location_t), rest[k]? = some loc' ∧ j = i + 1 + k ∧
              0 ≤ loc'.doom_thing_index ∧ ep = loc'.idx.ep ∧ map = loc'.idx.map ∧
              sec loc' = some t)) →
        ¬ (0 ≤ loc.doom_thing_index ∧ ep = loc.idx.ep ∧ map = loc.idx.map ∧
            sec loc = some t) →
        ∀ j, j ∈ sector'.locations ↔
          (j ∈ sector0.locations ∨
            ∃ (k : Nat) (loc' : ap_location_t), (loc :: rest)[k]? = some loc' ∧ j = i + k ∧
              0 ≤ loc'.doom_thing_index ∧ ep = loc'.idx.ep ∧ map = loc'.idx.map ∧
              sec loc' = some t) := by
      intro sector0 _ hrest hnot j
      rw [hrest j]
      constructor
      · rintro (h1 | ⟨k, loc', hk, hj, hrest'⟩)
        · exact Or.inl h1
        · exact Or.inr ⟨k + 1, loc', by simpa using hk, by omega, hrest'⟩
      · rintro (h1 | ⟨k, loc', hk, hj, hrest'⟩)
        · exact Or.inl h1
        · cases k with
          | zero =>
            simp only [List.getElem?_cons_zero, Option.some.injEq] at hk
            subst hk
            exact absurd hrest' hnot
          | succ k =>
            exact Or.inr ⟨k, loc', by simpa using hk, by omega, hrest'⟩
    unfold level_sector_fill at h
    by_cases hneg : loc.doom_thing_index < 0
    · simp only [hneg, if_true] at h
      obtain ⟨sector0, h0, hiff⟩ := ih (i + 1) sectors h
      exact ⟨sector0, h0, hskip sector0 h0 hiff (fun hc => by omega)⟩
    · simp only [hneg, if_false] at h
      cases hs : sec loc with
      | none =>
        simp only [hs] at h
        obtain ⟨sector0, h0, hiff⟩ := ih (i + 1) sectors h
        exact ⟨sector0, h0, hskip sector0 h0 hiff (fun hc => by
          rw [hs] at hc
          exact absurd hc.2.2.2 (by simp))⟩
      | some s =>
        simp only [hs] at h
        by_cases hm : (ep == loc.idx.ep && map == loc.idx.map) = true
        · simp only [hm, if_true] at h
          obtain ⟨sector1, h1, hiff⟩ := ih (i + 1) (push_sector_location sectors s i) h
          rw [push_sector_location_get] at h1
          cases h0 : sectors[t]? with
          | none =>
            rw [h0] at h1
            cases h1
          | some sector0 =>
            rw [h0] at h1
            simp only [Option.map_some', Option.some.injEq] at h1
            have hm' : ep = loc.idx.ep ∧ map = loc.idx.map := by simpa using hm
            by_cases hts : t = s
            · refine ⟨sector0, rfl, ?_⟩
              intro j
              rw [hiff j, ← h1]
              simp only [hts, if_true, List.mem_append, List.mem_singleton]
              constructor
              · rintro ((h2 | h2) | ⟨k, loc', hk, hj, hrest'⟩)
                · exact Or.inl h2
                · exact Or.inr ⟨0, loc, List.getElem?_cons_zero, by omega, by omega, hm'.1,
                    hm'.2, by simp [hs, hts]⟩
                · exact Or.inr ⟨k + 1, loc', by simpa using hk, by omega, hrest'⟩
              · rintro (h2 | ⟨k, loc', hk, hj, hrest'⟩)
                · exact Or.inl (Or.inl h2)
                · cases k with
                  | zero => exact Or.inl (Or.inr (by omega))
                  | succ k => exact Or.inr ⟨k, loc', by simpa using hk, by omega, hrest'⟩
            · refine ⟨sector0, rfl, ?_⟩
              simp only [hts, if_false] at h1
              rw [← h1] at hiff
              exact hskip sector0 h0 hiff (fun hc => by
                rw [hs] at hc
                have : s = t := by simpa using hc.2.2.2
                exact hts this.symm)
        · simp only [hm, Bool.false_eq_true, if_false] at h
          obtain ⟨sector0, h0, hiff⟩ := ih (i + 1) sectors h
          exact ⟨sector0, h0, hskip sector0 h0 hiff (fun hc => by
            apply hm
            simp [hc.2.1, hc.2.2.1])⟩

/-! ## The final catalog seen from the levels of the game -/

theorem register_key_view (game : game_t) (thing : map_thing_t) (level : level_t) (i : Nat)
    (st : gen_state) : level_view (register_key game thing level i st).1 = level_view level := by
  unfold register_key
  split <;> rfl

theorem add_loc_view (name : String) (thing : map_thing_t) (level : level_t) (index : Nat)
    (id : Int) (st : gen_state) :
    level_view (add_loc name thing level index id st).1 = level_view level := by
  unfold add_loc
  dsimp only
  split
  · rfl
  · split <;> rfl

theorem scan_things_view (game : game_t) (pfx : String) (things : List map_thing_t) (i : Nat)
    (next_loc : Int) (level : level_t) (st : gen_state) :
    level_view (scan_things game pfx things i next_loc level st).1 = level_view level := by
  induction things generalizing i next_loc level st with
  | nil => rfl
  | cons thing rest ih =>
    unfold scan_things
    cases thing_label game thing with
    | none => exact ih _ _ _ _
    | some label =>
      dsimp only
      rw [ih, add_loc_view, register_key_view]

theorem compile_level_view (game : game_t) (level : level_t) (st : gen_state) :
    level_view (compile_level game level st).1
      = level_view
          { level with sectors := List.replicate level.map.sector_count { locations := [] } } := by
  have h := scan_things_view game (level.name ++ " - ") level.map.things 0 1
    { level with sectors := List.replicate level.map.sector_count { locations := [] } } st
  unfold compile_level
  dsimp only
  split <;> exact h

theorem compile_levels_view (game : game_t) (levels : List level_t) (st : gen_state) :
    (compile_levels game levels st).1.map level_view
      = levels.map (fun l => level_view
          { l with sectors := List.replicate l.map.sector_count { locations := [] } }) := by
  induction levels generalizing st with
  | nil => rfl
  | cons level rest ih =>
    unfold compile_levels
    dsimp only
    rw [List.map_cons, List.map_cons, ih, compile_level_view]

theorem compile_catalog_view (game : game_t) :
    (compile_catalog game).1.map level_view
      = (make_levels game).map (fun l => level_view
          { l with sectors := List.replicate l.map.sector_count { locations := [] } }) := by
  unfold compile_catalog
  exact compile_levels_view game _ _

/-- Where the locations come from while the levels are scanned. -/
theorem compile_levels_origin (game : game_t) (levels : List level_t) (st : gen_state) :
    ∀ l ∈ (compile_levels game levels st).2.ap_locations,
      l ∈ st.ap_locations ∨
      ∃ level ∈ levels, l.idx = level.idx ∧
        ((0 ≤ l.doom_thing_index ∧ l.region_name = "") ∨
         (l.doom_thing_index < 0 ∧ l.region_name = exit_region_name level)) := by
  induction levels generalizing st with
  | nil =>
    intro l hl
    exact Or.inl hl
  | cons level rest ih =>
    intro l hl
    obtain ⟨⟨new, h1, h2⟩, _⟩ := compile_level_new game level st
    unfold compile_levels at hl
    dsimp only at hl
    rcases ih (compile_level game level st).2 l hl with h | ⟨level', hm, h3⟩
    · rw [h1] at h
      rcases List.mem_append.mp h with h | h
      · rcases List.mem_append.mp h with h | h
        · exact Or.inl h
        · obtain ⟨a, b, c⟩ := h2 l h
          exact Or.inr ⟨level, List.mem_cons_self _ _, a, Or.inl ⟨b, c⟩⟩
      · rw [List.mem_singleton] at h
        subst h
        exact Or.inr ⟨level, List.mem_cons_self _ _, rfl,
          Or.inr ⟨(show (-1 : Int) < 0 by decide), rfl⟩⟩
    · exact Or.inr ⟨level', List.mem_cons_of_mem _ hm, h3⟩

theorem compile_catalog_origin (game : game_t) :
    ∀ l ∈ (compile_catalog game).2.ap_locations, loc_origin game l := by
  intro l hl
  have hloc : (compile_catalog game).2.ap_locations
      = (compile_levels game (make_levels game)
          (add_global_items game (initial_state game))).2.ap_locations := by
    unfold compile_catalog
    dsimp only
    rw [fold_level_items_locations]
  rw [hloc] at hl
  rcases compile_levels_origin game _ _ l hl with h | h
  · rw [(add_global_items_locations game (initial_state game)).1] at h
    cases h
  · exact h

theorem remap_locations_mem (game : game_t) (locs : List ap_location_t) :
    ∀ l' ∈ remap_locations game locs, ∃ l ∈ locs, ∃ v : Int, l' = { l with id := v } := by
  intro l' hl'
  unfold remap_locations at hl'
  by_cases ht : game.location_remap = []
  · rw [ht, remap_pass_nil] at hl'
    exact ⟨l', hl', l'.id, rfl⟩
  · obtain ⟨j, hj⟩ := List.getElem?_of_mem hl'
    have hlen := remap_pass_length (fun l : ap_location_t => l.name)
      (fun l v => { l with id := v }) game.location_remap locs
    have hjlt : j < locs.length := by
      by_contra hge
      rw [List.getElem?_eq_none (by omega)] at hj
      cases hj
    have hx : locs[j]? = some locs[j] := List.getElem?_eq_getElem hjlt
    have := remap_pass_get (fun l : ap_location_t => l.name) (fun l v => { l with id := v })
      game.location_remap locs ht j locs[j] hx
    rw [hj] at this
    simp only [Option.some.injEq] at this
    exact ⟨locs[j], List.getElem_mem _, _, this⟩

theorem fill_loc_fields (levels : List level_t) (loc : ap_location_t) :
    (fill_loc levels loc).idx = loc.idx ∧
    (fill_loc levels loc).doom_thing_index = loc.doom_thing_index ∧
    (fill_loc levels loc).region_name = loc.region_name ∧
    (fill_loc levels loc).x = loc.x ∧ (fill_loc levels loc).y = loc.y ∧
    (fill_loc levels loc).name = loc.name ∧ (fill_loc levels loc).id = loc.id := by
  unfold fill_loc
  split
  · exact ⟨rfl, rfl, rfl, rfl, rfl, rfl, rfl⟩
  · split <;> exact ⟨rfl, rfl, rfl, rfl, rfl, rfl, rfl⟩

/-- The locations of the final catalog come from the levels of the game. -/
theorem final_catalog_origin (game : game_t) :
    ∀ l ∈ (final_catalog game).2.ap_locations, loc_origin game l := by
  intro l hl
  unfold final_catalog at hl
  dsimp only at hl
  rw [(fill_sectors_levels _ _ _).2] at hl
  obtain ⟨l0, hl0, rfl⟩ := List.mem_map.mp hl
  have hl1 := (sort_by_id_perm (fun l : ap_location_t => l.id) _).mem_iff.mp hl0
  obtain ⟨l2, hl2, v, rfl⟩ := remap_locations_mem game _ l0 hl1
  obtain ⟨level, hm, h1, h2⟩ := compile_catalog_origin game l2 hl2
  obtain ⟨f1, f2, f3, _⟩ := fill_loc_fields (compile_catalog game).1 { l2 with id := v }
  refine ⟨level, hm, f1.trans h1, ?_⟩
  rw [f2, f3]
  exact h2


theorem sector_of_compiled (game : game_t) (loc : ap_location_t) :
    sector_of (compile_catalog game).1 loc = sector_of (make_levels game) loc := by
  have h1 := sector_of_map level_view (fun _ => rfl) (fun _ => rfl) (compile_catalog game).1 loc
  rw [compile_catalog_view] at h1
  rw [← h1]
  exact sector_of_map
    (fun l => level_view
      { l with sectors := List.replicate l.map.sector_count { locations := [] } })
    (fun _ => rfl) (fun _ => rfl) (make_levels game) loc

theorem final_catalog_locations (game : game_t) :
    (final_catalog game).2.ap_locations
      = (sorted_locations game).map (fill_loc (make_levels game)) := by
  unfold final_catalog
  dsimp only
  rw [(fill_sectors_levels _ _ _).2]
  apply List.map_congr_left
  intro loc _
  unfold fill_loc
  rw [sector_of_compiled]

theorem final_catalog_levels (game : game_t) :
    (final_catalog game).1.map level_view = (make_levels game).map (filled_level game) := by
  have hsec : sector_of (compile_catalog game).1 = sector_of (make_levels game) :=
    funext (sector_of_compiled game)
  have h1 : (final_catalog game).1
      = (compile_catalog game).1.map (fun l =>
          { l with
            sectors := level_sector_fill (sector_of (make_levels game)) l.idx.ep l.idx.map
              (sorted_locations game) 0 l.sectors }) := by
    unfold final_catalog
    dsimp only
    rw [(fill_sectors_levels _ _ _).1, hsec]
    rfl
  have h2 : ∀ l : level_t,
      level_view { l with
        sectors := level_sector_fill (sector_of (make_levels game)) l.idx.ep l.idx.map
          (sorted_locations game) 0 l.sectors }
      = (fun v : level_t => { v with
          sectors := level_sector_fill (sector_of (make_levels game)) v.idx.ep v.idx.map
            (sorted_locations game) 0 v.sectors }) (level_view l) := fun _ => rfl
  rw [h1, List.map_map]
  have h3 : (level_view ∘ fun l : level_t =>
        { l with
          sectors := level_sector_fill (sector_of (make_levels game)) l.idx.ep l.idx.map
            (sorted_locations game) 0 l.sectors })
      = (fun v : level_t => { v with
          sectors := level_sector_fill (sector_of (make_levels game)) v.idx.ep v.idx.map
            (sorted_locations game) 0 v.sectors }) ∘ level_view := by
    funext l
    exact h2 l
  rw [h3, ← List.map_map, compile_catalog_view, List.map_map]
  rfl

theorem foldl_ite_congr {α : Type} (rs : List α) (c1 c2 : α → Bool) (f : α → String)
    (init : String) (h : ∀ r ∈ rs, c1 r = c2 r) :
    rs.foldl (fun acc r => if c1 r then f r else acc) init
      = rs.foldl (fun acc r => if c2 r then f r else acc) init := by
  induction rs generalizing init with
  | nil => rfl
  | cons r rest ih =>
    simp only [List.foldl_cons, h r (List.mem_cons_self _ _)]
    exact ih _ (fun r' hr' => h r' (List.mem_cons_of_mem _ hr'))

theorem foldl_ite_false {α : Type} (rs : List α) (c : α → Bool) (f : α → String)
    (init : String) (h : ∀ r ∈ rs, c r = false) :
    rs.foldl (fun acc r => if c r then f r else acc) init = init := by
  induction rs generalizing init with
  | nil => rfl
  | cons r rest ih =>
    simp only [List.foldl_cons, h r (List.mem_cons_self _ _), Bool.false_eq_true, if_false]
    exact ih _ (fun r' hr' => h r' (List.mem_cons_of_mem _ hr'))

theorem foldl_fixed {α β : Type} (F : β → α → β) (l : List α) (init : β)
    (h : ∀ x ∈ l, ∀ acc, F acc x = acc) : l.foldl F init = init := by
  induction l generalizing init with
  | nil => rfl
  | cons a rest ih =>
    simp only [List.foldl_cons, h a (List.mem_cons_self _ _)]
    exact ih _ (fun x hx => h x (List.mem_cons_of_mem _ hx))

theorem foldl_single {α β : Type} (F : β → α → β) (m : α → Bool) (l : List α) (x : α)
    (init : β) (hf : l.filter m = [x]) (h : ∀ y ∈ l, m y = false → ∀ acc, F acc y = acc) :
    l.foldl F init = F init x := by
  induction l generalizing init with
  | nil => cases hf
  | cons a rest ih =>
    by_cases hm : m a = true
    · rw [List.filter_cons, if_pos hm] at hf
      simp only [List.cons.injEq] at hf
      obtain ⟨hax, hrest⟩ := hf
      subst hax
      simp only [List.foldl_cons]
      apply foldl_fixed
      intro y hy acc
      have hmy : m y = false := by
        cases hmy : m y with
        | false => rfl
        | true =>
          have : y ∈ rest.filter m := List.mem_filter.mpr ⟨hy, hmy⟩
          rw [hrest] at this
          cases this
      exact h y (List.mem_cons_of_mem _ hy) hmy acc
    · have hm' : m a = false := by simpa using hm
      rw [List.filter_cons, if_neg hm] at hf
      simp only [List.foldl_cons, h a (List.mem_cons_self _ _) hm']
      exact ih _ hf (fun y hy => h y (List.mem_cons_of_mem _ hy))

/-- Position `j` is recorded in an owned sector of a level exactly when the
location at `j` was made from a map object of that level and the sector query
answers with one of the owned sectors. -/
theorem touched_filled (game : game_t) (l : level_t) (owned : List Nat)
    (hr : ∀ s ∈ owned, s < l.map.sector_count) (j : Nat) (loc0 : ap_location_t)
    (hj : (sorted_locations game)[j]? = some loc0) :
    touched (filled_level game l).sectors owned j = true ↔
      (0 ≤ loc0.doom_thing_index ∧ l.idx.ep = loc0.idx.ep ∧ l.idx.map = loc0.idx.map ∧
        ∃ s ∈ owned, sector_of (make_levels game) loc0 = some s) := by
  have hlen : (filled_level game l).sectors.length = l.map.sector_count := by
    show (level_sector_fill _ _ _ _ _ _).length = _
    rw [level_sector_fill_length, List.length_replicate]
  have hmem : ∀ s ∈ owned,
      ((match (filled_level game l).sectors[s]? with
        | some sector => sector.locations.contains j
        | none => false) = true ↔
      (0 ≤ loc0.doom_thing_index ∧ l.idx.ep = loc0.idx.ep ∧ l.idx.map = loc0.idx.map ∧
        sector_of (make_levels game) loc0 = some s)) := by
    intro s hs
    have hlt : s < (filled_level game l).sectors.length := by
      rw [hlen]
      exact hr s hs
    have hget := List.getElem?_eq_getElem hlt
    obtain ⟨sector0, h0, hiff⟩ := level_sector_fill_mem (sector_of (make_levels game))
      l.idx.ep l.idx.map (sorted_locations game) 0
      (List.replicate l.map.sector_count { locations := [] }) s _ hget
    have hs0 : sector0 = { locations := [] } := by
      rw [List.getElem?_replicate] at h0
      split at h0
      · exact (Option.some.inj h0).symm
      · cases h0
    rw [hget]
    dsimp only
    rw [contains_true_iff, hiff j, hs0]
    constructor
    · rintro (h | ⟨k, loc, hk, hjk, h1, h2, h3, h4⟩)
      · cases h
      · have : k = j := by omega
        subst this
        rw [hj] at hk
        cases hk
        exact ⟨h1, h2, h3, h4⟩
    · rintro ⟨h1, h2, h3, h4⟩
      exact Or.inr ⟨j, loc0, hj, by omega, h1, h2, h3, h4⟩
  unfold touched
  rw [List.any_eq_true]
  constructor
  · rintro ⟨s, hs, ht⟩
    obtain ⟨h1, h2, h3, h4⟩ := (hmem s hs).mp ht
    exact ⟨h1, h2, h3, s, hs, h4⟩
  · rintro ⟨h1, h2, h3, s, hs, h4⟩
    exact ⟨s, hs, (hmem s hs).mpr ⟨h1, h2, h3, h4⟩⟩

/-! ## The region of every location of the final catalog -/

theorem find_of_filter_singleton {α : Type} (p : α → Bool) (l : List α) (x : α)
    (h : l.filter p = [x]) : l.find? p = some x := by
  induction l with
  | nil => cases h
  | cons a rest ih =>
    by_cases hp : p a = true
    · rw [List.filter_cons, if_pos hp] at h
      simp only [List.cons.injEq] at h
      rw [List.find?_cons, hp, h.1]
    · have hp' : p a = false := by simpa using hp
      rw [List.filter_cons, if_neg hp] at h
      rw [List.find?_cons, hp']
      exact ih h

theorem regions_name_filled (game : game_t) (l : level_t)
    (hr : ∀ region ∈ l.map_state.regions, ∀ s ∈ region.sectors, s < l.map.sector_count)
    (j : Nat) (loc0 : ap_location_t) (hj : (sorted_locations game)[j]? = some loc0)
    (acc : String) :
    regions_name (filled_level game l) j acc
      = if 0 ≤ loc0.doom_thing_index ∧ l.idx.ep = loc0.idx.ep ∧ l.idx.map = loc0.idx.map then
          match sector_of (make_levels game) loc0 with
          | some s =>
            l.map_state.regions.foldl
              (fun acc region =>
                if s ∈ region.sectors then l.name ++ " @ " ++ region.name else acc) acc
          | none => acc
        else acc := by
  have hunf : regions_name (filled_level game l) j acc
      = l.map_state.regions.foldl
          (fun acc region =>
            if (fun region : region_t =>
                touched (filled_level game l).sectors region.sectors j) region then
              (fun region : region_t => l.name ++ " @ " ++ region.name) region
            else acc) acc := rfl
  rw [hunf]
  by_cases hc : 0 ≤ loc0.doom_thing_index ∧ l.idx.ep = loc0.idx.ep ∧ l.idx.map = loc0.idx.map
  · rw [if_pos hc]
    cases hs : sector_of (make_levels game) loc0 with
    | none =>
      dsimp only
      apply foldl_ite_false
      intro region hregion
      cases ht : touched (filled_level game l).sectors region.sectors j with
      | false => rfl
      | true =>
        obtain ⟨_, _, _, s, _, h4⟩ :=
          (touched_filled game l region.sectors (hr region hregion) j loc0 hj).mp ht
        rw [hs] at h4
        cases h4
    | some s =>
      dsimp only
      rw [foldl_ite_congr l.map_state.regions _ (fun region => decide (s ∈ region.sectors))]
      · simp only [decide_eq_true_eq]
      · intro region hregion
        have hiff := touched_filled game l region.sectors (hr region hregion) j loc0 hj
        by_cases hmem : s ∈ region.sectors
        · rw [decide_eq_true hmem]
          exact hiff.mpr ⟨hc.1, hc.2.1, hc.2.2, s, hmem, hs⟩
        · rw [decide_eq_false hmem]
          cases ht : touched (filled_level game l).sectors region.sectors j with
          | false => rfl
          | true =>
            obtain ⟨_, _, _, s', hs', h4⟩ := hiff.mp ht
            rw [hs] at h4
            cases h4
            exact absurd hs' hmem
  · rw [if_neg hc]
    apply foldl_ite_false
    intro region hregion
    cases ht : touched (filled_level game l).sectors region.sectors j with
    | false => rfl
    | true =>
      obtain ⟨h1, h2, h3, _⟩ :=
        (touched_filled game l region.sectors (hr region hregion) j loc0 hj).mp ht
      exact absurd ⟨h1, h2, h3⟩ hc

/-- The region names after the block "Regions": every location of the final
catalog comes from a level of the game and holds `final_region_name`. -/
theorem final_regions (game : game_t) (h : ∀ level ∈ make_levels game, regions_in_range level) :
    ∃ r : Json × List ap_location_t,
      regions_json game (final_catalog game).1 (final_catalog game).2.ap_locations = some r ∧
      r.2.length = (final_catalog game).2.ap_locations.length ∧
      ∀ (j : Nat) (loc : ap_location_t), (final_catalog game).2.ap_locations[j]? = some loc →
        ∃ level ∈ make_levels game, loc.idx = level.idx ∧
          ((0 ≤ loc.doom_thing_index ∧ loc.region_name = "") ∨
            (loc.doom_thing_index < 0 ∧ loc.region_name = exit_region_name level)) ∧
          r.2[j]? = some { loc with region_name := final_region_name level loc } := by
  have hview := final_catalog_levels game
  have hvalid : ∀ level ∈ (final_catalog game).1,
      (∀ region ∈ level.map_state.regions, ∀ s ∈ region.sectors, s < level.sectors.length) ∧
      targets_in_range level.map_state := by
    intro level' hl'
    have hmem : level_view level' ∈ (final_catalog game).1.map level_view :=
      List.mem_map_of_mem _ hl'
    rw [hview] at hmem
    obtain ⟨l, hl, heq⟩ := List.mem_map.mp hmem
    have hms : level'.map_state = l.map_state := by
      have := congrArg level_t.map_state heq
      exact this.symm
    have hsec : level'.sectors = (filled_level game l).sectors := by
      have := congrArg level_t.sectors heq
      exact this.symm
    have hlen : level'.sectors.length = l.map.sector_count := by
      rw [hsec]
      show (level_sector_fill _ _ _ _ _ _).length = _
      rw [level_sector_fill_length, List.length_replicate]
    obtain ⟨hr, ht⟩ := h l hl
    rw [hms, hlen]
    exact ⟨hr, ht⟩
  obtain ⟨r, hr1, hr2⟩ := regions_json_renamed game (final_catalog game).1
    (final_catalog game).2.ap_locations hvalid
  refine ⟨r, hr1, renamed_length _ _ _ hr2, ?_⟩
  intro j loc hj
  have hG : ∀ old : String,
      (final_catalog game).1.foldl (fun acc level => regions_name level j acc) old
        = (make_levels game).foldl (fun acc l => regions_name (filled_level game l) j acc)
            old := by
    intro old
    have e1 : (final_catalog game).1.foldl (fun acc level => regions_name level j acc) old
        = ((final_catalog game).1.map level_view).foldl
            (fun acc v => regions_name v j acc) old := by
      rw [List.foldl_map]
      rfl
    rw [e1, hview, List.foldl_map]
  obtain ⟨level, hm, hidx, hcase⟩ := final_catalog_origin game loc (List.getElem?_mem hj)
  have hloc0 : ∃ loc0, (sorted_locations game)[j]? = some loc0
      ∧ loc = fill_loc (make_levels game) loc0 := by
    rw [final_catalog_locations, List.getElem?_map] at hj
    cases h0 : (sorted_locations game)[j]? with
    | none =>
      rw [h0] at hj
      cases hj
    | some loc0 =>
      rw [h0] at hj
      exact ⟨loc0, rfl, (Option.some.inj hj).symm⟩
  obtain ⟨loc0, hj0, hfill⟩ := hloc0
  obtain ⟨f1, f2, _, f4, f5, _⟩ := fill_loc_fields (make_levels game) loc0
  rw [← hfill] at f1 f2 f4 f5
  have hidx0 : loc0.idx = level.idx := by rw [← f1, hidx]
  refine ⟨level, hm, hidx, hcase, ?_⟩
  rw [hr2 j, hj]
  simp only [Option.map_some', Option.some.injEq]
  congr 1
  rw [hG]
  have hsingle := foldl_single
    (fun acc l => regions_name (filled_level game l) j acc)
    (fun l => l.idx.ep == level.idx.ep && l.idx.map == level.idx.map)
    (make_levels game) level loc.region_name (levels_filter_idx game level hm)
    (by
      intro y hy hmy acc
      dsimp only at hmy
      show regions_name (filled_level game y) j acc = acc
      rw [regions_name_filled game y (h y hy).1 j loc0 hj0 acc]
      have hne : ¬ (0 ≤ loc0.doom_thing_index ∧ y.idx.ep = loc0.idx.ep
          ∧ y.idx.map = loc0.idx.map) := by
        rintro ⟨_, h2, h3⟩
        rw [hidx0] at h2 h3
        simp [h2, h3] at hmy
      rw [if_neg hne])
  rw [hsingle]
  dsimp only
  rw [regions_name_filled game level (h level hm).1 j loc0 hj0]
  unfold final_region_name
  by_cases hneg : loc.doom_thing_index < 0
  · have hne : ¬ (0 ≤ loc0.doom_thing_index ∧ level.idx.ep = loc0.idx.ep
        ∧ level.idx.map = loc0.idx.map) := by
      rintro ⟨h1, _, _⟩
      rw [← f2] at h1
      omega
    rw [if_neg hne, if_pos hneg]
  · have hpos : 0 ≤ loc0.doom_thing_index ∧ level.idx.ep = loc0.idx.ep
        ∧ level.idx.map = loc0.idx.map := by
      refine ⟨by rw [← f2]; omega, by rw [hidx0], by rw [hidx0]⟩
    have hname : loc.region_name = "" := by
      rcases hcase with ⟨_, h2⟩ | ⟨h1, _⟩
      · exact h2
      · exact absurd h1 hneg
    have hget : get_level (make_levels game) loc0.idx = some level := by
      unfold get_level
      rw [hidx0]
      exact find_of_filter_singleton _ _ _ (levels_filter_idx game level hm)
    have hsec : sector_of (make_levels game) loc0
        = level.map.point_in_subsector loc.x loc.y := by
      unfold sector_of
      rw [hget, f4, f5]
      rfl
    rw [if_pos hpos, if_neg hneg, hsec, hname]
    rfl


/-! ## The location table -/

theorem location_fold_warnings (game : game_t) (locs : List ap_location_t)
    (out : location_output) :
    (locs.foldl (location_step game) out).warning_count_empty_region
      = out.warning_count_empty_region
        + (locs.filter (fun l => decide (l.region_name = ""))).length := by
  induction locs generalizing out with
  | nil => rfl
  | cons l rest ih =>
    rw [List.foldl_cons, ih, List.filter_cons]
    by_cases he : l.region_name = ""
    · simp only [location_step, he, if_true, decide_True, List.length_cons]
      omega
    · simp only [location_step, he, if_false, decide_False, Bool.false_eq_true]

theorem json_set_lookup (members : List (String × Json)) (key : String) (value : Json)
    (k : String) :
    (json_set members key value).lookup k
      = if k = key then some value else members.lookup k := by
  induction members with
  | nil =>
    unfold json_set
    by_cases hk : k = key
    · simp [List.lookup, hk]
    · have : (k == key) = false := by simpa using hk
      simp [List.lookup, hk, this]
  | cons kv rest ih =>
    obtain ⟨k0, v0⟩ := kv
    unfold json_set
    by_cases h1 : k0 = key
    · subst h1
      simp only [if_true]
      by_cases hk : k = k0
      · simp [List.lookup, hk]
      · have : (k == k0) = false := by simpa using hk
        simp [List.lookup, hk, this]
    · simp only [h1, if_false]
      split
      · by_cases hk : k = key
        · simp [List.lookup, hk]
        · have : (k == key) = false := by simpa using hk
          simp [List.lookup, hk, this]
      · by_cases hk : k = k0
        · have hne : k ≠ key := by
            rw [hk]
            exact h1
          simp [List.lookup, hk, h1]
        · have : (k == k0) = false := by simpa using hk
          simp only [List.lookup, this, ih]

/-- The entry of the location table under a key: the data of a location of
the list with that key, when there is one. -/
theorem location_fold_lookup (game : game_t) (locs : List ap_location_t)
    (out : location_output) (k : String) :
    (∃ l ∈ locs, Int.repr l.id = k ∧
      (locs.foldl (location_step game) out).locations_json.lookup k
        = some (locdata_json game l)) ∨
    ((∀ l ∈ locs, Int.repr l.id ≠ k) ∧
      (locs.foldl (location_step game) out).locations_json.lookup k
        = out.locations_json.lookup k) := by
  induction locs generalizing out with
  | nil => exact Or.inr ⟨fun l hl => absurd hl (List.not_mem_nil l), rfl⟩
  | cons a rest ih =>
    rw [List.foldl_cons]
    rcases ih (location_step game out a) with ⟨l, hl, hk, hlook⟩ | ⟨hnone, hlook⟩
    · exact Or.inl ⟨l, List.mem_cons_of_mem _ hl, hk, hlook⟩
    · have hstep : (location_step game out a).locations_json.lookup k
          = if k = Int.repr a.id then some (locdata_json game a)
            else out.locations_json.lookup k := json_set_lookup _ _ _ _
      by_cases hka : k = Int.repr a.id
      · refine Or.inl ⟨a, List.mem_cons_self _ _, hka.symm, ?_⟩
        rw [hlook, hstep, if_pos hka]
      · refine Or.inr ⟨?_, ?_⟩
        · intro l hl
          rcases List.mem_cons.mp hl with h | h
          · rw [h]
            exact fun h' => hka h'.symm
          · exact hnone l h
        · rw [hlook, hstep, if_neg hka]

theorem owner_region_name_last (level : level_t) (s : Nat) :
    (∀ (pre : List region_t) (r : region_t) (post : List region_t),
      level.map_state.regions = pre ++ r :: post → s ∈ r.sectors →
      (∀ r' ∈ post, s ∉ r'.sectors) →
      owner_region_name level s = level.name ++ " @ " ++ r.name) ∧
    ((∀ r ∈ level.map_state.regions, s ∉ r.sectors) → owner_region_name level s = "") := by
  constructor
  · intro pre r post hsplit hs hpost
    unfold owner_region_name
    rw [hsplit, List.foldl_append, List.foldl_cons, if_pos hs]
    apply foldl_fixed
    intro r' hr' acc
    rw [if_neg (hpost r' hr')]
  · intro hall
    unfold owner_region_name
    apply foldl_fixed
    intro r hr acc
    rw [if_neg (hall r hr)]

theorem get_level_name_level (game : game_t) (level : level_t)
    (h : level ∈ make_levels game) : get_level_name game level.idx = level.name := by
  obtain ⟨ep, episode, map, m, he, hm, rfl⟩ := (mem_make_levels game level).mp h
  have h1 : ¬ ((ep : Int) < 0) := by omega
  have h2 : ¬ ((map : Int) < 0) := by omega
  unfold get_level_name
  simp [make_level, he, hm, h1, h2]

theorem append_ne_empty (a b : String) (h : b ≠ "") : a ++ b ≠ "" := by
  intro heq
  have h1 := congrArg String.length heq
  rw [String.length_append] at h1
  have h2 : b.length ≠ 0 := by
    intro h0
    apply h
    rcases b with ⟨cs⟩
    cases cs with
    | nil => rfl
    | cons c cs => simp [String.length] at h0
  have h3 : ("" : String).length = 0 := rfl
  omega

theorem exit_region_name_ne (level : level_t) : exit_region_name level ≠ "" := by
  have hfind : ∀ regions : List region_t, ∀ n, find_exit_region level.name regions = some n →
      n ≠ "" := by
    intro regions
    induction regions with
    | nil =>
      intro n hn
      cases hn
    | cons region rest ih =>
      intro n hn
      unfold find_exit_region at hn
      split at hn
      · cases hn
        rw [String.append_assoc]
        exact append_ne_empty _ _ (by
          intro h0
          have := congrArg String.length h0
          rw [String.length_append] at this
          have h1 : (" @ " : String).length = 3 := rfl
          have h2 : ("" : String).length = 0 := rfl
          omega)
      · exact ih n hn
  unfold exit_region_name
  split
  · rename_i n hf
    exact hfind _ n hf
  · intro h0
    have hl := congrArg String.length h0
    rw [String.length_append] at hl
    have h1 : ("Hub @ Entrance to " : String).length = 18 := rfl
    have h2 : ("" : String).length = 0 := rfl
    omega

/-! ## The region member of the location table -/

theorem locdata_region_field (game : game_t) (location : ap_location_t) :
    (Json.field "region" (locdata_json game location)).bind Json.str_value
      = some (locdata_region game location) := by
  unfold locdata_json Json.field
  by_cases h : (game.check_sanity && location.check_sanity) = true
  · simp [h, List.lookup, Json.str_value]
  · simp [h, List.lookup, Json.str_value]

theorem locdata_region_ne (game : game_t) (location : ap_location_t) :
    locdata_region game location ≠ "" := by
  unfold locdata_region
  split
  · intro h0
    have hl := congrArg String.length h0
    rw [String.length_append] at hl
    have h1 : ("Hub @ Entrance to " : String).length = 18 := rfl
    have h2 : ("" : String).length = 0 := rfl
    omega
  · assumption

/-- The entry of the location table under the id text of a location that no
later location of the list shares: the data of that location. -/
theorem location_fold_lookup_last (game : game_t) (pre : List ap_location_t)
    (l : ap_location_t) (post : List ap_location_t) (out : location_output)
    (hpost : ∀ l' ∈ post, Int.repr l'.id ≠ Int.repr l.id) :
    ((pre ++ l :: post).foldl (location_step game) out).locations_json.lookup (Int.repr l.id)
      = some (locdata_json game l) := by
  rw [List.foldl_append, List.foldl_cons]
  rcases location_fold_lookup game post
      (location_step game (pre.foldl (location_step game) out) l) (Int.repr l.id) with
    ⟨l', hl', hk, _⟩ | ⟨_, hlook⟩
  · exact absurd hk (hpost l' hl')
  · rw [hlook]
    show (json_set _ (Int.repr l.id) (locdata_json game l)).lookup (Int.repr l.id) = _
    rw [json_set_lookup, if_pos rfl]

theorem split_at_index {α : Type} (xs : List α) (j : Nat) (x : α) (h : xs[j]? = some x) :
    xs = xs.take j ++ x :: xs.drop (j + 1) := by
  obtain ⟨hlt, hx⟩ := List.getElem?_eq_some.mp h
  have hd : xs.drop j = x :: xs.drop (j + 1) := by
    rw [List.drop_eq_getElem_cons hlt, hx]
  rw [← hd, List.take_append_drop]

/-- The data of a location have exactly one member "region". -/
theorem locdata_json_one_region (game : game_t) (location : ap_location_t) :
    ∃ members : List (String × Json), locdata_json game location = Json.obj members ∧
      (members.filter (fun kv => kv.1 == "region")).length = 1 := by
  unfold locdata_json
  by_cases h : (game.check_sanity && location.check_sanity) = true
  · refine ⟨_, rfl, ?_⟩
    rw [if_pos h]
    rfl
  · refine ⟨_, rfl, ?_⟩
    rw [if_neg h]
    rfl

/-- C14, amended: when the sector and region indices of the rule graphs are in
range, the location table is written from a list of the locations of the final
catalog; every entry of the table is the data of a location of that list, under
the text of its id, and a location has the entry under the text of its id when
no later location of the list has the same id text.  The data of every
location of the list have exactly one "region" member, and it is not empty.
For a location made from a map object it is "<level> @ <r>" for the last
region r, in region order, whose sector set contains the sector the location
was placed in; when no region owns that sector, or the sector query has no
answer for the location, it is "Hub @ Entrance to <level>" and the location
has no region name of its own.  For a level-complete location it is the region
the location was created with.  The counter of locations without a region ends
at the number of locations with an empty region name: it grows by one for each
of them and for no other location. -/
theorem location_table_region (game : game_t)
    (h : ∀ level ∈ make_levels game, regions_in_range level) :
    ∃ r : Json × List ap_location_t,
      regions_json game (final_catalog game).1 (final_catalog game).2.ap_locations = some r ∧
      r.2.length = (final_catalog game).2.ap_locations.length ∧
      (location_table game r.2).warning_count_empty_region
        = (r.2.filter (fun l => decide (l.region_name = ""))).length ∧
      (∀ (k : String) (v : Json),
        (location_table game r.2).locations_json.lookup k = some v →
        ∃ (j : Nat) (l : ap_location_t), r.2[j]? = some l ∧ Int.repr l.id = k ∧
          v = locdata_json game l ∧
          (Json.field "region" v).bind Json.str_value = some (locdata_region game l)) ∧
      ∀ (j : Nat) (loc' : ap_location_t), r.2[j]? = some loc' →
        (∃ l ∈ r.2, Int.repr l.id = Int.repr loc'.id ∧
          (location_table game r.2).locations_json.lookup (Int.repr loc'.id)
            = some (locdata_json game l)) ∧
        ((∀ (j2 : Nat) (other : ap_location_t), j < j2 → r.2[j2]? = some other →
            Int.repr other.id ≠ Int.repr loc'.id) →
          (location_table game r.2).locations_json.lookup (Int.repr loc'.id)
            = some (locdata_json game loc')) ∧
        (∃ members : List (String × Json), locdata_json game loc' = Json.obj members ∧
          (members.filter (fun kv => kv.1 == "region")).length = 1) ∧
        (Json.field "region" (locdata_json game loc')).bind Json.str_value
          = some (locdata_region game loc') ∧
        locdata_region game loc' ≠ "" ∧
        ∃ level ∈ make_levels game, loc'.idx = level.idx ∧
          (loc'.doom_thing_index < 0 →
            loc'.region_name = exit_region_name level ∧
            locdata_region game loc' = exit_region_name level) ∧
          (0 ≤ loc'.doom_thing_index →
            (∀ s : Nat, level.map.point_in_subsector loc'.x loc'.y = some s →
              (∀ (pre : List region_t) (r0 : region_t) (post : List region_t),
                level.map_state.regions = pre ++ r0 :: post → s ∈ r0.sectors →
                (∀ r' ∈ post, s ∉ r'.sectors) →
                loc'.region_name = level.name ++ " @ " ++ r0.name ∧
                locdata_region game loc' = level.name ++ " @ " ++ r0.name) ∧
              ((∀ r0 ∈ level.map_state.regions, s ∉ r0.sectors) →
                loc'.region_name = "" ∧
                locdata_region game loc' = "Hub @ Entrance to " ++ level.name)) ∧
            (level.map.point_in_subsector loc'.x loc'.y = none →
              loc'.region_name = "" ∧
              locdata_region game loc' = "Hub @ Entrance to " ++ level.name)) := by
  obtain ⟨r, hr1, hr2, hr3⟩ := final_regions game h
  refine ⟨r, hr1, hr2, ?_, ?_, ?_⟩
  · unfold location_table
    rw [location_fold_warnings]
    simp
  · intro k v hv
    unfold location_table at hv
    rcases location_fold_lookup game r.2
        { locations_json := [], warning_count_empty_region := 0 } k with
      ⟨l, hl, hk, hlook⟩ | ⟨_, hlook⟩
    · rw [hlook] at hv
      have hvl : v = locdata_json game l := (Option.some.inj hv).symm
      obtain ⟨j, hj⟩ := List.getElem?_of_mem hl
      exact ⟨j, l, hj, hk, hvl, by rw [hvl]; exact locdata_region_field game l⟩
    · rw [hlook] at hv
      cases hv
  · intro j loc' hj'
    have hmem : loc' ∈ r.2 := List.getElem?_mem hj'
    have hentry : ∃ l ∈ r.2, Int.repr l.id = Int.repr loc'.id ∧
        (location_table game r.2).locations_json.lookup (Int.repr loc'.id)
          = some (locdata_json game l) := by
      unfold location_table
      rcases location_fold_lookup game r.2
          { locations_json := [], warning_count_empty_region := 0 } (Int.repr loc'.id) with
        hfound | ⟨hnot, _⟩
      · exact hfound
      · exact absurd rfl (hnot loc' hmem)
    have hlast : (∀ (j2 : Nat) (other : ap_location_t), j < j2 → r.2[j2]? = some other →
          Int.repr other.id ≠ Int.repr loc'.id) →
        (location_table game r.2).locations_json.lookup (Int.repr loc'.id)
          = some (locdata_json game loc') := by
      intro hlater
      have hsplit := split_at_index r.2 j loc' hj'
      unfold location_table
      rw [hsplit]
      apply location_fold_lookup_last
      intro l' hl'
      obtain ⟨n, hn⟩ := List.getElem?_of_mem hl'
      rw [List.getElem?_drop] at hn
      exact hlater (j + 1 + n) l' (by omega) hn
    refine ⟨hentry, hlast, locdata_json_one_region game loc', locdata_region_field game loc',
      locdata_region_ne game loc', ?_⟩
    have hjlt : j < (final_catalog game).2.ap_locations.length := by
      rw [← hr2]
      by_contra hge
      rw [List.getElem?_eq_none (by omega)] at hj'
      cases hj'
    obtain ⟨level, hm, hidx, hcase, hget⟩ := hr3 j _ (List.getElem?_eq_getElem hjlt)
    rw [hj'] at hget
    have hloc' := Option.some.inj hget
    have hname : get_level_name game loc'.idx = level.name := by
      rw [hloc']
      show get_level_name game ((final_catalog game).2.ap_locations[j]).idx = _
      rw [hidx]
      exact get_level_name_level game level hm
    have hhub : loc'.region_name = "" →
        locdata_region game loc' = "Hub @ Entrance to " ++ level.name := by
      intro he
      unfold locdata_region
      rw [if_pos he, hname]
    have hkeep : ∀ n : String, n ≠ "" → loc'.region_name = n → locdata_region game loc' = n := by
      intro n hn he
      have hne : loc'.region_name ≠ "" := by
        rw [he]
        exact hn
      unfold locdata_region
      rw [if_neg hne, he]
    have hreg : loc'.region_name
        = final_region_name level ((final_catalog game).2.ap_locations[j]) := by
      rw [hloc']
    have hx : loc'.x = ((final_catalog game).2.ap_locations[j]).x := by rw [hloc']
    have hy : loc'.y = ((final_catalog game).2.ap_locations[j]).y := by rw [hloc']
    have hi : loc'.doom_thing_index
        = ((final_catalog game).2.ap_locations[j]).doom_thing_index := by rw [hloc']
    refine ⟨level, hm, by rw [hloc']; exact hidx, ?_, ?_⟩
    · intro hneg
      have hex : loc'.region_name = exit_region_name level := by
        rw [hreg]
        unfold final_region_name
        rw [← hi, if_pos hneg]
        rcases hcase with ⟨h1, _⟩ | ⟨_, h2⟩
        · rw [← hi] at h1
          omega
        · exact h2
      exact ⟨hex, hkeep _ (exit_region_name_ne level) hex⟩
    · intro hpos
      have hnn : ¬ loc'.doom_thing_index < 0 := by omega
      constructor
      · intro s hs
        have hfin : loc'.region_name = owner_region_name level s := by
          rw [hreg]
          unfold final_region_name
          rw [← hi, if_neg hnn, ← hx, ← hy, hs]
        obtain ⟨o1, o2⟩ := owner_region_name_last level s
        constructor
        · intro pre r0 post hsplit hmem hpost
          have hn := hfin.trans (o1 pre r0 post hsplit hmem hpost)
          refine ⟨hn, hkeep _ ?_ hn⟩
          rw [String.append_assoc]
          exact append_ne_empty _ _ (by
            intro h0
            have := congrArg String.length h0
            rw [String.length_append] at this
            have h1 : (" @ " : String).length = 3 := rfl
            have h2 : ("" : String).length = 0 := rfl
            omega)
        · intro hall
          have hn := hfin.trans (o2 hall)
          exact ⟨hn, hhub hn⟩
      · intro hnone
        have hn : loc'.region_name = "" := by
          rw [hreg]
          unfold final_region_name
          rw [← hi, if_neg hnn, ← hx, ← hy, hnone]
        exact ⟨hn, hhub hn⟩


theorem game_regions_in_range : ∀ level ∈ make_levels game_regions, regions_in_range level := by
  intro level hl
  have hl' : level = make_level game_regions 0 0 meta_regions := List.mem_singleton.mp hl
  subst hl'
  exact ⟨by decide, by decide, by decide⟩

/-- Instance of `location_table_region`: the game `game_regions`; every entry
of its location table is the data of a location of the list. -/
theorem location_table_region_witness :
    (∀ level ∈ make_levels game_regions, regions_in_range level) ∧
    ∃ r : Json × List ap_location_t,
      regions_json game_regions (final_catalog game_regions).1
        (final_catalog game_regions).2.ap_locations = some r ∧
      r.2.length = (final_catalog game_regions).2.ap_locations.length ∧
      (location_table game_regions r.2).warning_count_empty_region
        = (r.2.filter (fun l => decide (l.region_name = ""))).length ∧
      (∀ (k : String) (v : Json),
        (location_table game_regions r.2).locations_json.lookup k = some v →
        ∃ (j : Nat) (l : ap_location_t), r.2[j]? = some l ∧ Int.repr l.id = k ∧
          v = locdata_json game_regions l ∧
          (Json.field "region" v).bind Json.str_value
            = some (locdata_region game_regions l)) := by
  obtain ⟨r, h1, h2, h3, h4, _⟩ := location_table_region game_regions game_regions_in_range
  exact ⟨game_regions_in_range, r, h1, h2, h3, h4⟩

/-- C14 fails as worded: in `game_regions` the level-complete location
"R1 - Exit" is recorded in no sector (its coordinates lie in none, the sector
lists hold the positions 1, 2 and 3 only), yet its region is "R1 @ End", the
region with the connection to the exit, and the counter of locations without
a region ends at 2, not 3. -/
theorem exit_location_region_not_by_sector :
    (regions_json game_regions (final_catalog game_regions).1
        (final_catalog game_regions).2.ap_locations).map
      (fun r => (r.2.map (fun l => (l.name, l.doom_thing_index, locdata_region game_regions l)),
        (location_table game_regions r.2).warning_count_empty_region))
      = some
          ([("R1 - Exit", -1, "R1 @ End"), ("R1 - Key", 0, "R1 @ Start"),
            ("R1 - Key 2", 1, "R1 @ End"), ("R1 - Key 3", 2, "Hub @ Entrance to R1"),
            ("R1 - Key 4", 3, "Hub @ Entrance to R1")], 2) ∧
    meta_regions.map.point_in_subsector (-1) (-1) = none ∧
    (final_catalog game_regions).1.map (fun l => l.sectors.map (fun s => s.locations))
      = [[[1], [2], [3]]] := by
  refine ⟨by decide, by decide, by decide⟩

theorem toLower_upper (c : Char) (h : is_upper c = true) :
    c.toLower.toNat = c.toNat + 32 := by
  unfold is_upper at h
  simp only [Bool.and_eq_true, decide_eq_true_eq] at h
  have h1 : 65 ≤ c.toNat := h.1
  have h2 : c.toNat ≤ 90 := h.2
  have hc : c = Char.ofNat c.toNat := (Char.ofNat_toNat c).symm
  generalize c.toNat = n at h1 h2 hc
  subst hc
  interval_cases n <;> rfl

theorem toLower_not_upper (c : Char) (h : is_upper c = false) : c.toLower = c := by
  unfold is_upper at h
  unfold Char.toLower
  have h65 : 'A'.toNat = 65 := rfl
  have h90 : 'Z'.toNat = 90 := rfl
  rw [h65, h90] at h
  by_cases h1 : 65 ≤ c.toNat
  · by_cases h2 : c.toNat ≤ 90
    · simp [h1, h2] at h
    · simp [h2]
  · simp [h1]

theorem toLower_alnum (c : Char) (h : is_alnum c = true) :
    (is_digit c.toLower || is_lower c.toLower) = true := by
  by_cases hu : is_upper c = true
  · have hn := toLower_upper c hu
    unfold is_upper at hu
    simp only [Bool.and_eq_true, decide_eq_true_eq] at hu
    have h1 : 65 ≤ c.toNat := hu.1
    have h2 : c.toNat ≤ 90 := hu.2
    have hl : is_lower c.toLower = true := by
      unfold is_lower
      simp only [Bool.and_eq_true, decide_eq_true_eq]
      exact ⟨show 97 ≤ c.toLower.toNat by omega, show c.toLower.toNat ≤ 122 by omega⟩
    rw [hl, Bool.or_true]
  · have hu' : is_upper c = false := by simpa using hu
    rw [toLower_not_upper c hu']
    unfold is_alnum at h
    rw [hu', Bool.or_false] at h
    exact h

theorem underscore_not_alnum : is_alnum '_' = false := by decide

theorem digit_or_lower_ne_underscore (c : Char) (h : (is_digit c || is_lower c) = true) :
    c ≠ '_' := by
  intro hc
  subst hc
  revert h
  decide

theorem toLower_alnum_ne_underscore (c : Char) (h : is_alnum c = true) : c.toLower ≠ '_' :=
  digit_or_lower_ne_underscore _ (toLower_alnum c h)

/-! ## Case conversion: `to_snake_case` -/

theorem snake_step_alnum (ret : List Char) (c : Char) (h : is_alnum c = true) :
    snake_step ret c = ret ++ [c.toLower] := by
  unfold snake_step
  unfold is_alnum at h
  have : (!(is_digit c) && !(is_upper c) && !(is_lower c)) = false := by
    cases hd : is_digit c <;> cases hu : is_upper c <;> cases hl : is_lower c <;>
      simp_all
  rw [this]
  rfl

theorem snake_step_other (ret : List Char) (c : Char) (h : is_alnum c = false) :
    snake_step ret c
      = if ret.isEmpty || ret.getLast? != some '_' then ret ++ ['_'] else ret := by
  unfold snake_step
  unfold is_alnum at h
  have : (!(is_digit c) && !(is_upper c) && !(is_lower c)) = true := by
    cases hd : is_digit c <;> cases hu : is_upper c <;> cases hl : is_lower c <;>
      simp_all
  rw [this]
  rfl

/-- A run of characters of [0-9A-Za-z] is appended in lower case. -/
theorem snake_fold_alnum (run ret : List Char) (h : ∀ c ∈ run, is_alnum c = true) :
    run.foldl snake_step ret = ret ++ run.map Char.toLower := by
  induction run generalizing ret with
  | nil => simp
  | cons c rest ih =>
    rw [List.foldl_cons, snake_step_alnum ret c (h c (List.mem_cons_self _ _)),
      ih _ (fun d hd => h d (List.mem_cons_of_mem _ hd))]
    simp

/-- A run of other characters leaves a text that ends in an underscore as it
is. -/
theorem snake_fold_other_after (run ret : List Char) (h : ∀ c ∈ run, is_alnum c = false) :
    run.foldl snake_step (ret ++ ['_']) = ret ++ ['_'] := by
  induction run with
  | nil => rfl
  | cons c rest ih =>
    rw [List.foldl_cons, snake_step_other _ c (h c (List.mem_cons_self _ _))]
    have : ((ret ++ ['_']).isEmpty || (ret ++ ['_']).getLast? != some '_') = false := by
      simp
    rw [this]
    exact ih (fun d hd => h d (List.mem_cons_of_mem _ hd))

/-- A run of other characters appends one underscore to a text that is empty
or does not end in an underscore. -/
theorem snake_fold_other (run ret : List Char) (hne : run ≠ [])
    (h : ∀ c ∈ run, is_alnum c = false) (hret : ret.getLast? ≠ some '_') :
    run.foldl snake_step ret = ret ++ ['_'] := by
  cases run with
  | nil => exact absurd rfl hne
  | cons c rest =>
    rw [List.foldl_cons, snake_step_other _ c (h c (List.mem_cons_self _ _))]
    have : (ret.isEmpty || ret.getLast? != some '_') = true := by
      simp [hret]
    rw [this]
    exact snake_fold_other_after rest ret (fun d hd => h d (List.mem_cons_of_mem _ hd))

/-- In a run whose neighbours are of the same kind every character is of the
kind of the first one. -/
theorem chain_same_kind (c : Char) (run : List Char)
    (h : (c :: run).Chain' (fun a b => (is_alnum a == is_alnum b) = true)) :
    ∀ d ∈ c :: run, is_alnum d = is_alnum c := by
  induction run generalizing c with
  | nil =>
    intro d hd
    simp at hd
    rw [hd]
  | cons e rest ih =>
    intro d hd
    rw [List.chain'_cons] at h
    rcases List.mem_cons.1 hd with rfl | hd'
    · rfl
    · have he : is_alnum c = is_alnum e := by simpa using h.1
      rw [he]
      exact ih e h.2 d hd'

/-- The loop of `to_snake_case` over a text that is cut into its maximal
runs. -/
theorem snake_fold_runs (gs : List (List Char)) (ret : List Char)
    (hnil : [] ∉ gs)
    (hrun : ∀ run ∈ gs, run.Chain' (fun a b => (is_alnum a == is_alnum b) = true))
    (hadj : gs.Chain' (fun a b =>
      ∃ ha hb, (is_alnum (a.getLast ha) == is_alnum (b.head hb)) = false))
    (hret : ∀ run ∈ gs.head?, run.all is_alnum = false → ret.getLast? ≠ some '_') :
    gs.flatten.foldl snake_step ret = ret ++ gs.flatMap snake_run := by
  induction gs generalizing ret with
  | nil => simp
  | cons run rest ih =>
    have hne : run ≠ [] := fun h => hnil (h ▸ List.mem_cons_self _ _)
    have hnil' : [] ∉ rest := fun h => hnil (List.mem_cons_of_mem _ h)
    have hrun' : ∀ r ∈ rest, r.Chain' (fun a b => (is_alnum a == is_alnum b) = true) :=
      fun r hr => hrun r (List.mem_cons_of_mem _ hr)
    have hadj' := (List.chain'_cons'.1 hadj).2
    have hhead := (List.chain'_cons'.1 hadj).1
    obtain ⟨c, cs, rfl⟩ := List.exists_cons_of_ne_nil hne
    have hkind := chain_same_kind c cs (hrun _ (List.mem_cons_self _ _))
    rw [List.flatten_cons, List.foldl_append, List.flatMap_cons]
    by_cases hc : is_alnum c = true
    · have hall : ∀ d ∈ c :: cs, is_alnum d = true := fun d hd => by rw [hkind d hd, hc]
      have hall' : (c :: cs).all is_alnum = true := List.all_eq_true.2 hall
      rw [snake_fold_alnum _ _ hall]
      rw [ih _ hnil' hrun' hadj']
      · unfold snake_run
        rw [if_pos hall', List.append_assoc]
      · intro r _ _
        have hl : ((c :: cs).map Char.toLower) ≠ [] := by simp
        rw [List.getLast?_append_of_ne_nil _ hl, List.getLast?_eq_getLast _ hl]
        rw [List.getLast_map]
        · intro h
          have h' := Option.some.inj h
          exact toLower_alnum_ne_underscore _
            (hall _ (List.getLast_mem (List.cons_ne_nil c cs))) h'
    · have hc' : is_alnum c = false := by simpa using hc
      have hall : ∀ d ∈ c :: cs, is_alnum d = false := fun d hd => by rw [hkind d hd, hc']
      have hall' : (c :: cs).all is_alnum = false := by
        rw [List.all_cons, hc']
        rfl
      rw [snake_fold_other _ _ (List.cons_ne_nil c cs) hall
        (hret _ (by simp) hall')]
      rw [ih _ hnil' hrun' hadj']
      · unfold snake_run
        rw [if_neg (by rw [hall']; simp), List.append_assoc]
      · intro r hr hr'
        exfalso
        obtain ⟨ha, hb, hab⟩ := hhead r hr
        have h1 : is_alnum ((c :: cs).getLast ha) = false := hall _ (List.getLast_mem ha)
        have h2 : is_alnum (r.head hb) = false := by
          have hrc := hrun' r (List.mem_of_mem_head? hr)
          obtain ⟨e, es, rfl⟩ := List.exists_cons_of_ne_nil hb
          have hk := chain_same_kind e es hrc
          rw [List.all_cons] at hr'
          simp only [List.head_cons]
          cases he : is_alnum e
          · rfl
          · rw [he, Bool.true_and] at hr'
            have : ∀ d ∈ es, is_alnum d = true := fun d hd => by
              rw [hk d (List.mem_cons_of_mem _ hd), he]
            rw [List.all_eq_true.2 this] at hr'
            exact absurd hr' (by decide)
        rw [h1, h2] at hab
        exact absurd hab (by decide)

theorem to_snake_case_eq_runs (s : String) : to_snake_case s = snake_case_by_runs s := by
  unfold to_snake_case snake_case_by_runs alnum_runs
  congr 1
  have h := snake_fold_runs (s.data.splitBy (fun a b => is_alnum a == is_alnum b)) []
    (List.nil_not_mem_splitBy _ _)
    (fun run hr => List.chain'_of_mem_splitBy hr)
    (List.chain'_getLast_head_splitBy _ _)
    (fun _ _ _ => by simp)
  rw [List.flatten_splitBy, List.nil_append] at h
  exact h

/-- What the loop of `to_snake_case` keeps true of `ret`: its characters are
of [0-9a-z_] and no two underscores are neighbours. -/
theorem snake_step_inv (ret : List Char) (c : Char)
    (h1 : ret.all (fun c => is_digit c || is_lower c || c == '_') = true)
    (h2 : ret.Chain' (fun a b => ¬ (a = '_' ∧ b = '_'))) :
    (snake_step ret c).all (fun c => is_digit c || is_lower c || c == '_') = true ∧
    (snake_step ret c).Chain' (fun a b => ¬ (a = '_' ∧ b = '_')) := by
  by_cases hc : is_alnum c = true
  · rw [snake_step_alnum ret c hc]
    constructor
    · rw [List.all_append, h1, Bool.true_and]
      simp only [List.all_cons, List.all_nil, Bool.and_true]
      rw [toLower_alnum c hc]
      rfl
    · rw [List.chain'_append]
      refine ⟨h2, List.chain'_singleton _, ?_⟩
      intro x _ y hy
      simp only [List.head?_cons, Option.mem_def, Option.some.injEq] at hy
      intro h
      exact toLower_alnum_ne_underscore c hc (hy ▸ h.2)
  · have hc' : is_alnum c = false := by simpa using hc
    rw [snake_step_other ret c hc']
    by_cases hl : (ret.isEmpty || ret.getLast? != some '_') = true
    · rw [if_pos hl]
      constructor
      · rw [List.all_append, h1]
        rfl
      · rw [List.chain'_append]
        refine ⟨h2, List.chain'_singleton _, ?_⟩
        intro x hx y _ h
        rw [Bool.or_eq_true] at hl
        rcases hl with hl | hl
        · have : ret = [] := by simpa using hl
          rw [this] at hx
          simp at hx
        · rw [Option.mem_def] at hx
          rw [hx, h.1] at hl
          simp at hl
    · rw [if_neg hl]
      exact ⟨h1, h2⟩

theorem snake_fold_inv (cs ret : List Char)
    (h1 : ret.all (fun c => is_digit c || is_lower c || c == '_') = true)
    (h2 : ret.Chain' (fun a b => ¬ (a = '_' ∧ b = '_'))) :
    (cs.foldl snake_step ret).all (fun c => is_digit c || is_lower c || c == '_') = true ∧
    (cs.foldl snake_step ret).Chain' (fun a b => ¬ (a = '_' ∧ b = '_')) := by
  induction cs generalizing ret with
  | nil => exact ⟨h1, h2⟩
  | cons c rest ih =>
    rw [List.foldl_cons]
    exact ih _ (snake_step_inv ret c h1 h2).1 (snake_step_inv ret c h1 h2).2

/-- C27: for every string s, `to_snake_case s` is s with each maximal run of
characters outside [0-9A-Za-z] replaced by a single underscore and every
letter of the other runs put in lower case; the result holds only characters
of [0-9a-z_], and no two neighbouring characters of it are both
underscores. -/
theorem to_snake_case_runs (s : String) :
    to_snake_case s = snake_case_by_runs s ∧
    (to_snake_case s).data.all (fun c => is_digit c || is_lower c || c == '_') = true ∧
    (to_snake_case s).data.Chain' (fun a b => ¬ (a = '_' ∧ b = '_')) :=
  ⟨to_snake_case_eq_runs s, snake_fold_inv s.data [] rfl List.chain'_nil⟩

/-! ## Case conversion: `to_title_case` -/

/-- The loop of `to_title_case`, started after a character `prev` with
`capitalize` holding whether `prev` is not a letter. -/
theorem title_fold (cs ret : List Char) (prev : Char) :
    (cs.foldl title_step (ret, !(is_upper prev) && !(is_lower prev))).1
      = ret ++ List.zipWith (fun prev c => if is_letter prev then c else c.toUpper)
          (prev :: cs) cs := by
  induction cs generalizing ret prev with
  | nil => simp
  | cons c rest ih =>
    rw [List.foldl_cons]
    have hs : title_step (ret, !(is_upper prev) && !(is_lower prev)) c
        = ((if is_letter prev then ret ++ [c] else ret ++ [c.toUpper]),
            !(is_upper c) && !(is_lower c)) := by
      unfold title_step is_letter
      cases hu : is_upper prev <;> cases hl : is_lower prev <;> simp
    rw [hs, ih, List.zipWith_cons_cons]
    by_cases hp : is_letter prev = true
    · rw [if_pos hp, if_pos hp, List.append_assoc]
      rfl
    · rw [if_neg hp, if_neg hp, List.append_assoc]
      rfl

theorem to_title_case_eq (s : String) : to_title_case s = title_case_by_position s := by
  unfold to_title_case title_case_by_position
  congr 1
  have h := title_fold s.data [] ' '
  rw [List.nil_append] at h
  rw [← h]
  rfl

/-- C28, amended: for every string s, `to_title_case s` has the length of s
and is s with every character that stands first or directly after a character
that is not a letter put in upper case (which changes the letters a to z
only); a character that directly follows a letter is passed through
unchanged.  A letter that directly follows a digit is put in upper case. -/
theorem to_title_case_by_position (s : String) :
    to_title_case s = title_case_by_position s ∧
    (to_title_case s).data.length = s.data.length := by
  refine ⟨to_title_case_eq s, ?_⟩
  rw [to_title_case_eq]
  unfold title_case_by_position
  simp

/-- C28 fails as worded: in "3d" the letter d directly follows the digit 3,
a character of [0-9A-Za-z], and `to_title_case` puts it in upper case. -/
theorem to_title_case_letter_after_digit :
    to_title_case "3d" = "3D" ∧ is_alnum '3' = true ∧ is_digit '3' = true := by
  decide

/-! ## Modification date and time of an archive entry -/

theorem or_assign16_nat (m v : Nat) : or_assign16 m (v : Int) = (m ||| v) % 65536 := by
  unfold or_assign16
  have h : Int.lor (m : Int) (v : Int) = ((m ||| v : Nat) : Int) := rfl
  rw [h]
  omega

theorem or_disjoint (a b i : Nat) (hb : b < 2 ^ i) : (a * 2 ^ i) ||| b = a * 2 ^ i + b := by
  rw [Nat.mul_comm a]
  exact (Nat.mul_add_lt_is_or hb a).symm

/-- The three `|=` of a packed value with fields of 5 (or 4) and 5 (or 6)
bits: the result is the sum of the shifted fields. -/
theorem pack3 (a b c : Nat) (i j : Nat) (hb : b < 2 ^ i) (hc : c < 2 ^ j)
    (hlt : a * 2 ^ (i + j) + b * 2 ^ j + c < 65536) :
    or_assign16 (or_assign16 (or_assign16 0 ((a * 2 ^ (i + j) : Nat) : Int))
        ((b * 2 ^ j : Nat) : Int)) ((c : Nat) : Int)
      = a * 2 ^ (i + j) + b * 2 ^ j + c := by
  have hbj : b * 2 ^ j < 2 ^ (i + j) := by
    rw [pow_add]
    exact Nat.mul_lt_mul_of_pos_right hb (Nat.pow_pos (by decide))
  have h1 : or_assign16 0 ((a * 2 ^ (i + j) : Nat) : Int) = a * 2 ^ (i + j) := by
    rw [or_assign16_nat, Nat.zero_or]
    exact Nat.mod_eq_of_lt (by omega)
  have h2 : or_assign16 (a * 2 ^ (i + j)) ((b * 2 ^ j : Nat) : Int)
      = a * 2 ^ (i + j) + b * 2 ^ j := by
    rw [or_assign16_nat, or_disjoint a (b * 2 ^ j) (i + j) hbj]
    exact Nat.mod_eq_of_lt (by omega)
  have h3 : or_assign16 (a * 2 ^ (i + j) + b * 2 ^ j) ((c : Nat) : Int)
      = a * 2 ^ (i + j) + b * 2 ^ j + c := by
    rw [or_assign16_nat]
    have : a * 2 ^ (i + j) + b * 2 ^ j = (a * 2 ^ i + b) * 2 ^ j := by
      rw [pow_add]
      ring
    rw [this, or_disjoint _ c j hc]
    rw [← this]
    exact Nat.mod_eq_of_lt hlt
  rw [h1, h2, h3]

/-- The packed date and time of a broken-down time inside the ranges. -/
theorem packed_in_range (datetime : tm) (h : tm_in_range datetime) :
    ((packed_date_time datetime).1 : Int)
      = (datetime.tm_year + 1900 - 1980) * 512 + (datetime.tm_mon + 1) * 32
          + datetime.tm_mday ∧
    ((packed_date_time datetime).2 : Int)
      = datetime.tm_hour * 2048 + datetime.tm_min * 32 + datetime.tm_sec / 2 := by
  obtain ⟨sec, min, hour, mday, mon, year⟩ := datetime
  unfold tm_in_range at h
  dsimp only at h
  obtain ⟨h1, h2, h3, h4, h5, h6, h7, h8, h9, h10, h11, h12⟩ := h
  obtain ⟨y, hy⟩ : ∃ y : ℕ, year - 80 = (y : Int) := ⟨(year - 80).toNat, by omega⟩
  obtain ⟨m, hm⟩ : ∃ m : ℕ, mon + 1 = (m : Int) := ⟨(mon + 1).toNat, by omega⟩
  obtain ⟨d, hd⟩ : ∃ d : ℕ, mday = (d : Int) := ⟨mday.toNat, by omega⟩
  obtain ⟨hh, hhh⟩ : ∃ hh : ℕ, hour = (hh : Int) := ⟨hour.toNat, by omega⟩
  obtain ⟨mi, hmi⟩ : ∃ mi : ℕ, min = (mi : Int) := ⟨min.toNat, by omega⟩
  obtain ⟨s, hs⟩ : ∃ s : ℕ, sec / 2 ^ 1 = (s : Int) := ⟨(sec / 2 ^ 1).toNat, by omega⟩
  unfold packed_date_time ZipEntry.SetDateTime
  dsimp only
  rw [hy, hm, hd, hhh, hmi, hs]
  have e1 : ((y : Int) * 2 ^ 9) = ((y * 2 ^ (4 + 5) : Nat) : Int) := by push_cast; rfl
  have e2 : ((m : Int) * 2 ^ 5) = ((m * 2 ^ 5 : Nat) : Int) := by push_cast; rfl
  have e3 : ((hh : Int) * 2 ^ 11) = ((hh * 2 ^ (6 + 5) : Nat) : Int) := by push_cast; rfl
  have e4 : ((mi : Int) * 2 ^ 5) = ((mi * 2 ^ 5 : Nat) : Int) := by push_cast; rfl
  rw [e1, e2, e3, e4]
  rw [pack3 y m d 4 5 (by norm_num; omega) (by norm_num; omega) (by norm_num; omega)]
  rw [pack3 hh mi s 6 5 (by norm_num; omega) (by norm_num; omega) (by norm_num; omega)]
  constructor
  · push_cast
    omega
  · push_cast
    omega

theorem or_assign16_lt (m : Nat) (v : Int) : or_assign16 m v < 65536 := by
  unfold or_assign16
  have h1 := Int.emod_nonneg (Int.lor (m : Int) v) (show (65536 : Int) ≠ 0 by decide)
  have h2 := Int.emod_lt_of_pos (Int.lor (m : Int) v) (show (0 : Int) < 65536 by decide)
  omega

/-- The constructor with the clock of the run gives the entry that
`ZipEntry.make` gives for the packed date and time of generation. -/
theorem create_eq_make (zlib : zlib_t) (clock : clock_t) (relative_path buf : List Nat) :
    ZipEntry.create zlib clock relative_path buf
      = ZipEntry.make zlib relative_path buf
          (packed_date_time (clock.localtime clock.now)).1
          (packed_date_time (clock.localtime clock.now)).2 := by
  unfold ZipEntry.create ZipEntry.make packed_date_time ZipEntry.SetDateTime
  dsimp only
  rw [Nat.mod_eq_of_lt (or_assign16_lt _ _), Nat.mod_eq_of_lt (or_assign16_lt _ _)]

theorem SetDateTime_packed (entry : ZipEntry) (datetime : tm) :
    ((ZipEntry.SetDateTime entry datetime).moddate, (ZipEntry.SetDateTime entry datetime).modtime)
      = packed_date_time datetime := rfl

/-- C21, amended: for every broken-down local time with year 1980..2107 (and
the other members inside their ranges), `SetDateTime` yields date =
(year-1980)*512 + month*32 + day and time = hour*2048 + minute*32 +
floor(second/2), both below 2^16, so that the standard MS-DOS decoding
recovers year, month, day, hour and minute exactly and the second rounded
down to an even value.  For a copied file whose `stat` answers, the packed
value comes from the source file's modification time; for a copied file whose
`stat` fails and for an entry made from a stream it comes from generation
time. -/
theorem set_date_time_packing (zlib : zlib_t) (clock : clock_t) (entries : List ZipEntry)
    (entry : ZipEntry) (group_path stream : List Nat) (f : source_file_t) (datetime : tm)
    (h : tm_in_range datetime) (hread : f.readable = true) :
    (((ZipEntry.SetDateTime entry datetime).moddate : Int)
        = (datetime.tm_year + 1900 - 1980) * 512 + (datetime.tm_mon + 1) * 32
            + datetime.tm_mday ∧
      ((ZipEntry.SetDateTime entry datetime).modtime : Int)
        = datetime.tm_hour * 2048 + datetime.tm_min * 32 + datetime.tm_sec / 2 ∧
      (ZipEntry.SetDateTime entry datetime).moddate < 65536 ∧
      (ZipEntry.SetDateTime entry datetime).modtime < 65536) ∧
    ((dos_year (ZipEntry.SetDateTime entry datetime).moddate : Int) = datetime.tm_year + 1900 ∧
      (dos_month (ZipEntry.SetDateTime entry datetime).moddate : Int) = datetime.tm_mon + 1 ∧
      (dos_day (ZipEntry.SetDateTime entry datetime).moddate : Int) = datetime.tm_mday ∧
      (dos_hour (ZipEntry.SetDateTime entry datetime).modtime : Int) = datetime.tm_hour ∧
      (dos_minute (ZipEntry.SetDateTime entry datetime).modtime : Int) = datetime.tm_min ∧
      (dos_second (ZipEntry.SetDateTime entry datetime).modtime : Int)
        = 2 * (datetime.tm_sec / 2)) ∧
    (∃ e : ZipEntry,
      (ZipFile.AddSStream_at zlib clock entries group_path stream).2 = entries ++ [e] ∧
      (e.moddate, e.modtime) = packed_date_time (clock.localtime clock.now)) ∧
    (∃ e : ZipEntry,
      (ZipFile.AddFile_from zlib clock entries group_path f).2 = entries ++ [e] ∧
      (e.moddate, e.modtime)
        = packed_date_time (clock.localtime (if f.stat_ok then f.st_mtime else clock.now))) := by
  have hp := packed_in_range datetime h
  have hd : (ZipEntry.SetDateTime entry datetime).moddate = (packed_date_time datetime).1 := rfl
  have ht : (ZipEntry.SetDateTime entry datetime).modtime = (packed_date_time datetime).2 := rfl
  rw [hd, ht]
  generalize (packed_date_time datetime).1 = date at hp
  generalize (packed_date_time datetime).2 = time at hp
  obtain ⟨hp1, hp2⟩ := hp
  unfold tm_in_range at h
  obtain ⟨h1, h2, h3, h4, h5, h6, h7, h8, h9, h10, h11, h12⟩ := h
  refine ⟨⟨hp1, hp2, by omega, by omega⟩, ?_, ⟨_, rfl, rfl⟩, ?_⟩
  · unfold dos_year dos_month dos_day dos_hour dos_minute dos_second
    refine ⟨?_, ?_, ?_, ?_, ?_, ?_⟩ <;> push_cast <;> omega
  · unfold ZipFile.AddFile_from
    rw [hread]
    by_cases hs : f.stat_ok = true
    · simp only [hs, if_true]
      exact ⟨_, rfl, rfl⟩
    · have hs' : f.stat_ok = false := by simpa using hs
      simp only [hs']
      exact ⟨_, rfl, rfl⟩

/-- Instance of `set_date_time_packing`: 2001-02-03 04:05:06, the
modification time of a file whose `stat` answers, is packed as date 10819 and
time 8355. -/
theorem set_date_time_packing_witness :
    tm_in_range (clock_2024.localtime 1000) ∧ file_with_stat.readable = true ∧
    (ZipEntry.SetDateTime (ZipEntry.create zlib_stored clock_2024 [97] [1, 2, 3])
        (clock_2024.localtime 1000)).moddate = 21 * 512 + 2 * 32 + 3 ∧
    (∃ e : ZipEntry,
      (ZipFile.AddFile_from zlib_stored clock_2024 [] [97] file_with_stat).2 = [] ++ [e] ∧
      (e.moddate, e.modtime) = (10819, 8355)) := by
  have hr : tm_in_range (clock_2024.localtime 1000) := by
    unfold tm_in_range
    decide
  obtain ⟨⟨a1, _, _, _⟩, _, _, a4⟩ :=
    set_date_time_packing zlib_stored clock_2024 []
      (ZipEntry.create zlib_stored clock_2024 [97] [1, 2, 3]) [97] [] file_with_stat
      (clock_2024.localtime 1000) hr rfl
  refine ⟨hr, rfl, ?_, a4⟩
  have : ((ZipEntry.SetDateTime (ZipEntry.create zlib_stored clock_2024 [97] [1, 2, 3])
        (clock_2024.localtime 1000)).moddate : Int)
      = ((21 * 512 + 2 * 32 + 3 : Nat) : Int) := by
    rw [a1]
    decide
  exact Int.ofNat.inj this

/-- C21 fails as worded: a file that can be read and was last modified at
2001-02-03 04:05:06, but whose `stat` fails, is copied with the date and time
of generation, 2024-05-06 07:08:09 (22694, 14596), not with those of its
modification time (10819, 8355). -/
theorem copied_file_without_stat_generation_time :
    file_without_stat.readable = true ∧
    (ZipFile.AddFile_from zlib_stored clock_2024 [] [97] file_without_stat).1 = true ∧
    (ZipFile.AddFile_from zlib_stored clock_2024 [] [97] file_without_stat).2.map
        (fun e => (e.moddate, e.modtime)) = [(22694, 14596)] ∧
    packed_date_time (clock_2024.localtime clock_2024.now) = (22694, 14596) ∧
    packed_date_time (clock_2024.localtime file_without_stat.st_mtime) = (10819, 8355) := by
  decide

/-! ## Requirement names (`get_requirement_name`) -/

theorem find_eq_some_first {α : Type} (p : α → Bool) (l : List α) (x : α) :
    l.find? p = some x ↔ first_with p l x := by
  unfold first_with
  rw [List.find?_eq_some]
  constructor
  · rintro ⟨hp, pre, post, hl, hpre⟩
    exact ⟨pre, post, hl, hp, fun y hy => by simpa using hpre y hy⟩
  · rintro ⟨pre, post, hl, hp, hpre⟩
    exact ⟨hp, pre, post, hl, fun y hy => by simp [hpre y hy]⟩

theorem find_eq_none_code {α : Type} (code : α → Int) (doom_type : Int) (l : List α) :
    l.find? (fun x => code x == doom_type) = none ↔ ∀ x ∈ l, code x ≠ doom_type := by
  rw [List.find?_eq_none]
  simp

/-- A name composed with " - " is not the text "ERROR". -/
theorem composed_ne_error (a b : String) : a ++ " - " ++ b ≠ "ERROR" := by
  intro h
  have hmem : ' ' ∈ (a ++ " - " ++ b).data := by
    simp [String.data_append]
  rw [h] at hmem
  revert hmem
  decide

/-- C29, amended: `get_requirement_name game level code` returns
"<level> - <name>" of the first unique-progression item with that type code;
if there is none, "<level> - <name>" of the first key definition with that
code; if there is none, the bare name of the first entry of the general
item-requirement catalog with that code; and "ERROR" when none of the three
lists has the code.  When the result is "ERROR", no unique-progression item
and no key definition has the code, and either the general catalog has no
entry with it or its first entry with the code is itself named "ERROR". -/
theorem get_requirement_name_cases (game : game_t) (level_name : String) (doom_type : Int) :
    (∀ item : ap_item_def_t,
      first_with (fun i => i.doom_type == doom_type) game.unique_progression item →
      get_requirement_name game level_name doom_type = level_name ++ " - " ++ item.name) ∧
    ((∀ i ∈ game.unique_progression, i.doom_type ≠ doom_type) →
      ∀ key : ap_key_def_t,
        first_with (fun k => k.item.doom_type == doom_type) game.keys key →
        get_requirement_name game level_name doom_type
          = level_name ++ " - " ++ key.item.name) ∧
    ((∀ i ∈ game.unique_progression, i.doom_type ≠ doom_type) →
      (∀ k ∈ game.keys, k.item.doom_type ≠ doom_type) →
      ∀ requirement : ap_item_def_t,
        first_with (fun r => r.doom_type == doom_type) game.item_requirements requirement →
        get_requirement_name game level_name doom_type = requirement.name) ∧
    ((∀ i ∈ game.unique_progression, i.doom_type ≠ doom_type) →
      (∀ k ∈ game.keys, k.item.doom_type ≠ doom_type) →
      (∀ r ∈ game.item_requirements, r.doom_type ≠ doom_type) →
      get_requirement_name game level_name doom_type = "ERROR") ∧
    (get_requirement_name game level_name doom_type = "ERROR" →
      (∀ i ∈ game.unique_progression, i.doom_type ≠ doom_type) ∧
      (∀ k ∈ game.keys, k.item.doom_type ≠ doom_type) ∧
      ((∀ r ∈ game.item_requirements, r.doom_type ≠ doom_type) ∨
        ∃ requirement : ap_item_def_t,
          first_with (fun r => r.doom_type == doom_type) game.item_requirements requirement ∧
          requirement.name = "ERROR")) := by
  refine ⟨?_, ?_, ?_, ?_, ?_⟩
  · intro item hi
    unfold get_requirement_name
    rw [(find_eq_some_first _ _ _).2 hi]
  · intro hu key hk
    unfold get_requirement_name
    rw [(find_eq_none_code (fun i : ap_item_def_t => i.doom_type) doom_type _).2 hu]
    dsimp only
    rw [(find_eq_some_first _ _ _).2 hk]
  · intro hu hk requirement hr
    unfold get_requirement_name
    rw [(find_eq_none_code (fun i : ap_item_def_t => i.doom_type) doom_type _).2 hu]
    dsimp only
    rw [(find_eq_none_code (fun k : ap_key_def_t => k.item.doom_type) doom_type _).2 hk]
    dsimp only
    rw [(find_eq_some_first _ _ _).2 hr]
  · intro hu hk hr
    unfold get_requirement_name
    rw [(find_eq_none_code (fun i : ap_item_def_t => i.doom_type) doom_type _).2 hu]
    dsimp only
    rw [(find_eq_none_code (fun k : ap_key_def_t => k.item.doom_type) doom_type _).2 hk]
    dsimp only
    rw [(find_eq_none_code (fun i : ap_item_def_t => i.doom_type) doom_type _).2 hr]
  · intro h
    unfold get_requirement_name at h
    cases hu : game.unique_progression.find? (fun item => item.doom_type == doom_type) with
    | some item =>
      rw [hu] at h
      exact absurd h (composed_ne_error _ _)
    | none =>
      rw [hu] at h
      dsimp only at h
      cases hk : game.keys.find? (fun item => item.item.doom_type == doom_type) with
      | some key =>
        rw [hk] at h
        exact absurd h (composed_ne_error _ _)
      | none =>
        rw [hk] at h
        dsimp only at h
        refine ⟨(find_eq_none_code (fun i : ap_item_def_t => i.doom_type) doom_type _).1 hu,
          (find_eq_none_code (fun k : ap_key_def_t => k.item.doom_type) doom_type _).1 hk, ?_⟩
        cases hr : game.item_requirements.find?
            (fun requirement => requirement.doom_type == doom_type) with
        | some requirement =>
          rw [hr] at h
          exact Or.inr ⟨requirement, (find_eq_some_first _ _ _).1 hr, h⟩
        | none =>
          exact Or.inl
            ((find_eq_none_code (fun i : ap_item_def_t => i.doom_type) doom_type _).1 hr)

/-- Instance of `get_requirement_name_cases`: in a game with the unique
item "Map" of code 2005 and the key "Blue key" of code 5, the code 2005 is
named "L1 - Map", the code 5 "L1 - Blue key", and the code 9 "ERROR". -/
theorem get_requirement_name_cases_witness :
    first_with (fun i : ap_item_def_t => i.doom_type == 2005) game_with_items.unique_progression
      { doom_type := 2005, name := "Map", sprite := "", groups := [], count := 1 } ∧
    get_requirement_name game_with_items "L1" 2005 = "L1 - Map" ∧
    get_requirement_name game_with_items "L1" 5 = "L1 - Blue key" ∧
    get_requirement_name game_with_items "L1" 9 = "ERROR" := by
  have hf : first_with (fun i : ap_item_def_t => i.doom_type == 2005)
      game_with_items.unique_progression
      { doom_type := 2005, name := "Map", sprite := "", groups := [], count := 1 } :=
    ⟨[], [], rfl, rfl, fun _ h => absurd h (List.not_mem_nil _)⟩
  have hk : first_with (fun k : ap_key_def_t => k.item.doom_type == 5) game_with_items.keys
      { item := { doom_type := 5, name := "Blue key", sprite := "", groups := [], count := 1 }
        key := 0, use_skull := false, region_name := "" } :=
    ⟨[], [], rfl, rfl, fun _ h => absurd h (List.not_mem_nil _)⟩
  refine ⟨hf, (get_requirement_name_cases game_with_items "L1" 2005).1 _ hf,
    (get_requirement_name_cases game_with_items "L1" 5).2.1 (by decide) _ hk,
    (get_requirement_name_cases game_with_items "L1" 9).2.2.2.1
      (by decide) (by decide) (by decide)⟩

/-- C29 fails as worded: the general item-requirement catalog of
`game_error_name` has an entry with the code 7, and `get_requirement_name`
returns "ERROR" for that code, the name of the entry. -/
theorem requirement_named_error :
    get_requirement_name game_error_name "L1" 7 = "ERROR" ∧
    (game_error_name.item_requirements.map (fun r => r.doom_type)).contains 7 = true := by
  decide
/-! ## Key items are registered once (`add_unique`) -/

/-- After `add_unique` the first item with the composed name is in the list
and its id is the value returned. -/
theorem add_unique_find (key_def : ap_key_def_t) (classification : Nat) (thing : map_thing_t)
    (level : level_t) (index : Nat) (st : gen_state) :
    ((add_unique key_def classification thing level index st).2.ap_items.find?
        (fun other_item => other_item.name == level.name ++ " - " ++ key_def.item.name)).map
        (fun it => it.id)
      = some (add_unique key_def classification thing level index st).1 := by
  unfold add_unique
  dsimp only
  cases hn : st.ap_items.find?
      (fun other_item => other_item.name == level.name ++ " - " ++ key_def.item.name) with
  | some other =>
    dsimp only
    rw [hn]
    rfl
  | none =>
    dsimp only
    rw [List.find?_append, hn]
    simp

/-- A call of `add_unique` on a list that already holds the composed name
changes nothing and returns the id of the first item with that name. -/
theorem add_unique_present (key_def : ap_key_def_t) (classification : Nat) (thing : map_thing_t)
    (level : level_t) (index : Nat) (st : gen_state) (other : ap_item_t)
    (h : st.ap_items.find?
      (fun other_item => other_item.name == level.name ++ " - " ++ key_def.item.name)
        = some other) :
    add_unique key_def classification thing level index st = (other.id, st) := by
  unfold add_unique
  dsimp only
  rw [h]

/-- What `add_unique` appends: nothing, or one item with the composed name
when no item of the list has that name. -/
theorem add_unique_appends (key_def : ap_key_def_t) (classification : Nat) (thing : map_thing_t)
    (level : level_t) (index : Nat) (st : gen_state) :
    (add_unique key_def classification thing level index st).2.ap_items = st.ap_items ∨
    ∃ item : ap_item_t,
      (add_unique key_def classification thing level index st).2.ap_items
        = st.ap_items ++ [item] ∧
      item.name = level.name ++ " - " ++ key_def.item.name ∧
      ∀ other ∈ st.ap_items, other.name ≠ item.name := by
  unfold add_unique
  dsimp only
  cases hn : st.ap_items.find?
      (fun other_item => other_item.name == level.name ++ " - " ++ key_def.item.name) with
  | some other => exact Or.inl rfl
  | none =>
    refine Or.inr ⟨_, rfl, rfl, ?_⟩
    intro other ho
    have := List.find?_eq_none.mp hn other ho
    simpa using this

/-- The items a level scan appends have pairwise different names, none of
which is the name of an item that was in the list before. -/
theorem scan_things_fresh (game : game_t) (pfx : String) (things : List map_thing_t) (i : Nat)
    (next_loc : Int) (level : level_t) (st : gen_state) :
    ∃ ks : List ap_item_t,
      (scan_things game pfx things i next_loc level st).2.ap_items = st.ap_items ++ ks ∧
      ks.Pairwise (fun a b => a.name ≠ b.name) ∧
      ∀ a ∈ st.ap_items, ∀ b ∈ ks, a.name ≠ b.name := by
  induction things generalizing i next_loc level st with
  | nil => exact ⟨[], by simp [scan_things], List.Pairwise.nil, fun _ _ _ h => absurd h (List.not_mem_nil _)⟩
  | cons thing rest ih =>
    unfold scan_things
    cases hlab : thing_label game thing with
    | none => exact ih (i + 1) next_loc level st
    | some label =>
      dsimp only
      have hloc := (add_loc_items (pfx ++ label) thing
        (register_key game thing level i st).1 i next_loc (register_key game thing level i st).2).1
      obtain ⟨ks, h1, h2, h3⟩ := ih (i + 1) (next_loc + 1)
        (add_loc (pfx ++ label) thing (register_key game thing level i st).1 i next_loc
          (register_key game thing level i st).2).1
        (add_loc (pfx ++ label) thing (register_key game thing level i st).1 i next_loc
          (register_key game thing level i st).2).2
      rw [hloc] at h1 h3
      have hreg : (register_key game thing level i st).2.ap_items = st.ap_items ∨
          ∃ item : ap_item_t,
            (register_key game thing level i st).2.ap_items = st.ap_items ++ [item] ∧
            ∀ other ∈ st.ap_items, other.name ≠ item.name := by
        unfold register_key
        cases hf : game.keys.find? (fun key_def => key_def.item.doom_type == thing.type) with
        | none => exact Or.inl rfl
        | some key_def =>
          dsimp only
          rcases add_unique_appends key_def PROGRESSION thing level i st with h | ⟨item, ha, _, hb⟩
          · exact Or.inl h
          · exact Or.inr ⟨item, ha, hb⟩
      rcases hreg with hreg | ⟨item, hreg, hnew⟩
      · rw [hreg] at h1 h3
        exact ⟨ks, h1, h2, h3⟩
      · rw [hreg] at h1 h3
        refine ⟨item :: ks, by rw [h1]; simp, ?_, ?_⟩
        · rw [List.pairwise_cons]
          exact ⟨fun b hb => h3 item (List.mem_append_right _ (List.mem_singleton_self _)) b hb,
            h2⟩
        · intro a ha b hb
          rcases List.mem_cons.1 hb with rfl | hb
          · exact hnew a ha
          · exact h3 a (List.mem_append_left _ ha) b hb

/-- C30: `add_unique` never appends an item whose composed name
"<level> - <key name>" is already in the item list; what it appends is at
most one item, which has that name.  The value returned is the id of the
first item of the list with that name.  A second call for the same key
definition and level leaves the item list unchanged and returns the id the
first call returned, whatever was appended in between; so the items a level
scan appends, for any number of pickups, have pairwise different names, none
of them the name of an item that was there before. -/
theorem add_unique_once (game : game_t) (key_def : ap_key_def_t) (classification : Nat)
    (thing thing2 : map_thing_t) (level : level_t) (index index2 : Nat) (st : gen_state)
    (pfx : String) (things : List map_thing_t) (i : Nat) (next_loc : Int) :
    ((∃ it ∈ st.ap_items, it.name = level.name ++ " - " ++ key_def.item.name) →
      (add_unique key_def classification thing level index st).2 = st) ∧
    ((add_unique key_def classification thing level index st).2.ap_items = st.ap_items ∨
      ∃ item : ap_item_t,
        (add_unique key_def classification thing level index st).2.ap_items
          = st.ap_items ++ [item] ∧
        item.name = level.name ++ " - " ++ key_def.item.name ∧
        ∀ other ∈ st.ap_items, other.name ≠ item.name) ∧
    ((add_unique key_def classification thing level index st).2.ap_items.find?
        (fun other_item => other_item.name == level.name ++ " - " ++ key_def.item.name)).map
        (fun it => it.id)
      = some (add_unique key_def classification thing level index st).1 ∧
    (∀ st2 : gen_state,
      (∃ more : List ap_item_t,
        st2.ap_items
          = (add_unique key_def classification thing level index st).2.ap_items ++ more) →
      add_unique key_def classification thing2 level index2 st2
        = ((add_unique key_def classification thing level index st).1, st2)) ∧
    (∃ ks : List ap_item_t,
      (scan_things game pfx things i next_loc level st).2.ap_items = st.ap_items ++ ks ∧
      ks.Pairwise (fun a b => a.name ≠ b.name) ∧
      ∀ a ∈ st.ap_items, ∀ b ∈ ks, a.name ≠ b.name) := by
  refine ⟨?_, add_unique_appends key_def classification thing level index st,
    add_unique_find key_def classification thing level index st, ?_,
    scan_things_fresh game pfx things i next_loc level st⟩
  · rintro ⟨it, hit, hname⟩
    cases hn : st.ap_items.find?
        (fun other_item => other_item.name == level.name ++ " - " ++ key_def.item.name) with
    | some other => rw [add_unique_present key_def classification thing level index st other hn]
    | none =>
      have := List.find?_eq_none.mp hn it hit
      simp [hname] at this
  · rintro st2 ⟨more, hmore⟩
    have hf := add_unique_find key_def classification thing level index st
    cases hn : (add_unique key_def classification thing level index st).2.ap_items.find?
        (fun other_item => other_item.name == level.name ++ " - " ++ key_def.item.name) with
    | none =>
      rw [hn] at hf
      exact absurd hf (by simp)
    | some other =>
      rw [hn] at hf
      have hid : other.id = (add_unique key_def classification thing level index st).1 := by
        simpa using hf
      have h2 : st2.ap_items.find?
          (fun other_item => other_item.name == level.name ++ " - " ++ key_def.item.name)
            = some other := by
        rw [hmore, List.find?_append, hn]
        rfl
      rw [add_unique_present key_def classification thing2 level index2 st2 other h2, hid]

/-- Instance of `add_unique_once`: with the key item "L1 - Blue" already in
the list, a call for the key "Blue" of level "L1" changes nothing, and a call
after the first one returns the same id. -/
theorem add_unique_once_witness :
    (∃ it ∈ state_blue_key.ap_items, it.name = level00.name ++ " - " ++ key_def_blue.item.name) ∧
    (add_unique key_def_blue PROGRESSION thing_5 level00 0 state_blue_key).2 = state_blue_key ∧
    add_unique key_def_blue PROGRESSION thing_5 level00 7
        (add_unique key_def_blue PROGRESSION thing_5 level00 0 empty_state).2
      = ((add_unique key_def_blue PROGRESSION thing_5 level00 0 empty_state).1,
         (add_unique key_def_blue PROGRESSION thing_5 level00 0 empty_state).2) := by
  have h : ∃ it ∈ state_blue_key.ap_items,
      it.name = level00.name ++ " - " ++ key_def_blue.item.name :=
    ⟨_, List.mem_singleton_self _, by decide⟩
  exact ⟨h,
    (add_unique_once game_empty key_def_blue PROGRESSION thing_5 thing_5 level00 0 0
      state_blue_key "" [] 0 1).1 h,
    (add_unique_once game_empty key_def_blue PROGRESSION thing_5 thing_5 level00 0 7
      empty_state "" [] 0 1).2.2.2.1 _ ⟨[], by simp⟩⟩

/-! ## World options: the handler table -/

/-- The handler found under a name is one of the five of the table. -/
theorem handlers_lookup_some (L : library_t) (name : String) (handler : WorldOptHandlers)
    (h : (handlers L).lookup name = some handler) :
    (name = "Capacity Upgrades" ∧ handler.init = CapacityUpgrades_Init L ∧
      handler.mix_worldhooks = CapacityUpgrades_InsertWorldHook ∧
      handler.mix_pyoptions = CapacityUpgrades_InsertPyOptions L) ∨
    (name = "Custom Ammo Capacity" ∧ handler.init = CustomAmmoCapacity_Init L ∧
      handler.mix_worldhooks = CustomAmmoCapacity_InsertWorldHook ∧
      handler.mix_pyoptions = CustomAmmoCapacity_InsertPyOptions L) ∨
    (name = "Difficulty" ∧ handler.init = Difficulty_Init L ∧
      handler.mix_worldhooks = Null_InsertWorldHook ∧
      handler.mix_pyoptions = Difficulty_InsertPyOptions L) ∨
    (name = "Invis as Trap" ∧ handler.init = InvisAsTrap_Init L ∧
      handler.mix_worldhooks = InvisAsTrap_InsertWorldHook ∧
      handler.mix_pyoptions = InvisAsTrap_InsertPyOptions L) ∨
    (name = "Start with Maps" ∧ handler.init = StartWithMaps_Init L ∧
      handler.mix_worldhooks = StartWithMaps_InsertWorldHook ∧
      handler.mix_pyoptions = StartWithMaps_InsertPyOptions L) := by
  unfold handlers at h
  by_cases h1 : name = "Capacity Upgrades"
  · subst h1
    have : handler = _ := (Option.some.inj h).symm
    subst this
    exact Or.inl ⟨rfl, rfl, rfl, rfl⟩
  by_cases h2 : name = "Custom Ammo Capacity"
  · subst h2
    have : handler = _ := (Option.some.inj h).symm
    subst this
    exact Or.inr (Or.inl ⟨rfl, rfl, rfl, rfl⟩)
  by_cases h3 : name = "Difficulty"
  · subst h3
    have : handler = _ := (Option.some.inj h).symm
    subst this
    exact Or.inr (Or.inr (Or.inl ⟨rfl, rfl, rfl, rfl⟩))
  by_cases h4 : name = "Invis as Trap"
  · subst h4
    have : handler = _ := (Option.some.inj h).symm
    subst this
    exact Or.inr (Or.inr (Or.inr (Or.inl ⟨rfl, rfl, rfl, rfl⟩)))
  by_cases h5 : name = "Start with Maps"
  · subst h5
    have : handler = _ := (Option.some.inj h).symm
    subst this
    exact Or.inr (Or.inr (Or.inr (Or.inr ⟨rfl, rfl, rfl, rfl⟩)))
  have e1 : (name == "Capacity Upgrades") = false := beq_eq_false_iff_ne.2 h1
  have e2 : (name == "Custom Ammo Capacity") = false := beq_eq_false_iff_ne.2 h2
  have e3 : (name == "Difficulty") = false := beq_eq_false_iff_ne.2 h3
  have e4 : (name == "Invis as Trap") = false := beq_eq_false_iff_ne.2 h4
  have e5 : (name == "Start with Maps") = false := beq_eq_false_iff_ne.2 h5
  simp [List.lookup, e1, e2, e3, e4, e5] at h

/-- No `Init` of the table touches the list of initialized options. -/
theorem init_keeps_initialized (L : library_t) (name : String) (handler : WorldOptHandlers)
    (h : (handlers L).lookup name = some handler) (game : game_t) (option : Json)
    (w : world_opt_state) :
    (handler.init game option w).initialized_world_options = w.initialized_world_options := by
  rcases handlers_lookup_some L name handler h with
    ⟨_, hi, _, _⟩ | ⟨_, hi, _, _⟩ | ⟨_, hi, _, _⟩ | ⟨_, hi, _, _⟩ | ⟨_, hi, _, _⟩
  · rw [hi]; rfl
  · rw [hi]; rfl
  · rw [hi]
    unfold Difficulty_Init
    dsimp only
    split
    · rfl
    · split <;> rfl
  · rw [hi]; rfl
  · rw [hi]; rfl

/-! ## World options: the walk of `WorldOptions_Init` -/

theorem Init_step_unknown (L : library_t) (game : game_t) (r : Int × world_opt_state)
    (option : Json) (h : known_option L (option_name L option) = false) :
    WorldOptions_Init_step L game r option = (r.1 + 1, r.2) := by
  unfold WorldOptions_Init_step
  unfold known_option at h
  cases hl : (handlers L).lookup (option_name L option) with
  | none => rfl
  | some handler => rw [hl] at h; exact absurd h (by simp)

theorem Init_step_known (L : library_t) (game : game_t) (r : Int × world_opt_state)
    (option : Json) (h : known_option L (option_name L option) = true) :
    WorldOptions_Init_step L game r option = (r.1, init_entry L game r.2 option) ∧
    (init_entry L game r.2 option).initialized_world_options
      = r.2.initialized_world_options ++ [option_name L option] := by
  unfold init_entry WorldOptions_Init_step
  unfold known_option at h
  cases hl : (handlers L).lookup (option_name L option) with
  | none => rw [hl] at h; exact absurd h (by simp)
  | some handler =>
    dsimp only
    rw [init_keeps_initialized L _ handler hl]
    exact ⟨rfl, rfl⟩

/-- The loop of `WorldOptions_Init` from any values of `unknown` and of the
file-level variables. -/
theorem Init_fold (L : library_t) (game : game_t) (options : List Json)
    (r : Int × world_opt_state) :
    (options.foldl (WorldOptions_Init_step L game) r).1
      = r.1 + (((options.map (option_name L)).filter
          (fun n => !(known_option L n))).length : Int) ∧
    (options.foldl (WorldOptions_Init_step L game) r).2
      = (options.filter (fun o => known_option L (option_name L o))).foldl
          (init_entry L game) r.2 ∧
    (options.foldl (WorldOptions_Init_step L game) r).2.initialized_world_options
      = r.2.initialized_world_options
          ++ (options.map (option_name L)).filter (known_option L) := by
  induction options generalizing r with
  | nil => simp
  | cons option rest ih =>
    rw [List.foldl_cons]
    obtain ⟨i1, i2, i3⟩ := ih (WorldOptions_Init_step L game r option)
    rw [i3, i1, i2]
    cases hk : known_option L (option_name L option) with
    | false =>
      rw [Init_step_unknown L game r option hk]
      simp only [List.map_cons, List.filter_cons, hk, Bool.not_false, if_true, List.length_cons]
      refine ⟨?_, ?_, ?_⟩
      · push_cast
        omega
      · simp
      · simp
    | true =>
      obtain ⟨s1, s2⟩ := Init_step_known L game r option hk
      rw [s1]
      simp only [List.map_cons, List.filter_cons, hk, Bool.not_true, if_true, List.foldl_cons]
      refine ⟨by simp, trivial, ?_⟩
      rw [s2]
      simp

/-- Every `mix_pyoptions` of the table appends to the list it is given. -/
theorem mix_pyoptions_appends (L : library_t) (name : String) (handler : WorldOptHandlers)
    (h : (handlers L).lookup name = some handler) (game : game_t) (w : world_opt_state)
    (options : List PyOption) :
    handler.mix_pyoptions game w options = options ++ handler.mix_pyoptions game w [] := by
  rcases handlers_lookup_some L name handler h with
    ⟨_, _, _, hm⟩ | ⟨_, _, _, hm⟩ | ⟨_, _, _, hm⟩ | ⟨_, _, _, hm⟩ | ⟨_, _, _, hm⟩
  · rw [hm]
    unfold CapacityUpgrades_InsertPyOptions
    dsimp only
    split
    · simp
    · split <;> simp
  · rw [hm]
    unfold CustomAmmoCapacity_InsertPyOptions
    simp
  · rw [hm]
    unfold Difficulty_InsertPyOptions
    dsimp only
    split
    · simp
    · split <;> simp
  · rw [hm]
    unfold InvisAsTrap_InsertPyOptions
    dsimp only
    split <;> simp
  · rw [hm]
    unfold StartWithMaps_InsertPyOptions
    split
    · simp
    · split <;> simp

theorem MixinPyOptions_fold (L : library_t) (game : game_t) (w : world_opt_state)
    (names : List String) (pyopts : List PyOption) :
    names.foldl
        (fun opts opt_name =>
          match (handlers L).lookup opt_name with
          | none => opts
          | some handler => handler.mix_pyoptions game w opts)
        pyopts
      = pyopts ++ names.flatMap (option_descriptors L game w) := by
  induction names generalizing pyopts with
  | nil => simp
  | cons n rest ih =>
    rw [List.foldl_cons, ih, List.flatMap_cons]
    unfold option_descriptors
    cases hl : (handlers L).lookup n with
    | none => simp
    | some handler =>
      dsimp only
      rw [mix_pyoptions_appends L n handler hl, List.append_assoc]

/-- The descriptors `WorldOptions_MixinPyOptions` adds: those of the
initialized options, in the order of the list. -/
theorem MixinPyOptions_eq (L : library_t) (game : game_t) (w : world_opt_state)
    (pyopts : List PyOption) :
    WorldOptions_MixinPyOptions L game w pyopts
      = pyopts ++ w.initialized_world_options.flatMap (option_descriptors L game w) :=
  MixinPyOptions_fold L game w _ pyopts

/-- A resize by a number of lines that is not negative appends that many
empty lines (sizes below 2^64). -/
theorem resize_lines_nonneg (content : List String) (line_breaks : Nat)
    (h : content.length + line_breaks < 18446744073709551616) :
    resize_lines content (line_breaks : Int) = content ++ List.replicate line_breaks "" := by
  unfold resize_lines
  have e : (((content.length : Int) + (line_breaks : Int)) % 18446744073709551616).toNat
      = content.length + line_breaks := by
    have : ((content.length : Int) + (line_breaks : Int)) % 18446744073709551616
        = ((content.length + line_breaks : Nat) : Int) := by
      rw [Int.emod_eq_of_lt (by omega) (by omega)]
      push_cast
      rfl
    rw [this]
    rfl
  rw [e, List.take_of_length_le (by omega)]
  congr 2
  omega

theorem option_hooks_step_eq (L : library_t) (game : game_t) (hook_type : String)
    (line_breaks : Nat) (w : world_opt_state) (content : List String) (opt_name : String)
    (h : (content ++ option_hook_block L game hook_type line_breaks w opt_name).length
      < 18446744073709551616) :
    option_hooks_step L game hook_type (line_breaks : Int) w content opt_name
      = content ++ option_hook_block L game hook_type line_breaks w opt_name := by
  unfold option_hooks_step
  unfold option_hook_block at h ⊢
  cases hl : (handlers L).lookup opt_name with
  | none => simp
  | some handler =>
    rw [hl] at h
    dsimp only at h ⊢
    by_cases he : handler.mix_worldhooks game hook_type w [] = []
    · rw [he]
      simp
    · rw [if_neg he] at h ⊢
      have hne : (handler.mix_worldhooks game hook_type w []).isEmpty = false := by
        cases hm : handler.mix_worldhooks game hook_type w [] with
        | nil => exact absurd hm he
        | cons _ _ => rfl
      rw [hne]
      simp only [Bool.false_eq_true, if_false]
      rw [resize_lines_nonneg]
      · simp only [List.append_assoc]
      · simp only [List.length_append, List.length_cons, List.length_nil,
          List.length_replicate] at h ⊢
        omega

theorem option_hooks_fold (L : library_t) (game : game_t) (hook_type : String)
    (line_breaks : Nat) (w : world_opt_state) (names : List String) (content : List String)
    (h : (content ++ names.flatMap (option_hook_block L game hook_type line_breaks w)).length
      < 18446744073709551616) :
    names.foldl (option_hooks_step L game hook_type (line_breaks : Int) w) content
      = content ++ names.flatMap (option_hook_block L game hook_type line_breaks w) := by
  induction names generalizing content with
  | nil => simp
  | cons n rest ih =>
    rw [List.flatMap_cons, ← List.append_assoc] at h
    rw [List.foldl_cons, option_hooks_step_eq, ih _ h, List.flatMap_cons, List.append_assoc]
    rw [List.length_append] at h
    omega

/-- The lines `WorldOptions_GetAllHooks` returns for a number of line breaks
that is not negative: the block of the custom lines of the game, then the
blocks of the initialized options in the order of the list. -/
theorem GetAllHooks_eq (L : library_t) (game : game_t) (hook_type : String)
    (line_breaks : Nat) (w : world_opt_state)
    (h : (custom_hook_block game hook_type line_breaks
        ++ w.initialized_world_options.flatMap
            (option_hook_block L game hook_type line_breaks w)).length
      < 18446744073709551616) :
    WorldOptions_GetAllHooks L game hook_type (line_breaks : Int) w
      = custom_hook_block game hook_type line_breaks
          ++ w.initialized_world_options.flatMap
              (option_hook_block L game hook_type line_breaks w) := by
  unfold WorldOptions_GetAllHooks
  unfold custom_hook_block at h ⊢
  cases hl : game.world_hooks.lookup hook_type with
  | none =>
    rw [hl] at h
    exact option_hooks_fold L game hook_type line_breaks w _ _ h
  | some lines =>
    rw [hl] at h
    dsimp only at h ⊢
    rw [resize_lines_nonneg]
    · exact option_hooks_fold L game hook_type line_breaks w _ _ h
    · simp only [List.length_append, List.length_cons, List.length_nil,
        List.length_replicate] at h ⊢
      omega

theorem nodup_count_le_one (l : List String) (h : l.Nodup) (n : String) : l.count n ≤ 1 :=
  List.nodup_iff_count_le_one.1 h n

/-- C25, amended: when no known option name occurs twice among the configured
entries, each world-option plugin is initialized at most once in a run: the
names of the entries whose `Init` is called are pairwise distinct, no option
name occurs twice in the initialized-option list, the option descriptors
mixed in are those of the options of that list, one group per option in list
order, and the lines returned for a hook point (with a number of line breaks
that is not negative and fewer than 2^64 lines in all) are the block of the
game followed by one block per option of that list; so no plugin contributes
its hook block or its option descriptors more than once. -/
theorem options_initialized_once (L : library_t) (game : game_t) (w : world_opt_state)
    (pyopts : List PyOption) (hook_type : String) (line_breaks : Nat)
    (hnames : ((configured_names L game).filter (known_option L)).Nodup)
    (hsize : (custom_hook_block game hook_type line_breaks
        ++ (WorldOptions_Init L game w).2.initialized_world_options.flatMap
            (option_hook_block L game hook_type line_breaks
              (WorldOptions_Init L game w).2)).length < 18446744073709551616) :
    ((game.json_world_options.elements.filter
        (fun o => known_option L (option_name L o))).map (option_name L)).Nodup ∧
    (WorldOptions_Init L game w).2.initialized_world_options.Nodup ∧
    (∀ n : String, (WorldOptions_Init L game w).2.initialized_world_options.count n ≤ 1) ∧
    WorldOptions_MixinPyOptions L game (WorldOptions_Init L game w).2 pyopts
      = pyopts ++ (WorldOptions_Init L game w).2.initialized_world_options.flatMap
          (option_descriptors L game (WorldOptions_Init L game w).2) ∧
    WorldOptions_GetAllHooks L game hook_type (line_breaks : Int) (WorldOptions_Init L game w).2
      = custom_hook_block game hook_type line_breaks
          ++ (WorldOptions_Init L game w).2.initialized_world_options.flatMap
              (option_hook_block L game hook_type line_breaks
                (WorldOptions_Init L game w).2) := by
  have hi : (WorldOptions_Init L game w).2.initialized_world_options
      = (configured_names L game).filter (known_option L) := by
    have := Init_fold L game game.json_world_options.elements
      (0, { w with initialized_world_options := [] })
    unfold WorldOptions_Init configured_names
    rw [this.2.2]
    rfl
  refine ⟨?_, ?_, ?_, MixinPyOptions_eq L game _ pyopts,
    GetAllHooks_eq L game hook_type line_breaks _ hsize⟩
  · unfold configured_names at hnames
    rw [List.filter_map] at hnames
    exact hnames
  · rw [hi]
    exact hnames
  · rw [hi]
    exact nodup_count_le_one _ hnames

/-- Instance of `options_initialized_once`: a game that configures "Start
with Maps", the unknown "Speed" and "Invis as Trap" leaves the two known
names in the list and gets one descriptor from each. -/
theorem options_initialized_once_witness :
    ((configured_names library_plain game_three_options).filter
      (known_option library_plain)).Nodup ∧
    (WorldOptions_Init library_plain game_three_options world_opt_start).2.initialized_world_options
      = ["Start with Maps", "Invis as Trap"] ∧
    (WorldOptions_MixinPyOptions library_plain game_three_options
        (WorldOptions_Init library_plain game_three_options world_opt_start).2 []).length
      = 2 := by
  have hn : ((configured_names library_plain game_three_options).filter
      (known_option library_plain)).Nodup := by decide
  have hs : (custom_hook_block game_three_options "create_item" 1
        ++ (WorldOptions_Init library_plain game_three_options
              world_opt_start).2.initialized_world_options.flatMap
            (option_hook_block library_plain game_three_options "create_item" 1
              (WorldOptions_Init library_plain game_three_options world_opt_start).2)).length
      < 18446744073709551616 := by decide
  obtain ⟨_, _, _, h4, _⟩ := options_initialized_once library_plain game_three_options
    world_opt_start [] "create_item" 1 hn hs
  refine ⟨hn, by decide, ?_⟩
  rw [h4]
  decide

/-- C25 fails as worded: a game that configures "Invis as Trap" twice has the
name twice in the initialized-option list, gets the option descriptor of the
plugin twice and its hook block twice. -/
theorem option_configured_twice :
    configured_names library_plain game_invis_twice
      = ["Invis as Trap", "Speed", "Invis as Trap"] ∧
    (WorldOptions_Init library_plain game_invis_twice world_opt_start).2.initialized_world_options
      = ["Invis as Trap", "Invis as Trap"] ∧
    (WorldOptions_MixinPyOptions library_plain game_invis_twice
        (WorldOptions_Init library_plain game_invis_twice world_opt_start).2 []).map
        (fun o => o.data_name)
      = ["_no_item__as_trap", "_no_item__as_trap"] ∧
    ((WorldOptions_GetAllHooks library_plain game_invis_twice "create_item" 1
        (WorldOptions_Init library_plain game_invis_twice world_opt_start).2).filter
        (fun line => line == "invis_trap = self.options._no_item__as_trap")).length = 2 := by
  decide

/-! ## A run does not read what the runs before it left: the catalog -/

theorem add_items_next_id (defs : List ap_item_def_t) (classification : Nat)
    (level : Option level_t) (st : gen_state) :
    (add_items defs classification level st).location_next_id = st.location_next_id := by
  unfold add_items
  induction defs generalizing st with
  | nil => rfl
  | cons d rest ih =>
    rw [List.foldl_cons, ih]
    rfl

theorem register_key_next_id (game : game_t) (thing : map_thing_t) (level : level_t) (i : Nat)
    (st : gen_state) :
    (register_key game thing level i st).2.location_next_id = st.location_next_id := by
  unfold register_key
  split
  · rfl
  · dsimp only
    unfold add_unique
    dsimp only
    split <;> rfl

theorem add_loc_next_id (name : String) (thing : map_thing_t) (level : level_t) (index : Nat)
    (id : Int) (st : gen_state) :
    (add_loc name thing level index id st).2.location_next_id = st.location_next_id := by
  unfold add_loc
  dsimp only
  split
  · rfl
  · split <;> rfl

theorem scan_things_next_id (game : game_t) (pfx : String) (things : List map_thing_t) (i : Nat)
    (next_loc : Int) (level : level_t) (st : gen_state) :
    (scan_things game pfx things i next_loc level st).2.location_next_id
      = st.location_next_id := by
  induction things generalizing i next_loc level st with
  | nil => rfl
  | cons thing rest ih =>
    unfold scan_things
    split
    · exact ih _ _ _ _
    · dsimp only
      rw [ih, add_loc_next_id, register_key_next_id]

theorem compile_level_next_id (game : game_t) (level : level_t) (st : gen_state) :
    (compile_level game level st).2.location_next_id = st.location_next_id := by
  unfold compile_level
  dsimp only
  split <;> exact scan_things_next_id _ _ _ _ _ _ _

theorem compile_levels_next_id (game : game_t) (levels : List level_t) (st : gen_state) :
    (compile_levels game levels st).2.location_next_id = st.location_next_id := by
  induction levels generalizing st with
  | nil => rfl
  | cons level rest ih =>
    unfold compile_levels
    dsimp only
    rw [ih, compile_level_next_id]

theorem add_level_items_next_id (game : game_t) (level : level_t) (st : gen_state) :
    (add_level_items game level st).location_next_id = st.location_next_id := by
  unfold add_level_items
  dsimp only
  rw [add_items_next_id, add_items_next_id, add_items_next_id]
  rfl

theorem fold_level_items_next_id (game : game_t) (levels : List level_t) (st : gen_state) :
    (levels.foldl (fun s level => add_level_items game level s) st).location_next_id
      = st.location_next_id := by
  induction levels generalizing st with
  | nil => rfl
  | cons level rest ih => rw [List.foldl_cons, ih, add_level_items_next_id]

/-- A run leaves `location_next_id` as it finds it. -/
theorem final_catalog_from_next_id (game : game_t) (prior : gen_state) :
    (final_catalog_from game prior).2.location_next_id = prior.location_next_id := by
  unfold final_catalog_from compile_catalog_from
  dsimp only
  rw [fold_level_items_next_id, compile_levels_next_id]
  unfold add_global_items
  rw [add_items_next_id, add_items_next_id, add_items_next_id]
  rfl

/-- After the statements at its head a run has the globals of a first run. -/
theorem reset_globals_eq (game : game_t) (prior : gen_state)
    (h : prior.location_next_id = 0) : reset_globals game prior = initial_state game := by
  unfold reset_globals initial_state
  rw [h]

theorem final_catalog_from_eq (game : game_t) (prior : gen_state)
    (h : prior.location_next_id = 0) : final_catalog_from game prior = final_catalog game := by
  unfold final_catalog_from final_catalog compile_catalog_from compile_catalog
  rw [reset_globals_eq game prior h]

/-! ## A run does not read what the runs before it left: the world options -/

theorem foldl_congr_mem {α β : Type} (f g : β → α → β) (l : List α) (b : β)
    (h : ∀ a ∈ l, ∀ b : β, f b a = g b a) : l.foldl f b = l.foldl g b := by
  induction l generalizing b with
  | nil => rfl
  | cons a rest ih =>
    rw [List.foldl_cons, List.foldl_cons, h a (List.mem_cons_self _ _) b]
    exact ih _ (fun x hx => h x (List.mem_cons_of_mem _ hx))

theorem init_entry_eq (L : library_t) (game : game_t) (w : world_opt_state) (option : Json)
    (handler : WorldOptHandlers)
    (h : (handlers L).lookup (option_name L option) = some handler) :
    init_entry L game w option
      = { handler.init game option w with
          initialized_world_options := w.initialized_world_options ++ [option_name L option] } := by
  unfold init_entry WorldOptions_Init_step
  rw [h]
  dsimp only
  rw [init_keeps_initialized L _ handler h]

/-- `Difficulty_Init` writes what `Difficulty_InsertPyOptions` reads. -/
theorem Difficulty_Init_agree (L : library_t) (game : game_t) (json : Json)
    (w1 w2 : world_opt_state) :
    diff_reads_agree (Difficulty_Init L game json w1).diff_info
      (Difficulty_Init L game json w2).diff_info := by
  unfold Difficulty_Init diff_reads_agree
  dsimp only
  by_cases h1 : L.asString (Json.get json "preset" (Json.str "")) = "Doom"
  · rw [if_pos h1, if_pos h1]
    exact ⟨rfl, fun h => absurd rfl h⟩
  · rw [if_neg h1, if_neg h1]
    by_cases h2 : L.asString (Json.get json "preset" (Json.str "")) = "Heretic"
    · rw [if_pos h2, if_pos h2]
      exact ⟨rfl, fun _ h => absurd rfl h⟩
    · rw [if_neg h2, if_neg h2]
      exact ⟨rfl, fun _ _ => ⟨rfl, rfl⟩⟩

theorem Difficulty_Init_others (L : library_t) (game : game_t) (json : Json)
    (w : world_opt_state) :
    (Difficulty_Init L game json w).swm_info = w.swm_info ∧
    (Difficulty_Init L game json w).invis_info = w.invis_info ∧
    (Difficulty_Init L game json w).cac_ammo_types = w.cac_ammo_types ∧
    (Difficulty_Init L game json w).capupg_info = w.capupg_info := by
  unfold Difficulty_Init
  dsimp only
  split
  · exact ⟨rfl, rfl, rfl, rfl⟩
  · split <;> exact ⟨rfl, rfl, rfl, rfl⟩

theorem mem_append_singleton_ne (l : List String) (a b : String) (h : a ≠ b) :
    a ∈ l ++ [b] ↔ a ∈ l := by
  simp [h]

/-- One known entry: the `Init` of its handler writes the variables of its
option from the game and the entry alone and leaves those of the other options
alone. -/
theorem init_entry_agree (L : library_t) (game : game_t) (option : Json)
    (w1 w2 : world_opt_state) (hk : known_option L (option_name L option) = true)
    (h : reads_agree w1 w2) :
    reads_agree (init_entry L game w1 option) (init_entry L game w2 option) := by
  unfold known_option at hk
  cases hl : (handlers L).lookup (option_name L option) with
  | none => rw [hl] at hk; exact absurd hk (by simp)
  | some handler =>
    rw [init_entry_eq L game w1 option handler hl, init_entry_eq L game w2 option handler hl]
    obtain ⟨a0, a1, a2, a3, a4, a5⟩ := h
    unfold reads_agree
    dsimp only
    rw [← a0]
    rcases handlers_lookup_some L _ handler hl with
      ⟨hn, hi, _, _⟩ | ⟨hn, hi, _, _⟩ | ⟨hn, hi, _, _⟩ | ⟨hn, hi, _, _⟩ | ⟨hn, hi, _, _⟩
    · rw [hi, hn]
      refine ⟨rfl, ?_, ?_, ?_, ?_, ?_⟩
      · intro hm
        exact a1 ((mem_append_singleton_ne _ _ _ (by decide)).1 hm)
      · intro hm
        exact a2 ((mem_append_singleton_ne _ _ _ (by decide)).1 hm)
      · intro hm
        exact a3 ((mem_append_singleton_ne _ _ _ (by decide)).1 hm)
      · intro hm
        exact a4 ((mem_append_singleton_ne _ _ _ (by decide)).1 hm)
      · intro _
        rfl
    · rw [hi, hn]
      refine ⟨rfl, ?_, ?_, ?_, ?_, ?_⟩
      · intro hm
        exact a1 ((mem_append_singleton_ne _ _ _ (by decide)).1 hm)
      · intro hm
        exact a2 ((mem_append_singleton_ne _ _ _ (by decide)).1 hm)
      · intro hm
        exact a3 ((mem_append_singleton_ne _ _ _ (by decide)).1 hm)
      · intro _
        rfl
      · intro hm
        exact a5 ((mem_append_singleton_ne _ _ _ (by decide)).1 hm)
    · rw [hi, hn]
      obtain ⟨o1, o2, o3, o4⟩ := Difficulty_Init_others L game option w1
      obtain ⟨p1, p2, p3, p4⟩ := Difficulty_Init_others L game option w2
      rw [o1, o2, o3, o4, p1, p2, p3, p4]
      refine ⟨rfl, ?_, ?_, ?_, ?_, ?_⟩
      · intro _
        exact Difficulty_Init_agree L game option w1 w2
      · intro hm
        exact a2 ((mem_append_singleton_ne _ _ _ (by decide)).1 hm)
      · intro hm
        exact a3 ((mem_append_singleton_ne _ _ _ (by decide)).1 hm)
      · intro hm
        exact a4 ((mem_append_singleton_ne _ _ _ (by decide)).1 hm)
      · intro hm
        exact a5 ((mem_append_singleton_ne _ _ _ (by decide)).1 hm)
    · rw [hi, hn]
      refine ⟨rfl, ?_, ?_, ?_, ?_, ?_⟩
      · intro hm
        exact a1 ((mem_append_singleton_ne _ _ _ (by decide)).1 hm)
      · intro hm
        exact a2 ((mem_append_singleton_ne _ _ _ (by decide)).1 hm)
      · intro _
        rfl
      · intro hm
        exact a4 ((mem_append_singleton_ne _ _ _ (by decide)).1 hm)
      · intro hm
        exact a5 ((mem_append_singleton_ne _ _ _ (by decide)).1 hm)
    · rw [hi, hn]
      refine ⟨rfl, ?_, ?_, ?_, ?_, ?_⟩
      · intro hm
        exact a1 ((mem_append_singleton_ne _ _ _ (by decide)).1 hm)
      · intro _
        rfl
      · intro hm
        exact a3 ((mem_append_singleton_ne _ _ _ (by decide)).1 hm)
      · intro hm
        exact a4 ((mem_append_singleton_ne _ _ _ (by decide)).1 hm)
      · intro hm
        exact a5 ((mem_append_singleton_ne _ _ _ (by decide)).1 hm)

theorem init_entries_agree (L : library_t) (game : game_t) (options : List Json)
    (w1 w2 : world_opt_state) (hk : ∀ o ∈ options, known_option L (option_name L o) = true)
    (h : reads_agree w1 w2) :
    reads_agree (options.foldl (init_entry L game) w1) (options.foldl (init_entry L game) w2) := by
  induction options generalizing w1 w2 with
  | nil => exact h
  | cons o rest ih =>
    rw [List.foldl_cons, List.foldl_cons]
    exact ih _ _ (fun x hx => hk x (List.mem_cons_of_mem _ hx))
      (init_entry_agree L game o w1 w2 (hk o (List.mem_cons_self _ _)) h)

/-- Whatever the file-level variables were before, after `WorldOptions_Init`
they agree in what the handlers of the initialized options read. -/
theorem WorldOptions_Init_agree (L : library_t) (game : game_t) (w1 w2 : world_opt_state) :
    reads_agree (WorldOptions_Init L game w1).2 (WorldOptions_Init L game w2).2 := by
  unfold WorldOptions_Init
  rw [(Init_fold L game _ _).2.1, (Init_fold L game _ _).2.1]
  apply init_entries_agree
  · intro o ho
    have := (List.mem_filter.1 ho).2
    exact this
  · exact ⟨rfl, fun h => absurd h (List.not_mem_nil _), fun h => absurd h (List.not_mem_nil _),
      fun h => absurd h (List.not_mem_nil _), fun h => absurd h (List.not_mem_nil _),
      fun h => absurd h (List.not_mem_nil _)⟩

theorem Difficulty_InsertPyOptions_agree (L : library_t) (game : game_t)
    (w1 w2 : world_opt_state) (h : diff_reads_agree w1.diff_info w2.diff_info)
    (options : List PyOption) :
    Difficulty_InsertPyOptions L game w1 options
      = Difficulty_InsertPyOptions L game w2 options := by
  obtain ⟨hp, hrest⟩ := h
  unfold Difficulty_InsertPyOptions
  rw [← hp]
  by_cases h1 : w1.diff_info.preset = 1
  · rw [if_pos h1, if_pos h1]
  · rw [if_neg h1, if_neg h1]
    by_cases h2 : w1.diff_info.preset = 2
    · rw [if_pos h2, if_pos h2]
    · rw [if_neg h2, if_neg h2]
      obtain ⟨hs, hj⟩ := hrest h1 h2
      rw [← hs, ← hj]

/-- The handler of an initialized option gives the same descriptors and the
same hook lines for two values of the file-level variables that agree in what
is read. -/
theorem handler_reads_agree (L : library_t) (game : game_t) (w1 w2 : world_opt_state)
    (h : reads_agree w1 w2) (name : String) (hn : name ∈ w1.initialized_world_options)
    (handler : WorldOptHandlers) (hl : (handlers L).lookup name = some handler) :
    (∀ options : List PyOption,
      handler.mix_pyoptions game w1 options = handler.mix_pyoptions game w2 options) ∧
    (∀ (hook_type : String) (hook : List String),
      handler.mix_worldhooks game hook_type w1 hook
        = handler.mix_worldhooks game hook_type w2 hook) := by
  obtain ⟨_, a1, a2, a3, a4, a5⟩ := h
  rcases handlers_lookup_some L name handler hl with
    ⟨hname, _, hh, hp⟩ | ⟨hname, _, hh, hp⟩ | ⟨hname, _, hh, hp⟩ | ⟨hname, _, hh, hp⟩ |
    ⟨hname, _, hh, hp⟩
  · rw [hname] at hn
    rw [hh, hp]
    constructor
    · intro options
      unfold CapacityUpgrades_InsertPyOptions
      rw [a5 hn]
    · intro hook_type hook
      unfold CapacityUpgrades_InsertWorldHook
      rw [a5 hn]
  · rw [hname] at hn
    rw [hh, hp]
    constructor
    · intro options
      unfold CustomAmmoCapacity_InsertPyOptions
      rw [a4 hn]
    · intro hook_type hook
      unfold CustomAmmoCapacity_InsertWorldHook
      rw [a4 hn]
  · rw [hname] at hn
    rw [hh, hp]
    exact ⟨fun options => Difficulty_InsertPyOptions_agree L game w1 w2 (a1 hn) options,
      fun _ _ => rfl⟩
  · rw [hname] at hn
    rw [hh, hp]
    constructor
    · intro options
      unfold InvisAsTrap_InsertPyOptions
      rw [a3 hn]
    · intro hook_type hook
      unfold InvisAsTrap_InsertWorldHook
      rw [a3 hn]
  · rw [hname] at hn
    rw [hh, hp]
    constructor
    · intro options
      unfold StartWithMaps_InsertPyOptions
      rw [a2 hn]
    · intro hook_type hook
      unfold StartWithMaps_InsertWorldHook
      rw [a2 hn]

/-- The two entry points that read the file-level variables give the same
for two values that agree in what is read. -/
theorem readers_agree (L : library_t) (game : game_t) (w1 w2 : world_opt_state)
    (h : reads_agree w1 w2) :
    (∀ pyopts : List PyOption,
      WorldOptions_MixinPyOptions L game w1 pyopts
        = WorldOptions_MixinPyOptions L game w2 pyopts) ∧
    (∀ (hook_type : String) (line_breaks : Int),
      WorldOptions_GetAllHooks L game hook_type line_breaks w1
        = WorldOptions_GetAllHooks L game hook_type line_breaks w2) := by
  constructor
  · intro pyopts
    unfold WorldOptions_MixinPyOptions
    rw [← h.1]
    apply foldl_congr_mem
    intro n hn opts
    cases hl : (handlers L).lookup n with
    | none => rfl
    | some handler => exact (handler_reads_agree L game w1 w2 h n hn handler hl).1 opts
  · intro hook_type line_breaks
    unfold WorldOptions_GetAllHooks
    rw [← h.1]
    apply foldl_congr_mem
    intro n hn content
    unfold option_hooks_step
    cases hl : (handlers L).lookup n with
    | none => rfl
    | some handler =>
      dsimp only
      rw [(handler_reads_agree L game w1 w2 h n hn handler hl).2 hook_type []]

/-- Two runs of `generate` on the same game configuration, maps and rule
graphs, each with a sink of its own, build identical item lists, location lists, item groups and
data-document values (regions, location table), whatever the runs before them
left in the globals: the item list, location list, item-group map, key table
and the initialized-option list are reset at the start of every run
(`location_next_id` is 0 when the program starts and every run leaves it as it
is), the number of unknown options and the list of initialized options do not
depend on what was there before, and the option descriptors and hook lines,
which is all that reads the file-level variables of the world options, are
the same whatever these variables held before the `Init` calls of the run. -/
theorem catalog_independent_of_prior_runs (L : library_t) (game : game_t) (prior1 prior2 : gen_state)
    (w1 w2 : world_opt_state)
    (h1 : prior1.location_next_id = 0) (h2 : prior2.location_next_id = 0) :
    (reset_globals game prior1 = initial_state game ∧
      reset_globals game prior2 = initial_state game ∧
      (final_catalog_from game prior1).2.location_next_id = 0) ∧
    (final_catalog_from game prior1 = final_catalog_from game prior2 ∧
      (final_catalog_from game prior1).2.ap_items = (final_catalog_from game prior2).2.ap_items ∧
      (final_catalog_from game prior1).2.ap_locations
        = (final_catalog_from game prior2).2.ap_locations ∧
      (final_catalog_from game prior1).2.item_name_groups
        = (final_catalog_from game prior2).2.item_name_groups ∧
      regions_json game (final_catalog_from game prior1).1
          (final_catalog_from game prior1).2.ap_locations
        = regions_json game (final_catalog_from game prior2).1
            (final_catalog_from game prior2).2.ap_locations ∧
      (location_table game (final_catalog_from game prior1).2.ap_locations).locations_json
        = (location_table game (final_catalog_from game prior2).2.ap_locations).locations_json) ∧
    ((WorldOptions_Init L game w1).1 = (WorldOptions_Init L game w2).1 ∧
      (WorldOptions_Init L game w1).2.initialized_world_options
        = (WorldOptions_Init L game w2).2.initialized_world_options ∧
      (∀ pyopts : List PyOption,
        WorldOptions_MixinPyOptions L game (WorldOptions_Init L game w1).2 pyopts
          = WorldOptions_MixinPyOptions L game (WorldOptions_Init L game w2).2 pyopts) ∧
      (∀ (hook_type : String) (line_breaks : Int),
        WorldOptions_GetAllHooks L game hook_type line_breaks (WorldOptions_Init L game w1).2
          = WorldOptions_GetAllHooks L game hook_type line_breaks
              (WorldOptions_Init L game w2).2)) := by
  have e : final_catalog_from game prior1 = final_catalog_from game prior2 := by
    rw [final_catalog_from_eq game prior1 h1, final_catalog_from_eq game prior2 h2]
  have hr := readers_agree L game _ _ (WorldOptions_Init_agree L game w1 w2)
  refine ⟨⟨reset_globals_eq game prior1 h1, reset_globals_eq game prior2 h2, ?_⟩,
    ⟨e, by rw [e], by rw [e], by rw [e], by rw [e], by rw [e]⟩,
    ⟨?_, (WorldOptions_Init_agree L game w1 w2).1, hr.1, hr.2⟩⟩
  · rw [final_catalog_from_next_id, h1]
  · unfold WorldOptions_Init
    rw [(Init_fold L game _ _).1, (Init_fold L game _ _).1]

/-- Instance of `catalog_independent_of_prior_runs`: a run on the game with two regions and
three configured options builds the same after a run on another game as at
the start of the program. -/
theorem catalog_independent_of_prior_runs_instance :
    state_after_other_run.location_next_id = 0 ∧ empty_state.location_next_id = 0 ∧
    (final_catalog_from game_regions_options state_after_other_run).2.ap_locations
      = (final_catalog_from game_regions_options empty_state).2.ap_locations ∧
    (final_catalog_from game_regions_options state_after_other_run).2.ap_items
      = (final_catalog_from game_regions_options empty_state).2.ap_items ∧
    WorldOptions_MixinPyOptions library_plain game_regions_options
        (WorldOptions_Init library_plain game_regions_options world_opt_after_other_run).2 []
      = WorldOptions_MixinPyOptions library_plain game_regions_options
          (WorldOptions_Init library_plain game_regions_options world_opt_start).2 [] := by
  obtain ⟨_, ⟨_, a2, a3, _⟩, ⟨_, _, b3, _⟩⟩ :=
    catalog_independent_of_prior_runs library_plain game_regions_options state_after_other_run empty_state
      world_opt_after_other_run world_opt_start rfl rfl
  exact ⟨rfl, rfl, a3, a2, b3 []⟩

/-! ## Region documents: the region "Hub" -/

/-- The level-unlock item of a level depends on the name and the index of the
level only. -/
theorem unlock_item_view (l l' : level_t) (h : level_view l = level_view l') :
    make_item level_unlock_item (PROGRESSION ||| USEFUL) (some l)
      = make_item level_unlock_item (PROGRESSION ||| USEFUL) (some l') := by
  have hn : (level_view l).name = (level_view l').name := by rw [h]
  have hi : (level_view l).idx = (level_view l').idx := by rw [h]
  have hn' : l.name = l'.name := hn
  have hi' : l.idx = l'.idx := hi
  unfold make_item
  dsimp only
  rw [hn', hi']

theorem add_level_items_unlock (game : game_t) (level : level_t) (st : gen_state) :
    make_item level_unlock_item (PROGRESSION ||| USEFUL) (some level)
      ∈ (add_level_items game level st).ap_items ∧
    ∀ it ∈ st.ap_items, it ∈ (add_level_items game level st).ap_items := by
  unfold add_level_items
  dsimp only
  rw [add_items_items, add_items_items, add_items_items]
  unfold add_item
  dsimp only
  constructor
  · simp
  · intro it hit
    simp [hit]

theorem fold_level_items_unlock (game : game_t) (levels : List level_t) (st : gen_state) :
    (∀ level ∈ levels,
      make_item level_unlock_item (PROGRESSION ||| USEFUL) (some level)
        ∈ (levels.foldl (fun s level => add_level_items game level s) st).ap_items) ∧
    ∀ it ∈ st.ap_items,
      it ∈ (levels.foldl (fun s level => add_level_items game level s) st).ap_items := by
  induction levels generalizing st with
  | nil => exact ⟨fun _ h => absurd h (List.not_mem_nil _), fun _ h => h⟩
  | cons level rest ih =>
    rw [List.foldl_cons]
    obtain ⟨i1, i2⟩ := ih (add_level_items game level st)
    obtain ⟨a1, a2⟩ := add_level_items_unlock game level st
    constructor
    · intro l hl
      rcases List.mem_cons.1 hl with rfl | hl
      · exact i2 _ a1
      · exact i1 l hl
    · intro it hit
      exact i2 it (a2 it hit)

/-- Every item is in the list after the remap pass, with the id the pass
gives it. -/
theorem remap_items_mem (game : game_t) (items : List ap_item_t) (it : ap_item_t)
    (h : it ∈ items) : ∃ v : Int, { it with id := v } ∈ remap_items game items := by
  unfold remap_items
  by_cases ht : game.item_remap = []
  · rw [ht, remap_pass_nil]
    exact ⟨it.id, h⟩
  · obtain ⟨j, hj⟩ := List.getElem?_of_mem h
    have := remap_pass_get (fun it : ap_item_t => it.name) (fun it v => { it with id := v })
      game.item_remap items ht j it hj
    exact ⟨_, List.getElem?_mem this⟩

/-- The level-unlock item of every level of the game is in the item list of
the final catalog, with the id the remap pass gives it. -/
theorem final_catalog_unlock_item (game : game_t) (level : level_t)
    (h : level ∈ make_levels game) :
    ∃ v : Int,
      { make_item level_unlock_item (PROGRESSION ||| USEFUL) (some level) with id := v }
        ∈ (final_catalog game).2.ap_items := by
  have hview := compile_catalog_view game
  obtain ⟨k, hk⟩ := List.getElem?_of_mem h
  have hk' : ((compile_catalog game).1.map level_view)[k]?
      = some (level_view
          { level with sectors := List.replicate level.map.sector_count { locations := [] } }) := by
    rw [hview, List.getElem?_map, hk]
    rfl
  rw [List.getElem?_map] at hk'
  cases hc : (compile_catalog game).1[k]? with
  | none => rw [hc] at hk'; cases hk'
  | some l' =>
    rw [hc] at hk'
    have hv : level_view l' = level_view
        { level with sectors := List.replicate level.map.sector_count { locations := [] } } := by
      simpa using hk'
    have hitem : make_item level_unlock_item (PROGRESSION ||| USEFUL) (some l')
        = make_item level_unlock_item (PROGRESSION ||| USEFUL) (some level) := by
      rw [unlock_item_view l' _ hv]
      rfl
    have hmem : make_item level_unlock_item (PROGRESSION ||| USEFUL) (some l')
        ∈ (compile_catalog game).2.ap_items := by
      unfold compile_catalog at hc ⊢
      dsimp only at hc ⊢
      exact (fold_level_items_unlock game _ _).1 l' (List.getElem?_mem hc)
    rw [hitem] at hmem
    obtain ⟨v, hv'⟩ := remap_items_mem game _ _ hmem
    refine ⟨v, ?_⟩
    unfold final_catalog
    dsimp only
    exact (sort_by_id_perm _ _).mem_iff.2 hv'

/-- The names of the levels of the final catalog are those of the levels of
the game, in order. -/
theorem final_catalog_level_names (game : game_t) :
    (final_catalog game).1.map (fun l => l.name) = (make_levels game).map (fun l => l.name) := by
  have h := congrArg (List.map (fun l : level_t => l.name)) (final_catalog_levels game)
  rw [List.map_map, List.map_map] at h
  exact h

theorem hub_region_names (l1 l2 : List level_t)
    (h : l1.map (fun l => l.name) = l2.map (fun l => l.name)) : hub_region l1 = hub_region l2 := by
  unfold hub_region
  have e : ∀ l : List level_t,
      l.map (fun level =>
        Json.obj
          [("_target", Json.str ("Hub @ Entrance to " ++ level.name)),
           ("rules", Json.arr [Json.obj [("and", Json.arr [Json.str level.name])]])])
        = (l.map (fun l => l.name)).map (fun name =>
            Json.obj
              [("_target", Json.str ("Hub @ Entrance to " ++ name)),
               ("rules", Json.arr [Json.obj [("and", Json.arr [Json.str name])]])]) := by
    intro l
    rw [List.map_map]
    rfl
  rw [e l1, e l2, h]

/-- C26: the first region document is the one named "Hub"; it has exactly one
connection per level, in level order; the connection of a level has "_target"
"Hub @ Entrance to <level name>" and as rules the one object with the one
member "and" holding the one name n, and n is the name of the level-unlock
item (type code -1) registered for that level, which is in the item list of
the final catalog.  The region documents exist when the sector and region
indices of the rule graphs are in range. -/
theorem hub_region_connections (game : game_t) :
    ((∀ level ∈ make_levels game, regions_in_range level) →
      ∃ r : Json × List ap_location_t,
        regions_json game (final_catalog game).1 (final_catalog game).2.ap_locations = some r) ∧
    (∀ r : Json × List ap_location_t,
      regions_json game (final_catalog game).1 (final_catalog game).2.ap_locations = some r →
      ∃ rest : List Json, r.1 = Json.arr (hub_region (final_catalog game).1 :: rest)) ∧
    Json.field "_name" (hub_region (final_catalog game).1) = some (Json.str "Hub") ∧
    ∃ conns : List Json,
      Json.field "connections" (hub_region (final_catalog game).1) = some (Json.arr conns) ∧
      conns.length = (make_levels game).length ∧
      ∀ (k : Nat) (level : level_t), (make_levels game)[k]? = some level →
        ∃ (c : Json) (item : ap_item_t),
          conns[k]? = some c ∧
          Json.field "_target" c = some (Json.str ("Hub @ Entrance to " ++ level.name)) ∧
          Json.field "rules" c
            = some (Json.arr [Json.obj [("and", Json.arr [Json.str item.name])]]) ∧
          item ∈ (final_catalog game).2.ap_items ∧
          (∃ v : Int,
            item = { make_item level_unlock_item (PROGRESSION ||| USEFUL) (some level) with
                     id := v }) ∧
          item.doom_type = DOOM_TYPE_LEVEL_UNLOCK ∧ item.idx = level.idx := by
  refine ⟨?_, ?_, ?_, ?_⟩
  · intro h
    obtain ⟨r, hr, _⟩ := final_regions game h
    exact ⟨r, hr⟩
  · intro r hr
    unfold regions_json at hr
    cases hs : serialize_levels game (final_catalog game).1 (final_catalog game).2.ap_locations with
    | none => rw [hs] at hr; cases hr
    | some s =>
      rw [hs] at hr
      have := Option.some.inj hr
      exact ⟨s.1, by rw [← this]⟩
  · unfold hub_region Json.field
    simp [List.lookup]
  · rw [hub_region_names _ _ (final_catalog_level_names game)]
    refine ⟨(make_levels game).map (fun level =>
        Json.obj
          [("_target", Json.str ("Hub @ Entrance to " ++ level.name)),
           ("rules", Json.arr [Json.obj [("and", Json.arr [Json.str level.name])]])]),
      by unfold hub_region Json.field; simp [List.lookup], by simp, ?_⟩
    intro k level hk
    obtain ⟨v, hv⟩ := final_catalog_unlock_item game level (List.getElem?_mem hk)
    refine ⟨_, _, by rw [List.getElem?_map, hk]; rfl, by simp [Json.field, List.lookup], ?_,
      hv, ⟨v, rfl⟩, rfl, rfl⟩
    simp [Json.field, List.lookup, make_item, level_unlock_item]

/-- Instance of `hub_region_connections`: the game with the one level "R1";
the region "Hub" has the one connection to "Hub @ Entrance to R1", which
requires the item named "R1". -/
theorem hub_region_connections_witness :
    (∀ level ∈ make_levels game_regions, regions_in_range level) ∧
    (make_levels game_regions)[0]? = some (make_level game_regions 0 0 meta_regions) ∧
    (∃ r : Json × List ap_location_t,
      regions_json game_regions (final_catalog game_regions).1
        (final_catalog game_regions).2.ap_locations = some r ∧
      ∃ rest : List Json, r.1 = Json.arr (hub_region (final_catalog game_regions).1 :: rest)) ∧
    ∃ (conns : List Json) (c : Json) (item : ap_item_t),
      Json.field "connections" (hub_region (final_catalog game_regions).1)
        = some (Json.arr conns) ∧
      conns.length = 1 ∧ conns[0]? = some c ∧
      Json.field "_target" c = some (Json.str "Hub @ Entrance to R1") ∧
      Json.field "rules" c = some (Json.arr [Json.obj [("and", Json.arr [Json.str item.name])]]) ∧
      item ∈ (final_catalog game_regions).2.ap_items ∧ item.name = "R1" := by
  obtain ⟨h1, h2, _, conns, h4, h5, h6⟩ := hub_region_connections game_regions
  obtain ⟨r, hr⟩ := h1 game_regions_in_range
  obtain ⟨c, item, c1, c2, c3, c4, ⟨v, c5⟩, _, _⟩ :=
    h6 0 (make_level game_regions 0 0 meta_regions) rfl
  refine ⟨game_regions_in_range, rfl, ⟨r, hr, h2 r hr⟩, conns, c, item, h4, h5, c1, c2, c3, c4, ?_⟩
  rw [c5]
  rfl
/-! ## The run as a whole: a `Finalize` that fails -/

/-- C22 at one input: the archive "./output/w.apworld" cannot be opened, so
`Finalize` returns false and writes no byte, and the run adds the error
message of that failure; no file is written.  The value `generate` returns is
0, the value of a run that succeeded, where a validation-gate failure returns
1. -/
theorem finalize_failure_returns_zero :
    open_sink env_unwritable game_gates_pass env_unwritable.OArguments
      = Except.ok (sink_t.ZipFile "./output/w.apworld") ∧
    sink_call_ok env_unwritable (sink_t.ZipFile "./output/w.apworld") sink_call.Finalize = false ∧
    (∀ entries : List ZipEntry,
      ZipFile.Finalize false entries = some { returned := false, written := [] }) ∧
    (sink_run env_unwritable (sink_t.ZipFile "./output/w.apworld")
      (generate env_unwritable game_gates_pass).sink_calls).files_written = [] ∧
    (generate env_unwritable game_gates_pass).errors = ["Couldn't create './output/w.apworld'."] ∧
    (generate env_unwritable game_gates_pass).result = 0 ∧
    (generate env_plain game_gates_pass).result = 0 ∧
    (generate env_plain game_gates_pass).errors = [] ∧
    (generate env_plain game_minor_only).result = 1 := by
  refine ⟨rfl, by decide, fun _ => rfl, by decide, by decide, by decide, by decide,
    by decide, by decide⟩

/-! ## Catalog compilation: one location for every object that gives one -/

theorem thing_label_none_iff (game : game_t) (thing : map_thing_t) :
    thing_label game thing = none ↔
      ((game.location_doom_types.lookup thing.type).isSome
        && decide (thing.flags &&& 0x0010 = 0)) = false := by
  unfold thing_label
  cases game.location_doom_types.lookup thing.type with
  | none => simp
  | some label =>
    by_cases hf : thing.flags &&& 0x0010 = 0
    · simp [hf]
    · simp [hf]

theorem add_loc_records (name : String) (thing : map_thing_t) (level : level_t) (index : Nat)
    (id : Int) (st : gen_state) (h0 : st.location_next_id = 0) :
    (add_loc name thing level index id st).2.ap_locations.map loc_record
      = st.ap_locations.map loc_record ++
          (if (loc_state_at level.map_state index).unreachable then []
           else [object_record level.idx index thing]) := by
  unfold add_loc
  by_cases hu : (loc_state_at level.map_state index).unreachable = true
  · simp [hu]
  · have hn : ¬ st.location_next_id > 999 := by omega
    simp [hu, hn, loc_record, object_record]

theorem scan_things_records (game : game_t) (pfx : String) (things : List map_thing_t) (i : Nat)
    (next_loc : Int) (level : level_t) (st : gen_state) (h0 : st.location_next_id = 0) :
    (scan_things game pfx things i next_loc level st).2.ap_locations.map loc_record
      = st.ap_locations.map loc_record
          ++ object_records_from game level.map_state level.idx things i := by
  induction things generalizing i next_loc level st with
  | nil => simp [scan_things, object_records_from]
  | cons thing rest ih =>
    unfold scan_things
    cases hl : thing_label game thing with
    | none =>
      simp only []
      rw [ih (i + 1) next_loc level st h0]
      have hg : gives_location game level.map_state i thing = false := by
        unfold gives_location
        rw [(thing_label_none_iff game thing).1 hl]
        rfl
      simp [object_records_from, List.enumFrom_cons, List.filter_cons, hg]
    | some label =>
      simp only []
      obtain ⟨k1, k2, k3, k4⟩ := register_key_locations game thing level i st
      obtain ⟨_, a2, a3, a4⟩ := add_loc_keys (pfx ++ label) thing
        (register_key game thing level i st).1 i next_loc (register_key game thing level i st).2
        (k2.trans h0)
      have a1 := add_loc_records (pfx ++ label) thing
        (register_key game thing level i st).1 i next_loc (register_key game thing level i st).2
        (k2.trans h0)
      rw [ih (i + 1) (next_loc + 1) _ _ a2, a1, a4, a3, k1, k3, k4]
      have hs : ((game.location_doom_types.lookup thing.type).isSome
          && decide (thing.flags &&& 0x0010 = 0)) = true := by
        cases hb : ((game.location_doom_types.lookup thing.type).isSome
          && decide (thing.flags &&& 0x0010 = 0)) with
        | true => rfl
        | false => rw [(thing_label_none_iff game thing).2 hb] at hl; cases hl
      by_cases hu : (loc_state_at level.map_state i).unreachable = true
      · have hg : gives_location game level.map_state i thing = false := by
          unfold gives_location
          rw [hs, hu]
          rfl
        simp [object_records_from, List.enumFrom_cons, List.filter_cons, hg, hu]
      · have hg : gives_location game level.map_state i thing = true := by
          unfold gives_location
          rw [hs]
          simp [hu]
        simp [object_records_from, List.enumFrom_cons, List.filter_cons, hg, hu]

theorem compile_level_records (game : game_t) (level : level_t) (st : gen_state)
    (h0 : st.location_next_id = 0) :
    (compile_level game level st).2.ap_locations.map loc_record
      = st.ap_locations.map loc_record ++ level_loc_records game level := by
  have r1 := scan_things_records game (level.name ++ " - ") level.map.things 0 1
    { level with sectors := List.replicate level.map.sector_count { locations := [] } } st h0
  unfold compile_level
  dsimp only
  cases find_exit_region level.name level.map_state.regions with
  | some region_name =>
    simp only [List.map_append, r1, level_loc_records, List.append_assoc]
    simp [loc_record, make_complete_loc, DOOM_TYPE_LEVEL_COMPLETE]
  | none =>
    simp only [List.map_append, r1, level_loc_records, List.append_assoc]
    simp [loc_record, make_complete_loc, DOOM_TYPE_LEVEL_COMPLETE]

theorem compile_levels_records (game : game_t) (levels : List level_t) (st : gen_state)
    (h0 : st.location_next_id = 0) :
    (compile_levels game levels st).2.ap_locations.map loc_record
      = st.ap_locations.map loc_record ++ levels.flatMap (level_loc_records game) := by
  induction levels generalizing st with
  | nil => simp [compile_levels]
  | cons level rest ih =>
    have c1 := compile_level_records game level st h0
    obtain ⟨_, c2, _⟩ := compile_level_keys game level st h0
    unfold compile_levels
    dsimp only
    rw [ih (compile_level game level st).2 c2, c1, List.flatMap_cons, List.append_assoc]

theorem compile_catalog_records (game : game_t) :
    (compile_catalog game).2.ap_locations.map loc_record
      = (make_levels game).flatMap (level_loc_records game) := by
  obtain ⟨g1, g2⟩ := add_global_items_locations game (initial_state game)
  have c1 := compile_levels_records game (make_levels game)
    (add_global_items game (initial_state game)) (g2.trans rfl)
  unfold compile_catalog
  dsimp only
  rw [fold_level_items_locations, c1, g1]
  rfl

theorem fill_sectors_records (locs : List ap_location_t) (i : Nat) (levels : List level_t) :
    (fill_sectors locs i levels).1.map loc_record = locs.map loc_record := by
  induction locs generalizing i levels with
  | nil => rfl
  | cons loc rest ih =>
    unfold fill_sectors
    by_cases hneg : loc.doom_thing_index < 0
    · simp only [hneg, if_true, List.map_cons, ih]
    · simp only [hneg, if_false]
      split
      · simp only [List.map_cons, ih]
        rfl
      · simp only [List.map_cons, ih]

theorem remap_by_rule_map {α β : Type} (name : α → String) (set_id : α → Int → α)
    (f : α → β) (hf : ∀ x v, f (set_id x v) = f x) (table : List (String × Int)) (next : Int)
    (xs : List α) :
    (remap_by_rule name set_id table next xs).map f = xs.map f := by
  induction xs generalizing next with
  | nil => rfl
  | cons x rest ih =>
    unfold remap_by_rule
    split <;> simp [hf, ih]

theorem remap_pass_map {α β : Type} (name : α → String) (set_id : α → Int → α)
    (f : α → β) (hf : ∀ x v, f (set_id x v) = f x) (table : List (String × Int))
    (xs : List α) :
    (remap_pass name set_id table xs).map f = xs.map f := by
  unfold remap_pass
  split
  · rfl
  · dsimp only
    rw [remap_assign_collect, remap_by_rule_map name set_id f hf]

theorem final_catalog_records (game : game_t) :
    ((final_catalog game).2.ap_locations.map loc_record).Perm
      ((make_levels game).flatMap (level_loc_records game)) := by
  unfold final_catalog
  dsimp only
  rw [fill_sectors_records, ← compile_catalog_records]
  refine ((sort_by_id_perm _ _).map loc_record).trans ?_
  unfold remap_locations
  rw [remap_pass_map (fun l : ap_location_t => l.name) (fun l v => { l with id := v })
    loc_record (fun _ _ => rfl)]

theorem object_records_mem (game : game_t) (map_state : map_state_t) (idx : level_index_t)
    (things : List map_thing_t) (r : Int × Int × Int × Int × Int × Int) :
    r ∈ object_records_from game map_state idx things 0 ↔
      ∃ (i : Nat) (thing : map_thing_t), things[i]? = some thing ∧
        gives_location game map_state i thing = true ∧ r = object_record idx i thing := by
  unfold object_records_from
  simp only [List.mem_map, List.mem_filter]
  constructor
  · rintro ⟨⟨i, thing⟩, ⟨hm, hg⟩, rfl⟩
    rw [List.mk_mem_enumFrom_iff_le_and_getElem?_sub] at hm
    exact ⟨i, thing, by simpa using hm.2, hg, rfl⟩
  · rintro ⟨i, thing, hi, hg, rfl⟩
    refine ⟨(i, thing), ⟨?_, hg⟩, rfl⟩
    rw [List.mk_mem_enumFrom_iff_le_and_getElem?_sub]
    exact ⟨Nat.zero_le _, by simpa using hi⟩

theorem object_records_nodup (game : game_t) (map_state : map_state_t) (idx : level_index_t)
    (things : List map_thing_t) :
    ((object_records_from game map_state idx things 0).map (fun r => r.2.2.1)).Nodup := by
  unfold object_records_from
  rw [List.map_map]
  have hs : (((things.enumFrom 0).filter
      (fun p => gives_location game map_state p.1 p.2)).map (fun p => p.1)).Nodup := by
    refine List.Nodup.sublist (List.Sublist.map _ (List.filter_sublist _)) ?_
    rw [List.enumFrom_map_fst]
    exact List.nodup_range' _ _
  have := hs.map (f := fun n : Nat => (n : Int)) (fun a b h => Int.ofNat.inj h)
  rw [List.map_map] at this
  exact this

/-- C31: the locations of the catalog are, level by level and in map order,
one location for every map object whose type code is in the location-type
table of the game, whose multiplayer-only flag (0x0010) is clear and which is
not marked unreachable, followed by the level-complete location of the level,
and nothing else; the location of an object records the index of the object in
the map, its type code, and its x and y coordinates multiplied by 65536.  The
remap, sort and sector passes keep these records (they permute the list).
Within a level an object that gives a location has its record in the list, no
other record is there, and no two records have the same object index. -/
theorem level_scan_locations (game : game_t) :
    (compile_catalog game).2.ap_locations.map loc_record
      = (make_levels game).flatMap (fun level =>
          ((level.map.things.enumFrom 0).filter
              (fun p => gives_location game level.map_state p.1 p.2)).map
            (fun p => (level.idx.ep, level.idx.map, (p.1 : Int), p.2.type, p.2.x * 65536,
              p.2.y * 65536))
          ++ [(level.idx.ep, level.idx.map, -1, -2, -1, -1)]) ∧
    ((final_catalog game).2.ap_locations.map loc_record).Perm
      ((make_levels game).flatMap (level_loc_records game)) ∧
    ∀ level ∈ make_levels game,
      (∀ r, r ∈ object_records_from game level.map_state level.idx level.map.things 0 ↔
        ∃ (i : Nat) (thing : map_thing_t), level.map.things[i]? = some thing ∧
          (game.location_doom_types.lookup thing.type).isSome = true ∧
          thing.flags &&& 0x0010 = 0 ∧
          (loc_state_at level.map_state i).unreachable = false ∧
          r = (level.idx.ep, level.idx.map, (i : Int), thing.type, thing.x * 65536,
                thing.y * 65536)) ∧
      ((object_records_from game level.map_state level.idx level.map.things 0).map
        (fun r => r.2.2.1)).Nodup := by
  refine ⟨compile_catalog_records game, final_catalog_records game, ?_⟩
  intro level _
  refine ⟨?_, object_records_nodup game level.map_state level.idx level.map.things⟩
  intro r
  rw [object_records_mem]
  constructor
  · rintro ⟨i, thing, hi, hg, rfl⟩
    unfold gives_location at hg
    simp only [Bool.and_eq_true, decide_eq_true_eq, Bool.not_eq_true'] at hg
    exact ⟨i, thing, hi, hg.1.1, hg.1.2, hg.2, rfl⟩
  · rintro ⟨i, thing, hi, h1, h2, h3, rfl⟩
    refine ⟨i, thing, hi, ?_, rfl⟩
    unfold gives_location
    simp [h1, h2, h3]

/-! ## Item name groups: the marker "%MAP%" -/

theorem set_insert_mem (s : List String) (name x : String) :
    x ∈ set_insert s name ↔ x = name ∨ x ∈ s := by
  induction s with
  | nil => simp [set_insert]
  | cons y ys ih =>
    unfold set_insert
    by_cases h1 : name = y
    · subst h1
      simp
    · by_cases h2 : string_less name y = true
      · simp [h1, h2]
      · simp only [h1, h2, if_false, Bool.false_eq_true, List.mem_cons, ih]
        tauto

theorem recorded_in_cons (k : String) (s : List String) (l : List (String × List String))
    (g n : String) :
    recorded_in ((k, s) :: l) g n ↔ ((g = k ∧ n ∈ s) ∨ recorded_in l g n) := by
  unfold recorded_in
  simp only [List.mem_cons, exists_eq_or_imp]
  constructor
  · rintro (⟨h1, h2⟩ | h)
    · exact Or.inl ⟨h1.symm, h2⟩
    · exact Or.inr h
  · rintro (⟨h1, h2⟩ | h)
    · exact Or.inl ⟨h1.symm, h2⟩
    · exact Or.inr h

theorem groups_insert_recorded (m : List (String × List String)) (group name g n : String) :
    recorded_in (groups_insert m group name) g n ↔
      recorded_in m g n ∨ (g = group ∧ n = name) := by
  induction m with
  | nil =>
    unfold groups_insert
    rw [recorded_in_cons]
    simp [recorded_in]
  | cons kv rest ih =>
    obtain ⟨k, s⟩ := kv
    unfold groups_insert
    by_cases h1 : group = k
    · subst h1
      simp only [if_true]
      rw [recorded_in_cons, recorded_in_cons, set_insert_mem]
      tauto
    · by_cases h2 : string_less group k = true
      · simp only [h1, h2, if_false, if_true]
        rw [recorded_in_cons, recorded_in_cons]
        simp only [List.mem_singleton]
        tauto
      · simp only [h1, h2, if_false, Bool.false_eq_true]
        rw [recorded_in_cons, recorded_in_cons, ih]
        tauto

theorem add_item_name_groups_recorded (name : String) (groups : List String) (level : level_t)
    (m : List (String × List String)) (g n : String) :
    recorded_in (add_item_name_groups name groups (some level) m) g n ↔
      recorded_in m g n ∨
        (n = name ∧ ∃ group ∈ groups, group ≠ "" ∧
          g = substitute_map_marker group level.group_name) := by
  unfold add_item_name_groups
  dsimp only
  induction groups generalizing m with
  | nil => simp
  | cons group rest ih =>
    rw [List.foldl_cons, ih]
    by_cases he : group = ""
    · simp only [he, if_true, List.mem_cons, exists_eq_or_imp, ne_eq, not_true_eq_false,
        false_and, false_or]
    · simp only [he, if_false, groups_insert_recorded, List.mem_cons, exists_eq_or_imp, ne_eq,
        not_false_eq_true, true_and]
      tauto

theorem replace_first_split (pat : List Char) (hp : pat ≠ []) (s : List Char) :
    ((¬ ∃ pre post : List Char, s = pre ++ pat ++ post) ∧
        ∀ rep, replace_first pat rep s = s) ∨
    ∃ pre post : List Char, first_occurrence pat pre post s ∧
      ∀ rep, replace_first pat rep s = pre ++ rep ++ post := by
  induction s with
  | nil =>
    left
    refine ⟨?_, fun _ => rfl⟩
    rintro ⟨pre, post, h⟩
    have := congrArg List.length h
    simp at this
    have hz : pat.length = 0 := by omega
    exact hp (List.length_eq_zero.mp hz)
  | cons c cs ih =>
    by_cases hpre : pat.isPrefixOf (c :: cs) = true
    · right
      obtain ⟨t, ht⟩ := List.isPrefixOf_iff_prefix.mp hpre
      refine ⟨[], t, ⟨by simp [ht], fun _ _ _ => Nat.zero_le _⟩, ?_⟩
      intro rep
      unfold replace_first
      rw [if_pos hpre, ← ht]
      simp
    · have hno : ∀ post : List Char, c :: cs ≠ pat ++ post := by
        intro post h
        exact hpre (List.isPrefixOf_iff_prefix.mpr ⟨post, h.symm⟩)
      have hstep : ∀ rep, replace_first pat rep (c :: cs) = c :: replace_first pat rep cs := by
        intro rep
        conv_lhs => unfold replace_first
        rw [if_neg hpre]
      have hshift : ∀ pre' post' : List Char, c :: cs = pre' ++ pat ++ post' →
          ∃ p, pre' = c :: p ∧ cs = p ++ pat ++ post' := by
        intro pre' post' h
        cases pre' with
        | nil => exact absurd (by simpa using h) (hno post')
        | cons d p =>
          simp only [List.cons_append, List.cons.injEq] at h
          exact ⟨p, by rw [h.1], h.2⟩
      rcases ih with ⟨hnone, hsame⟩ | ⟨pre, post, ⟨hs, hfirst⟩, hrep⟩
      · left
        refine ⟨?_, fun rep => by rw [hstep, hsame]⟩
        rintro ⟨pre', post', h⟩
        obtain ⟨p, _, hcs⟩ := hshift pre' post' h
        exact hnone ⟨p, post', hcs⟩
      · right
        refine ⟨c :: pre, post, ⟨by rw [hs]; simp, ?_⟩, fun rep => by rw [hstep, hrep]; simp⟩
        intro pre' post' h
        obtain ⟨p, hp', hcs⟩ := hshift pre' post' h
        rw [hp']
        simp only [List.length_cons]
        exact Nat.succ_le_succ (hfirst p post' hcs)

theorem first_occurrence_unique (pat pre post pre' post' s : List Char)
    (h : first_occurrence pat pre post s) (h' : first_occurrence pat pre' post' s) :
    pre = pre' ∧ post = post' := by
  have hl : pre.length = pre'.length := le_antisymm (h.2 pre' post' h'.1) (h'.2 pre post h.1)
  have he : pre ++ (pat ++ post) = pre' ++ (pat ++ post') := by
    rw [← List.append_assoc, ← List.append_assoc, ← h.1, ← h'.1]
  obtain ⟨e1, e2⟩ := List.append_inj he hl
  exact ⟨e1, List.append_cancel_left e2⟩

theorem split_after (x : Char) (pre l a r : List Char) (hx : x ∉ pre)
    (h : pre ++ l = a ++ x :: r) : ∃ a', a = pre ++ a' ∧ l = a' ++ x :: r := by
  rcases List.append_eq_append_iff.mp h with ⟨a', h1, h2⟩ | ⟨c', h1, h2⟩
  · exact ⟨a', h1, h2⟩
  · cases c' with
    | nil => exact ⟨[], by simpa using h1.symm, by simpa using h2.symm⟩
    | cons d c'' =>
      simp only [List.cons_append, List.cons.injEq] at h2
      exact absurd (by rw [h1, h2.1]; simp) hx

theorem split_before (x : Char) (l post u b : List Char) (hx : x ∉ post)
    (h : l ++ post = u ++ x :: b) : ∃ b', b = b' ++ post ∧ l = u ++ x :: b' := by
  rcases List.append_eq_append_iff.mp h with ⟨a', h1, h2⟩ | ⟨c', h1, h2⟩
  · exact absurd (by rw [h2]; simp) hx
  · cases c' with
    | nil =>
      have h3 : post = x :: b := by simpa using h2.symm
      exact absurd (by rw [h3]; simp) hx
    | cons d c'' =>
      simp only [List.cons_append, List.cons.injEq] at h2
      exact ⟨c'', h2.2, by rw [h1, h2.1]⟩

/-- A text put together from three parts holds the marker inside the middle
part when the outer parts are without the character "%". -/
theorem marker_inside (pre l post a b : List Char) (h1 : '%' ∉ pre) (h2 : '%' ∉ post)
    (h : pre ++ l ++ post = a ++ map_marker ++ b) :
    ∃ a' b' : List Char, l = a' ++ map_marker ++ b' := by
  have e1 : pre ++ (l ++ post) = a ++ '%' :: (['M', 'A', 'P', '%'] ++ b) := by
    rw [← List.append_assoc, h]
    simp [map_marker]
  obtain ⟨a', _, ha'⟩ := split_after '%' pre (l ++ post) a _ h1 e1
  have e2 : l ++ post = (a' ++ ['%', 'M', 'A', 'P']) ++ '%' :: b := by
    rw [ha']
    simp
  obtain ⟨b', _, hb'⟩ := split_before '%' l post _ b h2 e2
  exact ⟨a', b', by rw [hb']; simp [map_marker]⟩

/-- C32, counterexample: a unique item template whose group name holds the
marker twice is recorded, for the level with group label "E1M1", under the
group name "E1M1%MAP%": only the first marker is replaced, the recorded name
contains the marker and the group label does not. -/
theorem second_marker_kept :
    (add_item item_def_two_markers PROGRESSION (some level00) empty_state).item_name_groups
      = [("E1M1%MAP%", ["L1 - Map"])] ∧
    level00.group_name = "E1M1" ∧
    contains_marker "E1M1%MAP%" ∧ ¬ contains_marker level00.group_name := by
  refine ⟨by decide, rfl, ⟨"E1M1".data, [], by decide⟩, ?_⟩
  rintro ⟨pre, post, h⟩
  have hm : '%' ∈ level00.group_name.data := by
    rw [h]
    simp [map_marker]
  revert hm
  decide

/-- C32 (amended): for a level-scoped item, `add_item_name_groups` records the
name of the item in the set of each non-empty group name after replacing the
first occurrence of the marker "%MAP%" in the group name by the group label of
the level (a group name without the marker is taken as it is), and records the
name nowhere else.  The group name recorded contains "%MAP%" only if the group
label contains it or the group name holds a "%" outside its first marker. -/
theorem group_marker_substitution (name : String) (groups : List String) (level : level_t)
    (m : List (String × List String)) (group : String) (hg : group ∈ groups)
    (hne : group ≠ "") :
    recorded_in (add_item_name_groups name groups (some level) m)
      (substitute_map_marker group level.group_name) name ∧
    (¬ contains_marker group → substitute_map_marker group level.group_name = group) ∧
    (∀ pre post : List Char, first_occurrence map_marker pre post group.data →
      substitute_map_marker group level.group_name
        = String.mk (pre ++ level.group_name.data ++ post)) ∧
    (contains_marker (substitute_map_marker group level.group_name) →
      contains_marker level.group_name ∨
      ∃ pre post : List Char, first_occurrence map_marker pre post group.data ∧
        ('%' ∈ pre ∨ '%' ∈ post)) ∧
    (∀ g n : String, recorded_in (add_item_name_groups name groups (some level) m) g n →
      recorded_in m g n ∨
        (n = name ∧ ∃ group' ∈ groups, group' ≠ "" ∧
          g = substitute_map_marker group' level.group_name)) := by
  have hsplit := replace_first_split map_marker (by decide) group.data
  refine ⟨?_, ?_, ?_, ?_, ?_⟩
  · rw [add_item_name_groups_recorded]
    exact Or.inr ⟨rfl, group, hg, hne, rfl⟩
  · intro hno
    rcases hsplit with ⟨_, hsame⟩ | ⟨pre, post, ⟨hs, _⟩, _⟩
    · unfold substitute_map_marker
      show String.mk (replace_first map_marker level.group_name.data group.data) = group
      rw [hsame]
    · exact absurd ⟨pre, post, hs⟩ hno
  · intro pre post hfirst
    rcases hsplit with ⟨hnone, _⟩ | ⟨pre0, post0, hfirst0, hrep⟩
    · exact absurd ⟨pre, post, hfirst.1⟩ hnone
    · obtain ⟨e1, e2⟩ := first_occurrence_unique _ _ _ _ _ _ hfirst hfirst0
      unfold substitute_map_marker
      show String.mk (replace_first map_marker level.group_name.data group.data) = _
      rw [hrep, e1, e2]
  · rintro ⟨a, b, hab⟩
    rcases hsplit with ⟨hnone, hsame⟩ | ⟨pre, post, hfirst, hrep⟩
    · exfalso
      apply hnone
      refine ⟨a, b, ?_⟩
      rw [← hab]
      unfold substitute_map_marker
      show group.data = replace_first map_marker level.group_name.data group.data
      rw [hsame]
    · by_cases h1 : '%' ∈ pre
      · exact Or.inr ⟨pre, post, hfirst, Or.inl h1⟩
      · by_cases h2 : '%' ∈ post
        · exact Or.inr ⟨pre, post, hfirst, Or.inr h2⟩
        · left
          have hk : pre ++ level.group_name.data ++ post = a ++ map_marker ++ b := by
            rw [← hab, ← hrep]
            rfl
          exact marker_inside pre level.group_name.data post a b h1 h2 hk
  · intro g n h
    exact (add_item_name_groups_recorded name groups level m g n).mp h

/-- Instance of `group_marker_substitution`: the group name "%MAP%" of the
level-unlock item, for the level with group label "E1M1". -/
theorem group_marker_substitution_witness :
    "%MAP%" ∈ level_unlock_item.groups ∧
    recorded_in (add_item_name_groups "L1" level_unlock_item.groups (some level00) [])
      "E1M1" "L1" ∧
    ¬ contains_marker "E1M1" := by
  have h := group_marker_substitution "L1" level_unlock_item.groups level00 [] "%MAP%"
    (by decide) (by decide)
  have hk : substitute_map_marker "%MAP%" level00.group_name = "E1M1" := by decide
  rw [hk] at h
  refine ⟨by decide, h.1, ?_⟩
  intro hc
  rcases h.2.2.2.1 hc with ⟨pre, post, hl⟩ | ⟨pre, post, hfirst, hpp⟩
  · have hm : '%' ∈ level00.group_name.data := by
      rw [hl]
      simp [map_marker]
    revert hm
    decide
  · have h0 : first_occurrence map_marker [] [] "%MAP%".data :=
      ⟨rfl, fun _ _ _ => Nat.zero_le _⟩
    obtain ⟨e1, e2⟩ := first_occurrence_unique _ _ _ _ _ _ hfirst h0
    rw [e1, e2] at hpp
    simp at hpp

/-! ## World options: the lines of a hook point -/

theorem known_option_lookup (L : library_t) (opt_name : String)
    (h : known_option L opt_name = true) :
    ∃ handler, (handlers L).lookup opt_name = some handler := by
  unfold known_option at h
  cases hl : (handlers L).lookup opt_name with
  | none => rw [hl] at h; cases h
  | some handler => exact ⟨handler, rfl⟩

/-- C33: for every hook point and every number of line breaks that is not
negative, `WorldOptions_GetAllHooks` returns, in this order, the block of the
custom lines of the game for the hook point and then the blocks of the
initialized options in the order of the initialized-option list, which after
`WorldOptions_Init` is the declaration order of the configured options with a
known name.  The custom block is empty when the game has no entry for the
hook point, and otherwise the begin marker line, the lines of the game, the
end marker line and `line_breaks` empty lines.  The block of an option is
empty when its handler gives no line for the hook point, and otherwise the
begin marker line naming the option, the lines of the handler, the end marker
line naming the option and `line_breaks` empty lines.  The number of lines is
taken to be below 2^64, the range of `size_t`. -/
theorem GetAllHooks_blocks (L : library_t) (game : game_t) (hook_type : String)
    (line_breaks : Nat) (w : world_opt_state)
    (hsize : (custom_hook_block game hook_type line_breaks
        ++ w.initialized_world_options.flatMap
            (option_hook_block L game hook_type line_breaks w)).length
      < 18446744073709551616) :
    WorldOptions_GetAllHooks L game hook_type (line_breaks : Int) w
      = custom_hook_block game hook_type line_breaks
          ++ w.initialized_world_options.flatMap
              (option_hook_block L game hook_type line_breaks w) ∧
    (game.world_hooks.lookup hook_type = none →
      custom_hook_block game hook_type line_breaks = []) ∧
    (∀ lines, game.world_hooks.lookup hook_type = some lines →
      custom_hook_block game hook_type line_breaks
        = ["######## Custom code for this world begins here ########"] ++ lines
          ++ ["######## Custom code for this world ends here ########"]
          ++ List.replicate line_breaks "") ∧
    (∀ opt_name handler, (handlers L).lookup opt_name = some handler →
      (handler.mix_worldhooks game hook_type w [] = [] →
        option_hook_block L game hook_type line_breaks w opt_name = []) ∧
      (handler.mix_worldhooks game hook_type w [] ≠ [] →
        option_hook_block L game hook_type line_breaks w opt_name
          = ["######## Custom code for world option '" ++ opt_name ++ "' begins here ########"]
            ++ handler.mix_worldhooks game hook_type w []
            ++ ["######## Custom code for world option '" ++ opt_name ++ "' ends here ########"]
            ++ List.replicate line_breaks "")) ∧
    (∀ w0 : world_opt_state, w = (WorldOptions_Init L game w0).2 →
      w.initialized_world_options = (configured_names L game).filter (known_option L) ∧
      ∀ opt_name ∈ w.initialized_world_options,
        ∃ handler, (handlers L).lookup opt_name = some handler) := by
  refine ⟨GetAllHooks_eq L game hook_type line_breaks w hsize, ?_, ?_, ?_, ?_⟩
  · intro h
    unfold custom_hook_block
    rw [h]
  · intro lines h
    unfold custom_hook_block
    rw [h]
  · intro opt_name handler h
    unfold option_hook_block
    rw [h]
    constructor
    · intro he
      simp [he]
    · intro hne
      simp [hne]
  · intro w0 hw
    have h3 := (Init_fold L game game.json_world_options.elements
      (0, { w0 with initialized_world_options := [] })).2.2
    have hi : w.initialized_world_options
        = (configured_names L game).filter (known_option L) := by
      rw [hw]
      unfold WorldOptions_Init configured_names
      rw [h3]
      simp
    refine ⟨hi, ?_⟩
    intro opt_name hmem
    rw [hi] at hmem
    exact known_option_lookup L opt_name (List.mem_filter.mp hmem).2

/-- Instance of `GetAllHooks_blocks`: the hook point "create_item" of a game
with two custom lines for it and the options "Start with Maps", "Speed"
(unknown) and "Invis as Trap", with two line breaks.  The option "Start with
Maps" has no line for this hook point and contributes none. -/
theorem GetAllHooks_blocks_witness :
    WorldOptions_GetAllHooks library_plain game_with_hooks "create_item" 2
        (WorldOptions_Init library_plain game_with_hooks world_opt_start).2
      = ["######## Custom code for this world begins here ########", "x = 1", "y = 2",
         "######## Custom code for this world ends here ########", "", "",
         "######## Custom code for world option 'Invis as Trap' begins here ########",
         "invis_trap = self.options._no_item__as_trap",
         "if invis_trap.value and item_data.doom_type == invis_trap.doom_type:",
         "    classification = AP.ItemClassification.trap",
         "######## Custom code for world option 'Invis as Trap' ends here ########", "", ""] :=
  (GetAllHooks_blocks library_plain game_with_hooks "create_item" 2
    (WorldOptions_Init library_plain game_with_hooks world_opt_start).2 (by decide)).1.trans
    (by decide)

/-! ## The archive writer: the fields of the two headers of an entry -/

theorem lfh_fields (e : ZipEntry) :
    bytes_at (lfh_bytes e) 0 4 = [80, 75, 3, 4] ∧
    bytes_at (lfh_bytes e) 6 2 = short_bytes (if e.compression ≠ 0 then 2 else 0) ∧
    bytes_at (lfh_bytes e) 8 2 = short_bytes e.compression ∧
    bytes_at (lfh_bytes e) 10 2 = short_bytes e.modtime ∧
    bytes_at (lfh_bytes e) 12 2 = short_bytes e.moddate ∧
    bytes_at (lfh_bytes e) 14 4 = long_bytes e.checksum ∧
    bytes_at (lfh_bytes e) 18 4 = long_bytes e.buffer.length ∧
    bytes_at (lfh_bytes e) 22 4 = long_bytes e.uncomp_size ∧
    bytes_at (lfh_bytes e) 26 2 = short_bytes e.path.length ∧
    bytes_at (lfh_bytes e) 30 e.path.length = e.path ∧
    (lfh_bytes e).drop (30 + e.path.length) = e.buffer := by
  have hd : (lfh_bytes e).drop 30 = e.path ++ e.buffer := by
    simp [lfh_bytes, short_bytes, long_bytes]
  refine ⟨?_, ?_, ?_, ?_, ?_, ?_, ?_, ?_, ?_, ?_, ?_⟩
  · simp [bytes_at, lfh_bytes, short_bytes, long_bytes]
  · simp [bytes_at, lfh_bytes, short_bytes, long_bytes]
  · simp [bytes_at, lfh_bytes, short_bytes, long_bytes]
  · simp [bytes_at, lfh_bytes, short_bytes, long_bytes]
  · simp [bytes_at, lfh_bytes, short_bytes, long_bytes]
  · simp [bytes_at, lfh_bytes, short_bytes, long_bytes]
  · simp [bytes_at, lfh_bytes, short_bytes, long_bytes]
  · simp [bytes_at, lfh_bytes, short_bytes, long_bytes]
  · simp [bytes_at, lfh_bytes, short_bytes, long_bytes]
  · unfold bytes_at
    rw [hd]
    exact List.take_left' rfl
  · rw [← List.drop_drop, hd]
    exact List.drop_left' rfl

theorem cdfh_fields (e : ZipEntry) :
    bytes_at (cdfh_bytes e) 0 4 = [80, 75, 1, 2] ∧
    bytes_at (cdfh_bytes e) 8 2 = short_bytes (if e.compression ≠ 0 then 2 else 0) ∧
    bytes_at (cdfh_bytes e) 10 2 = short_bytes e.compression ∧
    bytes_at (cdfh_bytes e) 12 2 = short_bytes e.modtime ∧
    bytes_at (cdfh_bytes e) 14 2 = short_bytes e.moddate ∧
    bytes_at (cdfh_bytes e) 16 4 = long_bytes e.checksum ∧
    bytes_at (cdfh_bytes e) 20 4 = long_bytes e.buffer.length ∧
    bytes_at (cdfh_bytes e) 24 4 = long_bytes e.uncomp_size ∧
    bytes_at (cdfh_bytes e) 28 2 = short_bytes e.path.length ∧
    bytes_at (cdfh_bytes e) 46 e.path.length = e.path := by
  have hd : (cdfh_bytes e).drop 46 = e.path := by
    simp [cdfh_bytes, short_bytes, long_bytes]
  refine ⟨?_, ?_, ?_, ?_, ?_, ?_, ?_, ?_, ?_, ?_⟩
  · simp [bytes_at, cdfh_bytes, short_bytes, long_bytes]
  · simp [bytes_at, cdfh_bytes, short_bytes, long_bytes]
  · simp [bytes_at, cdfh_bytes, short_bytes, long_bytes]
  · simp [bytes_at, cdfh_bytes, short_bytes, long_bytes]
  · simp [bytes_at, cdfh_bytes, short_bytes, long_bytes]
  · simp [bytes_at, cdfh_bytes, short_bytes, long_bytes]
  · simp [bytes_at, cdfh_bytes, short_bytes, long_bytes]
  · simp [bytes_at, cdfh_bytes, short_bytes, long_bytes]
  · simp [bytes_at, cdfh_bytes, short_bytes, long_bytes]
  · unfold bytes_at
    rw [hd]
    exact List.take_length e.path

/-! ## The archive writer: an entry whose compression does not finish -/

theorem huge_data_length : huge_data.length = 4294967296 := List.length_replicate _ _

theorem DoCompress_checksum_wrapped (zlib : zlib_t) (entry : ZipEntry) (origbuf : List Nat)
    (h : origbuf.length % 4294967296 = 0) :
    (ZipEntry.DoCompress zlib entry origbuf).checksum = zlib.crc32 [] % 4294967296 := by
  unfold ZipEntry.DoCompress
  dsimp only
  rw [h]
  split <;> rfl

theorem DoCompress_fields (zlib : zlib_t) (entry : ZipEntry) (origbuf : List Nat) :
    (ZipEntry.DoCompress zlib entry origbuf).path = entry.path ∧
    (ZipEntry.DoCompress zlib entry origbuf).checksum
      = zlib.crc32 (origbuf.take (origbuf.length % 4294967296)) % 4294967296 ∧
    (ZipEntry.DoCompress zlib entry origbuf).uncomp_size = origbuf.length % 4294967296 ∧
    (zlib.deflate (origbuf.take (origbuf.length % 4294967296)) = none →
      (ZipEntry.DoCompress zlib entry origbuf).compression = 0 ∧
      (ZipEntry.DoCompress zlib entry origbuf).buffer = origbuf) ∧
    (∀ compressed, zlib.deflate (origbuf.take (origbuf.length % 4294967296)) = some compressed →
      (ZipEntry.DoCompress zlib entry origbuf).compression = 8 ∧
      (ZipEntry.DoCompress zlib entry origbuf).buffer = compressed) := by
  unfold ZipEntry.DoCompress
  dsimp only
  cases hd : zlib.deflate (origbuf.take (origbuf.length % 4294967296)) with
  | none => exact ⟨rfl, rfl, rfl, fun _ => ⟨rfl, rfl⟩, fun _ hc => (by cases hc)⟩
  | some c =>
    refine ⟨rfl, rfl, rfl, fun hc => (by cases hc), fun compressed hc => ?_⟩
    cases hc
    exact ⟨rfl, rfl⟩

theorem entry_agree (zlib1 zlib2 : zlib_t) (a : zip_add)
    (h : zlib_agree_on zlib1 zlib2 a.data) : a.entry zlib1 = a.entry zlib2 := by
  obtain ⟨h1, h2⟩ := h
  cases a with
  | sstream p s d t =>
    simp only [zip_add.data] at h1 h2
    simp only [zip_add.entry, ZipEntry.make, ZipEntry.DoCompress, h1, h2]
  | file p f d t =>
    simp only [zip_add.data] at h1 h2
    simp only [zip_add.entry, ZipEntry.make, ZipEntry.DoCompress, h1, h2]

/-- C34, counterexample: an entry of 2^32 bytes whose compression does not
finish is stored with method 0 and has the checksum of the empty block,
whatever its bytes are and whatever checksum function is used: `crc32` takes
the length as a 32-bit number.  With a checksum that tells the empty block
from the others, this is not the checksum of the original bytes. -/
theorem huge_entry_checksum_of_empty_block :
    (∀ zlib : zlib_t,
      (ZipEntry.DoCompress zlib (entry_fresh [97]) huge_data).checksum
        = zlib.crc32 [] % 4294967296) ∧
    zlib_marking.deflate (huge_data.take (huge_data.length % 4294967296)) = none ∧
    (ZipEntry.DoCompress zlib_marking (entry_fresh [97]) huge_data).compression = 0 ∧
    (ZipEntry.DoCompress zlib_marking (entry_fresh [97]) huge_data).checksum
      ≠ zlib_marking.crc32 huge_data % 4294967296 := by
  have hl : huge_data.length % 4294967296 = 0 := by rw [huge_data_length]
  have hne : huge_data ≠ [] := by
    intro h
    have := congrArg List.length h
    rw [huge_data_length] at this
    cases this
  refine ⟨fun zlib => DoCompress_checksum_wrapped zlib _ _ hl, rfl, ?_, ?_⟩
  · exact ((DoCompress_fields zlib_marking (entry_fresh [97]) huge_data).2.2.2.1 rfl).1
  · rw [DoCompress_checksum_wrapped zlib_marking _ _ hl]
    have h1 : zlib_marking.crc32 huge_data = 1 := by
      show (if huge_data = [] then 0 else 1) = 1
      rw [if_neg hne]
    rw [h1]
    decide

/-- C34 (amended): for an entry of fewer than 2^32 original bytes.  When
DEFLATE does not finish, the entry is stored with method 0: its stored data
are the original bytes, its compressed size is its uncompressed size, the
flags written in both headers are 0, and its checksum is the 32-bit value of
the CRC-32 of the original bytes.  When DEFLATE finishes, the entry has method
8, the flags written are 2, the stored data are the DEFLATE stream, and
checksum and uncompressed size are those of the original bytes.  An add call
appends its entry and leaves the entries before it as they are, and the entry
it makes depends on the answers of zlib for its own bytes only: two zlib that
answer alike for these bytes give the same entry, whatever they answer for the
bytes of the other entries. -/
theorem compress_fallback (zlib : zlib_t) (entry : ZipEntry) (origbuf : List Nat)
    (hsize : origbuf.length < 4294967296) :
    (zlib.deflate origbuf = none →
      (ZipEntry.DoCompress zlib entry origbuf).compression = 0 ∧
      (ZipEntry.DoCompress zlib entry origbuf).buffer = origbuf ∧
      (ZipEntry.DoCompress zlib entry origbuf).buffer.length
        = (ZipEntry.DoCompress zlib entry origbuf).uncomp_size ∧
      (ZipEntry.DoCompress zlib entry origbuf).checksum = zlib.crc32 origbuf % 4294967296 ∧
      bytes_at (lfh_bytes (ZipEntry.DoCompress zlib entry origbuf)) 6 2 = short_bytes 0 ∧
      bytes_at (lfh_bytes (ZipEntry.DoCompress zlib entry origbuf)) 8 2 = short_bytes 0 ∧
      bytes_at (lfh_bytes (ZipEntry.DoCompress zlib entry origbuf)) 18 4
        = bytes_at (lfh_bytes (ZipEntry.DoCompress zlib entry origbuf)) 22 4 ∧
      (lfh_bytes (ZipEntry.DoCompress zlib entry origbuf)).drop (30 + entry.path.length)
        = origbuf ∧
      bytes_at (cdfh_bytes (ZipEntry.DoCompress zlib entry origbuf)) 8 2 = short_bytes 0 ∧
      bytes_at (cdfh_bytes (ZipEntry.DoCompress zlib entry origbuf)) 10 2 = short_bytes 0) ∧
    (∀ compressed, zlib.deflate origbuf = some compressed →
      (ZipEntry.DoCompress zlib entry origbuf).compression = 8 ∧
      (ZipEntry.DoCompress zlib entry origbuf).buffer = compressed ∧
      (ZipEntry.DoCompress zlib entry origbuf).uncomp_size = origbuf.length ∧
      (ZipEntry.DoCompress zlib entry origbuf).checksum = zlib.crc32 origbuf % 4294967296 ∧
      bytes_at (lfh_bytes (ZipEntry.DoCompress zlib entry origbuf)) 6 2 = short_bytes 2 ∧
      bytes_at (lfh_bytes (ZipEntry.DoCompress zlib entry origbuf)) 8 2 = short_bytes 8 ∧
      bytes_at (cdfh_bytes (ZipEntry.DoCompress zlib entry origbuf)) 8 2 = short_bytes 2 ∧
      bytes_at (cdfh_bytes (ZipEntry.DoCompress zlib entry origbuf)) 10 2 = short_bytes 8) ∧
    (∀ (adds : List zip_add) (entries : List ZipEntry),
      ZipFile.add_all zlib adds entries = entries ++ adds.map (zip_add.entry zlib)) ∧
    (∀ (zlib' : zlib_t) (adds : List zip_add) (k : Nat) (a : zip_add),
      adds[k]? = some a → zlib_agree_on zlib zlib' a.data →
      (ZipFile.add_all zlib adds [])[k]? = (ZipFile.add_all zlib' adds [])[k]?) := by
  have hm : origbuf.length % 4294967296 = origbuf.length := Nat.mod_eq_of_lt hsize
  obtain ⟨f1, f2, f3, f4, f5⟩ := DoCompress_fields zlib entry origbuf
  rw [hm, List.take_length] at f2 f4 f5
  rw [hm] at f3
  obtain ⟨_, l6, l8, _, _, _, l18, l22, _, _, ldata⟩ :=
    lfh_fields (ZipEntry.DoCompress zlib entry origbuf)
  obtain ⟨_, c8, c10, _⟩ := cdfh_fields (ZipEntry.DoCompress zlib entry origbuf)
  refine ⟨?_, ?_, fun adds entries => add_all_eq zlib adds entries, ?_⟩
  · intro hnone
    obtain ⟨g1, g2⟩ := f4 hnone
    refine ⟨g1, g2, by rw [g2, f3], f2, ?_, ?_, ?_, ?_, ?_, ?_⟩
    · rw [l6, g1]; rfl
    · rw [l8, g1]
    · rw [l18, l22, g2, f3]
    · rw [← f1, ldata, g2]
    · rw [c8, g1]; rfl
    · rw [c10, g1]
  · intro compressed hsome
    obtain ⟨g1, g2⟩ := f5 compressed hsome
    refine ⟨g1, g2, f3, f2, ?_, ?_, ?_, ?_⟩
    · rw [l6, g1]; rfl
    · rw [l8, g1]
    · rw [c8, g1]; rfl
    · rw [c10, g1]
  · intro zlib' adds k a hk hagree
    rw [add_all_eq, add_all_eq, List.nil_append, List.nil_append, List.getElem?_map,
      List.getElem?_map, hk]
    simp only [Option.map_some']
    rw [entry_agree zlib zlib' a hagree]

/-- Instance of `compress_fallback`: the seven bytes of a JSON object, with a
zlib whose DEFLATE never finishes. -/
theorem compress_fallback_witness :
    (ZipEntry.DoCompress zlib_stored (entry_fresh [97]) [123, 34, 120, 34, 58, 49, 125]).compression
      = 0 ∧
    (ZipEntry.DoCompress zlib_stored (entry_fresh [97]) [123, 34, 120, 34, 58, 49, 125]).buffer
      = [123, 34, 120, 34, 58, 49, 125] ∧
    bytes_at (lfh_bytes
      (ZipEntry.DoCompress zlib_stored (entry_fresh [97]) [123, 34, 120, 34, 58, 49, 125])) 6 2
      = [0, 0] :=
  have h := (compress_fallback zlib_stored (entry_fresh [97]) [123, 34, 120, 34, 58, 49, 125]
    (by decide)).1 rfl
  ⟨h.1, h.2.1, h.2.2.2.2.1⟩

/-! ## The archive writer: both headers of an entry carry the same fields -/

theorem le_value_short_mod (i : Nat) : le_value (short_bytes i) = i % 65536 := by
  have h := le_value_short (i % 65536) (Nat.mod_lt _ (by decide))
  unfold short_bytes at h ⊢
  rw [Nat.mod_mod] at h
  exact h

theorem le_value_long_mod (i : Nat) : le_value (long_bytes i) = i % 4294967296 := by
  have h := le_value_long (i % 4294967296) (Nat.mod_lt _ (by decide))
  unfold long_bytes at h ⊢
  rw [Nat.mod_mod] at h
  exact h

/-- C40: `Finalize` writes for every entry a Local File Header (followed by
the data) and a Central Directory File Header, and for the k-th entry the two
carry the same bytes in the fields general-purpose flags, compression method,
modification time, modification date, CRC-32, compressed size, uncompressed
size and file-name length, and the same file name; each of these fields is the
little-endian encoding of the value of the entry reduced to the 16 or 32 bits
of the field.  The paths and the stored data are shorter than 2^31 bytes, the
range of the length `Write` takes. -/
theorem headers_carry_same_fields (entries : List ZipEntry)
    (h : ∀ e ∈ entries, e.path.length < 2147483648 ∧ e.buffer.length < 2147483648) :
    (∃ eocd : List Nat,
      ZipFile.Finalize true entries
        = some
            { returned := true
              written := entries.flatMap lfh_bytes
                ++ (with_offsets 0 entries).flatMap cdfh_bytes ++ eocd }) ∧
    (with_offsets 0 entries).length = entries.length ∧
    ∀ (k : Nat) (e : ZipEntry), entries[k]? = some e →
      ∃ e' : ZipEntry, (with_offsets 0 entries)[k]? = some e' ∧
        bytes_at (lfh_bytes e) 0 4 = [80, 75, 3, 4] ∧
        bytes_at (cdfh_bytes e') 0 4 = [80, 75, 1, 2] ∧
        bytes_at (lfh_bytes e) 6 2 = bytes_at (cdfh_bytes e') 8 2 ∧
        le_value (bytes_at (lfh_bytes e) 6 2) = (if e.compression ≠ 0 then 2 else 0) ∧
        bytes_at (lfh_bytes e) 8 2 = bytes_at (cdfh_bytes e') 10 2 ∧
        le_value (bytes_at (lfh_bytes e) 8 2) = e.compression % 65536 ∧
        bytes_at (lfh_bytes e) 10 2 = bytes_at (cdfh_bytes e') 12 2 ∧
        le_value (bytes_at (lfh_bytes e) 10 2) = e.modtime % 65536 ∧
        bytes_at (lfh_bytes e) 12 2 = bytes_at (cdfh_bytes e') 14 2 ∧
        le_value (bytes_at (lfh_bytes e) 12 2) = e.moddate % 65536 ∧
        bytes_at (lfh_bytes e) 14 4 = bytes_at (cdfh_bytes e') 16 4 ∧
        le_value (bytes_at (lfh_bytes e) 14 4) = e.checksum % 4294967296 ∧
        bytes_at (lfh_bytes e) 18 4 = bytes_at (cdfh_bytes e') 20 4 ∧
        le_value (bytes_at (lfh_bytes e) 18 4) = e.buffer.length % 4294967296 ∧
        bytes_at (lfh_bytes e) 22 4 = bytes_at (cdfh_bytes e') 24 4 ∧
        le_value (bytes_at (lfh_bytes e) 22 4) = e.uncomp_size % 4294967296 ∧
        bytes_at (lfh_bytes e) 26 2 = bytes_at (cdfh_bytes e') 28 2 ∧
        le_value (bytes_at (lfh_bytes e) 26 2) = e.path.length % 65536 ∧
        bytes_at (lfh_bytes e) 30 e.path.length = bytes_at (cdfh_bytes e') 46 e.path.length ∧
        bytes_at (lfh_bytes e) 30 e.path.length = e.path := by
  refine ⟨⟨_, Finalize_eq entries h⟩, with_offsets_length 0 entries, ?_⟩
  intro k e hk
  refine ⟨_, with_offsets_get 0 entries k e hk, ?_⟩
  obtain ⟨l0, l6, l8, l10, l12, l14, l18, l22, l26, l30, _⟩ := lfh_fields e
  obtain ⟨c0, c8, c10, c12, c14, c16, c20, c24, c28, c46⟩ := cdfh_fields
    { e with
      offset := (0 + ((entries.take k).map
        (fun e => 30 + e.path.length + e.buffer.length)).sum) % 4294967296 }
  refine ⟨l0, c0, l6.trans c8.symm, ?_, l8.trans c10.symm, ?_, l10.trans c12.symm, ?_,
    l12.trans c14.symm, ?_, l14.trans c16.symm, ?_, l18.trans c20.symm, ?_,
    l22.trans c24.symm, ?_, l26.trans c28.symm, ?_, l30.trans c46.symm, l30⟩
  · rw [l6, le_value_short_mod]
    split <;> rfl
  · rw [l8, le_value_short_mod]
  · rw [l10, le_value_short_mod]
  · rw [l12, le_value_short_mod]
  · rw [l14, le_value_long_mod]
  · rw [l18, le_value_long_mod]
  · rw [l22, le_value_long_mod]
  · rw [l26, le_value_short_mod]

/-- Instance of `headers_carry_same_fields`: the two text entries "a.json" and
"b.py", stored; the second one has a name of four bytes in both headers. -/
theorem headers_carry_same_fields_witness :
    (∀ e ∈ ZipFile.add_all zlib_stored two_text_adds [],
      e.path.length < 2147483648 ∧ e.buffer.length < 2147483648) ∧
    ∃ e e' : ZipEntry,
      (ZipFile.add_all zlib_stored two_text_adds [])[1]? = some e ∧
      (with_offsets 0 (ZipFile.add_all zlib_stored two_text_adds []))[1]? = some e' ∧
      bytes_at (lfh_bytes e) 26 2 = bytes_at (cdfh_bytes e') 28 2 ∧
      le_value (bytes_at (lfh_bytes e) 26 2) = 4 := by
  have h1 : ∀ e ∈ ZipFile.add_all zlib_stored two_text_adds [],
      e.path.length < 2147483648 ∧ e.buffer.length < 2147483648 := by decide
  obtain ⟨e', g1, g2⟩ := (headers_carry_same_fields
    (ZipFile.add_all zlib_stored two_text_adds []) h1).2.2 1
    (zip_add.entry zlib_stored
      (zip_add.sstream ("b.py".data.map Char.toNat) ("print(1)\n".data.map Char.toNat) 0 0))
    rfl
  exact ⟨h1, _, e', rfl, g1, g2.2.2.2.2.2.2.2.2.2.2.2.2.2.2.2.2.1,
    g2.2.2.2.2.2.2.2.2.2.2.2.2.2.2.2.2.2.1⟩

/-! ## Location ids: the id map is injective within the bounds -/

theorem take_filter_length_le {α : Type} (p : α → Bool) (l : List α) (n : Nat) :
    ((l.take n).filter p).length ≤ (l.filter p).length :=
  ((List.take_sublist n l).filter p).length_le

set_option maxRecDepth 100000 in
/-- C35, as stated, fails past the range of `int`: the id computed for
(ep, map, k) = (42949, 67, 296) is 101000, the id computed for (0, 0, 0).  In a
game of 42950 episodes whose first episode has one map and whose last episode
has 68 maps, the last of them with 296 eligible objects (no episode with more
than 99 maps, no level with more than 999 eligible objects), the location of
the last object of level (42949, 67) and the level-complete location of level
(0, 0) both have id 101000. -/
theorem location_id_map_collides_past_int :
    (make_complete_loc level00 "").id = 101000 ∧
    (add_loc "L" thing_5 level_42949_67 295 296 empty_state).2.ap_locations.map
        (fun l => l.id) = [101000] ∧
    ((42949 : Int) + 1) * 100000 + ((67 : Int) + 1) * 1000 + 296 = 4294967296 + 101000 ∧
    game_42950_episodes.location_remap = [] ∧
    (∀ episode ∈ game_42950_episodes.episodes, episode.length ≤ 99) ∧
    (∀ episode ∈ game_42950_episodes.episodes, ∀ m ∈ episode,
      (m.map.things.filter (eligible game_42950_episodes)).length ≤ 999) ∧
    (∃ loc ∈ (final_catalog game_42950_episodes).2.ap_locations,
      loc.idx.ep = 0 ∧ loc.idx.map = 0 ∧ loc.doom_thing_index = -1 ∧ loc.id = 101000) ∧
    (∃ loc ∈ (final_catalog game_42950_episodes).2.ap_locations,
      loc.idx.ep = 42949 ∧ loc.idx.map = 67 ∧ loc.doom_thing_index = 295 ∧
      loc.id = 101000) := by
  have he0 : game_42950_episodes.episodes[0]? = some [meta_plain] := by
    show (([meta_plain] :: List.replicate 42948 ([] : List meta_t))
        ++ [List.replicate 67 meta_plain ++ [meta_296_things]])[0]? = _
    rw [List.cons_append, List.getElem?_cons_zero]
  have he : game_42950_episodes.episodes[42949]?
      = some (List.replicate 67 meta_plain ++ [meta_296_things]) := by
    show (([meta_plain] :: List.replicate 42948 ([] : List meta_t))
        ++ [List.replicate 67 meta_plain ++ [meta_296_things]])[42949]? = _
    rw [List.getElem?_append_right
        (by rw [List.length_cons, List.length_replicate]),
      List.length_cons, List.length_replicate]
    rfl
  have hm : (List.replicate 67 meta_plain ++ [meta_296_things])[67]? = some meta_296_things := by
    rw [List.getElem?_append_right (by rw [List.length_replicate]), List.length_replicate]
    rfl
  have hmem : ∀ episode ∈ game_42950_episodes.episodes,
      episode = [meta_plain] ∨ episode = [] ∨
      episode = List.replicate 67 meta_plain ++ [meta_296_things] := by
    intro episode hep
    have hep' : episode ∈ ([meta_plain] :: List.replicate 42948 ([] : List meta_t))
        ++ [List.replicate 67 meta_plain ++ [meta_296_things]] := hep
    rw [List.mem_append, List.mem_cons, List.mem_singleton] at hep'
    rcases hep' with (h1 | h2) | h3
    · exact Or.inl h1
    · exact Or.inr (Or.inl (List.eq_of_mem_replicate h2))
    · exact Or.inr (Or.inr h3)
  refine ⟨by decide, by decide, by decide, rfl, ?_, ?_, ?_, ?_⟩
  · intro episode hep
    rcases hmem episode hep with h1 | h1 | h1 <;> rw [h1] <;> decide
  · intro episode hep m hmm
    rcases hmem episode hep with h1 | h1 | h1
    · rw [h1, List.mem_singleton] at hmm
      rw [hmm]
      decide
    · rw [h1] at hmm
      exact absurd hmm (List.not_mem_nil _)
    · rw [h1, List.mem_append, List.mem_singleton] at hmm
      rcases hmm with h2 | h2
      · rw [List.eq_of_mem_replicate h2]
        decide
      · rw [h2]
        decide
  · have hs := (final_catalog_key_mem game_42950_episodes rfl _).mpr
      ⟨0, [meta_plain], 0, meta_plain, he0, rfl, _,
        (level_loc_keys_mem game_42950_episodes 0 0 meta_plain _).mpr (Or.inl rfl), rfl⟩
    obtain ⟨loc, hloc, hkey⟩ := List.mem_map.mp hs
    simp only [loc_key, wrap_key, Prod.mk.injEq] at hkey
    refine ⟨loc, hloc, ?_, ?_, hkey.2.2.1, ?_⟩
    · rw [hkey.1]
      rfl
    · rw [hkey.2.1]
      rfl
    · rw [hkey.2.2.2]
      decide
  · have hs := (final_catalog_key_mem game_42950_episodes rfl _).mpr
      ⟨42949, _, 67, meta_296_things, he, hm, _,
        (level_loc_keys_mem game_42950_episodes 42949 67 meta_296_things _).mpr
          (Or.inr ⟨295, thing_5, by decide, by decide, by decide, rfl⟩), rfl⟩
    obtain ⟨loc, hloc, hkey⟩ := List.mem_map.mp hs
    simp only [loc_key, wrap_key, Prod.mk.injEq] at hkey
    refine ⟨loc, hloc, ?_, ?_, ?_, ?_⟩
    · rw [hkey.1]
      rfl
    · rw [hkey.2.1]
      rfl
    · rw [hkey.2.2.1]
      rfl
    · rw [hkey.2.2.2]
      have hc : ((meta_296_things.map.things.take (295 + 1)).filter
          (eligible game_42950_episodes)).length = 296 := by decide
      rw [hc]
      decide

/-- C35, amended: the id computed for (ep, map, k), which is
`get_location_id_base` of the level plus the sequence number, in 32 bits, is
injective on 0 <= ep <= 42948, 0 <= map <= 98, 0 <= k <= 999.  With no remap,
when the game has at most 42949 episodes, every episode at most 99 maps and
every level at most 999 eligible map objects, every location of the final
catalog (the level-complete locations, with k = 0, included) has an id of this
form within these bounds, and the location ids are pairwise distinct, after
catalog compilation and in the final catalog. -/
theorem location_id_map_injective (game : game_t) (h : game.location_remap = [])
    (heps : game.episodes.length ≤ 42949)
    (hmaps : ∀ episode ∈ game.episodes, episode.length ≤ 99)
    (hobjs : ∀ episode ∈ game.episodes, ∀ m ∈ episode,
      (m.map.things.filter (eligible game)).length ≤ 999) :
    (∀ (i1 i2 : level_index_t) (k1 k2 : Int),
      0 ≤ i1.ep → i1.ep ≤ 42948 → 0 ≤ i1.map → i1.map ≤ 98 → 0 ≤ k1 → k1 ≤ 999 →
      0 ≤ i2.ep → i2.ep ≤ 42948 → 0 ≤ i2.map → i2.map ≤ 98 → 0 ≤ k2 → k2 ≤ 999 →
      wrap_int (get_location_id_base i1 + k1) = wrap_int (get_location_id_base i2 + k2) →
      i1.ep = i2.ep ∧ i1.map = i2.map ∧ k1 = k2) ∧
    (∀ loc ∈ (final_catalog game).2.ap_locations,
      ∃ k : Int, loc.id = wrap_int (get_location_id_base loc.idx + k) ∧
        0 ≤ loc.idx.ep ∧ loc.idx.ep ≤ 42948 ∧ 0 ≤ loc.idx.map ∧ loc.idx.map ≤ 98 ∧
        0 ≤ k ∧ k ≤ 999 ∧ (loc.doom_thing_index = -1 → k = 0)) ∧
    ((compile_catalog game).2.ap_locations.map (fun l => l.id)).Nodup ∧
    ((final_catalog game).2.ap_locations.map (fun l => l.id)).Nodup := by
  have hn := game_wrapped_loc_ids_nodup game heps
    (fun e he => le_trans (hmaps e he) (by decide)) hobjs
  refine ⟨?_, ?_, ?_, ?_⟩
  · intro i1 i2 k1 k2 a1 a1' a2 a3 a4 a5 b1 b1' b2 b3 b4 b5 he
    unfold get_location_id_base at he
    rw [wrap_int_add, wrap_int_add] at he
    have hx := wrap_int_inj _ _ he (by omega) (by omega)
    omega
  · intro loc hloc
    have hk : loc_key loc ∈ (final_catalog game).2.ap_locations.map loc_key :=
      List.mem_map_of_mem loc_key hloc
    rw [final_catalog_key_mem game h] at hk
    obtain ⟨ep, episode, map, m, he, hm, s0, hs, hkey⟩ := hk
    have hep : ep < game.episodes.length := (List.getElem?_eq_some.mp he).1
    have hmap : map < episode.length := (List.getElem?_eq_some.mp hm).1
    have hlen := hmaps episode (List.getElem?_mem he)
    rw [level_loc_keys_mem] at hs
    rcases hs with hs | ⟨i, thing, hi, hel, hu, hs⟩
    · subst hs
      simp only [loc_key, wrap_key, Prod.mk.injEq] at hkey
      obtain ⟨s1, s2, s3, s4⟩ := hkey
      refine ⟨0, ?_, ?_, ?_, ?_, ?_, le_refl _, by decide, fun _ => rfl⟩
      · unfold get_location_id_base
        rw [wrap_int_add, s1, s2, s4, add_zero]
      · rw [s1]; exact Int.ofNat_nonneg _
      · rw [s1]; omega
      · rw [s2]; exact Int.ofNat_nonneg _
      · rw [s2]; omega
    · subst hs
      simp only [loc_key, wrap_key, Prod.mk.injEq] at hkey
      obtain ⟨s1, s2, s3, s4⟩ := hkey
      have hb := hobjs episode (List.getElem?_mem he) m (List.getElem?_mem hm)
      have hr := take_filter_length_le (eligible game) m.map.things (i + 1)
      refine ⟨(((m.map.things.take (i + 1)).filter (eligible game)).length : Nat), ?_, ?_, ?_,
        ?_, ?_, Int.ofNat_nonneg _, by omega, ?_⟩
      · unfold get_location_id_base
        rw [wrap_int_add, s1, s2, s4]
      · rw [s1]; exact Int.ofNat_nonneg _
      · rw [s1]; omega
      · rw [s2]; exact Int.ofNat_nonneg _
      · rw [s2]; omega
      · intro hneg
        rw [s3] at hneg
        omega
  · rw [loc_key_id, compile_catalog_keys]
    exact hn
  · rw [loc_key_id]
    exact (((final_catalog_keys game h).map (fun s => s.2.2.2)).nodup_iff).mpr hn

/-- Instance of `location_id_map_injective`: the game with one level and three
objects. -/
theorem location_id_map_injective_witness :
    game_small.location_remap = [] ∧
    game_small.episodes.length ≤ 42949 ∧
    (∀ episode ∈ game_small.episodes, episode.length ≤ 99) ∧
    (∀ episode ∈ game_small.episodes, ∀ m ∈ episode,
      (m.map.things.filter (eligible game_small)).length ≤ 999) ∧
    ((final_catalog game_small).2.ap_locations.map (fun l => l.id)).Nodup ∧
    (final_catalog game_small).2.ap_locations.map (fun l => l.id) = [101000, 101001, 101002] :=
  ⟨rfl, by decide, by decide, by decide,
    (location_id_map_injective game_small rfl (by decide) (by decide) (by decide)).2.2.2,
    by decide⟩

/-! ## Legacy remap pass: the ids of the entities that are not in the table -/

theorem lookup_mem (table : List (String × Int)) (key : String) (v : Int)
    (h : table.lookup key = some v) : (key, v) ∈ table := by
  induction table with
  | nil => simp [List.lookup] at h
  | cons kv rest ih =>
    obtain ⟨k, w⟩ := kv
    unfold List.lookup at h
    by_cases hk : (key == k) = true
    · simp only [hk] at h
      have hkk : key = k := by simpa using hk
      have hw : w = v := by simpa using h
      rw [hkk, hw]
      exact List.mem_cons_self _ _
    · simp only [hk] at h
      exact List.mem_cons_of_mem _ (ih h)

theorem filter_take_succ {α : Type} (p : α → Bool) (xs : List α) (i : Nat) (x : α)
    (hi : xs[i]? = some x) (hp : p x = true) :
    ((xs.take (i + 1)).filter p).length = ((xs.take i).filter p).length + 1 := by
  rw [List.take_succ, hi]
  simp [List.filter_append, hp]

theorem filter_take_lt {α : Type} (p : α → Bool) (xs : List α) (i j : Nat) (x : α)
    (hi : xs[i]? = some x) (hp : p x = true) (hij : i < j) :
    ((xs.take i).filter p).length < ((xs.take j).filter p).length := by
  have h1 := filter_take_succ p xs i x hi hp
  have h2 : ((xs.take (i + 1)).filter p).length ≤ ((xs.take j).filter p).length := by
    have hs : (xs.take (i + 1)) = (xs.take j).take (i + 1) := by
      rw [List.take_take, Nat.min_eq_left hij]
    rw [hs]
    exact take_filter_length_le p (xs.take j) (i + 1)
  omega

/-- The id an entity without table entry has after a remap pass with a table
that is not empty, none of whose ids is the largest value of `int64_t`, while
the fresh ids stay inside the range of `int64_t`: not negative, greater than
every id of the table, and the id of no other entity. -/
theorem remap_pass_unmapped {α : Type} (name : α → String) (set_id : α → Int → α)
    (get_id : α → Int) (hget : ∀ x v, get_id (set_id x v) = v)
    (table : List (String × Int)) (xs : List α) (ht : table ≠ [])
    (htab : ∀ kv ∈ table, in_int64_range kv.2 ∧ kv.2 ≠ 9223372036854775807)
    (hfresh : remap_next_id table
      + ((xs.filter (fun y => (table.lookup (name y)).isNone)).length : Nat)
        ≤ 9223372036854775808)
    (j1 : Nat) (x1 : α)
    (h1 : xs[j1]? = some x1) (hn : table.lookup (name x1) = none) :
    ∃ y1, (remap_pass name set_id table xs)[j1]? = some y1 ∧ 0 ≤ get_id y1 ∧
      (∀ kv ∈ table, kv.2 < get_id y1) ∧
      ∀ (j2 : Nat) (y2 : α), j2 ≠ j1 → (remap_pass name set_id table xs)[j2]? = some y2 →
        get_id y2 ≠ get_id y1 := by
  have hsucc : ∀ kv ∈ table, in_int64_range (kv.2 + 1) := by
    intro kv hkv
    have := htab kv hkv
    unfold in_int64_range at this ⊢
    omega
  obtain ⟨b1, b2, _⟩ := remap_next_id_exact table hsucc
  have hy1 := remap_pass_get name set_id table xs ht j1 x1 h1
  have hfr : ∀ (j : Nat) (x : α), xs[j]? = some x → table.lookup (name x) = none →
      remapped_id name table (remap_next_id table) xs j x
        = remap_next_id table
          + (((xs.take j).filter (fun y => (table.lookup (name y)).isNone)).length : Nat) := by
    intro j x hj hx
    unfold remapped_id
    rw [hx]
    simp only []
    have hp : (fun y => (table.lookup (name y)).isNone) x = true := by simp [hx]
    have hs := filter_take_succ (fun y => (table.lookup (name y)).isNone) xs j x hj hp
    have hle := take_filter_length_le (fun y => (table.lookup (name y)).isNone) xs (j + 1)
    refine fresh_id_exact _ _ (remap_next_id_range table).2 ?_
    unfold in_int64_range
    omega
  have hid1 := hfr j1 x1 h1 hn
  refine ⟨_, hy1, ?_, ?_, ?_⟩
  · rw [hget, hid1]
    omega
  · intro kv hkv
    have := b2 kv hkv
    rw [hget, hid1]
    omega
  · intro j2 y2 hne h2
    have hlt : j2 < xs.length := by
      have := (List.getElem?_eq_some.mp h2).1
      rwa [remap_pass_length] at this
    have hx2 : xs[j2]? = some xs[j2] := List.getElem?_eq_getElem hlt
    have hy2 := remap_pass_get name set_id table xs ht j2 xs[j2] hx2
    rw [h2] at hy2
    have hy2' : y2 = set_id xs[j2] (remapped_id name table (remap_next_id table) xs j2 xs[j2]) :=
      Option.some.inj hy2
    rw [hy2', hget, hget, hid1]
    cases hl : table.lookup (name xs[j2]) with
    | some v =>
      have hv := b2 (name xs[j2], v) (lookup_mem table _ v hl)
      have : remapped_id name table (remap_next_id table) xs j2 xs[j2] = v := by
        unfold remapped_id
        rw [hl]
      rw [this]
      simp only at hv
      omega
    | none =>
      rw [hfr j2 xs[j2] hx2 hl]
      have hp1 : (fun y => (table.lookup (name y)).isNone) x1 = true := by simp [hn]
      have hp2 : (fun y => (table.lookup (name y)).isNone) xs[j2] = true := by simp [hl]
      rcases Nat.lt_or_gt_of_ne hne with hlt' | hgt'
      · have := filter_take_lt (fun y => (table.lookup (name y)).isNone) xs j2 j1 xs[j2]
          hx2 hp2 hlt'
        omega
      · have := filter_take_lt (fun y => (table.lookup (name y)).isNone) xs j1 j2 x1
          h1 hp1 hgt'
        omega

/-- C36, as stated, fails at the end of the range of `int64_t`.  With the table
a -> 9223372036854775807 the location whose name is not in the table takes the
id 0, which is not greater than the id of the table.  With the table
a -> 9223372036854775806 the two locations whose names are not in the table
take the ids 9223372036854775807 and -9223372036854775808, the second of them
negative and below the id of the table. -/
theorem unmapped_id_not_above_table_ids :
    game_largest_remap.location_remap = [("a", 9223372036854775807)] ∧
    game_largest_remap.location_remap.lookup (loc_named "b" 101001).name = none ∧
    (remap_locations game_largest_remap [loc_named "b" 101001]).map (fun l => l.id) = [0] ∧
    game_near_largest_remap.location_remap = [("a", 9223372036854775806)] ∧
    game_near_largest_remap.location_remap.lookup (loc_named "b" 101001).name = none ∧
    game_near_largest_remap.location_remap.lookup (loc_named "d" 101002).name = none ∧
    (remap_locations game_near_largest_remap
        [loc_named "b" 101001, loc_named "d" 101002]).map (fun l => l.id)
      = [9223372036854775807, -9223372036854775808] := by
  decide

/-- C36, amended: after a legacy remap pass with a table that is not empty,
none of whose ids is the largest value of `int64_t`, and with fresh ids that
stay inside the range of `int64_t` (the first fresh id plus the number of
entities whose names are not in the table is at most 2^63), the id of an entity
whose name is not in the table is not negative, is greater than every id of
the table, and is the id of no entity at another position of the list, be it
one whose name is not in the table either or one that took its id from the
table.  For the locations and for the items. -/
theorem unmapped_ids_fresh (game : game_t) (ap_locations : List ap_location_t)
    (ap_items : List ap_item_t) :
    (game.location_remap ≠ [] →
      (∀ kv ∈ game.location_remap, in_int64_range kv.2 ∧ kv.2 ≠ 9223372036854775807) →
      remap_next_id game.location_remap
        + ((ap_locations.filter
            (fun l => (game.location_remap.lookup l.name).isNone)).length : Nat)
          ≤ 9223372036854775808 →
      ∀ (j : Nat) (loc : ap_location_t), ap_locations[j]? = some loc →
        game.location_remap.lookup loc.name = none →
        ∃ loc', (remap_locations game ap_locations)[j]? = some loc' ∧ 0 ≤ loc'.id ∧
          (∀ kv ∈ game.location_remap, kv.2 < loc'.id) ∧
          ∀ (j2 : Nat) (other : ap_location_t), j2 ≠ j →
            (remap_locations game ap_locations)[j2]? = some other → other.id ≠ loc'.id) ∧
    (game.item_remap ≠ [] →
      (∀ kv ∈ game.item_remap, in_int64_range kv.2 ∧ kv.2 ≠ 9223372036854775807) →
      remap_next_id game.item_remap
        + ((ap_items.filter
            (fun i => (game.item_remap.lookup i.name).isNone)).length : Nat)
          ≤ 9223372036854775808 →
      ∀ (j : Nat) (it : ap_item_t), ap_items[j]? = some it →
        game.item_remap.lookup it.name = none →
        ∃ it', (remap_items game ap_items)[j]? = some it' ∧ 0 ≤ it'.id ∧
          (∀ kv ∈ game.item_remap, kv.2 < it'.id) ∧
          ∀ (j2 : Nat) (other : ap_item_t), j2 ≠ j →
            (remap_items game ap_items)[j2]? = some other → other.id ≠ it'.id) := by
  refine ⟨?_, ?_⟩
  · intro ht htab hfresh j loc hj hn
    exact remap_pass_unmapped (fun l : ap_location_t => l.name) (fun l v => { l with id := v })
      (fun l => l.id) (fun _ _ => rfl) game.location_remap ap_locations ht htab hfresh j loc
      hj hn
  · intro ht htab hfresh j it hj hn
    exact remap_pass_unmapped (fun i : ap_item_t => i.name) (fun i v => { i with id := v })
      (fun i => i.id) (fun _ _ => rfl) game.item_remap ap_items ht htab hfresh j it hj hn

/-- Instance of `unmapped_ids_fresh`: the table with the ids 7 and 3 and the
locations "a", "b", "d", "c"; "b" takes the id 8 and "d" the id 9. -/
theorem unmapped_ids_fresh_witness :
    game_remap.location_remap ≠ [] ∧
    (∀ kv ∈ game_remap.location_remap, in_int64_range kv.2 ∧ kv.2 ≠ 9223372036854775807) ∧
    remap_next_id game_remap.location_remap
      + ((locs_a_b_d_c.filter
          (fun l => (game_remap.location_remap.lookup l.name).isNone)).length : Nat)
        ≤ 9223372036854775808 ∧
    locs_a_b_d_c[1]? = some (loc_named "b" 101002) ∧
    game_remap.location_remap.lookup (loc_named "b" 101002).name = none ∧
    (∃ loc', (remap_locations game_remap locs_a_b_d_c)[1]? = some loc' ∧ 0 ≤ loc'.id ∧
      (∀ kv ∈ game_remap.location_remap, kv.2 < loc'.id) ∧
      ∀ (j2 : Nat) (other : ap_location_t), j2 ≠ 1 →
        (remap_locations game_remap locs_a_b_d_c)[j2]? = some other → other.id ≠ loc'.id) ∧
    (remap_locations game_remap locs_a_b_d_c).map (fun l => l.id) = [7, 8, 9, 3] :=
  ⟨by decide, by decide, by decide, rfl, rfl,
    (unmapped_ids_fresh game_remap locs_a_b_d_c items_a_b_d_c).1 (by decide) (by decide)
      (by decide) 1 (loc_named "b" 101002) rfl rfl,
    by decide⟩

/-! ## The unreachable mark of an object and the ids of the other locations -/

theorem modify_at_get {α : Type} (f : α → α) (xs : List α) (n j : Nat) :
    (modify_at f xs n)[j]? = if j = n then (xs[j]?).map f else xs[j]? := by
  induction xs generalizing n j with
  | nil => cases n <;> simp [modify_at]
  | cons x rest ih =>
    cases n with
    | zero =>
      cases j with
      | zero => simp [modify_at]
      | succ j => simp [modify_at]
    | succ n =>
      cases j with
      | zero => simp [modify_at]
      | succ j => simp [modify_at, ih]

theorem set_loc_state_lookup (l : List (Int × location_t)) (i j : Int) (v : location_t) :
    (set_loc_state l i v).lookup j = if j = i then some v else l.lookup j := by
  induction l with
  | nil =>
    unfold set_loc_state
    by_cases h : j = i
    · simp [List.lookup, h]
    · simp [List.lookup, h, beq_eq_false_iff_ne.mpr h]
  | cons kv rest ih =>
    obtain ⟨k, s⟩ := kv
    unfold set_loc_state
    by_cases hk : k = i
    · subst hk
      by_cases h : j = k
      · simp [List.lookup, h]
      · simp [List.lookup, h, beq_eq_false_iff_ne.mpr h]
    · by_cases hjk : j = k
      · subst hjk
        simp [List.lookup, hk]
      · simp only [hk, if_false, List.lookup, beq_eq_false_iff_ne.mpr hjk, ih]

theorem toggle_state_other (state : map_state_t) (i j : Nat) (h : j ≠ i) :
    loc_state_at (toggle_unreachable_state state i) j = loc_state_at state j := by
  unfold loc_state_at toggle_unreachable_state
  dsimp only
  rw [set_loc_state_lookup]
  have : ¬ ((j : Int) = (i : Int)) := by omega
  simp only [this, if_false]

theorem toggle_state_self (state : map_state_t) (i : Nat) :
    (loc_state_at (toggle_unreachable_state state i) i).unreachable
      = !(loc_state_at state i).unreachable := by
  have h : loc_state_at (toggle_unreachable_state state i) i
      = { loc_state_at state i with unreachable := !(loc_state_at state i).unreachable } := by
    unfold toggle_unreachable_state loc_state_at
    dsimp only
    rw [set_loc_state_lookup]
    simp
  rw [h]

theorem eligible_congr (g1 g2 : game_t) (h : g1.location_doom_types = g2.location_doom_types) :
    eligible g1 = eligible g2 := by
  funext thing
  unfold eligible thing_label
  rw [h]

/-- The keys of the locations of the final catalog, with no remap table: the
level-complete location of every map, and for every eligible object that is
not marked unreachable the location with the id base + sequence number, the
ids in 32 bits. -/
theorem final_key_mem (game : game_t) (h : game.location_remap = [])
    (s : Int × Int × Int × Int) :
    s ∈ (final_catalog game).2.ap_locations.map loc_key ↔
      ∃ (ep : Nat) (episode : List meta_t) (map : Nat) (m : meta_t),
        game.episodes[ep]? = some episode ∧ episode[map]? = some m ∧
        (s = ((ep : Int), (map : Int), -1,
              wrap_int (((ep : Int) + 1) * 100000 + ((map : Int) + 1) * 1000)) ∨
         ∃ (j : Nat) (thing : map_thing_t), m.map.things[j]? = some thing ∧
          eligible game thing = true ∧ (loc_state_at m.state j).unreachable = false ∧
          s = ((ep : Int), (map : Int), (j : Int),
                wrap_int (((ep : Int) + 1) * 100000 + ((map : Int) + 1) * 1000
                  + (sequence_number game m.map.things j : Nat)))) := by
  rw [final_catalog_key_mem game h]
  constructor
  · rintro ⟨ep, episode, map, m, h1, h2, s0, h3, rfl⟩
    refine ⟨ep, episode, map, m, h1, h2, ?_⟩
    rcases (level_loc_keys_mem game ep map m s0).mp h3 with h4 | ⟨j, thing, c1, c2, c3, c4⟩
    · left
      rw [h4]
      rfl
    · right
      refine ⟨j, thing, c1, c2, c3, ?_⟩
      rw [c4]
      rfl
  · rintro ⟨ep, episode, map, m, h1, h2, h3⟩
    refine ⟨ep, episode, map, m, h1, h2, ?_⟩
    rcases h3 with h4 | ⟨j, thing, c1, c2, c3, c4⟩
    · exact ⟨_, (level_loc_keys_mem game ep map m _).mpr (Or.inl rfl), h4⟩
    · exact ⟨_, (level_loc_keys_mem game ep map m _).mpr (Or.inr ⟨j, thing, c1, c2, c3, rfl⟩),
        c4⟩

/-- Two games with the same location-type table and no remap table, whose
maps hold the same objects and agree on the unreachable marks except for
object `i` of map `map` of episode `ep`: every location of the first game made
from another object, or made from no object, is a location of the second game,
with the same id. -/
theorem keys_transfer (g1 g2 : game_t) (h1 : g1.location_remap = [])
    (h2 : g2.location_remap = []) (hd : g1.location_doom_types = g2.location_doom_types)
    (ep map i : Nat)
    (hrel : ∀ (e : Nat) (episode : List meta_t) (mp : Nat) (m : meta_t),
      g1.episodes[e]? = some episode → episode[mp]? = some m →
      ∃ (episode' : List meta_t) (m' : meta_t), g2.episodes[e]? = some episode' ∧
        episode'[mp]? = some m' ∧ m'.map.things = m.map.things ∧
        ∀ j : Nat, ¬ (e = ep ∧ mp = map ∧ j = i) →
          (loc_state_at m'.state j).unreachable = (loc_state_at m.state j).unreachable)
    (s : Int × Int × Int × Int)
    (hs : (s.1, s.2.1, s.2.2.1) ≠ ((ep : Int), (map : Int), (i : Int)))
    (hm : s ∈ (final_catalog g1).2.ap_locations.map loc_key) :
    s ∈ (final_catalog g2).2.ap_locations.map loc_key := by
  rw [final_key_mem g1 h1] at hm
  rw [final_key_mem g2 h2]
  obtain ⟨e, episode, mp, m, a1, a2, a3⟩ := hm
  obtain ⟨episode', m', b1, b2, b3, b4⟩ := hrel e episode mp m a1 a2
  refine ⟨e, episode', mp, m', b1, b2, ?_⟩
  rcases a3 with a3 | ⟨j, thing, c1, c2, c3, c4⟩
  · exact Or.inl a3
  · right
    refine ⟨j, thing, by rw [b3]; exact c1, by rw [← eligible_congr g1 g2 hd]; exact c2, ?_, ?_⟩
    · rw [b4 j]
      · exact c3
      · rintro ⟨rfl, rfl, rfl⟩
        apply hs
        rw [c4]
    · rw [c4]
      unfold sequence_number
      rw [b3, eligible_congr g1 g2 hd]

theorem toggle_episodes_get (game : game_t) (ep map i e mp : Nat) :
    ((toggle_unreachable game ep map i).episodes[e]?).bind (fun episode => episode[mp]?)
      = ((game.episodes[e]?).bind (fun episode => episode[mp]?)).map
          (fun m => if e = ep ∧ mp = map then
              { m with state := toggle_unreachable_state m.state i } else m) := by
  unfold toggle_unreachable
  dsimp only
  rw [modify_at_get]
  by_cases he : e = ep
  · simp only [he, if_true, true_and]
    cases game.episodes[ep]? with
    | none => rfl
    | some episode =>
      simp only [Option.map_some', Option.some_bind]
      rw [modify_at_get]
      by_cases hmp : mp = map
      · simp [hmp]
      · simp [hmp]
  · simp only [he, if_false, false_and]
    cases game.episodes[e]? with
    | none => rfl
    | some episode =>
      simp only [Option.some_bind]
      cases episode[mp]? <;> rfl

theorem bind_get_some {α : Type} (xss : List (List α)) (e mp : Nat) (m : α) :
    ((xss[e]?).bind (fun xs => xs[mp]?)) = some m ↔
      ∃ xs, xss[e]? = some xs ∧ xs[mp]? = some m := by
  cases xss[e]? with
  | none => simp
  | some xs => simp

theorem toggle_rel_forward (game : game_t) (ep map i : Nat) (e : Nat) (episode : List meta_t)
    (mp : Nat) (m : meta_t) (h1 : game.episodes[e]? = some episode)
    (h2 : episode[mp]? = some m) :
    ∃ (episode' : List meta_t) (m' : meta_t),
      (toggle_unreachable game ep map i).episodes[e]? = some episode' ∧
      episode'[mp]? = some m' ∧ m'.map.things = m.map.things ∧
      ∀ j : Nat, ¬ (e = ep ∧ mp = map ∧ j = i) →
        (loc_state_at m'.state j).unreachable = (loc_state_at m.state j).unreachable := by
  have hb := toggle_episodes_get game ep map i e mp
  rw [h1, Option.some_bind, h2, Option.map_some'] at hb
  obtain ⟨episode', b1, b2⟩ := (bind_get_some _ e mp _).mp hb
  refine ⟨episode', _, b1, b2, ?_, ?_⟩
  · split <;> rfl
  · intro j hj
    by_cases hc : e = ep ∧ mp = map
    · rw [if_pos hc]
      have hji : j ≠ i := fun hji => hj ⟨hc.1, hc.2, hji⟩
      show (loc_state_at (toggle_unreachable_state m.state i) j).unreachable = _
      rw [toggle_state_other m.state i j hji]
    · rw [if_neg hc]

theorem toggle_rel_backward (game : game_t) (ep map i : Nat) (e : Nat)
    (episode' : List meta_t) (mp : Nat) (m' : meta_t)
    (h1 : (toggle_unreachable game ep map i).episodes[e]? = some episode')
    (h2 : episode'[mp]? = some m') :
    ∃ (episode : List meta_t) (m : meta_t),
      game.episodes[e]? = some episode ∧
      episode[mp]? = some m ∧ m.map.things = m'.map.things ∧
      ∀ j : Nat, ¬ (e = ep ∧ mp = map ∧ j = i) →
        (loc_state_at m.state j).unreachable = (loc_state_at m'.state j).unreachable := by
  have hb := toggle_episodes_get game ep map i e mp
  rw [h1, Option.some_bind, h2] at hb
  cases hg : (game.episodes[e]?).bind (fun episode => episode[mp]?) with
  | none => rw [hg] at hb; cases hb
  | some m =>
    rw [hg, Option.map_some'] at hb
    obtain ⟨episode, b1, b2⟩ := (bind_get_some _ e mp _).mp hg
    have hm' : m' = if e = ep ∧ mp = map then
        { m with state := toggle_unreachable_state m.state i } else m := Option.some.inj hb
    refine ⟨episode, m, b1, b2, ?_, ?_⟩
    · rw [hm']
      split <;> rfl
    · intro j hj
      rw [hm']
      by_cases hc : e = ep ∧ mp = map
      · rw [if_pos hc]
        have hji : j ≠ i := fun hji => hj ⟨hc.1, hc.2, hji⟩
        show _ = (loc_state_at (toggle_unreachable_state m.state i) j).unreachable
        rw [toggle_state_other m.state i j hji]
      · rw [if_neg hc]

/-- C37: with no legacy remap.  An eligible map object that is marked
unreachable has no location, and an eligible object that is not marked has
the location whose id is the base of its level plus its sequence number, in
the 32 bits of an `int`, where the sequence number counts the eligible objects
of the map up to it, those marked unreachable included.  Turning the unreachable mark of object `i` of the map `map` of
episode `ep` into its opposite changes no other location: a location made from
another object of that level, from an object of another level, or from no
object (the level-complete locations) is in the final catalog with a given id
before the change exactly when it is there with that id after it. -/
theorem unreachable_consumes_sequence_number (game : game_t)
    (h : game.location_remap = []) (ep map i : Nat) :
    (∀ (e : Nat) (episode : List meta_t) (mp : Nat) (m : meta_t) (j : Nat)
        (thing : map_thing_t),
      game.episodes[e]? = some episode → episode[mp]? = some m →
      m.map.things[j]? = some thing → eligible game thing = true →
      ((loc_state_at m.state j).unreachable = true →
        ∀ id : Int, ((e : Int), (mp : Int), (j : Int), id)
          ∉ (final_catalog game).2.ap_locations.map loc_key) ∧
      ((loc_state_at m.state j).unreachable = false →
        ∀ id : Int, (((e : Int), (mp : Int), (j : Int), id)
            ∈ (final_catalog game).2.ap_locations.map loc_key ↔
          id = wrap_int (((e : Int) + 1) * 100000 + ((mp : Int) + 1) * 1000
                + (((m.map.things.take (j + 1)).filter (eligible game)).length : Nat))))) ∧
    (∀ s : Int × Int × Int × Int, (s.1, s.2.1, s.2.2.1) ≠ ((ep : Int), (map : Int), (i : Int)) →
      (s ∈ (final_catalog game).2.ap_locations.map loc_key ↔
        s ∈ (final_catalog (toggle_unreachable game ep map i)).2.ap_locations.map loc_key)) ∧
    (∀ (episode : List meta_t) (m : meta_t),
      game.episodes[ep]? = some episode → episode[map]? = some m →
      ∃ (episode' : List meta_t) (m' : meta_t),
        (toggle_unreachable game ep map i).episodes[ep]? = some episode' ∧
        episode'[map]? = some m' ∧ m'.map.things = m.map.things ∧
        (loc_state_at m'.state i).unreachable = !(loc_state_at m.state i).unreachable) := by
  refine ⟨?_, ?_, ?_⟩
  · intro e episode mp m j thing h1 h2 h3 h4
    have hkey : ∀ id : Int, ((e : Int), (mp : Int), (j : Int), id)
        ∈ (final_catalog game).2.ap_locations.map loc_key →
        (loc_state_at m.state j).unreachable = false ∧
        id = wrap_int (((e : Int) + 1) * 100000 + ((mp : Int) + 1) * 1000
              + (((m.map.things.take (j + 1)).filter (eligible game)).length : Nat)) := by
      intro id hmem
      rw [final_key_mem game h] at hmem
      obtain ⟨e', episode', mp', m', a1, a2, a3⟩ := hmem
      rcases a3 with a3 | ⟨j', thing', c1, c2, c3, c4⟩
      · simp only [Prod.mk.injEq] at a3
        omega
      · simp only [Prod.mk.injEq] at c4
        obtain ⟨d1, d2, d3, d4⟩ := c4
        have e1 : e' = e := by omega
        have e2 : mp' = mp := by omega
        have e3 : j' = j := by omega
        subst e1 e2 e3
        rw [h1] at a1
        cases a1
        rw [h2] at a2
        cases a2
        exact ⟨c3, d4⟩
    constructor
    · intro hu id hmem
      have := (hkey id hmem).1
      rw [hu] at this
      cases this
    · intro hu id
      constructor
      · intro hmem
        exact (hkey id hmem).2
      · intro hid
        rw [final_key_mem game h]
        exact ⟨e, episode, mp, m, h1, h2, Or.inr ⟨j, thing, h3, h4, hu, by rw [hid]; rfl⟩⟩
  · intro s hs
    constructor
    · exact keys_transfer game (toggle_unreachable game ep map i) h h rfl ep map i
        (toggle_rel_forward game ep map i) s hs
    · exact keys_transfer (toggle_unreachable game ep map i) game h h rfl ep map i
        (toggle_rel_backward game ep map i) s hs
  · intro episode m h1 h2
    have hb := toggle_episodes_get game ep map i ep map
    rw [h1, Option.some_bind, h2, Option.map_some'] at hb
    obtain ⟨episode', b1, b2⟩ := (bind_get_some _ ep map _).mp hb
    refine ⟨episode', _, b1, b2, ?_, ?_⟩
    · simp
    · simp only [and_self, if_true]
      exact toggle_state_self m.state i

/-- Instance of `unreachable_consumes_sequence_number`: in the game with one
level and three objects, the first object is marked unreachable; the location
of the third object keeps the id 101002. -/
theorem unreachable_consumes_sequence_number_witness :
    game_small.location_remap = [] ∧
    (final_catalog game_small).2.ap_locations.map loc_key
      = [(0, 0, -1, 101000), (0, 0, 0, 101001), (0, 0, 2, 101002)] ∧
    (final_catalog (toggle_unreachable game_small 0 0 0)).2.ap_locations.map loc_key
      = [(0, 0, -1, 101000), (0, 0, 2, 101002)] ∧
    ((0, 0, 2, 101002) ∈ (final_catalog game_small).2.ap_locations.map loc_key ↔
      (0, 0, 2, 101002)
        ∈ (final_catalog (toggle_unreachable game_small 0 0 0)).2.ap_locations.map loc_key) :=
  ⟨rfl, by decide, by decide,
    (unreachable_consumes_sequence_number game_small rfl 0 0 0).2.1 (0, 0, 2, 101002)
      (by decide)⟩

/-! ## Location names: the disambiguation loop is finite -/

theorem taken_candidates_le (locs : List ap_location_t) (ext : Bool) (name e : String) (k : Nat)
    (hall : ∀ j, j < k → loc_name_taken locs (loc_name_candidate ext name e j) = true) :
    k ≤ locs.length := by
  have hsub : (List.range k).map (loc_name_candidate ext name e)
      ⊆ locs.map (fun l => l.name) := by
    intro s hs
    obtain ⟨i, hi, rfl⟩ := List.mem_map.mp hs
    have := hall i (List.mem_range.mp hi)
    simp only [loc_name_taken, List.any_eq_true, beq_iff_eq] at this
    obtain ⟨l, hl, hn⟩ := this
    exact List.mem_map.mpr ⟨l, hl, hn⟩
  have hnd : ((List.range k).map (loc_name_candidate ext name e)).Nodup :=
    (List.nodup_range _).map (fun a b hab => loc_name_candidate_injective ext name e a b hab)
  have := (hnd.subperm hsub).length_le
  simpa using this

theorem loc_name_loop_reaches (locs : List ap_location_t) (ext : Bool) (name e : String)
    (k fuel count : Nat) (hk : k ≤ fuel)
    (hall : ∀ j, j < k → loc_name_taken locs (loc_name_candidate ext name e (count + j)) = true)
    (hfree : loc_name_taken locs (loc_name_candidate ext name e (count + k)) = false) :
    loc_name_loop locs ext name e fuel count = loc_name_candidate ext name e (count + k) := by
  induction k generalizing fuel count with
  | zero =>
    cases fuel with
    | zero => rfl
    | succ fuel =>
      unfold loc_name_loop
      have : loc_name_taken locs (loc_name_candidate ext name e count) = false := by
        simpa using hfree
      simp [this]
  | succ k ih =>
    cases fuel with
    | zero => omega
    | succ fuel =>
      unfold loc_name_loop
      have h0 : loc_name_taken locs (loc_name_candidate ext name e count) = true := by
        simpa using hall 0 (Nat.succ_pos k)
      simp only [h0, if_true]
      rw [ih fuel (count + 1) (by omega)
        (fun j hj => by
          have := hall (j + 1) (by omega)
          rwa [show count + (j + 1) = count + 1 + j by omega] at this)
        (by rwa [show count + (k + 1) = count + 1 + k by omega] at hfree)]
      congr 1
      omega

/-- C38: the loop of `add_loc` that looks for a free name ends, for every
location list, candidate name and descriptive text.  The names it tries
(before the loop for count 0, in the loop body for every further count) are
pairwise distinct.  There is a number k of increments, at most the number of
existing locations, such that the names tried for the counts below k are
taken and the name for k is free; the loop run with any bound of k or more
turns ends on that name, the name is the name of no existing location, and it
is the name of the location `add_loc` appends. -/
theorem loc_name_loop_terminates (locs : List ap_location_t) (ext : Bool) (name e : String) :
    (∀ c1 c2 : Nat, loc_name_candidate ext name e c1 = loc_name_candidate ext name e c2 →
      c1 = c2) ∧
    ∃ k : Nat, k ≤ locs.length ∧
      (∀ j, j < k → loc_name_taken locs (loc_name_candidate ext name e j) = true) ∧
      loc_name_taken locs (loc_name_candidate ext name e k) = false ∧
      (∀ fuel, k ≤ fuel →
        loc_name_loop locs ext name e fuel 0 = loc_name_candidate ext name e k) ∧
      (∀ l ∈ locs, l.name ≠ loc_name_candidate ext name e k) ∧
      (∀ (thing : map_thing_t) (level : level_t) (index : Nat) (id : Int) (st : gen_state),
        st.ap_locations = locs → st.use_extended_names = ext →
        (loc_state_at level.map_state index).name = e →
        (loc_state_at level.map_state index).unreachable = false →
        st.location_next_id ≤ 999 →
        ∃ loc : ap_location_t,
          (add_loc name thing level index id st).2.ap_locations = locs ++ [loc] ∧
          loc.name = loc_name_candidate ext name e k) := by
  refine ⟨loc_name_candidate_injective ext name e, ?_⟩
  obtain ⟨k, hk1, hk2, hk3⟩ := loc_name_loop_least locs ext name e
  have hle := taken_candidates_le locs ext name e k hk3
  have hreach : ∀ fuel, k ≤ fuel →
      loc_name_loop locs ext name e fuel 0 = loc_name_candidate ext name e k := by
    intro fuel hf
    have := loc_name_loop_reaches locs ext name e k fuel 0 hf
      (fun j hj => by simpa using hk3 j hj) (by simpa using hk2)
    simpa using this
  refine ⟨k, hle, hk3, hk2, hreach, ?_, ?_⟩
  · intro l hl hn
    have : loc_name_taken locs (loc_name_candidate ext name e k) = true := by
      simp only [loc_name_taken, List.any_eq_true, beq_iff_eq]
      exact ⟨l, hl, hn⟩
    rw [hk2] at this
    cases this
  · intro thing level index id st h1 h2 h3 h4 h5
    obtain ⟨loc, a1, a2⟩ := add_loc_appends name thing level index id st h4 h5
    rw [h1, h2, h3, hk1] at a2
    rw [h1] at a1
    exact ⟨loc, a1, a2⟩
/-! ## Region documents: no read outside the region and sector lists -/

/-- C39: when, for every level, the connection targets of the authored
regions are -2, -1 or the index of a region, the targets of the top-level
connections are the index of a region, and the sectors owned by the regions
are below the sector count of the level, the block "Regions" reads no region
and no sector outside its list: it has a result, on the final catalog as a
whole and for every single level with such regions.  The top-level
connections are not passed over for the targets -1 and -2: with such a target
the loop over them reads `regions` outside the list, for any list of regions,
and the level has no result, whereas the loop over the connections of an
authored region passes over a target -2 and names the entrance region for a
target -1, without reading `regions`. -/
theorem regions_read_in_range (game : game_t)
    (h : ∀ level ∈ make_levels game, regions_in_range level) :
    (∃ r : Json × List ap_location_t,
      regions_json game (final_catalog game).1 (final_catalog game).2.ap_locations = some r) ∧
    (∀ (level : level_t) (locs : List ap_location_t),
      (∀ region ∈ level.map_state.regions, ∀ s ∈ region.sectors, s < level.sectors.length) →
      targets_in_range level.map_state →
      ∃ r : List Json × List ap_location_t, serialize_level game level locs = some r) ∧
    (∀ (level : level_t) (locs : List ap_location_t) (c : rule_connection_t)
        (rest : List rule_connection_t),
      level.map_state.world_rules.connections = c :: rest →
      (c.target_region = -1 ∨ c.target_region = -2) →
      region_at level.map_state.regions c.target_region = none ∧
      world_connections game level.name level.map_state.regions
        level.map_state.world_rules.connections = none ∧
      serialize_level game level locs = none) ∧
    (∀ (level_name : String) (regions : List region_t) (c : rule_connection_t),
      (c.target_region = -2 → region_connections game level_name regions [c] = some []) ∧
      (c.target_region = -1 →
        region_connections game level_name regions [c]
          = some [make_connection game c level_name ("Hub @ Entrance to " ++ level_name)])) := by
  refine ⟨?_, ?_, ?_, ?_⟩
  · obtain ⟨r, hr, _⟩ := final_regions game h
    exact ⟨r, hr⟩
  · intro level locs hs ht
    obtain ⟨r, hr, _⟩ := serialize_level_renamed game level locs hs ht
    exact ⟨r, hr⟩
  · intro level locs c rest hc ht
    have hra : region_at level.map_state.regions c.target_region = none := by
      unfold region_at
      rcases ht with ht | ht <;> rw [ht] <;> rfl
    have hw : world_connections game level.name level.map_state.regions
        level.map_state.world_rules.connections = none := by
      rw [hc]
      unfold world_connections
      rw [hra]
    refine ⟨hra, hw, ?_⟩
    unfold serialize_level entrance_region
    rw [hw]
  · intro level_name regions c
    constructor
    · intro hc
      simp [region_connections, hc]
    · intro hc
      simp [region_connections, hc, target_region_name]

/-- Instance of `regions_read_in_range`: the game with the two regions "Start"
and "End". -/
theorem regions_read_in_range_witness :
    (∀ level ∈ make_levels game_regions, regions_in_range level) ∧
    ∃ r : Json × List ap_location_t,
      regions_json game_regions (final_catalog game_regions).1
        (final_catalog game_regions).2.ap_locations = some r :=
  ⟨game_regions_in_range, (regions_read_in_range game_regions game_regions_in_range).1⟩

/-! ## The sink pointer from one run to the next -/

theorem open_sink_from_null (env : env_t) (game : game_t) (args : List String) :
    open_sink_from env game .null args
      = match open_sink env game args with
        | .ok sink => .ok (some sink)
        | .error e => .error e := by
  induction args with
  | nil => rfl
  | cons arg rest ih =>
    unfold open_sink_from open_sink
    by_cases h : arg = "--world-folder"
    · simp only [h, if_true]
      cases rest with
      | nil => rfl
      | cons path more =>
        dsimp only
        by_cases hv : env.valid_worlds_folder path = true
        · simp only [hv, if_true]
        · simp only [hv, Bool.false_eq_true, if_false]
    · simp only [h, if_false]
      exact ih

theorem open_sink_from_plain (env : env_t) (game : game_t) (world : world_ptr)
    (args : List String) (h : "--world-folder" ∉ args) :
    open_sink_from env game world args
      = match world with
        | .null => .ok (some (.ZipFile ("./output/" ++ game.ap_world_name ++ ".apworld")))
        | .deleted _ => .ok none := by
  induction args with
  | nil => rfl
  | cons arg rest ih =>
    have ha : arg ≠ "--world-folder" := fun he => h (by rw [he]; exact List.mem_cons_self _ _)
    have hr : "--world-folder" ∉ rest := fun hm => h (List.mem_cons_of_mem _ hm)
    unfold open_sink_from
    rw [if_neg ha]
    exact ih hr

/-- The first run of a process is the run `generate` describes. -/
theorem generate_from_start (env : env_t) (game : game_t) :
    (generate_from env game process_start).map (fun rp => rp.1) = some (generate env game) := by
  unfold generate_from generate run_with_sink
  have hcat : final_catalog_from game process_start.globals = final_catalog game :=
    final_catalog_from_eq game _ rfl
  rw [show process_start.world = world_ptr.null from rfl, open_sink_from_null, hcat]
  cases open_sink env game env.OArguments with
  | error e => rfl
  | ok sink => rfl

theorem generate_from_with_sink (env : env_t) (game : game_t) (p : process_state)
    (sink : sink_t) (h : open_sink_from env game p.world env.OArguments = .ok (some sink)) :
    generate_from env game p
      = some (run_with_sink env game sink p.globals,
          { world := .deleted sink, globals := (final_catalog_from game p.globals).2 }) := by
  unfold generate_from
  rw [h]

theorem run_with_sink_catalog (env : env_t) (game : game_t) (sink : sink_t)
    (prior : gen_state) :
    (run_with_sink env game sink prior).levels = (final_catalog_from game prior).1 ∧
    (run_with_sink env game sink prior).state = (final_catalog_from game prior).2 := by
  unfold run_with_sink
  dsimp only
  split <;> exact ⟨rfl, rfl⟩

/-- C23 fails on the code for a run that follows another run of the process
without `--world-folder`.  A run that finds `world` null constructs the archive
sink, has a result, and leaves `world` pointing to the sink it has deleted; a
run on any game that finds `world` not null goes on with that pointer and has
no result.  The claim holds for runs that construct their sink: two such runs
on the same game, whatever the runs before them left in the globals
(`location_next_id` is 0 at program start and no run changes it), have the same
result, messages and sink calls, and build the levels and the lists of the
final catalog. -/
theorem later_run_finds_deleted_sink (env : env_t) (game game' : game_t) (prior : gen_state)
    (hargs : "--world-folder" ∉ env.OArguments) :
    (∃ (r : gen_result) (p' : process_state),
      generate_from env game { world := .null, globals := prior } = some (r, p') ∧
      p'.world = .deleted (.ZipFile ("./output/" ++ game.ap_world_name ++ ".apworld")) ∧
      generate_from env game' p' = none) ∧
    (∀ p : process_state, p.world ≠ .null → generate_from env game' p = none) ∧
    (∀ (env' : env_t) (p1 p2 : process_state) (sink : sink_t),
      p1.globals.location_next_id = 0 → p2.globals.location_next_id = 0 →
      open_sink_from env' game p1.world env'.OArguments = .ok (some sink) →
      open_sink_from env' game p2.world env'.OArguments = .ok (some sink) →
      ∃ (r : gen_result) (q1 q2 : process_state),
        generate_from env' game p1 = some (r, q1) ∧
        generate_from env' game p2 = some (r, q2) ∧
        r.levels = (final_catalog game).1 ∧ r.state = (final_catalog game).2 ∧
        q1.world = .deleted sink ∧ q2.world = .deleted sink) := by
  have hnone : ∀ (g : game_t) (p : process_state), p.world ≠ .null →
      generate_from env g p = none := by
    intro g p hp
    unfold generate_from
    rw [open_sink_from_plain env g p.world env.OArguments hargs]
    cases hw : p.world with
    | null => exact absurd hw hp
    | deleted s => rfl
  refine ⟨?_, hnone game', ?_⟩
  · have hopen : open_sink_from env game
          ({ world := .null, globals := prior } : process_state).world env.OArguments
        = .ok (some (.ZipFile ("./output/" ++ game.ap_world_name ++ ".apworld"))) :=
      open_sink_from_plain env game .null env.OArguments hargs
    exact ⟨_, _, generate_from_with_sink env game _ _ hopen, rfl,
      hnone game' _ (fun hc => by cases hc)⟩
  · intro env' p1 p2 sink h1 h2 o1 o2
    have c1 := final_catalog_from_eq game p1.globals h1
    have c2 := final_catalog_from_eq game p2.globals h2
    have e1 := generate_from_with_sink env' game p1 sink o1
    have e2 := generate_from_with_sink env' game p2 sink o2
    have hr : run_with_sink env' game sink p2.globals = run_with_sink env' game sink p1.globals := by
      unfold run_with_sink
      rw [c1, c2]
    rw [hr] at e2
    obtain ⟨l1, l2⟩ := run_with_sink_catalog env' game sink p1.globals
    exact ⟨_, _, _, e1, e2, l1.trans (by rw [c1]), l2.trans (by rw [c1]), rfl, rfl⟩

/-- Instance of `later_run_finds_deleted_sink`: with an empty command line, the
first run of the process on the game that passes the gates returns 0 and the
run after it has no result. -/
theorem later_run_finds_deleted_sink_witness :
    "--world-folder" ∉ env_plain.OArguments ∧
    (∃ (r : gen_result) (p' : process_state),
      generate_from env_plain game_gates_pass { world := .null, globals := process_start.globals }
        = some (r, p') ∧
      p'.world = .deleted (.ZipFile ("./output/" ++ game_gates_pass.ap_world_name ++ ".apworld")) ∧
      generate_from env_plain game_gates_pass p' = none) ∧
    (generate_from env_plain game_gates_pass process_start).map (fun rp => rp.1.result)
      = some 0 ∧
    ((generate_from env_plain game_gates_pass process_start).bind
      (fun rp => generate_from env_plain game_gates_pass rp.2)).isNone = true :=
  ⟨by decide,
    (later_run_finds_deleted_sink env_plain game_gates_pass game_gates_pass
      process_start.globals (by decide)).1,
    by decide, by decide⟩

end ApGen
